import Mathlib

/-!
# zeitpolizei: quota tracking and enforcement

A shallow embedding of the decision engine of `nadilas/zeitpolizei`
(`internal/enforcer/enforcer.go`, `internal/tracker/accumulator.go`,
`internal/storage/sqlite.go`, `internal/storage/models.go`) and theorems about it.

Conventions of the embedding:

* Go strings are Lean strings. Go compares strings byte by byte; on valid UTF-8 that
  is the lexicographic order of the code points, which `charsLt` computes.
* Go `int` and `int64` are Lean integers, every arithmetic result being wrapped to
  64 bits by `wrap64` (two's complement, as Go does).
* A nil pointer is `none`, a pointer to a value is `some` of it.
* `strings.ToLower` is a library function whose Unicode case table is not part of the
  repository: the functions that call it take it as the parameter `lower`;
  `toLowerASCII` is what it does on ASCII strings.
* The store and the controller are explicit state (`World`); a call to either can
  fail, which the list `World.faults` decides, one entry for each call in turn.
* The wall-clock columns (`created_at`, `last_updated`, `blocked_at`, `unblocked_at`)
  are left out: no function of the engine reads them.
-/

set_option autoImplicit false

namespace Zeitpolizei

/-! ## Data model (`internal/storage/models.go`) -/

/-- TimeBlock of models.go: a time window with optional limits. -/
structure TimeBlock where
  StartTime : String
  EndTime : String
  LimitMinutes : Option Int
  LimitBytes : Option Int
  WarningThresholdPercent : Int
  deriving DecidableEq, Repr

/-- DaySchedule of models.go: day selectors and the time blocks of those days. -/
structure DaySchedule where
  Days : List String
  TimeBlocks : List TimeBlock
  deriving DecidableEq, Repr

/-- DeviceConfig of models.go, without its two timestamps. -/
structure DeviceConfig where
  MAC : String
  Name : String
  Enabled : Bool
  BlockOutside : Bool
  DailySchedules : List DaySchedule
  deriving DecidableEq, Repr

/-- BlockUsage of models.go (a row of table block_usage), without last_updated. -/
structure BlockUsage where
  ID : Int
  MAC : String
  Date : String
  BlockIndex : Int
  StartTime : String
  EndTime : String
  UsedBytes : Int
  UsedMinutes : Int
  LimitBytes : Option Int
  LimitMinutes : Option Int
  IsBlocked : Bool
  BlockedReason : String
  BonusMinutes : Int
  BonusBytes : Int
  LastTxBytes : Int
  LastRxBytes : Int
  deriving DecidableEq, Repr

/-- DeviceState of models.go (a row of table device_states), without its timestamps. -/
structure DeviceState where
  MAC : String
  IsBlocked : Bool
  BlockedReason : String
  deriving DecidableEq, Repr

/-- ClientInfo of unifi/client.go: the fields the engine reads. -/
structure ClientInfo where
  MAC : String
  TxBytes : Int
  RxBytes : Int
  deriving DecidableEq, Repr

/-! ## Machine integers -/

/-- Two's complement wrap of an integer to 64 bits: the result of Go arithmetic on
`int64` (and on `int`, 64 bits wide on the platforms the program runs on). -/
def wrap64 (x : Int) : Int :=
  (x + 2 ^ 63) % 2 ^ 64 - 2 ^ 63

/-- The values of an `int64`. -/
def isInt64 (x : Int) : Prop :=
  -(2 ^ 63) ≤ x ∧ x < 2 ^ 63

instance (x : Int) : Decidable (isInt64 x) := by
  unfold isInt64
  exact inferInstance

/-! ## Time -/

/-- The days of `time.Weekday`, in its order. -/
inductive Weekday where
  | Sunday
  | Monday
  | Tuesday
  | Wednesday
  | Thursday
  | Friday
  | Saturday
  deriving DecidableEq, Repr

/-- The method `String` of `time.Weekday`: the English name of the day. -/
def weekdayString : Weekday → String
  | .Sunday => "Sunday"
  | .Monday => "Monday"
  | .Tuesday => "Tuesday"
  | .Wednesday => "Wednesday"
  | .Thursday => "Thursday"
  | .Friday => "Friday"
  | .Saturday => "Saturday"

/-- What the engine observes of a `time.Time`: its weekday, its wall-clock hour and
minute, and its calendar date as `Format("2006-01-02")` prints it. -/
structure Time where
  weekday : Weekday
  hour : Fin 24
  minute : Fin 60
  date : String
  deriving DecidableEq, Repr

/-- The decimal digit `n` as a character. -/
def digitChar (n : Nat) : Char :=
  Char.ofNat (48 + n % 10)

/-- The layout "15:04" of `time.Format`: zero-padded hour, a colon, zero-padded minute. -/
def format1504 (now : Time) : String :=
  String.mk [digitChar (now.hour.val / 10), digitChar now.hour.val, ':',
    digitChar (now.minute.val / 10), digitChar now.minute.val]

/-- What `strings.ToLower` does on a string of ASCII characters: the letters A to Z
become a to z, every other character is kept. -/
def toLowerASCII (s : String) : String :=
  String.mk (s.data.map Char.toLower)

/-! ## String comparison -/

/-- Lexicographic comparison of two strings given as character lists: at the first
position where they differ the smaller character decides, and a proper initial
segment is smaller than the whole. -/
def charsLt : List Char → List Char → Bool
  | _, [] => false
  | [], _ :: _ => true
  | a :: as, b :: bs =>
    if a.toNat < b.toNat then true
    else if b.toNat < a.toNat then false
    else charsLt as bs

/-- The operator `<` of Go on strings. -/
def strLt (a b : String) : Bool :=
  charsLt a.data b.data

/-- The operator `>=` of Go on strings. -/
def strGe (a b : String) : Bool :=
  !strLt a b

/-! ## Schedule resolution (`internal/enforcer/enforcer.go`) -/

section Resolver

variable (lower : String → String)

/-- The function containsDay of enforcer.go: the loop over the selectors, with the
switch on the lowercased selector. -/
def containsDay : List String → String → Bool
  | [], _ => false
  | d :: rest, day =>
    let d := lower d
    if d = "weekdays" then
      if day ≠ "saturday" ∧ day ≠ "sunday" then true else containsDay rest day
    else if d = "weekends" then
      if day = "saturday" ∨ day = "sunday" then true else containsDay rest day
    else
      if d = day then true else containsDay rest day

/-- The condition of the inner loop of GetActiveTimeBlock:
`currentTime >= block.StartTime && currentTime < block.EndTime`. -/
def blockActive (currentTime : String) (block : TimeBlock) : Bool :=
  strGe currentTime block.StartTime && strLt currentTime block.EndTime

/-- The inner loop of GetActiveTimeBlock over the blocks of one schedule, `i` being
the index of the head of the list: the first active block and its index. -/
def scanBlocks (currentTime : String) : List TimeBlock → Int → Option (TimeBlock × Int)
  | [], _ => none
  | block :: rest, i =>
    if blockActive currentTime block then some (block, i)
    else scanBlocks currentTime rest (i + 1)

/-- The outer loop of GetActiveTimeBlock over the schedules. -/
def scanSchedules (dayName currentTime : String) : List DaySchedule → Option TimeBlock × Int
  | [] => (none, -1)
  | schedule :: rest =>
    if !containsDay lower schedule.Days dayName then
      scanSchedules dayName currentTime rest
    else
      match scanBlocks currentTime schedule.TimeBlocks 0 with
      | some (block, i) => (some block, i)
      | none => scanSchedules dayName currentTime rest

/-- The method GetActiveTimeBlock of enforcer.go. -/
def GetActiveTimeBlock (config : DeviceConfig) (now : Time) : Option TimeBlock × Int :=
  let dayName := lower (weekdayString now.weekday)
  let currentTime := format1504 now
  scanSchedules lower dayName currentTime config.DailySchedules

end Resolver

/-! ## The store and the controller -/

/-- A command sent to the controller, with the address in its payload. -/
inductive Call where
  | block (mac : String)
  | unblock (mac : String)
  deriving DecidableEq, Repr

/-- The failures an operation can return: of the store, or of the controller. -/
inductive Err where
  | store
  | controller
  deriving DecidableEq, Repr

/-- The state outside the engine: the tables block_usage and device_states of the
store (rows in insertion order), the next value of the AUTOINCREMENT key of
block_usage, the commands sent to the controller so far (oldest first), the
outcomes of the coming calls to the store and the controller: `true` makes the next
call fail, and a call made when the list is empty succeeds; and the table
device_configs of the store. -/
structure World where
  usages : List BlockUsage
  states : List DeviceState
  nextID : Int
  calls : List Call
  faults : List Bool
  configs : List DeviceConfig := []
  deriving DecidableEq, Repr

/-- The result of an operation: its return value or error, and the state it leaves. -/
abbrev Result (α : Type) : Type :=
  Except Err α × World

/-- Takes the outcome of the next external call: whether it fails, and the state with
that outcome used up. -/
def World.next (w : World) : Bool × World :=
  match w.faults with
  | [] => (false, w)
  | f :: fs => (f, { w with faults := fs })

/-- The WHERE clause `mac = ? AND date = ? AND block_index = ?` of the SELECT in
GetOrCreateBlockUsage. -/
def usageKey (mac date : String) (blockIndex : Int) (u : BlockUsage) : Bool :=
  decide (u.MAC = mac) && decide (u.Date = date) && decide (u.BlockIndex = blockIndex)

/-- The method GetOrCreateBlockUsage of sqlite.go: the SELECT by key, and on no row
the INSERT of a row whose other columns take their defaults. -/
def GetOrCreateBlockUsage (mac date : String) (blockIndex : Int) (startTime endTime : String)
    (limitMinutes limitBytes : Option Int) (w : World) : Result BlockUsage :=
  match w.next with
  | (true, w) => (.error .store, w)
  | (false, w) =>
    match w.usages.find? (usageKey mac date blockIndex) with
    | some usage => (.ok usage, w)
    | none =>
      match w.next with
      | (true, w) => (.error .store, w)
      | (false, w) =>
        let usage : BlockUsage :=
          { ID := w.nextID, MAC := mac, Date := date, BlockIndex := blockIndex,
            StartTime := startTime, EndTime := endTime, UsedBytes := 0, UsedMinutes := 0,
            LimitBytes := limitBytes, LimitMinutes := limitMinutes, IsBlocked := false,
            BlockedReason := "", BonusMinutes := 0, BonusBytes := 0,
            LastTxBytes := 0, LastRxBytes := 0 }
        (.ok usage, { w with usages := w.usages ++ [usage], nextID := w.nextID + 1 })

/-- The SET clause of the UPDATE in UpdateBlockUsage applied to one row. -/
def setUsageColumns (usage row : BlockUsage) : BlockUsage :=
  { row with
    UsedBytes := usage.UsedBytes, UsedMinutes := usage.UsedMinutes,
    IsBlocked := usage.IsBlocked, BlockedReason := usage.BlockedReason,
    BonusMinutes := usage.BonusMinutes, BonusBytes := usage.BonusBytes,
    LastTxBytes := usage.LastTxBytes, LastRxBytes := usage.LastRxBytes }

/-- The method UpdateBlockUsage of sqlite.go: the UPDATE of the rows `WHERE id = ?`. -/
def UpdateBlockUsage (usage : BlockUsage) (w : World) : Result Unit :=
  match w.next with
  | (true, w) => (.error .store, w)
  | (false, w) =>
    let rows := w.usages.map (fun row => if row.ID = usage.ID then setUsageColumns usage row else row)
    (.ok (), { w with usages := rows })

/-- The method GetDeviceState of sqlite.go: the row of the device, or the default
state (not blocked, no reason) when it has none. -/
def GetDeviceState (mac : String) (w : World) : Result DeviceState :=
  match w.next with
  | (true, w) => (.error .store, w)
  | (false, w) =>
    match w.states.find? (fun s => decide (s.MAC = mac)) with
    | some state => (.ok state, w)
    | none => (.ok { MAC := mac, IsBlocked := false, BlockedReason := "" }, w)

/-- The method SaveDeviceState of sqlite.go: INSERT, or on a row with the same mac
(the primary key) the UPDATE of that row. -/
def SaveDeviceState (state : DeviceState) (w : World) : Result Unit :=
  match w.next with
  | (true, w) => (.error .store, w)
  | (false, w) =>
    if w.states.any (fun s => decide (s.MAC = state.MAC)) then
      let rows := w.states.map (fun s => if s.MAC = state.MAC then state else s)
      (.ok (), { w with states := rows })
    else
      (.ok (), { w with states := w.states ++ [state] })

/-- The method GetDeviceConfig of sqlite.go: the row of the device, or nil without an
error when it has none. -/
def GetDeviceConfig (mac : String) (w : World) : Result (Option DeviceConfig) :=
  match w.next with
  | (true, w) => (.error .store, w)
  | (false, w) => (.ok (w.configs.find? (fun c => decide (c.MAC = mac))), w)

/-- The method GetAllDeviceConfigs of sqlite.go: every row of device_configs. -/
def GetAllDeviceConfigs (w : World) : Result (List DeviceConfig) :=
  match w.next with
  | (true, w) => (.error .store, w)
  | (false, w) => (.ok w.configs, w)

/-- The method GetClients of unifi/client.go: the connected clients that the
controller reports, which are given as `clients`. -/
def GetClients (clients : List ClientInfo) (w : World) : Result (List ClientInfo) :=
  match w.next with
  | (true, w) => (.error .controller, w)
  | (false, w) => (.ok clients, w)

section Controller

variable (lower : String → String)

/-- The method BlockClient of unifi/client.go: sends the command block-sta with the
lowercased address; the command is recorded whether or not the request succeeds. -/
def BlockClient (mac : String) (w : World) : Result Unit :=
  match w.next with
  | (true, w) => (.error .controller, { w with calls := w.calls ++ [Call.block (lower mac)] })
  | (false, w) => (.ok (), { w with calls := w.calls ++ [Call.block (lower mac)] })

/-- The method UnblockClient of unifi/client.go: sends the command unblock-sta with the
lowercased address; the command is recorded whether or not the request succeeds. -/
def UnblockClient (mac : String) (w : World) : Result Unit :=
  match w.next with
  | (true, w) => (.error .controller, { w with calls := w.calls ++ [Call.unblock (lower mac)] })
  | (false, w) => (.ok (), { w with calls := w.calls ++ [Call.unblock (lower mac)] })

end Controller

/-! ## Usage accumulation (`internal/tracker/accumulator.go`) -/

/-- The constant ActivityThreshold of accumulator.go. -/
def ActivityThreshold : Int := 1024

/-- The struct Accumulator of accumulator.go: its poll interval in whole seconds. -/
structure Accumulator where
  pollIntervalSecs : Int
  deriving DecidableEq, Repr

/-- The variable currentTotal of ProcessClientStats. -/
def currentTotal (client : ClientInfo) : Int :=
  wrap64 (client.TxBytes + client.RxBytes)

/-- The variable lastTotal of ProcessClientStats. -/
def lastTotal (usage : BlockUsage) : Int :=
  wrap64 (usage.LastTxBytes + usage.LastRxBytes)

/-- The variable delta of ProcessClientStats past the first-poll return: the whole
current total after a counter reset, the difference of the totals otherwise. -/
def trafficDelta (usage : BlockUsage) (client : ClientInfo) : Int :=
  if currentTotal client < lastTotal usage then currentTotal client
  else wrap64 (currentTotal client - lastTotal usage)

/-- The variable activeMinutes of ProcessClientStats: the poll interval in minutes,
rounded up, and at least 1. Go's division of integers truncates toward zero. -/
def activeMinutes (a : Accumulator) : Int :=
  let m := (wrap64 (a.pollIntervalSecs + 59)).tdiv 60
  if m < 1 then 1 else m

/-- Lines 45 to 83 of ProcessClientStats: what the function does to the usage record
it holds before it writes it back. -/
def accumulate (a : Accumulator) (usage : BlockUsage) (client : ClientInfo) : BlockUsage :=
  if lastTotal usage = 0 then
    { usage with LastTxBytes := client.TxBytes, LastRxBytes := client.RxBytes }
  else
    let delta := trafficDelta usage client
    let usage := { usage with UsedBytes := wrap64 (usage.UsedBytes + delta) }
    let usage :=
      if delta > ActivityThreshold then
        { usage with UsedMinutes := wrap64 (usage.UsedMinutes + activeMinutes a) }
      else usage
    { usage with LastTxBytes := client.TxBytes, LastRxBytes := client.RxBytes }

/-- The method ProcessClientStats of accumulator.go. -/
def ProcessClientStats (a : Accumulator) (mac : String) (client : ClientInfo) (now : Time)
    (block : TimeBlock) (blockIndex : Int) (w : World) : Result Unit :=
  match GetOrCreateBlockUsage mac now.date blockIndex block.StartTime block.EndTime
      block.LimitMinutes block.LimitBytes w with
  | (.error e, w) => (.error e, w)
  | (.ok usage, w) => UpdateBlockUsage (accumulate a usage client) w

/-! ## Enforcement (`internal/enforcer/enforcer.go`) -/

/-- The function addBonusInt of enforcer.go. -/
def addBonusInt (base : Option Int) (bonus : Int) : Option Int :=
  match base with
  | none => none
  | some b => some (wrap64 (b + bonus))

/-- The function addBonusInt64 of enforcer.go. -/
def addBonusInt64 (base : Option Int) (bonus : Int) : Option Int :=
  match base with
  | none => none
  | some b => some (wrap64 (b + bonus))

/-- The test `limit != nil && used >= *limit` of CheckAndEnforce. -/
def limitReached (limit : Option Int) (used : Int) : Bool :=
  match limit with
  | none => false
  | some l => decide (used ≥ l)

/-- The test `limit == nil || used < *limit` of CheckAndEnforce. -/
def hasQuota (limit : Option Int) (used : Int) : Bool :=
  match limit with
  | none => true
  | some l => decide (used < l)

section Enforcer

variable (lower : String → String)

/-- The method BlockDevice of enforcer.go. -/
def BlockDevice (mac reason : String) (w : World) : Result Unit :=
  match GetDeviceState mac w with
  | (.error e, w) => (.error e, w)
  | (.ok state, w) =>
    if state.IsBlocked && decide (state.BlockedReason = reason) then (.ok (), w)
    else
      match BlockClient lower mac w with
      | (.error e, w) => (.error e, w)
      | (.ok _, w) => SaveDeviceState { state with IsBlocked := true, BlockedReason := reason } w

/-- The method UnblockDevice of enforcer.go. -/
def UnblockDevice (mac : String) (w : World) : Result Unit :=
  match GetDeviceState mac w with
  | (.error e, w) => (.error e, w)
  | (.ok state, w) =>
    if !state.IsBlocked then (.ok (), w)
    else
      match UnblockClient lower mac w with
      | (.error e, w) => (.error e, w)
      | (.ok _, w) => SaveDeviceState { state with IsBlocked := false, BlockedReason := "" } w

/-- The part of CheckAndEnforce after the usage record is read (lines 89 to 138). -/
def enforceLimits (mac : String) (activeBlock : TimeBlock) (usage : BlockUsage) (w : World) :
    Result Unit :=
  let effectiveLimitMinutes := addBonusInt activeBlock.LimitMinutes usage.BonusMinutes
  let effectiveLimitBytes := addBonusInt64 activeBlock.LimitBytes usage.BonusBytes
  if limitReached effectiveLimitMinutes usage.UsedMinutes then
    if !usage.IsBlocked || decide (usage.BlockedReason ≠ "time_limit") then
      match BlockDevice lower mac "time_limit" w with
      | (.error e, w) => (.error e, w)
      | (.ok _, w) =>
        UpdateBlockUsage { usage with IsBlocked := true, BlockedReason := "time_limit" } w
    else (.ok (), w)
  else if limitReached effectiveLimitBytes usage.UsedBytes then
    if !usage.IsBlocked || decide (usage.BlockedReason ≠ "data_limit") then
      match BlockDevice lower mac "data_limit" w with
      | (.error e, w) => (.error e, w)
      | (.ok _, w) =>
        UpdateBlockUsage { usage with IsBlocked := true, BlockedReason := "data_limit" } w
    else (.ok (), w)
  else if usage.IsBlocked && decide (usage.BlockedReason ≠ "manual") then
    let hasTimeQuota := hasQuota effectiveLimitMinutes usage.UsedMinutes
    let hasDataQuota := hasQuota effectiveLimitBytes usage.UsedBytes
    if hasTimeQuota && hasDataQuota then
      match UnblockDevice lower mac w with
      | (.error e, w) => (.error e, w)
      | (.ok _, w) => UpdateBlockUsage { usage with IsBlocked := false, BlockedReason := "" } w
    else (.ok (), w)
  else (.ok (), w)

/-- The method CheckAndEnforce of enforcer.go. -/
def CheckAndEnforce (mac : String) (config : DeviceConfig) (now : Time) (w : World) :
    Result Unit :=
  match GetActiveTimeBlock lower config now with
  | (none, _) =>
    if config.BlockOutside then BlockDevice lower mac "outside_hours" w else (.ok (), w)
  | (some activeBlock, blockIndex) =>
    match GetOrCreateBlockUsage mac now.date blockIndex activeBlock.StartTime
        activeBlock.EndTime activeBlock.LimitMinutes activeBlock.LimitBytes w with
    | (.error e, w) => (.error e, w)
    | (.ok usage, w) => enforceLimits lower mac activeBlock usage w

/-- The method ManualBlock of enforcer.go. -/
def ManualBlock (mac : String) (w : World) : Result Unit :=
  BlockDevice lower mac "manual" w

/-- The method ManualUnblock of enforcer.go, `now` being what time.Now returns. -/
def ManualUnblock (mac : String) (now : Time) (w : World) : Result Unit :=
  match GetDeviceConfig mac w with
  | (.error e, w) => (.error e, w)
  | (.ok none, w) => UnblockDevice lower mac w
  | (.ok (some config), w) =>
    match GetActiveTimeBlock lower config now with
    | (none, _) => UnblockDevice lower mac w
    | (some activeBlock, blockIndex) =>
      match GetOrCreateBlockUsage mac now.date blockIndex activeBlock.StartTime
          activeBlock.EndTime activeBlock.LimitMinutes activeBlock.LimitBytes w with
      | (.error e, w) => (.error e, w)
      | (.ok usage, w) =>
        match UpdateBlockUsage { usage with IsBlocked := false, BlockedReason := "" } w with
        | (.error e, w) => (.error e, w)
        | (.ok _, w) => UnblockDevice lower mac w

end Enforcer

/-! ## Polling (`internal/tracker/tracker.go`) -/

/-- The assignment `m[key] = cfg` on a Go map kept as a list of entries: the entry of
the key is replaced, or added when there is none. -/
def mapInsert (key : String) (cfg : DeviceConfig) :
    List (String × DeviceConfig) → List (String × DeviceConfig)
  | [] => [(key, cfg)]
  | (k, v) :: rest =>
    if k = key then (key, cfg) :: rest else (k, v) :: mapInsert key cfg rest

/-- The lookup `m[key]` on a Go map kept as a list of entries. -/
def mapLookup (key : String) (m : List (String × DeviceConfig)) : Option DeviceConfig :=
  (m.find? (fun entry => decide (entry.1 = key))).map Prod.snd

section Tracker

variable (lower : String → String)

/-- The map managedMACs of poll: the enabled configs under their lowercased address. -/
def managedMACs (configs : List DeviceConfig) : List (String × DeviceConfig) :=
  configs.foldl (fun m cfg => if cfg.Enabled then mapInsert (lower cfg.MAC) cfg m else m) []

/-- The body of the first loop of poll for one connected client; an error of a step is
logged and the loop goes on with the next client. -/
def pollClient (a : Accumulator) (managed : List (String × DeviceConfig)) (now : Time)
    (client : ClientInfo) (w : World) : World :=
  let mac := lower client.MAC
  match mapLookup mac managed with
  | none => w
  | some config =>
    match GetActiveTimeBlock lower config now with
    | (none, _) =>
      if config.BlockOutside then (BlockDevice lower mac "outside_hours" w).2 else w
    | (some activeBlock, blockIndex) =>
      match ProcessClientStats a mac client now activeBlock blockIndex w with
      | (.error _, w) => w
      | (.ok _, w) => (CheckAndEnforce lower mac config now w).2

/-- The first loop of poll, over the connected clients. -/
def pollClients (a : Accumulator) (managed : List (String × DeviceConfig)) (now : Time) :
    List ClientInfo → World → World
  | [], w => w
  | client :: rest, w => pollClients a managed now rest (pollClient lower a managed now client w)

/-- The body of the second loop of poll for one managed device. -/
def sweepDevice (now : Time) (entry : String × DeviceConfig) (w : World) : World :=
  match GetActiveTimeBlock lower entry.2 now with
  | (none, _) =>
    if entry.2.BlockOutside then (BlockDevice lower entry.1 "outside_hours" w).2 else w
  | (some _, _) => w

/-- The second loop of poll, over the managed devices in the order given. -/
def sweep (now : Time) : List (String × DeviceConfig) → World → World
  | [], w => w
  | entry :: rest, w => sweep now rest (sweepDevice lower now entry w)

/-- The method poll of tracker.go. `clients` is what the controller reports, `now` what
time.Now returns, and `shuffle` the order in which Go's range visits the entries of
the map managedMACs, which the language leaves open. -/
def poll (a : Accumulator) (shuffle : List (String × DeviceConfig) → List (String × DeviceConfig))
    (clients : List ClientInfo) (now : Time) (w : World) : World :=
  match GetAllDeviceConfigs w with
  | (.error _, w) => w
  | (.ok configs, w) =>
    if configs.length = 0 then w
    else
      match GetClients clients w with
      | (.error _, w) => w
      | (.ok clients, w) =>
        sweep lower now (shuffle (managedMACs lower configs))
          (pollClients lower a (managedMACs lower configs) now clients w)

end Tracker

/-! ## Observations used to state the properties -/

/-- The seven lowercase weekday names that GetActiveTimeBlock passes to containsDay. -/
def lowerDayNames : List String :=
  ["sunday", "monday", "tuesday", "wednesday", "thursday", "friday", "saturday"]

/-- The row of block_usage that the SELECT of GetOrCreateBlockUsage returns for a key,
if there is one: the usage record of the window as the store holds it. -/
def findUsage (mac date : String) (blockIndex : Int) (w : World) : Option BlockUsage :=
  w.usages.find? (usageKey mac date blockIndex)

/-- The row of device_states that the SELECT of GetDeviceState returns for a device,
if there is one. -/
def findState (mac : String) (w : World) : Option DeviceState :=
  w.states.find? (fun s => decide (s.MAC = mac))

/-- The value of the variable delta of ProcessClientStats when the function is done
with it: zero on the first poll (it is declared and never assigned), the traffic
delta otherwise. -/
def chargedDelta (usage : BlockUsage) (client : ClientInfo) : Int :=
  if lastTotal usage = 0 then 0 else trafficDelta usage client

/-- A sequence of polls of one device in one window: ProcessClientStats on each
sample in turn, an error of one poll not stopping the next (as in Tracker.poll). -/
def processSamples (a : Accumulator) (mac : String) (now : Time) (block : TimeBlock)
    (blockIndex : Int) : List ClientInfo → World → World
  | [], w => w
  | client :: rest, w =>
    processSamples a mac now block blockIndex rest
      (ProcessClientStats a mac client now block blockIndex w).2

/-- The hypothesis that a usage record and a sequence of samples have non-negative
counters and stay within int64. -/
def countersInRange (a : Accumulator) (u : BlockUsage) (samples : List ClientInfo) : Prop :=
  0 ≤ u.LastTxBytes ∧ 0 ≤ u.LastRxBytes ∧ u.LastTxBytes + u.LastRxBytes < 2 ^ 63 ∧
  (∀ c ∈ samples, 0 ≤ c.TxBytes ∧ 0 ≤ c.RxBytes ∧ c.TxBytes + c.RxBytes < 2 ^ 63) ∧
  isInt64 u.UsedBytes ∧
  u.UsedBytes + (samples.map (fun c => c.TxBytes + c.RxBytes)).sum < 2 ^ 63 ∧
  isInt64 u.UsedMinutes ∧
  u.UsedMinutes + (samples.length : Int) * activeMinutes a < 2 ^ 63

instance (a : Accumulator) (u : BlockUsage) (samples : List ClientInfo) :
    Decidable (countersInRange a u samples) := by
  unfold countersInRange
  exact inferInstance

/-! ## Sample data -/

/-- A window from 08:00 to 09:00 limited to 60 minutes and 100 MB. -/
def sampleBlock : TimeBlock :=
  { StartTime := "08:00", EndTime := "09:00", LimitMinutes := some 60,
    LimitBytes := some 100000000, WarningThresholdPercent := 80 }

/-- A window from 08:00 to 09:00 without limits. -/
def openBlock : TimeBlock :=
  { StartTime := "08:00", EndTime := "09:00", LimitMinutes := none,
    LimitBytes := none, WarningThresholdPercent := 80 }

/-- A window from 08:00 to 09:00 whose minute limit is zero. -/
def zeroBlock : TimeBlock :=
  { StartTime := "08:00", EndTime := "09:00", LimitMinutes := some 0,
    LimitBytes := none, WarningThresholdPercent := 80 }

/-- A device whose only schedule is the given window on weekdays. -/
def sampleConfig (block : TimeBlock) : DeviceConfig :=
  { MAC := "aa:bb:cc:dd:ee:ff", Name := "tablet", Enabled := true, BlockOutside := false,
    DailySchedules := [{ Days := ["weekdays"], TimeBlocks := [block] }] }

/-- A monday at 08:05. -/
def sampleNow : Time :=
  { weekday := Weekday.Monday, hour := 8, minute := 5, date := "2024-01-01" }

/-- A usage record of the sample window with a stored total of 1000 bytes. -/
def sampleUsage : BlockUsage :=
  { ID := 1, MAC := "aa:bb:cc:dd:ee:ff", Date := "2024-01-01", BlockIndex := 0,
    StartTime := "08:00", EndTime := "09:00", UsedBytes := 5000, UsedMinutes := 3,
    LimitBytes := some 100000000, LimitMinutes := some 60, IsBlocked := false,
    BlockedReason := "", BonusMinutes := 0, BonusBytes := 0,
    LastTxBytes := 600, LastRxBytes := 400 }

/-- The usage record that GetOrCreateBlockUsage creates for the sample window in a
store without rows. -/
def freshUsage : BlockUsage :=
  { ID := 1, MAC := "aa:bb:cc:dd:ee:ff", Date := "2024-01-01", BlockIndex := 0,
    StartTime := "08:00", EndTime := "09:00", UsedBytes := 0, UsedMinutes := 0,
    LimitBytes := some 100000000, LimitMinutes := some 60, IsBlocked := false,
    BlockedReason := "", BonusMinutes := 0, BonusBytes := 0,
    LastTxBytes := 0, LastRxBytes := 0 }

/-- A store without rows, a controller without calls, and no failure ahead. -/
def emptyWorld : World :=
  { usages := [], states := [], nextID := 1, calls := [], faults := [] }

/-- A store that holds the sample usage record, and no failure ahead. -/
def sampleWorld : World :=
  { usages := [sampleUsage], states := [], nextID := 2, calls := [], faults := [] }

/-- A store in which the device and its usage record are blocked for time_limit. -/
def blockedWorld : World :=
  { usages := [{ sampleUsage with IsBlocked := true, BlockedReason := "time_limit" }],
    states := [{ MAC := "aa:bb:cc:dd:ee:ff", IsBlocked := true, BlockedReason := "time_limit" }],
    nextID := 2, calls := [], faults := [] }

/-- The reason that CheckAndEnforce wants the device blocked for on a usage record:
time_limit when the minute limit is reached, else data_limit when the byte limit is
reached, else none. -/
def limitVerdict (activeBlock : TimeBlock) (usage : BlockUsage) : Option String :=
  if limitReached (addBonusInt activeBlock.LimitMinutes usage.BonusMinutes) usage.UsedMinutes then
    some "time_limit"
  else if limitReached (addBonusInt64 activeBlock.LimitBytes usage.BonusBytes) usage.UsedBytes then
    some "data_limit"
  else none

/-- The sample usage record with both limits reached. -/
def overLimitUsage : BlockUsage :=
  { sampleUsage with UsedMinutes := 60, UsedBytes := 100000000 }

/-- The sample usage record with its minute limit reached, flagged for time_limit. -/
def flaggedOverUsage : BlockUsage :=
  { overLimitUsage with UsedBytes := 5000, IsBlocked := true, BlockedReason := "time_limit" }

/-- The sample usage record, below both limits, flagged for time_limit. -/
def flaggedUsage : BlockUsage :=
  { sampleUsage with IsBlocked := true, BlockedReason := "time_limit" }

/-- A store in which the usage record of the sample window has reached both limits. -/
def overLimitWorld : World :=
  { usages := [overLimitUsage], states := [], nextID := 2, calls := [], faults := [] }

/-- A store in which the usage record of the sample window has reached its minute
limit and is flagged for it, and the device is blocked with reason manual. -/
def flaggedManualWorld : World :=
  { usages := [flaggedOverUsage],
    states := [{ MAC := "aa:bb:cc:dd:ee:ff", IsBlocked := true, BlockedReason := "manual" }],
    nextID := 2, calls := [], faults := [] }

/-- A store in which the device is blocked for outside_hours and the window that has
just become active has no usage record yet. -/
def outsideBlockedWorld : World :=
  { usages := [],
    states := [{ MAC := "aa:bb:cc:dd:ee:ff", IsBlocked := true,
                 BlockedReason := "outside_hours" }],
    nextID := 1, calls := [], faults := [] }

/-- A store in which the device is blocked with reason manual while the usage record
of its window, below both limits, is still flagged for time_limit. -/
def manualOverFlagWorld : World :=
  { usages := [flaggedUsage],
    states := [{ MAC := "aa:bb:cc:dd:ee:ff", IsBlocked := true, BlockedReason := "manual" }],
    nextID := 2, calls := [], faults := [] }

/-- The state in which CheckAndEnforce sends its command to the controller, when it
sends one: the state left by its reads of the usage record (when a window is active)
and of the device state, which are the calls it makes before the command. -/
def controllerWorld (lower : String → String) (mac : String) (config : DeviceConfig)
    (now : Time) (w : World) : World :=
  match GetActiveTimeBlock lower config now with
  | (none, _) => (GetDeviceState mac w).2
  | (some activeBlock, blockIndex) =>
    (GetDeviceState mac (GetOrCreateBlockUsage mac now.date blockIndex activeBlock.StartTime
      activeBlock.EndTime activeBlock.LimitMinutes activeBlock.LimitBytes w).2).2

/-- The row of device_configs that the SELECT of GetDeviceConfig returns for a device,
if there is one. -/
def findConfig (mac : String) (w : World) : Option DeviceConfig :=
  w.configs.find? (fun c => decide (c.MAC = mac))

/-- The invariant of table device_states that a row which is not blocked has an empty
reason: the default state has it, and BlockDevice and UnblockDevice, the only
writers of the table, keep it. -/
def statesClean (w : World) : Prop :=
  ∀ s ∈ w.states, s.IsBlocked = false → s.BlockedReason = ""

instance (w : World) : Decidable (statesClean w) := by
  unfold statesClean
  exact inferInstance

/-- A run of poll cycles, each with the clients the controller reports and the instant
of the cycle. -/
def pollCycles (lower : String → String) (a : Accumulator)
    (shuffle : List (String × DeviceConfig) → List (String × DeviceConfig)) :
    List (List ClientInfo × Time) → World → World
  | [], w => w
  | (clients, now) :: rest, w =>
    pollCycles lower a shuffle rest (poll lower a shuffle clients now w)

/-! ## Observations used to state the properties of polling -/

/-- The address in the payload of a command. -/
def Call.target : Call → String
  | .block mac => mac
  | .unblock mac => mac

/-- A usage record with its row ID put to zero: what the record says, whatever row
holds it. -/
def withoutID (u : BlockUsage) : BlockUsage :=
  { u with ID := 0 }

/-- The column id of block_usage is its INTEGER PRIMARY KEY AUTOINCREMENT: the row IDs
are pairwise distinct and below the next value of the key. -/
def uniqueIDs (w : World) : Prop :=
  (w.usages.map (fun u => u.ID)).Nodup ∧ ∀ u ∈ w.usages, u.ID < w.nextID

instance (w : World) : Decidable (uniqueIDs w) := by
  unfold uniqueIDs
  infer_instance

/-- What a step for the device `mac` that works on its usage record of the window
(`date`, `idx`) leaves alone on the way from `w` to `w1`: the row IDs stay distinct, every
other usage record and every other device state reads as before, and the commands
added all carry the device's address. -/
def keptBy (lower : String → String) (mac date : String) (idx : Int) (w w1 : World) : Prop :=
  uniqueIDs w1 ∧
  (∀ m d i, ¬ (m = mac ∧ d = date ∧ i = idx) → findUsage m d i w1 = findUsage m d i w) ∧
  (∀ m, m ≠ mac → findState m w1 = findState m w) ∧
  ∃ cs, w1.calls = w.calls ++ cs ∧ ∀ c ∈ cs, c.target = lower mac

/-- What a step for the device `mac` leaves alone on the way from `w` to `w1`: the row
IDs stay distinct, the usage records and the state of every other device read as before,
and the commands added all carry the device's address. -/
def localTo (lower : String → String) (mac : String) (w w1 : World) : Prop :=
  uniqueIDs w1 ∧
  (∀ m d i, m ≠ mac → findUsage m d i w1 = findUsage m d i w) ∧
  (∀ m, m ≠ mac → findState m w1 = findState m w) ∧
  ∃ cs, w1.calls = w.calls ++ cs ∧ ∀ c ∈ cs, c.target = lower mac

/-- The row that the INSERT of GetOrCreateBlockUsage writes, with its row ID put to zero. -/
def newUsage (mac date : String) (blockIndex : Int) (startTime endTime : String)
    (limitMinutes limitBytes : Option Int) : BlockUsage :=
  { ID := 0, MAC := mac, Date := date, BlockIndex := blockIndex,
    StartTime := startTime, EndTime := endTime, UsedBytes := 0, UsedMinutes := 0,
    LimitBytes := limitBytes, LimitMinutes := limitMinutes, IsBlocked := false,
    BlockedReason := "", BonusMinutes := 0, BonusBytes := 0,
    LastTxBytes := 0, LastRxBytes := 0 }

/-- Two states of the world say the same about the device `mac`: its usage records are
the same up to their row IDs, and its device state is the same. -/
def sameFor (mac : String) (w1 w2 : World) : Prop :=
  (∀ d i, (findUsage mac d i w1).map withoutID = (findUsage mac d i w2).map withoutID) ∧
  findState mac w1 = findState mac w2

/-- The same step for the device `mac`, taken from `w1` to `v1` and from `w2` to `v2`,
ends with no failure pending, with the two states saying the same about the device, and
with the same commands added. -/
def sameStep (mac : String) (w1 w2 v1 v2 : World) : Prop :=
  v1.faults = [] ∧ v2.faults = [] ∧ sameFor mac v1 v2 ∧
  ∃ cs, v1.calls = w1.calls ++ cs ∧ v2.calls = w2.calls ++ cs

/-- Two states of the world agree outside the device `mac`: no failure is pending in
either, the row IDs of both are distinct, they say the same about every other device,
and the commands sent for other addresses are the same. -/
def elsewhere (lower : String → String) (mac : String) (w1 w2 : World) : Prop :=
  w1.faults = [] ∧ w2.faults = [] ∧ uniqueIDs w1 ∧ uniqueIDs w2 ∧
  (∀ m, m ≠ mac → sameFor m w1 w2) ∧
  w1.calls.filter (fun c => decide (c.target ≠ lower mac)) =
    w2.calls.filter (fun c => decide (c.target ≠ lower mac))

/-- The sample device with block_outside set. -/
def outsideConfig : DeviceConfig :=
  { sampleConfig sampleBlock with BlockOutside := true }

/-- The same monday at 21:30, outside the sample window. -/
def sampleNight : Time :=
  { weekday := Weekday.Monday, hour := 21, minute := 30, date := "2024-01-01" }

/-- The same monday at 08:06. -/
def sampleLater : Time :=
  { weekday := Weekday.Monday, hour := 8, minute := 6, date := "2024-01-01" }

/-- The store of overLimitWorld with a failure ahead: the third call from here fails. -/
def failingControllerWorld : World :=
  { overLimitWorld with faults := [false, false, true] }

/-- The store of blockedWorld with the config of the sample device. -/
def blockedConfiguredWorld : World :=
  { blockedWorld with configs := [sampleConfig sampleBlock] }

/-- A store without rows but the config of the sample device, and no failure ahead. -/
def configuredWorld : World :=
  { emptyWorld with configs := [sampleConfig sampleBlock] }

/-- A second device with the schedule of the sample device. -/
def secondConfig : DeviceConfig :=
  { sampleConfig sampleBlock with MAC := "11:22:33:44:55:66", Name := "console" }

/-- A sample of the sample device as the controller reports it. -/
def sampleClient : ClientInfo :=
  { MAC := "AA:BB:CC:DD:EE:FF", TxBytes := 600, RxBytes := 400 }

/-- A sample of the second device. -/
def secondClient : ClientInfo :=
  { MAC := "11:22:33:44:55:66", TxBytes := 7000, RxBytes := 3000 }

/-- A sample of the sample device whose counters are both zero. -/
def zeroClient : ClientInfo :=
  { MAC := "aa:bb:cc:dd:ee:ff", TxBytes := 0, RxBytes := 0 }

/-- A sample of the sample device with a total of 9,000,000 bytes. -/
def largeClient : ClientInfo :=
  { MAC := "aa:bb:cc:dd:ee:ff", TxBytes := 5000000, RxBytes := 4000000 }

/-! ## Clock time of HH:MM strings -/

/-- The value of a decimal digit character. -/
def digitValue (c : Char) : Nat :=
  c.toNat - 48

/-- The character is one of 0 to 9. -/
def isDecimalDigit (c : Char) : Bool :=
  decide (48 ≤ c.toNat) && decide (c.toNat ≤ 57)

/-- The hour h(s) of a string HH:MM: the number its first two characters spell. -/
def hourOf (s : String) : Nat :=
  match s.data with
  | [a, b, _, _, _] => 10 * digitValue a + digitValue b
  | _ => 0

/-- The minute m(s) of a string HH:MM: the number its last two characters spell. -/
def minuteOf (s : String) : Nat :=
  match s.data with
  | [_, _, _, d, e] => 10 * digitValue d + digitValue e
  | _ => 0

/-- A well-formed zero-padded 24-hour HH:MM string: two digits, a colon, two digits, the
hour below 24 and the minute below 60. -/
def wellFormedHHMM (s : String) : Bool :=
  match s.data with
  | [a, b, c, d, e] =>
    isDecimalDigit a && isDecimalDigit b && decide (c = ':') && isDecimalDigit d &&
      isDecimalDigit e && decide (10 * digitValue a + digitValue b < 24) &&
      decide (10 * digitValue d + digitValue e < 60)
  | _ => false

/-- The minutes since midnight 60*h(s)+m(s) of a string HH:MM. -/
def minutesSinceMidnight (s : String) : Nat :=
  60 * hourOf s + minuteOf s

/-- A window from 14:00 to 15:00 limited to 30 minutes. -/
def afternoonBlock : TimeBlock :=
  { StartTime := "14:00", EndTime := "15:00", LimitMinutes := some 30,
    LimitBytes := none, WarningThresholdPercent := 80 }

/-- A device with two schedules that both match a monday: the sample window on mondays
and the afternoon window on weekdays. -/
def twoScheduleConfig : DeviceConfig :=
  { MAC := "aa:bb:cc:dd:ee:ff", Name := "tablet", Enabled := true, BlockOutside := false,
    DailySchedules := [{ Days := ["monday"], TimeBlocks := [sampleBlock] },
                       { Days := ["weekdays"], TimeBlocks := [afternoonBlock] }] }

/-- The same monday at 14:05. -/
def sampleAfternoon : Time :=
  { weekday := Weekday.Monday, hour := 14, minute := 5, date := "2024-01-01" }

/-! ## The tracker section of the configuration (`internal/config/config.go`, `cmd/zeitpolizei/main.go`) -/

/-- TrackerConfig of config.go, its poll interval in nanoseconds as time.Duration
holds it. -/
structure TrackerConfig where
  PollInterval : Int
  ActivityMinBytes : Int
  deriving DecidableEq, Repr

/-- The function NewAccumulator of accumulator.go: the poll interval in whole seconds.
The interval passes through float64 in the source, which is exact for every interval
of whole seconds below 2^53 s. -/
def NewAccumulator (pollInterval : Int) : Accumulator :=
  { pollIntervalSecs := pollInterval.tdiv 1000000000 }

/-- The accumulator that main.go builds from the tracker section of the configuration:
`tracker.New(store, unifiClient, enf, cfg.Tracker.PollInterval)`, which calls
`NewAccumulator(store, pollInterval)`. -/
def trackerAccumulator (cfg : TrackerConfig) : Accumulator :=
  NewAccumulator cfg.PollInterval

/-- A tracker section with a poll interval of 30 s and activity_min_bytes of 2048. -/
def strictTrackerConfig : TrackerConfig :=
  { PollInterval := 30000000000, ActivityMinBytes := 2048 }

/-- A tracker section with a poll interval of 30 s and activity_min_bytes of 100. -/
def looseTrackerConfig : TrackerConfig :=
  { PollInterval := 30000000000, ActivityMinBytes := 100 }

/-- A time block whose start is the empty string and whose end is 25:99. -/
def malformedBlock : TimeBlock :=
  { StartTime := "", EndTime := "25:99", LimitMinutes := none,
    LimitBytes := none, WarningThresholdPercent := 80 }

/-! ## FormatBytes (`internal/storage/models.go`) -/

/-- The conversion of an int64 to int32 (rune), which keeps the low 32 bits. -/
def wrap32 (x : Int) : Int :=
  (x + 2 ^ 31) % 2 ^ 32 - 2 ^ 31

/-- The conversion `string(rune(x))` of Go: the string of the one character whose code
point is x as an int32, or of U+FFFD when that is not a valid code point. -/
def runeString (x : Int) : String :=
  let r := wrap32 x
  if (0 ≤ r ∧ r < 55296) ∨ (57344 ≤ r ∧ r ≤ 1114111) then String.singleton (Char.ofNat r.toNat)
  else String.singleton (Char.ofNat 65533)

/-- The loop `for n := bytes / unit; n >= unit; n /= unit` of FormatBytes, which
multiplies div by unit and counts exp; `fuel` bounds the rounds, and n.toNat rounds
are always enough because n shrinks in every round. -/
def formatLoop : Nat → Int → Int → Nat → Int × Nat
  | 0, _, div, exp => (div, exp)
  | fuel + 1, n, div, exp =>
    if n ≥ 1024 then formatLoop fuel (n.tdiv 1024) (wrap64 (div * 1024)) (exp + 1)
    else (div, exp)

/-- The function FormatBytes of models.go; `none` is the run-time panic of `units[exp]`
with the index out of range. -/
def FormatBytes (bytes : Int) : Option String :=
  if bytes < 1024 then some (runeString bytes ++ " B")
  else
    match formatLoop (bytes.tdiv 1024).toNat (bytes.tdiv 1024) 1024 0 with
    | (div, exp) =>
      match ["KB", "MB", "GB", "TB"][exp]? with
      | none => none
      | some unit => some (runeString (bytes.tdiv div) ++ " " ++ unit)

/-- The empty store with the third call from here failing. -/
def thirdCallFailsWorld : World :=
  { emptyWorld with faults := [false, false, true] }

/-- The store of overLimitWorld with the fifth call from here failing. -/
def fifthCallFailsWorld : World :=
  { overLimitWorld with faults := [false, false, false, false, true] }

/-! ## Bonus minutes (`internal/storage/sqlite.go`, `internal/api/handlers.go`) -/

/-- The method AddBonusTime of sqlite.go: the UPDATE that adds the minutes to
bonus_minutes in the rows with the key. It is not an error when no row has the key.
The sum is SQLite's, which is the integer sum while it fits in 64 bits. -/
def AddBonusTime (mac date : String) (blockIndex : Int) (minutes : Int) (w : World) :
    Result Unit :=
  match w.next with
  | (true, w) => (.error .store, w)
  | (false, w) =>
    let rows := w.usages.map (fun row =>
      if usageKey mac date blockIndex row then
        { row with BonusMinutes := row.BonusMinutes + minutes }
      else row)
    (.ok (), { w with usages := rows })

/-- The status codes with which the handler addBonusTime answers. -/
inductive Status where
  | ok
  | badRequest
  | notFound
  | internalServerError
  deriving DecidableEq, Repr

/-- The handler addBonusTime of handlers.go. `param` is the address in the path,
`request` the minutes of the body as ShouldBindJSON binds them (`none` when it returns
an error), `now` what time.Now returns. The error of the enforcement check at the end
is dropped, as in the source. -/
def addBonusTime (lower : String → String) (param : String) (request : Option Int)
    (now : Time) (w : World) : Status × World :=
  let mac := lower param
  match request with
  | none => (.badRequest, w)
  | some minutes =>
    match GetDeviceConfig mac w with
    | (.error _, w) => (.notFound, w)
    | (.ok none, w) => (.notFound, w)
    | (.ok (some config), w) =>
      match GetActiveTimeBlock lower config now with
      | (none, _) => (.badRequest, w)
      | (some _, blockIndex) =>
        match AddBonusTime mac now.date blockIndex minutes w with
        | (.error _, w) => (.internalServerError, w)
        | (.ok _, w) => (.ok, (CheckAndEnforce lower mac config now w).2)

/-- A store with the config of the sample device and its sample usage record. -/
def sampleConfiguredWorld : World :=
  { sampleWorld with configs := [sampleConfig sampleBlock] }

/-- What a poll cycle leaves alone of the device with address `m` on the way from `w` to
`w1`: the row IDs stay distinct, its usage records and its device state read as before,
and no command added carries its address. -/
def untouched (m : String) (w w1 : World) : Prop :=
  uniqueIDs w1 ∧ (∀ d i, findUsage m d i w1 = findUsage m d i w) ∧
  findState m w1 = findState m w ∧
  ∃ cs, w1.calls = w.calls ++ cs ∧ ∀ c ∈ cs, c.target ≠ m

/-- A second device, enabled, with block_outside set and the sample window on weekdays. -/
def offlineConfig : DeviceConfig :=
  { MAC := "11:22:33:44:55:66", Name := "console", Enabled := true, BlockOutside := true,
    DailySchedules := [{ Days := ["weekdays"], TimeBlocks := [sampleBlock] }] }

/-- The sample device with its config not enabled and block_outside set. -/
def disabledConfig : DeviceConfig :=
  { MAC := "aa:bb:cc:dd:ee:ff", Name := "tablet", Enabled := false, BlockOutside := true,
    DailySchedules := [{ Days := ["weekdays"], TimeBlocks := [sampleBlock] }] }

/-- A store with the configs of the second device and of the disabled sample device and
no other rows, and no failure ahead. -/
def sweepWorld : World :=
  { usages := [], states := [], nextID := 1, calls := [], faults := [],
    configs := [offlineConfig, disabledConfig] }

/-- The rows of block_usage after the UPDATE of UpdateBlockUsage has written the record
`u` with the given blocked flag and reason into the rows that have its ID. -/
def flagRows (u : BlockUsage) (flag : Bool) (reason : String) (rows : List BlockUsage) :
    List BlockUsage :=
  rows.map (fun row =>
    if row.ID = u.ID then setUsageColumns { u with IsBlocked := flag, BlockedReason := reason } row
    else row)

/-- A store in which the device is already blocked for time_limit while the usage record
of the sample window has reached both limits and is not flagged. -/
def alreadyBlockedWorld : World :=
  { usages := [overLimitUsage],
    states := [{ MAC := "aa:bb:cc:dd:ee:ff", IsBlocked := true, BlockedReason := "time_limit" }],
    nextID := 2, calls := [], faults := [] }

/-- The state with no failure ahead: every coming call succeeds. -/
def World.calm (w : World) : World :=
  { w with faults := [] }

/-- The operation `f` uses up outcomes from the front of the list of coming outcomes, and
when those it uses up are all successes it returns what it returns from the state with no
failure ahead, and leaves the same state but for the outcomes still to come. -/
def faultLocal {α : Type} (f : World → Result α) : Prop :=
  ∀ w, ∃ p, w.faults = p ++ (f w).2.faults ∧
    ((∀ x ∈ p, x = false) → (f w).1 = (f w.calm).1 ∧ (f w).2.calm = (f w.calm).2)

/-- The operation `f`, and when it returns without error the operation `g` on its result;
an error of `f` is returned as it is. -/
def andThen {α β : Type} (f : World → Result α) (g : α → World → Result β) (w : World) :
    Result β :=
  match f w with
  | (.error e, w1) => (.error e, w1)
  | (.ok x, w1) => g x w1

/-- The step from `w` meets no failure: the outcomes that it uses up, which are those at
the front of the list of coming outcomes that are no longer to come after it, are all
successes. -/
def meetsNoFailure (step : World → World) (w : World) : Prop :=
  ∃ n, w.faults = List.replicate n false ++ (step w).faults

/-- In the first loop of poll over `clients` from the state `w`, the step for every
client whose lowercased address is not `mac` meets no failure. -/
def clientsQuietExcept (lower : String → String) (a : Accumulator)
    (managed : List (String × DeviceConfig)) (now : Time) (mac : String) :
    List ClientInfo → World → Prop
  | [], _ => True
  | client :: rest, w =>
    (lower client.MAC ≠ mac → meetsNoFailure (pollClient lower a managed now client) w) ∧
    clientsQuietExcept lower a managed now mac rest (pollClient lower a managed now client w)

/-- In the second loop of poll over `entries` from the state `w`, the step for every
entry whose key is not `mac` meets no failure. -/
def sweepQuietExcept (lower : String → String) (now : Time) (mac : String) :
    List (String × DeviceConfig) → World → Prop
  | [], _ => True
  | entry :: rest, w =>
    (entry.1 ≠ mac → meetsNoFailure (sweepDevice lower now entry) w) ∧
    sweepQuietExcept lower now mac rest (sweepDevice lower now entry w)

/-- A device, enabled, with block_outside set and no schedule: it is outside its windows
at every instant. -/
def curfewConfig : DeviceConfig :=
  { MAC := "aa:bb:cc:dd:ee:ff", Name := "tablet", Enabled := true, BlockOutside := true,
    DailySchedules := [] }

/-- A third device, enabled, with block_outside set and no schedule. -/
def thirdConfig : DeviceConfig :=
  { MAC := "22:33:44:55:66:77", Name := "phone", Enabled := true, BlockOutside := true,
    DailySchedules := [] }

/-- A store with the configs of three devices and no other rows. Of the coming calls the
fourth fails, which is the block command for the first device in the first loop of a
cycle with the first and the second device connected, and the ninth, which is the read
of the first device's state in the second loop. -/
def failingDeviceWorld : World :=
  { usages := [], states := [], nextID := 1, calls := [],
    faults := [false, false, false, true, false, false, false, false, true, false, false,
      false],
    configs := [curfewConfig, secondConfig, thirdConfig] }

/-! ## Properties of schedule resolution -/

theorem charsLt_irrefl (a : List Char) : charsLt a a = false := by
  induction a with
  | nil => rfl
  | cons c cs ih => simp [charsLt, ih]

theorem scanBlocks_eq_none (t : String) (bs : List TimeBlock) (i0 : Int) :
    scanBlocks t bs i0 = none ↔ ∀ b ∈ bs, blockActive t b = false := by
  induction bs generalizing i0 with
  | nil => simp [scanBlocks]
  | cons b rest ih =>
    by_cases h : blockActive t b = true
    · simp [scanBlocks, h]
    · simp only [Bool.not_eq_true] at h
      simp [scanBlocks, h, ih]

theorem scanBlocks_eq_some (t : String) (bs : List TimeBlock) (i0 : Int) (block : TimeBlock)
    (i : Int) :
    scanBlocks t bs i0 = some (block, i) ↔
      ∃ k : Nat, bs[k]? = some block ∧ i = i0 + (k : Int) ∧ blockActive t block = true ∧
        ∀ j < k, ∀ b, bs[j]? = some b → blockActive t b = false := by
  induction bs generalizing i0 with
  | nil => simp [scanBlocks]
  | cons b rest ih =>
    by_cases h : blockActive t b = true
    · simp only [scanBlocks, h, if_true, Option.some.injEq, Prod.mk.injEq]
      constructor
      · rintro ⟨rfl, rfl⟩
        exact ⟨0, by simp, by simp, h, by intro j hj; omega⟩
      · rintro ⟨k, hk, hi, _, hfirst⟩
        cases k with
        | zero =>
          simp at hk
          subst hk
          simp [hi]
        | succ k =>
          have := hfirst 0 (by omega) b (by simp)
          rw [h] at this
          cases this
    · simp only [Bool.not_eq_true] at h
      simp only [scanBlocks, h, Bool.false_eq_true, if_false, ih]
      constructor
      · rintro ⟨k, hk, hi, hact, hfirst⟩
        refine ⟨k + 1, by simpa using hk, by rw [hi]; push_cast; ring, hact, ?_⟩
        intro j hj b' hb'
        cases j with
        | zero =>
          simp at hb'
          subst hb'
          exact h
        | succ j =>
          exact hfirst j (by omega) b' (by simpa using hb')
      · rintro ⟨k, hk, hi, hact, hfirst⟩
        cases k with
        | zero =>
          simp at hk
          subst hk
          rw [h] at hact
          cases hact
        | succ k =>
          refine ⟨k, by simpa using hk, by rw [hi]; push_cast; ring, hact, ?_⟩
          intro j hj b' hb'
          exact hfirst (j + 1) (by omega) b' (by simpa using hb')


theorem scanSchedules_skip (lower : String → String) (day t : String) (s : DaySchedule)
    (rest : List DaySchedule)
    (h : containsDay lower s.Days day = true → ∀ b ∈ s.TimeBlocks, blockActive t b = false) :
    scanSchedules lower day t (s :: rest) = scanSchedules lower day t rest := by
  by_cases hc : containsDay lower s.Days day = true
  · have hn := (scanBlocks_eq_none t s.TimeBlocks 0).2 (h hc)
    simp [scanSchedules, hc, hn]
  · simp only [Bool.not_eq_true] at hc
    simp [scanSchedules, hc]

theorem scanSchedules_eq_none (lower : String → String) (day t : String)
    (ss : List DaySchedule) :
    scanSchedules lower day t ss = (none, -1) ↔
      ∀ s ∈ ss, containsDay lower s.Days day = true →
        ∀ b ∈ s.TimeBlocks, blockActive t b = false := by
  induction ss with
  | nil => simp [scanSchedules]
  | cons s rest ih =>
    by_cases hs : containsDay lower s.Days day = true →
        ∀ b ∈ s.TimeBlocks, blockActive t b = false
    · rw [scanSchedules_skip lower day t s rest hs, ih]
      simp only [List.mem_cons, forall_eq_or_imp]
      exact ⟨fun h => ⟨hs, h⟩, fun h => h.2⟩
    · have hs2 := hs
      simp only [Classical.not_imp] at hs2
      obtain ⟨hc, hb⟩ := hs2
      have hne : scanBlocks t s.TimeBlocks 0 ≠ none := by
        intro hnone
        exact hb ((scanBlocks_eq_none t s.TimeBlocks 0).1 hnone)
      constructor
      · intro h
        exfalso
        cases hsb : scanBlocks t s.TimeBlocks 0 with
        | none => exact hne hsb
        | some p =>
          obtain ⟨b, i⟩ := p
          simp [scanSchedules, hc, hsb] at h
      · intro h
        exact absurd (h s (List.mem_cons_self _ _)) hs

theorem scanSchedules_eq_some (lower : String → String) (day t : String)
    (ss : List DaySchedule) (block : TimeBlock) (i : Int) :
    scanSchedules lower day t ss = (some block, i) ↔
      ∃ (pre post : List DaySchedule) (s : DaySchedule) (k : Nat),
        ss = pre ++ s :: post ∧
        containsDay lower s.Days day = true ∧
        (∀ s1 ∈ pre, containsDay lower s1.Days day = true →
          ∀ b ∈ s1.TimeBlocks, blockActive t b = false) ∧
        s.TimeBlocks[k]? = some block ∧ i = (k : Int) ∧ blockActive t block = true ∧
        (∀ j < k, ∀ b, s.TimeBlocks[j]? = some b → blockActive t b = false) := by
  induction ss with
  | nil => simp [scanSchedules]
  | cons s rest ih =>
    by_cases hs : containsDay lower s.Days day = true →
        ∀ b ∈ s.TimeBlocks, blockActive t b = false
    · rw [scanSchedules_skip lower day t s rest hs, ih]
      constructor
      · rintro ⟨pre, post, s0, k, hsplit, hc, hpre, hk, hi, hact, hfirst⟩
        refine ⟨s :: pre, post, s0, k, by simp [hsplit], hc, ?_, hk, hi, hact, hfirst⟩
        intro s1 hs1
        rcases List.mem_cons.1 hs1 with h1 | h1
        · subst h1
          exact hs
        · exact hpre s1 h1
      · rintro ⟨pre, post, s0, k, hsplit, hc, hpre, hk, hi, hact, hfirst⟩
        cases pre with
        | nil =>
          simp only [List.nil_append, List.cons.injEq] at hsplit
          obtain ⟨h1, _⟩ := hsplit
          subst h1
          have := hs hc block (List.getElem?_mem hk)
          rw [hact] at this
          cases this
        | cons p0 pre =>
          simp only [List.cons_append, List.cons.injEq] at hsplit
          obtain ⟨_, h2⟩ := hsplit
          exact ⟨pre, post, s0, k, h2, hc,
            fun s1 h1 => hpre s1 (List.mem_cons_of_mem _ h1), hk, hi, hact, hfirst⟩
    · have hs2 := hs
      simp only [Classical.not_imp] at hs2
      obtain ⟨hc, hb⟩ := hs2
      cases hsb : scanBlocks t s.TimeBlocks 0 with
      | none => exact absurd ((scanBlocks_eq_none t s.TimeBlocks 0).1 hsb) hb
      | some p =>
        obtain ⟨b0, i0⟩ := p
        have hsome := (scanBlocks_eq_some t s.TimeBlocks 0 b0 i0).1 hsb
        obtain ⟨k0, hk0, hi0, hact0, hfirst0⟩ := hsome
        simp only [scanSchedules, hc, Bool.not_true, Bool.false_eq_true, if_false, hsb,
          Prod.mk.injEq, Option.some.injEq]
        constructor
        · rintro ⟨rfl, rfl⟩
          exact ⟨[], rest, s, k0, rfl, hc, by simp, hk0, by simpa using hi0, hact0, hfirst0⟩
        · rintro ⟨pre, post, s0, k, hsplit, hc1, hpre, hk, hi, hact, hfirst⟩
          cases pre with
          | nil =>
            simp only [List.nil_append, List.cons.injEq] at hsplit
            obtain ⟨h1, _⟩ := hsplit
            subst h1
            have hsb2 := (scanBlocks_eq_some t s.TimeBlocks 0 block i).2
              ⟨k, hk, by simpa using hi, hact, hfirst⟩
            rw [hsb] at hsb2
            simpa using hsb2
          | cons p0 pre =>
            simp only [List.cons_append, List.cons.injEq] at hsplit
            obtain ⟨h1, _⟩ := hsplit
            subst h1
            exact absurd (hpre s (List.mem_cons_self _ _) hc) hb


theorem scanSchedules_cases (lower : String → String) (day t : String)
    (ss : List DaySchedule) :
    scanSchedules lower day t ss = (none, -1) ∨
      ∃ (block : TimeBlock) (i : Int), 0 ≤ i ∧ scanSchedules lower day t ss = (some block, i) := by
  induction ss with
  | nil => exact Or.inl rfl
  | cons s rest ih =>
    by_cases hs : containsDay lower s.Days day = true →
        ∀ b ∈ s.TimeBlocks, blockActive t b = false
    · rw [scanSchedules_skip lower day t s rest hs]
      exact ih
    · simp only [Classical.not_imp] at hs
      obtain ⟨hc, hb⟩ := hs
      cases hsb : scanBlocks t s.TimeBlocks 0 with
      | none => exact absurd ((scanBlocks_eq_none t s.TimeBlocks 0).1 hsb) hb
      | some p =>
        obtain ⟨b0, i0⟩ := p
        obtain ⟨k0, _, hi0, _, _⟩ := (scanBlocks_eq_some t s.TimeBlocks 0 b0 i0).1 hsb
        refine Or.inr ⟨b0, i0, by omega, ?_⟩
        simp [scanSchedules, hc, hsb]

/-- C1: GetActiveTimeBlock returns the first active block and its index. For every
config and instant, the result is (some block, i) exactly when the schedules split
as pre ++ s :: post where s matches the weekday, no matching schedule of pre has an
active block, block is the block of s at index i, is active, and no earlier block of
s is active; the result is (none, -1) exactly when no block of a matching schedule is
active; there is no third kind of result; and a block is active exactly when the
HH:MM value is not below its start and is below its end, so that it is active at its
start time (when that is below its end) and never at its end time. -/
theorem C1_GetActiveTimeBlock_first_match (lower : String → String) (config : DeviceConfig)
    (now : Time) :
    (∀ (block : TimeBlock) (i : Int),
      GetActiveTimeBlock lower config now = (some block, i) ↔
        ∃ (pre post : List DaySchedule) (s : DaySchedule) (k : Nat),
          config.DailySchedules = pre ++ s :: post ∧
          containsDay lower s.Days (lower (weekdayString now.weekday)) = true ∧
          (∀ s1 ∈ pre, containsDay lower s1.Days (lower (weekdayString now.weekday)) = true →
            ∀ b ∈ s1.TimeBlocks, blockActive (format1504 now) b = false) ∧
          s.TimeBlocks[k]? = some block ∧ i = (k : Int) ∧
          blockActive (format1504 now) block = true ∧
          (∀ j < k, ∀ b, s.TimeBlocks[j]? = some b → blockActive (format1504 now) b = false)) ∧
    (GetActiveTimeBlock lower config now = (none, -1) ↔
      ∀ s ∈ config.DailySchedules,
        containsDay lower s.Days (lower (weekdayString now.weekday)) = true →
          ∀ b ∈ s.TimeBlocks, blockActive (format1504 now) b = false) ∧
    (GetActiveTimeBlock lower config now = (none, -1) ∨
      ∃ (block : TimeBlock) (i : Int), 0 ≤ i ∧
        GetActiveTimeBlock lower config now = (some block, i)) ∧
    (∀ b : TimeBlock, blockActive (format1504 now) b = true ↔
      (strLt (format1504 now) b.StartTime = false ∧ strLt (format1504 now) b.EndTime = true)) ∧
    (∀ b : TimeBlock, b.StartTime = format1504 now → strLt (format1504 now) b.EndTime = true →
      blockActive (format1504 now) b = true) ∧
    (∀ b : TimeBlock, b.EndTime = format1504 now → blockActive (format1504 now) b = false) := by
  refine ⟨?_, ?_, ?_, ?_, ?_, ?_⟩
  · intro block i
    exact scanSchedules_eq_some lower _ _ config.DailySchedules block i
  · exact scanSchedules_eq_none lower _ _ config.DailySchedules
  · exact scanSchedules_cases lower _ _ config.DailySchedules
  · intro b
    simp [blockActive, strGe]
  · intro b hs he
    unfold blockActive strGe
    rw [hs, he]
    simp [strLt, charsLt_irrefl]
  · intro b he
    simp [blockActive, he, strLt, charsLt_irrefl]

theorem containsDay_iff (lower : String → String) (days : List String) (day : String) :
    containsDay lower days day = true ↔
      ∃ d ∈ days,
        (lower d = "weekdays" ∧ day ≠ "saturday" ∧ day ≠ "sunday") ∨
        (lower d = "weekends" ∧ (day = "saturday" ∨ day = "sunday")) ∨
        (lower d ≠ "weekdays" ∧ lower d ≠ "weekends" ∧ lower d = day) := by
  induction days with
  | nil => simp [containsDay]
  | cons d rest ih =>
    simp only [List.mem_cons, exists_eq_or_imp, ← ih]
    by_cases h1 : lower d = "weekdays"
    · by_cases h2 : day ≠ "saturday" ∧ day ≠ "sunday"
      · simp [containsDay, h1, h2]
      · simp only [containsDay, h1, h2, if_true, if_false]
        have : ¬ (day ≠ "saturday" ∧ day ≠ "sunday") := h2
        simp [this]
    · by_cases h2 : lower d = "weekends"
      · by_cases h3 : day = "saturday" ∨ day = "sunday"
        · simp [containsDay, h2, h3]
        · simp [containsDay, h2, h3]
      · by_cases h3 : lower d = day
        · subst h3
          simp [containsDay, h1, h2]
        · simp [containsDay, h1, h2, h3]

/-- C2 as amended: for every list of selectors and every lowercase weekday name,
containsDay is true exactly when some selector, once lowercased, is weekdays and the
day is one of monday to friday, or is weekends and the day is saturday or sunday, or
equals the weekday name. -/
theorem C2_containsDay_lowercased (lower : String → String) (days : List String) (day : String)
    (hday : day ∈ lowerDayNames) :
    containsDay lower days day = true ↔
      ∃ d ∈ days,
        (lower d = "weekdays" ∧
          day ∈ ["monday", "tuesday", "wednesday", "thursday", "friday"]) ∨
        (lower d = "weekends" ∧ day ∈ ["saturday", "sunday"]) ∨
        lower d = day := by
  rw [containsDay_iff]
  have hcases : day = "sunday" ∨ day = "monday" ∨ day = "tuesday" ∨ day = "wednesday" ∨
      day = "thursday" ∨ day = "friday" ∨ day = "saturday" := by
    simpa [lowerDayNames] using hday
  constructor
  · rintro ⟨d, hd, h⟩
    refine ⟨d, hd, ?_⟩
    rcases h with ⟨h1, h2, h3⟩ | ⟨h1, h2⟩ | ⟨_, _, h3⟩
    · left
      refine ⟨h1, ?_⟩
      rcases hcases with h | h | h | h | h | h | h <;> simp_all
    · right; left
      refine ⟨h1, ?_⟩
      rcases h2 with h | h <;> simp [h]
    · right; right
      exact h3
  · rintro ⟨d, hd, h⟩
    refine ⟨d, hd, ?_⟩
    rcases h with ⟨h1, h2⟩ | ⟨h1, h2⟩ | h3
    · left
      refine ⟨h1, ?_⟩
      simp only [List.mem_cons, List.mem_singleton, List.not_mem_nil, or_false] at h2
      rcases h2 with h | h | h | h | h <;> subst h <;> decide
    · right; left
      refine ⟨h1, ?_⟩
      simpa using h2
    · by_cases h1 : lower d = "weekdays"
      · left
        refine ⟨h1, ?_⟩
        rw [h1] at h3
        subst h3
        revert hcases
        decide
      · by_cases h2 : lower d = "weekends"
        · rw [h2] at h3
          subst h3
          exfalso
          revert hcases
          decide
        · right; right
          exact ⟨h1, h2, h3⟩

/-- C2 as amended, at the selectors Weekdays and sunday on a monday. -/
theorem C2_containsDay_lowercased_witness :
    "monday" ∈ lowerDayNames ∧
    (containsDay toLowerASCII ["Weekdays", "sunday"] "monday" = true ↔
      ∃ d ∈ ["Weekdays", "sunday"],
        (toLowerASCII d = "weekdays" ∧
          "monday" ∈ ["monday", "tuesday", "wednesday", "thursday", "friday"]) ∨
        (toLowerASCII d = "weekends" ∧ "monday" ∈ ["saturday", "sunday"]) ∨
        toLowerASCII d = "monday") :=
  ⟨by decide, C2_containsDay_lowercased toLowerASCII ["Weekdays", "sunday"] "monday" (by decide)⟩

/-- C2 as stated fails: the selector Monday is none of weekdays, weekends or the
weekday name monday character for character, and containsDay accepts it on a monday. -/
theorem C2_containsDay_exact_counterexample :
    containsDay toLowerASCII ["Monday"] "monday" = true ∧
    ¬ ∃ d ∈ ["Monday"],
        (d = "weekdays" ∧ "monday" ∈ ["monday", "tuesday", "wednesday", "thursday", "friday"]) ∨
        (d = "weekends" ∧ "monday" ∈ ["saturday", "sunday"]) ∨
        d = "monday" := by
  decide


/-! ## Properties of usage accumulation -/

theorem wrap64_of_isInt64 (x : Int) (h : isInt64 x) : wrap64 x = x := by
  unfold isInt64 at h
  unfold wrap64
  omega

theorem wrap64_isInt64 (x : Int) : isInt64 (wrap64 x) := by
  unfold isInt64 wrap64
  omega

theorem next_usages (w : World) : w.next.2.usages = w.usages := by
  unfold World.next
  cases w.faults <;> rfl

theorem next_states (w : World) : w.next.2.states = w.states := by
  unfold World.next
  cases w.faults <;> rfl

theorem next_calls (w : World) : w.next.2.calls = w.calls := by
  unfold World.next
  cases w.faults <;> rfl

theorem next_nextID (w : World) : w.next.2.nextID = w.nextID := by
  unfold World.next
  cases w.faults <;> rfl

theorem next_of_no_faults (w : World) (h : w.faults = []) : w.next = (false, w) := by
  unfold World.next
  rw [h]

theorem usageKey_setUsageColumns (mac date : String) (idx : Int) (v row : BlockUsage) :
    usageKey mac date idx (setUsageColumns v row) = usageKey mac date idx row := rfl

theorem find_map_of_key {α : Type} (p : α → Bool) (f : α → α) (hf : ∀ x, p (f x) = p x)
    (l : List α) : (l.map f).find? p = (l.find? p).map f := by
  induction l with
  | nil => rfl
  | cons x xs ih =>
    simp only [List.map_cons, List.find?_cons, hf]
    cases p x <;> simp [ih]

theorem GetOrCreateBlockUsage_ok (mac date : String) (idx : Int) (st en : String)
    (lm lb : Option Int) (w w1 : World) (u : BlockUsage)
    (h : GetOrCreateBlockUsage mac date idx st en lm lb w = (.ok u, w1)) :
    findUsage mac date idx w1 = some u ∧ w1.states = w.states ∧ w1.calls = w.calls ∧
      (findUsage mac date idx w = some u ∨
        (findUsage mac date idx w = none ∧ u.UsedBytes = 0 ∧ u.UsedMinutes = 0 ∧
          u.LastTxBytes = 0 ∧ u.LastRxBytes = 0 ∧ u.IsBlocked = false ∧
          u.BonusMinutes = 0 ∧ u.BonusBytes = 0)) := by
  unfold GetOrCreateBlockUsage at h
  rcases hn : w.next with ⟨f, w0⟩
  have hu0 : w0.usages = w.usages := by rw [← next_usages w, hn]
  have hs0 : w0.states = w.states := by rw [← next_states w, hn]
  have hc0 : w0.calls = w.calls := by rw [← next_calls w, hn]
  rw [hn] at h
  cases f with
  | true => simp at h
  | false =>
    simp only at h
    cases hf : w0.usages.find? (usageKey mac date idx) with
    | some u0 =>
      rw [hf] at h
      simp only [Prod.mk.injEq, Except.ok.injEq] at h
      obtain ⟨h1, h2⟩ := h
      subst h1 h2
      exact ⟨hf, hs0, hc0, Or.inl (by rw [findUsage, ← hu0, hf])⟩
    | none =>
      rw [hf] at h
      rcases hn1 : w0.next with ⟨f1, w00⟩
      have hu1 : w00.usages = w0.usages := by rw [← next_usages w0, hn1]
      have hs1 : w00.states = w0.states := by rw [← next_states w0, hn1]
      have hc1 : w00.calls = w0.calls := by rw [← next_calls w0, hn1]
      rw [hn1] at h
      cases f1 with
      | true => simp at h
      | false =>
        simp only [Prod.mk.injEq, Except.ok.injEq] at h
        obtain ⟨h1, h2⟩ := h
        subst h1 h2
        refine ⟨?_, by simp [hs1, hs0], by simp [hc1, hc0], Or.inr ⟨by rw [findUsage, ← hu0, hf], rfl, rfl, rfl, rfl, rfl, rfl, rfl⟩⟩
        simp only [findUsage, List.find?_append, hu1, hf, Option.none_or]
        simp [usageKey]

theorem GetOrCreateBlockUsage_no_faults (mac date : String) (idx : Int) (st en : String)
    (lm lb : Option Int) (w : World) (h : w.faults = []) :
    ∃ u w1, GetOrCreateBlockUsage mac date idx st en lm lb w = (.ok u, w1) ∧ w1.faults = [] := by
  unfold GetOrCreateBlockUsage
  rw [next_of_no_faults w h]
  simp only
  cases hf : w.usages.find? (usageKey mac date idx) with
  | some u0 => exact ⟨u0, w, rfl, h⟩
  | none =>
    simp only
    rw [next_of_no_faults w h]
    exact ⟨_, _, rfl, h⟩

theorem UpdateBlockUsage_ok (mac date : String) (idx : Int) (v u : BlockUsage) (w1 w2 : World)
    (h : UpdateBlockUsage v w1 = (.ok (), w2))
    (hfind : findUsage mac date idx w1 = some u) (hid : v.ID = u.ID) :
    findUsage mac date idx w2 = some (setUsageColumns v u) ∧ w2.states = w1.states ∧
      w2.calls = w1.calls := by
  unfold UpdateBlockUsage at h
  rcases hn : w1.next with ⟨f, w0⟩
  have hu0 : w0.usages = w1.usages := by rw [← next_usages w1, hn]
  have hs0 : w0.states = w1.states := by rw [← next_states w1, hn]
  have hc0 : w0.calls = w1.calls := by rw [← next_calls w1, hn]
  rw [hn] at h
  cases f with
  | true => simp at h
  | false =>
    simp only [Prod.mk.injEq, true_and] at h
    subst h
    refine ⟨?_, hs0, hc0⟩
    simp only [findUsage]
    rw [find_map_of_key]
    · rw [hu0]
      unfold findUsage at hfind
      rw [hfind]
      simp [hid]
    · intro x
      by_cases hx : x.ID = v.ID
      · simp [hx, usageKey_setUsageColumns]
      · simp [hx]

theorem UpdateBlockUsage_no_faults (v : BlockUsage) (w1 : World) (h : w1.faults = []) :
    ∃ w2, UpdateBlockUsage v w1 = (.ok (), w2) ∧ w2.faults = [] := by
  unfold UpdateBlockUsage
  rw [next_of_no_faults w1 h]
  exact ⟨_, rfl, h⟩

theorem accumulate_ID (a : Accumulator) (u : BlockUsage) (c : ClientInfo) :
    (accumulate a u c).ID = u.ID := by
  unfold accumulate
  split
  · rfl
  · simp only
    split <;> rfl

theorem setUsageColumns_accumulate (a : Accumulator) (u : BlockUsage) (c : ClientInfo) :
    setUsageColumns (accumulate a u c) u = accumulate a u c := by
  unfold accumulate setUsageColumns
  split
  · rfl
  · simp only
    split <;> rfl


theorem ProcessClientStats_of_record (a : Accumulator) (mac : String) (client : ClientInfo)
    (now : Time) (block : TimeBlock) (idx : Int) (w w1 : World) (u : BlockUsage)
    (hget : GetOrCreateBlockUsage mac now.date idx block.StartTime block.EndTime
      block.LimitMinutes block.LimitBytes w = (.ok u, w1)) :
    (w1.faults = [] → (ProcessClientStats a mac client now block idx w).1 = .ok ()) ∧
    ((ProcessClientStats a mac client now block idx w).1 = .ok () →
      findUsage mac now.date idx (ProcessClientStats a mac client now block idx w).2 =
        some (accumulate a u client)) := by
  have hrun : ProcessClientStats a mac client now block idx w =
      UpdateBlockUsage (accumulate a u client) w1 := by
    unfold ProcessClientStats
    rw [hget]
  rw [hrun]
  constructor
  · intro hf
    obtain ⟨w2, h2, _⟩ := UpdateBlockUsage_no_faults (accumulate a u client) w1 hf
    rw [h2]
  · intro hok
    rcases hres : UpdateBlockUsage (accumulate a u client) w1 with ⟨r, w2⟩
    rw [hres] at hok
    simp only at hok
    subst hok
    have hfind := (GetOrCreateBlockUsage_ok mac now.date idx _ _ _ _ w w1 u hget).1
    have := (UpdateBlockUsage_ok mac now.date idx (accumulate a u client) u w1 w2 hres hfind
      (accumulate_ID a u client)).1
    rw [setUsageColumns_accumulate] at this
    exact this

theorem ProcessClientStats_ok_record (a : Accumulator) (mac : String) (client : ClientInfo)
    (now : Time) (block : TimeBlock) (idx : Int) (w : World)
    (hok : (ProcessClientStats a mac client now block idx w).1 = .ok ()) :
    ∃ u w1, GetOrCreateBlockUsage mac now.date idx block.StartTime block.EndTime
      block.LimitMinutes block.LimitBytes w = (.ok u, w1) := by
  rcases hget : GetOrCreateBlockUsage mac now.date idx block.StartTime block.EndTime
      block.LimitMinutes block.LimitBytes w with ⟨r, w1⟩
  cases r with
  | ok u => exact ⟨u, w1, rfl⟩
  | error e =>
    unfold ProcessClientStats at hok
    rw [hget] at hok
    simp at hok

/-- C3: for every usage record whose stored baseline is zero, ProcessClientStats on a
sample with positive counters returns without error when no store call fails, and
whenever it returns without error the stored record has its used_bytes and
used_minutes unchanged (nothing is charged: the delta is zero) and the sample's tx
and rx counters as its new baseline. -/
theorem C3_first_sample_sets_baseline (a : Accumulator) (mac : String) (client : ClientInfo)
    (now : Time) (block : TimeBlock) (idx : Int) (w w1 : World) (u : BlockUsage)
    (hget : GetOrCreateBlockUsage mac now.date idx block.StartTime block.EndTime
      block.LimitMinutes block.LimitBytes w = (.ok u, w1))
    (htx0 : u.LastTxBytes = 0) (hrx0 : u.LastRxBytes = 0) :
    (w1.faults = [] → (ProcessClientStats a mac client now block idx w).1 = .ok ()) ∧
    ((ProcessClientStats a mac client now block idx w).1 = .ok () →
      ∃ v, findUsage mac now.date idx (ProcessClientStats a mac client now block idx w).2 = some v ∧
        v.UsedBytes = u.UsedBytes ∧ v.UsedMinutes = u.UsedMinutes ∧
        v.LastTxBytes = client.TxBytes ∧ v.LastRxBytes = client.RxBytes ∧
        chargedDelta u client = 0) := by
  obtain ⟨htotal, hrec⟩ := ProcessClientStats_of_record a mac client now block idx w w1 u hget
  refine ⟨htotal, fun hok => ⟨_, hrec hok, ?_⟩⟩
  have hl : lastTotal u = 0 := by
    unfold lastTotal
    rw [htx0, hrx0]
    decide
  simp [accumulate, chargedDelta, hl]


theorem activeMinutes_eq_ceil (a : Accumulator) (h0 : 0 ≤ a.pollIntervalSecs)
    (h1 : a.pollIntervalSecs + 59 < 2 ^ 63) :
    activeMinutes a = max 1 ⌈(a.pollIntervalSecs : ℚ) / 60⌉ := by
  have hw : wrap64 (a.pollIntervalSecs + 59) = a.pollIntervalSecs + 59 :=
    wrap64_of_isInt64 _ ⟨by omega, h1⟩
  have hdiv : (a.pollIntervalSecs + 59).tdiv 60 = (a.pollIntervalSecs + 59) / 60 :=
    Int.tdiv_eq_ediv (by omega) (by norm_num)
  have hceil : ⌈(a.pollIntervalSecs : ℚ) / 60⌉ = (a.pollIntervalSecs + 59) / 60 := by
    rw [Int.ceil_eq_iff]
    have hz1 : 60 * ((a.pollIntervalSecs + 59) / 60) ≤ a.pollIntervalSecs + 59 :=
      Int.mul_ediv_self_le (by norm_num)
    have hz2 : a.pollIntervalSecs + 59 < 60 * ((a.pollIntervalSecs + 59) / 60) + 60 :=
      Int.lt_mul_ediv_self_add (by norm_num)
    constructor
    · rw [lt_div_iff₀ (by norm_num)]
      have : ((a.pollIntervalSecs + 59) / 60 - 1) * 60 < a.pollIntervalSecs := by omega
      exact_mod_cast this
    · rw [div_le_iff₀ (by norm_num)]
      have : a.pollIntervalSecs ≤ ((a.pollIntervalSecs + 59) / 60) * 60 := by omega
      exact_mod_cast this
  unfold activeMinutes
  simp only [hw, hdiv, hceil]
  split
  · rw [max_eq_left (by omega)]
  · rw [max_eq_right (by omega)]


theorem currentTotal_of_range (client : ClientInfo)
    (h : isInt64 (client.TxBytes + client.RxBytes)) :
    currentTotal client = client.TxBytes + client.RxBytes :=
  wrap64_of_isInt64 _ h

theorem lastTotal_of_range (u : BlockUsage) (h : isInt64 (u.LastTxBytes + u.LastRxBytes)) :
    lastTotal u = u.LastTxBytes + u.LastRxBytes :=
  wrap64_of_isInt64 _ h

theorem accumulate_UsedBytes (a : Accumulator) (u : BlockUsage) (c : ClientInfo) :
    (accumulate a u c).UsedBytes =
      if lastTotal u = 0 then u.UsedBytes else wrap64 (u.UsedBytes + trafficDelta u c) := by
  unfold accumulate
  split
  · rfl
  · simp only
    split <;> rfl

theorem accumulate_UsedMinutes (a : Accumulator) (u : BlockUsage) (c : ClientInfo) :
    (accumulate a u c).UsedMinutes =
      if chargedDelta u c > ActivityThreshold then wrap64 (u.UsedMinutes + activeMinutes a)
      else u.UsedMinutes := by
  unfold accumulate chargedDelta
  by_cases h : lastTotal u = 0
  · simp [h, ActivityThreshold]
  · simp only [h, if_false]
    split <;> rfl

theorem accumulate_Last (a : Accumulator) (u : BlockUsage) (c : ClientInfo) :
    (accumulate a u c).LastTxBytes = c.TxBytes ∧ (accumulate a u c).LastRxBytes = c.RxBytes := by
  unfold accumulate
  split
  · exact ⟨rfl, rfl⟩
  · exact ⟨rfl, rfl⟩

/-- C4: for every usage record with a non-zero stored total and every sample whose
total is smaller than it (a counter reset), ProcessClientStats returns without error
when no store call fails, and whenever it returns without error the charged delta is
the current total and the stored used_bytes is the old value plus the current total
in 64-bit arithmetic; when the sample's counters are non-negative and the sums fit
in an int64, that is exactly used_bytes + (txBytes + rxBytes), and the amount added is
not negative. -/
theorem C4_reset_charges_current_total (a : Accumulator) (mac : String) (client : ClientInfo)
    (now : Time) (block : TimeBlock) (idx : Int) (w w1 : World) (u : BlockUsage)
    (hget : GetOrCreateBlockUsage mac now.date idx block.StartTime block.EndTime
      block.LimitMinutes block.LimitBytes w = (.ok u, w1))
    (hlast : lastTotal u ≠ 0) (hreset : currentTotal client < lastTotal u) :
    (w1.faults = [] → (ProcessClientStats a mac client now block idx w).1 = .ok ()) ∧
    ((ProcessClientStats a mac client now block idx w).1 = .ok () →
      ∃ v, findUsage mac now.date idx (ProcessClientStats a mac client now block idx w).2 = some v ∧
        chargedDelta u client = currentTotal client ∧
        v.UsedBytes = wrap64 (u.UsedBytes + currentTotal client) ∧
        (0 ≤ client.TxBytes → 0 ≤ client.RxBytes → client.TxBytes + client.RxBytes < 2 ^ 63 →
          isInt64 u.UsedBytes → u.UsedBytes + (client.TxBytes + client.RxBytes) < 2 ^ 63 →
            v.UsedBytes = u.UsedBytes + (client.TxBytes + client.RxBytes) ∧
            0 ≤ chargedDelta u client ∧ u.UsedBytes ≤ v.UsedBytes)) := by
  obtain ⟨htotal, hrec⟩ := ProcessClientStats_of_record a mac client now block idx w w1 u hget
  refine ⟨htotal, fun hok => ⟨_, hrec hok, ?_⟩⟩
  have hd : trafficDelta u client = currentTotal client := by
    unfold trafficDelta
    rw [if_pos hreset]
  have hcd : chargedDelta u client = currentTotal client := by
    unfold chargedDelta
    rw [if_neg hlast, hd]
  have hub : (accumulate a u client).UsedBytes = wrap64 (u.UsedBytes + currentTotal client) := by
    rw [accumulate_UsedBytes, if_neg hlast, hd]
  refine ⟨hcd, hub, ?_⟩
  intro htx hrx hsum hused hnew
  have hcur : currentTotal client = client.TxBytes + client.RxBytes :=
    currentTotal_of_range client ⟨by omega, hsum⟩
  have hwrap : wrap64 (u.UsedBytes + (client.TxBytes + client.RxBytes)) =
      u.UsedBytes + (client.TxBytes + client.RxBytes) :=
    wrap64_of_isInt64 _ ⟨by have := hused.1; omega, hnew⟩
  rw [hub, hcd, hcur, hwrap]
  exact ⟨rfl, by omega, by omega⟩

/-- C5: for every usage record with a non-zero stored total and every sample whose
total is at least that, ProcessClientStats returns without error when no store call
fails, and whenever it returns without error the charged delta is the difference of
the totals and the stored used_bytes is the old value plus that difference in 64-bit
arithmetic; when the sums fit in an int64 that is exactly
used_bytes + ((txBytes + rxBytes) - (last_tx_bytes + last_rx_bytes)). -/
theorem C5_normal_charges_difference (a : Accumulator) (mac : String) (client : ClientInfo)
    (now : Time) (block : TimeBlock) (idx : Int) (w w1 : World) (u : BlockUsage)
    (hget : GetOrCreateBlockUsage mac now.date idx block.StartTime block.EndTime
      block.LimitMinutes block.LimitBytes w = (.ok u, w1))
    (hlast : lastTotal u ≠ 0) (hge : lastTotal u ≤ currentTotal client) :
    (w1.faults = [] → (ProcessClientStats a mac client now block idx w).1 = .ok ()) ∧
    ((ProcessClientStats a mac client now block idx w).1 = .ok () →
      ∃ v, findUsage mac now.date idx (ProcessClientStats a mac client now block idx w).2 = some v ∧
        chargedDelta u client = wrap64 (currentTotal client - lastTotal u) ∧
        v.UsedBytes = wrap64 (u.UsedBytes + wrap64 (currentTotal client - lastTotal u)) ∧
        (isInt64 (client.TxBytes + client.RxBytes) → isInt64 (u.LastTxBytes + u.LastRxBytes) →
          isInt64 (client.TxBytes + client.RxBytes - (u.LastTxBytes + u.LastRxBytes)) →
          isInt64 (u.UsedBytes +
            (client.TxBytes + client.RxBytes - (u.LastTxBytes + u.LastRxBytes))) →
            v.UsedBytes = u.UsedBytes +
              (client.TxBytes + client.RxBytes - (u.LastTxBytes + u.LastRxBytes)))) := by
  obtain ⟨htotal, hrec⟩ := ProcessClientStats_of_record a mac client now block idx w w1 u hget
  refine ⟨htotal, fun hok => ⟨_, hrec hok, ?_⟩⟩
  have hd : trafficDelta u client = wrap64 (currentTotal client - lastTotal u) := by
    unfold trafficDelta
    rw [if_neg (by omega)]
  have hcd : chargedDelta u client = wrap64 (currentTotal client - lastTotal u) := by
    unfold chargedDelta
    rw [if_neg hlast, hd]
  have hub : (accumulate a u client).UsedBytes =
      wrap64 (u.UsedBytes + wrap64 (currentTotal client - lastTotal u)) := by
    rw [accumulate_UsedBytes, if_neg hlast, hd]
  refine ⟨hcd, hub, ?_⟩
  intro hc hl hdiff hnew
  rw [hub, currentTotal_of_range client hc, lastTotal_of_range u hl,
    wrap64_of_isInt64 _ hdiff, wrap64_of_isInt64 _ hnew]

/-- C6: for every poll interval of s whole seconds with 0 <= s (and s + 59 within an
int) and every usage record and sample, whenever ProcessClientStats returns without
error the stored used_minutes is the old value plus max(1, ceil(s / 60)) (in 64-bit
arithmetic, and exactly when that fits) if the charged delta is greater than 1024,
and is the old value if the charged delta is 1024 or less; the amount is 1 for
s = 30, 2 for s = 90 and 1 for s = 0. -/
theorem C6_active_minutes (a : Accumulator) (mac : String) (client : ClientInfo)
    (now : Time) (block : TimeBlock) (idx : Int) (w w1 : World) (u : BlockUsage)
    (hget : GetOrCreateBlockUsage mac now.date idx block.StartTime block.EndTime
      block.LimitMinutes block.LimitBytes w = (.ok u, w1))
    (hs0 : 0 ≤ a.pollIntervalSecs) (hs1 : a.pollIntervalSecs + 59 < 2 ^ 63) :
    (w1.faults = [] → (ProcessClientStats a mac client now block idx w).1 = .ok ()) ∧
    ((ProcessClientStats a mac client now block idx w).1 = .ok () →
      ∃ v, findUsage mac now.date idx (ProcessClientStats a mac client now block idx w).2 = some v ∧
        (chargedDelta u client > 1024 →
          v.UsedMinutes = wrap64 (u.UsedMinutes + max 1 ⌈(a.pollIntervalSecs : ℚ) / 60⌉) ∧
          (isInt64 (u.UsedMinutes + max 1 ⌈(a.pollIntervalSecs : ℚ) / 60⌉) →
            v.UsedMinutes = u.UsedMinutes + max 1 ⌈(a.pollIntervalSecs : ℚ) / 60⌉)) ∧
        (chargedDelta u client ≤ 1024 → v.UsedMinutes = u.UsedMinutes)) ∧
    activeMinutes { pollIntervalSecs := 30 } = 1 ∧
    activeMinutes { pollIntervalSecs := 90 } = 2 ∧
    activeMinutes { pollIntervalSecs := 0 } = 1 := by
  obtain ⟨htotal, hrec⟩ := ProcessClientStats_of_record a mac client now block idx w w1 u hget
  refine ⟨htotal, fun hok => ⟨_, hrec hok, ?_, ?_⟩, by decide, by decide, by decide⟩
  · intro hbig
    have hm : (accumulate a u client).UsedMinutes =
        wrap64 (u.UsedMinutes + max 1 ⌈(a.pollIntervalSecs : ℚ) / 60⌉) := by
      rw [accumulate_UsedMinutes, if_pos (by simpa [ActivityThreshold] using hbig),
        activeMinutes_eq_ceil a hs0 hs1]
    refine ⟨hm, fun hfit => ?_⟩
    rw [hm, wrap64_of_isInt64 _ hfit]
  · intro hsmall
    rw [accumulate_UsedMinutes, if_neg (by simp only [ActivityThreshold]; omega)]

/-- C7: for every usage record and every sample, ProcessClientStats returns without
error when no store call fails, and whenever it returns without error the stored
record of the window has last_tx_bytes = txBytes and last_rx_bytes = rxBytes,
whichever path (first observation, reset, normal) was taken. -/
theorem C7_counters_refreshed (a : Accumulator) (mac : String) (client : ClientInfo)
    (now : Time) (block : TimeBlock) (idx : Int) (w : World) :
    (w.faults = [] → (ProcessClientStats a mac client now block idx w).1 = .ok ()) ∧
    ((ProcessClientStats a mac client now block idx w).1 = .ok () →
      ∃ v, findUsage mac now.date idx (ProcessClientStats a mac client now block idx w).2 = some v ∧
        v.LastTxBytes = client.TxBytes ∧ v.LastRxBytes = client.RxBytes) := by
  constructor
  · intro hf
    obtain ⟨u, w1, hget, hf1⟩ := GetOrCreateBlockUsage_no_faults mac now.date idx block.StartTime
      block.EndTime block.LimitMinutes block.LimitBytes w hf
    exact (ProcessClientStats_of_record a mac client now block idx w w1 u hget).1 hf1
  · intro hok
    obtain ⟨u, w1, hget⟩ := ProcessClientStats_ok_record a mac client now block idx w hok
    exact ⟨_, (ProcessClientStats_of_record a mac client now block idx w w1 u hget).2 hok,
      accumulate_Last a u client⟩


theorem activeMinutes_pos (a : Accumulator) : 1 ≤ activeMinutes a := by
  unfold activeMinutes
  simp only
  split <;> omega

theorem chargedDelta_bounds (u : BlockUsage) (c : ClientInfo)
    (h1 : 0 ≤ u.LastTxBytes) (h2 : 0 ≤ u.LastRxBytes) (h3 : u.LastTxBytes + u.LastRxBytes < 2 ^ 63)
    (h4 : 0 ≤ c.TxBytes) (h5 : 0 ≤ c.RxBytes) (h6 : c.TxBytes + c.RxBytes < 2 ^ 63) :
    0 ≤ chargedDelta u c ∧ chargedDelta u c ≤ c.TxBytes + c.RxBytes := by
  have hc : currentTotal c = c.TxBytes + c.RxBytes :=
    currentTotal_of_range c ⟨by omega, h6⟩
  have hl : lastTotal u = u.LastTxBytes + u.LastRxBytes :=
    lastTotal_of_range u ⟨by omega, h3⟩
  unfold chargedDelta trafficDelta
  rw [hc, hl]
  split
  · omega
  · split
    · omega
    · rw [wrap64_of_isInt64 _ ⟨by omega, by omega⟩]
      omega

theorem accumulate_UsedBytes_charged (a : Accumulator) (u : BlockUsage) (c : ClientInfo) :
    (accumulate a u c).UsedBytes = wrap64 (u.UsedBytes + chargedDelta u c) ∨
    ((accumulate a u c).UsedBytes = u.UsedBytes ∧ chargedDelta u c = 0) := by
  rw [accumulate_UsedBytes]
  unfold chargedDelta
  split
  · exact Or.inr ⟨rfl, rfl⟩
  · exact Or.inl rfl

theorem sum_nonneg_of_range (samples : List ClientInfo)
    (h : ∀ c ∈ samples, 0 ≤ c.TxBytes ∧ 0 ≤ c.RxBytes ∧ c.TxBytes + c.RxBytes < 2 ^ 63) :
    0 ≤ (samples.map (fun c => c.TxBytes + c.RxBytes)).sum := by
  induction samples with
  | nil => simp
  | cons c rest ih =>
    have hc := h c (List.mem_cons_self _ _)
    have hr := ih (fun x hx => h x (List.mem_cons_of_mem _ hx))
    simp only [List.map_cons, List.sum_cons]
    omega

theorem countersInRange_tail (a : Accumulator) (u : BlockUsage) (c : ClientInfo)
    (rest : List ClientInfo) (h : countersInRange a u (c :: rest)) :
    countersInRange a u rest := by
  obtain ⟨h1, h2, h3, h4, h5, h6, h7, h8⟩ := h
  have hc := h4 c (List.mem_cons_self _ _)
  have hrest : ∀ x ∈ rest, 0 ≤ x.TxBytes ∧ 0 ≤ x.RxBytes ∧ x.TxBytes + x.RxBytes < 2 ^ 63 :=
    fun x hx => h4 x (List.mem_cons_of_mem _ hx)
  have hpos := activeMinutes_pos a
  simp only [List.map_cons, List.sum_cons, List.length_cons, Nat.cast_add, Nat.cast_one] at h6 h8
  refine ⟨h1, h2, h3, hrest, h5, by omega, h7, ?_⟩
  have : ((rest.length : Int) + 1) * activeMinutes a =
      (rest.length : Int) * activeMinutes a + activeMinutes a := by ring
  omega

theorem countersInRange_accumulate (a : Accumulator) (u : BlockUsage) (c : ClientInfo)
    (rest : List ClientInfo) (h : countersInRange a u (c :: rest)) :
    countersInRange a (accumulate a u c) rest ∧
      u.UsedBytes ≤ (accumulate a u c).UsedBytes ∧
      u.UsedMinutes ≤ (accumulate a u c).UsedMinutes := by
  obtain ⟨h1, h2, h3, h4, h5, h6, h7, h8⟩ := h
  have hc := h4 c (List.mem_cons_self _ _)
  have hrest : ∀ x ∈ rest, 0 ≤ x.TxBytes ∧ 0 ≤ x.RxBytes ∧ x.TxBytes + x.RxBytes < 2 ^ 63 :=
    fun x hx => h4 x (List.mem_cons_of_mem _ hx)
  have hsum := sum_nonneg_of_range rest hrest
  have hpos := activeMinutes_pos a
  have hd := chargedDelta_bounds u c h1 h2 h3 hc.1 hc.2.1 hc.2.2
  simp only [List.map_cons, List.sum_cons, List.length_cons, Nat.cast_add, Nat.cast_one] at h6 h8
  have hlen : ((rest.length : Int) + 1) * activeMinutes a =
      (rest.length : Int) * activeMinutes a + activeMinutes a := by ring
  have hlen0 : 0 ≤ (rest.length : Int) * activeMinutes a :=
    mul_nonneg (by omega) (by omega)
  obtain ⟨h51, h52⟩ := h5
  obtain ⟨h71, h72⟩ := h7
  have hb : u.UsedBytes ≤ (accumulate a u c).UsedBytes ∧
      (accumulate a u c).UsedBytes ≤ u.UsedBytes + (c.TxBytes + c.RxBytes) := by
    rcases accumulate_UsedBytes_charged a u c with hx | ⟨hx, _⟩
    · rw [hx, wrap64_of_isInt64 _ ⟨by omega, by omega⟩]
      omega
    · rw [hx]
      omega
  have hm : u.UsedMinutes ≤ (accumulate a u c).UsedMinutes ∧
      (accumulate a u c).UsedMinutes ≤ u.UsedMinutes + activeMinutes a := by
    rw [accumulate_UsedMinutes]
    split
    · rw [wrap64_of_isInt64 _ ⟨by omega, by omega⟩]
      omega
    · omega
  obtain ⟨hl1, hl2⟩ := accumulate_Last a u c
  refine ⟨⟨by rw [hl1]; exact hc.1, by rw [hl2]; exact hc.2.1, by rw [hl1, hl2]; exact hc.2.2,
    hrest, ⟨by omega, by omega⟩, by omega, ⟨by omega, by omega⟩, by omega⟩, hb.1, hm.1⟩


theorem GetOrCreateBlockUsage_found (mac date : String) (idx : Int) (st en : String)
    (lm lb : Option Int) (w : World) (u : BlockUsage)
    (hfind : findUsage mac date idx w = some u) :
    (GetOrCreateBlockUsage mac date idx st en lm lb w).2.usages = w.usages ∧
      ((GetOrCreateBlockUsage mac date idx st en lm lb w).1 = .ok u ∨
        ∃ e, (GetOrCreateBlockUsage mac date idx st en lm lb w).1 = .error e) := by
  unfold GetOrCreateBlockUsage
  rcases hn : w.next with ⟨f, w0⟩
  have hu0 : w0.usages = w.usages := by rw [← next_usages w, hn]
  cases f with
  | true => exact ⟨hu0, Or.inr ⟨_, rfl⟩⟩
  | false =>
    simp only
    unfold findUsage at hfind
    rw [hu0, hfind]
    exact ⟨hu0, Or.inl rfl⟩

theorem UpdateBlockUsage_error (v : BlockUsage) (w1 : World) (e : Err)
    (h : (UpdateBlockUsage v w1).1 = .error e) :
    (UpdateBlockUsage v w1).2.usages = w1.usages := by
  unfold UpdateBlockUsage at h ⊢
  rcases hn : w1.next with ⟨f, w0⟩
  have hu0 : w0.usages = w1.usages := by rw [← next_usages w1, hn]
  rw [hn] at h
  cases f with
  | true => exact hu0
  | false => simp at h

theorem ProcessClientStats_found (a : Accumulator) (mac : String) (client : ClientInfo)
    (now : Time) (block : TimeBlock) (idx : Int) (w : World) (u : BlockUsage)
    (hfind : findUsage mac now.date idx w = some u) :
    findUsage mac now.date idx (ProcessClientStats a mac client now block idx w).2 = some u ∨
    findUsage mac now.date idx (ProcessClientStats a mac client now block idx w).2 =
      some (accumulate a u client) := by
  obtain ⟨hus, hres⟩ := GetOrCreateBlockUsage_found mac now.date idx block.StartTime
    block.EndTime block.LimitMinutes block.LimitBytes w u hfind
  rcases hget : GetOrCreateBlockUsage mac now.date idx block.StartTime block.EndTime
    block.LimitMinutes block.LimitBytes w with ⟨r, w1⟩
  rw [hget] at hus hres
  simp only at hus hres
  have hfind1 : findUsage mac now.date idx w1 = some u := by
    unfold findUsage at hfind ⊢
    rw [hus, hfind]
  rcases hres with hr | ⟨e, hr⟩
  · subst hr
    obtain ⟨_, hrec⟩ := ProcessClientStats_of_record a mac client now block idx w w1 u hget
    have hrun : ProcessClientStats a mac client now block idx w =
        UpdateBlockUsage (accumulate a u client) w1 := by
      unfold ProcessClientStats
      rw [hget]
    rcases hup : (UpdateBlockUsage (accumulate a u client) w1).1 with e | x
    · left
      rw [hrun]
      have := UpdateBlockUsage_error _ _ e hup
      unfold findUsage at hfind1 ⊢
      rw [this, hfind1]
    · right
      apply hrec
      rw [hrun, hup]
  · subst hr
    left
    have hrun : ProcessClientStats a mac client now block idx w = (.error e, w1) := by
      unfold ProcessClientStats
      rw [hget]
    rw [hrun]
    exact hfind1

theorem processSamples_append (a : Accumulator) (mac : String) (now : Time)
    (block : TimeBlock) (idx : Int) (s1 s2 : List ClientInfo) (w : World) :
    processSamples a mac now block idx (s1 ++ s2) w =
      processSamples a mac now block idx s2 (processSamples a mac now block idx s1 w) := by
  induction s1 generalizing w with
  | nil => rfl
  | cons c rest ih =>
    show processSamples a mac now block idx (c :: (rest ++ s2)) w = _
    simp only [processSamples]
    exact ih _

theorem processSamples_invariant (a : Accumulator) (mac : String) (now : Time)
    (block : TimeBlock) (idx : Int) (s1 s2 : List ClientInfo) (w : World) (u : BlockUsage)
    (hfind : findUsage mac now.date idx w = some u)
    (hinv : countersInRange a u (s1 ++ s2)) :
    ∃ v, findUsage mac now.date idx (processSamples a mac now block idx s1 w) = some v ∧
      countersInRange a v s2 ∧ u.UsedBytes ≤ v.UsedBytes ∧ u.UsedMinutes ≤ v.UsedMinutes := by
  induction s1 generalizing w u with
  | nil => exact ⟨u, hfind, hinv, le_refl _, le_refl _⟩
  | cons c rest ih =>
    simp only [processSamples]
    rw [List.cons_append] at hinv
    rcases ProcessClientStats_found a mac c now block idx w u hfind with h | h
    · exact ih _ u h (countersInRange_tail a u c _ hinv)
    · obtain ⟨hinv2, hb, hm⟩ := countersInRange_accumulate a u c _ hinv
      obtain ⟨v, hv, hvinv, hvb, hvm⟩ := ih _ _ h hinv2
      exact ⟨v, hv, hvinv, le_trans hb hvb, le_trans hm hvm⟩


/-- C8: for every usage record with non-negative counters and every sequence of
samples with non-negative tx and rx counters, all sums staying within int64, and for
every point of the sequence (samples = pre ++ post): the record v1 stored after pre
and the record v2 stored after the whole sequence satisfy
used_bytes(start) <= used_bytes(v1) <= used_bytes(v2) and the same for used_minutes,
whichever polls fail; and the delta d that the next poll charges on v1 satisfies
0 <= d <= currentTotal, the record it writes having used_bytes(v1) + d. -/
theorem C8_usage_never_decreases (a : Accumulator) (mac : String) (now : Time)
    (block : TimeBlock) (idx : Int) (samples : List ClientInfo) (w : World) (u : BlockUsage)
    (hfind : findUsage mac now.date idx w = some u)
    (hrange : countersInRange a u samples) :
    ∀ pre post : List ClientInfo, samples = pre ++ post →
      ∃ v1 v2,
        findUsage mac now.date idx (processSamples a mac now block idx pre w) = some v1 ∧
        findUsage mac now.date idx (processSamples a mac now block idx samples w) = some v2 ∧
        u.UsedBytes ≤ v1.UsedBytes ∧ v1.UsedBytes ≤ v2.UsedBytes ∧
        u.UsedMinutes ≤ v1.UsedMinutes ∧ v1.UsedMinutes ≤ v2.UsedMinutes ∧
        (∀ c rest, post = c :: rest →
          0 ≤ chargedDelta v1 c ∧ chargedDelta v1 c ≤ currentTotal c ∧
          (accumulate a v1 c).UsedBytes = v1.UsedBytes + chargedDelta v1 c ∧
          v1.UsedMinutes ≤ (accumulate a v1 c).UsedMinutes) := by
  intro pre post hsplit
  subst hsplit
  obtain ⟨v1, hv1, hinv1, hb1, hm1⟩ :=
    processSamples_invariant a mac now block idx pre post w u hfind hrange
  have hinv1post : countersInRange a v1 (post ++ []) := by simpa using hinv1
  obtain ⟨v2, hv2, _, hb2, hm2⟩ :=
    processSamples_invariant a mac now block idx post [] _ v1 hv1 hinv1post
  rw [← processSamples_append] at hv2
  refine ⟨v1, v2, hv1, hv2, hb1, hb2, hm1, hm2, ?_⟩
  intro c rest hpost
  subst hpost
  have hkeep := hinv1
  obtain ⟨h1, h2, h3, h4, h5, h6, _, _⟩ := hinv1
  have hc := h4 c (List.mem_cons_self _ _)
  have hd := chargedDelta_bounds v1 c h1 h2 h3 hc.1 hc.2.1 hc.2.2
  have hcur : currentTotal c = c.TxBytes + c.RxBytes :=
    currentTotal_of_range c ⟨by omega, hc.2.2⟩
  have hsum := sum_nonneg_of_range rest (fun x hx => h4 x (List.mem_cons_of_mem _ hx))
  simp only [List.map_cons, List.sum_cons] at h6
  refine ⟨hd.1, by rw [hcur]; exact hd.2, ?_, (countersInRange_accumulate a v1 c rest hkeep).2.2⟩
  rcases accumulate_UsedBytes_charged a v1 c with hx | ⟨hx, hz⟩
  · rw [hx, wrap64_of_isInt64 _ ⟨by have := h5.1; omega, by omega⟩]
  · rw [hx, hz]
    omega


/-! ## Properties of enforcement -/

theorem GetOrCreateBlockUsage_frame (mac date : String) (idx : Int) (st en : String)
    (lm lb : Option Int) (w : World) :
    (GetOrCreateBlockUsage mac date idx st en lm lb w).2.states = w.states ∧
      (GetOrCreateBlockUsage mac date idx st en lm lb w).2.calls = w.calls := by
  unfold GetOrCreateBlockUsage
  rcases hn : w.next with ⟨f, w0⟩
  have hs0 : w0.states = w.states := by rw [← next_states w, hn]
  have hc0 : w0.calls = w.calls := by rw [← next_calls w, hn]
  cases f with
  | true => exact ⟨hs0, hc0⟩
  | false =>
    simp only
    cases w0.usages.find? (usageKey mac date idx) with
    | some u0 => exact ⟨hs0, hc0⟩
    | none =>
      simp only
      rcases hn1 : w0.next with ⟨f1, w00⟩
      have hs1 : w00.states = w0.states := by rw [← next_states w0, hn1]
      have hc1 : w00.calls = w0.calls := by rw [← next_calls w0, hn1]
      cases f1 with
      | true => exact ⟨by rw [hs1, hs0], by rw [hc1, hc0]⟩
      | false => exact ⟨by simp [hs1, hs0], by simp [hc1, hc0]⟩

theorem UpdateBlockUsage_frame (v : BlockUsage) (w : World) :
    (UpdateBlockUsage v w).2.states = w.states ∧ (UpdateBlockUsage v w).2.calls = w.calls := by
  unfold UpdateBlockUsage
  rcases hn : w.next with ⟨f, w0⟩
  have hs0 : w0.states = w.states := by rw [← next_states w, hn]
  have hc0 : w0.calls = w.calls := by rw [← next_calls w, hn]
  cases f with
  | true => exact ⟨hs0, hc0⟩
  | false => exact ⟨hs0, hc0⟩

theorem GetDeviceState_spec (mac : String) (w : World) :
    (GetDeviceState mac w).2.usages = w.usages ∧ (GetDeviceState mac w).2.states = w.states ∧
      (GetDeviceState mac w).2.calls = w.calls ∧
      ((GetDeviceState mac w).1 = .error .store ∨
        (∃ s, findState mac w = some s ∧ s.MAC = mac ∧ (GetDeviceState mac w).1 = .ok s) ∨
        (findState mac w = none ∧
          (GetDeviceState mac w).1 = .ok { MAC := mac, IsBlocked := false, BlockedReason := "" })) := by
  unfold GetDeviceState
  rcases hn : w.next with ⟨f, w0⟩
  have hu0 : w0.usages = w.usages := by rw [← next_usages w, hn]
  have hs0 : w0.states = w.states := by rw [← next_states w, hn]
  have hc0 : w0.calls = w.calls := by rw [← next_calls w, hn]
  cases f with
  | true => exact ⟨hu0, hs0, hc0, Or.inl rfl⟩
  | false =>
    simp only
    cases hf : w0.states.find? (fun s => decide (s.MAC = mac)) with
    | some s =>
      have hmac : s.MAC = mac := by simpa using List.find?_some hf
      exact ⟨hu0, hs0, hc0, Or.inr (Or.inl ⟨s, by rw [findState, ← hs0, hf], hmac, rfl⟩)⟩
    | none => exact ⟨hu0, hs0, hc0, Or.inr (Or.inr ⟨by rw [findState, ← hs0, hf], rfl⟩)⟩

theorem find_replace_of_any (st : DeviceState) (l : List DeviceState)
    (h : l.any (fun s => decide (s.MAC = st.MAC)) = true) :
    (l.map (fun s => if s.MAC = st.MAC then st else s)).find?
      (fun s => decide (s.MAC = st.MAC)) = some st := by
  induction l with
  | nil => simp at h
  | cons x xs ih =>
    by_cases hx : x.MAC = st.MAC
    · simp [hx]
    · have hany : xs.any (fun s => decide (s.MAC = st.MAC)) = true := by
        simpa [hx] using h
      simp [hx, ih hany]

theorem find_replace_other (st : DeviceState) (m : String) (hm : m ≠ st.MAC)
    (l : List DeviceState) :
    (l.map (fun s => if s.MAC = st.MAC then st else s)).find? (fun s => decide (s.MAC = m)) =
      l.find? (fun s => decide (s.MAC = m)) := by
  induction l with
  | nil => rfl
  | cons x xs ih =>
    by_cases hx : x.MAC = st.MAC
    · have hxm : ¬ x.MAC = m := by rw [hx]; exact fun h => hm h.symm
      have hsm : ¬ st.MAC = m := fun h => hm h.symm
      simp [hx, hxm, hsm, ih]
    · rw [List.map_cons, if_neg hx, List.find?_cons, List.find?_cons, ih]

theorem SaveDeviceState_spec (st : DeviceState) (w : World) :
    (SaveDeviceState st w).2.usages = w.usages ∧ (SaveDeviceState st w).2.calls = w.calls ∧
      (((SaveDeviceState st w).1 = .error .store ∧ (SaveDeviceState st w).2.states = w.states) ∨
        ((SaveDeviceState st w).1 = .ok () ∧
          findState st.MAC (SaveDeviceState st w).2 = some st ∧
          ∀ m, m ≠ st.MAC → findState m (SaveDeviceState st w).2 = findState m w)) := by
  unfold SaveDeviceState
  rcases hn : w.next with ⟨f, w0⟩
  have hu0 : w0.usages = w.usages := by rw [← next_usages w, hn]
  have hs0 : w0.states = w.states := by rw [← next_states w, hn]
  have hc0 : w0.calls = w.calls := by rw [← next_calls w, hn]
  cases f with
  | true => exact ⟨hu0, hc0, Or.inl ⟨rfl, hs0⟩⟩
  | false =>
    simp only
    by_cases hany : w0.states.any (fun s => decide (s.MAC = st.MAC)) = true
    · rw [if_pos hany]
      refine ⟨hu0, hc0, Or.inr ⟨rfl, ?_, ?_⟩⟩
      · exact find_replace_of_any st w0.states hany
      · intro m hm
        simp only [findState]
        rw [find_replace_other st m hm, hs0]
    · rw [if_neg hany]
      refine ⟨hu0, hc0, Or.inr ⟨rfl, ?_, ?_⟩⟩
      · simp only [findState, List.find?_append]
        have hnone : w0.states.find? (fun s => decide (s.MAC = st.MAC)) = none := by
          rw [List.find?_eq_none]
          intro x hx
          simp only [Bool.not_eq_true, List.any_eq_true, not_exists, not_and] at hany
          simpa using hany x hx
        rw [hnone]
        simp
      · intro m hm
        simp only [findState, List.find?_append, hs0]
        have : ¬ st.MAC = m := fun h => hm h.symm
        simp [this]


theorem BlockClient_spec (lower : String → String) (mac : String) (w : World) :
    (BlockClient lower mac w).2.usages = w.usages ∧ (BlockClient lower mac w).2.states = w.states ∧
      (BlockClient lower mac w).2.calls = w.calls ++ [Call.block (lower mac)] := by
  unfold BlockClient
  rcases hn : w.next with ⟨f, w0⟩
  have hu0 : w0.usages = w.usages := by rw [← next_usages w, hn]
  have hs0 : w0.states = w.states := by rw [← next_states w, hn]
  have hc0 : w0.calls = w.calls := by rw [← next_calls w, hn]
  cases f <;> exact ⟨hu0, hs0, by simp [hc0]⟩

theorem UnblockClient_spec (lower : String → String) (mac : String) (w : World) :
    (UnblockClient lower mac w).2.usages = w.usages ∧
      (UnblockClient lower mac w).2.states = w.states ∧
      (UnblockClient lower mac w).2.calls = w.calls ++ [Call.unblock (lower mac)] := by
  unfold UnblockClient
  rcases hn : w.next with ⟨f, w0⟩
  have hu0 : w0.usages = w.usages := by rw [← next_usages w, hn]
  have hs0 : w0.states = w.states := by rw [← next_states w, hn]
  have hc0 : w0.calls = w.calls := by rw [← next_calls w, hn]
  cases f <;> exact ⟨hu0, hs0, by simp [hc0]⟩

theorem findState_congr (m : String) (w w1 : World) (h : w1.states = w.states) :
    findState m w1 = findState m w := by
  unfold findState
  rw [h]

theorem UnblockDevice_spec (lower : String → String) (mac : String) (w : World) :
    (UnblockDevice lower mac w).2.usages = w.usages ∧
    (((∃ e, (UnblockDevice lower mac w).1 = .error e) ∧
        (UnblockDevice lower mac w).2.states = w.states ∧
        ((UnblockDevice lower mac w).2.calls = w.calls ∨
          (UnblockDevice lower mac w).2.calls = w.calls ++ [Call.unblock (lower mac)])) ∨
      ((UnblockDevice lower mac w).1 = .ok () ∧
        (∀ s, findState mac w = some s → s.IsBlocked = false) ∧
        (UnblockDevice lower mac w).2.states = w.states ∧
        (UnblockDevice lower mac w).2.calls = w.calls) ∨
      ((UnblockDevice lower mac w).1 = .ok () ∧
        (∃ s, findState mac w = some s ∧ s.IsBlocked = true) ∧
        (UnblockDevice lower mac w).2.calls = w.calls ++ [Call.unblock (lower mac)] ∧
        findState mac (UnblockDevice lower mac w).2 =
          some { MAC := mac, IsBlocked := false, BlockedReason := "" } ∧
        ∀ m, m ≠ mac → findState m (UnblockDevice lower mac w).2 = findState m w)) := by
  obtain ⟨hgu, hgs, hgc, hg⟩ := GetDeviceState_spec mac w
  unfold UnblockDevice
  rcases hget : GetDeviceState mac w with ⟨r0, w0⟩
  rw [hget] at hgu hgs hgc hg
  simp only at hgu hgs hgc hg
  cases r0 with
  | error e => exact ⟨hgu, Or.inl ⟨⟨e, rfl⟩, hgs, Or.inl hgc⟩⟩
  | ok state =>
    simp only
    have hstate : state.MAC = mac ∧
        (state.IsBlocked = false → ∀ s, findState mac w = some s → s.IsBlocked = false) ∧
        (state.IsBlocked = true → ∃ s, findState mac w = some s ∧ s.IsBlocked = true) := by
      rcases hg with h | ⟨s, hs, hm, h⟩ | ⟨hn, h⟩
      · cases h
      · simp only [Except.ok.injEq] at h
        subst h
        refine ⟨hm, ?_, ?_⟩
        · intro hb s1 hs1
          rw [hs] at hs1
          simp only [Option.some.injEq] at hs1
          subst hs1
          exact hb
        · intro hb
          exact ⟨_, hs, hb⟩
      · simp only [Except.ok.injEq] at h
        subst h
        refine ⟨rfl, ?_, ?_⟩
        · intro _ s1 hs1
          rw [hn] at hs1
          cases hs1
        · intro hb
          cases hb
    obtain ⟨hmac, hstate⟩ := hstate
    by_cases hb : state.IsBlocked = true
    case neg =>
      have hb0 : state.IsBlocked = false := by simpa using hb
      have hcond : (!state.IsBlocked) = true := by simp [hb0]
      rw [if_pos hcond]
      exact ⟨hgu, Or.inr (Or.inl ⟨rfl, hstate.1 hb0, hgs, hgc⟩)⟩
    case pos =>
      have hcond : ¬ (!state.IsBlocked) = true := by simp [hb]
      rw [if_neg hcond]
      obtain ⟨hcu, hcs, hcc⟩ := UnblockClient_spec lower mac w0
      rcases hcl : UnblockClient lower mac w0 with ⟨r1, w1⟩
      rw [hcl] at hcu hcs hcc
      simp only at hcu hcs hcc
      cases r1 with
      | error e =>
        exact ⟨by rw [hcu, hgu], Or.inl ⟨⟨e, rfl⟩, by rw [hcs, hgs], Or.inr (by rw [hcc, hgc])⟩⟩
      | ok x =>
        simp only
        obtain ⟨hsu, hsc, hsv⟩ := SaveDeviceState_spec
          { state with IsBlocked := false, BlockedReason := "" } w1
        refine ⟨by rw [hsu, hcu, hgu], ?_⟩
        rcases hsv with ⟨herr, hst⟩ | ⟨hok, hfind, hother⟩
        · exact Or.inl ⟨⟨_, herr⟩, by rw [hst, hcs, hgs], Or.inr (by rw [hsc, hcc, hgc])⟩
        · refine Or.inr (Or.inr ⟨hok, hstate.2 hb, by rw [hsc, hcc, hgc], ?_, ?_⟩)
          · rw [← hmac]
            exact hfind
          · intro m hm
            rw [hother m (by rw [hmac]; exact hm)]
            exact findState_congr m w w1 (by rw [hcs, hgs])

theorem BlockDevice_spec (lower : String → String) (mac reason : String) (w : World) :
    (BlockDevice lower mac reason w).2.usages = w.usages ∧
    (((∃ e, (BlockDevice lower mac reason w).1 = .error e) ∧
        (BlockDevice lower mac reason w).2.states = w.states ∧
        ((BlockDevice lower mac reason w).2.calls = w.calls ∨
          (BlockDevice lower mac reason w).2.calls = w.calls ++ [Call.block (lower mac)])) ∨
      ((BlockDevice lower mac reason w).1 = .ok () ∧
        (∃ s, findState mac w = some s ∧ s.IsBlocked = true ∧ s.BlockedReason = reason) ∧
        (BlockDevice lower mac reason w).2.states = w.states ∧
        (BlockDevice lower mac reason w).2.calls = w.calls) ∨
      ((BlockDevice lower mac reason w).1 = .ok () ∧
        (¬ ∃ s, findState mac w = some s ∧ s.IsBlocked = true ∧ s.BlockedReason = reason) ∧
        (BlockDevice lower mac reason w).2.calls = w.calls ++ [Call.block (lower mac)] ∧
        findState mac (BlockDevice lower mac reason w).2 =
          some { MAC := mac, IsBlocked := true, BlockedReason := reason } ∧
        ∀ m, m ≠ mac → findState m (BlockDevice lower mac reason w).2 = findState m w)) := by
  obtain ⟨hgu, hgs, hgc, hg⟩ := GetDeviceState_spec mac w
  unfold BlockDevice
  rcases hget : GetDeviceState mac w with ⟨r0, w0⟩
  rw [hget] at hgu hgs hgc hg
  simp only at hgu hgs hgc hg
  cases r0 with
  | error e => exact ⟨hgu, Or.inl ⟨⟨e, rfl⟩, hgs, Or.inl hgc⟩⟩
  | ok state =>
    simp only
    have hstate : state.MAC = mac ∧
        ((state.IsBlocked = true ∧ state.BlockedReason = reason) ↔
          ∃ s, findState mac w = some s ∧ s.IsBlocked = true ∧ s.BlockedReason = reason) := by
      rcases hg with h | ⟨s, hs, hm, h⟩ | ⟨hn, h⟩
      · cases h
      · simp only [Except.ok.injEq] at h
        subst h
        refine ⟨hm, ?_⟩
        constructor
        · intro hb
          exact ⟨_, hs, hb⟩
        · rintro ⟨s1, hs1, hb⟩
          rw [hs] at hs1
          simp only [Option.some.injEq] at hs1
          subst hs1
          exact hb
      · simp only [Except.ok.injEq] at h
        subst h
        refine ⟨rfl, ?_⟩
        constructor
        · rintro ⟨hb, _⟩
          cases hb
        · rintro ⟨s1, hs1, _⟩
          rw [hn] at hs1
          cases hs1
    by_cases hb : state.IsBlocked = true ∧ state.BlockedReason = reason
    · have hcond : (state.IsBlocked && decide (state.BlockedReason = reason)) = true := by
        simp [hb.1, hb.2]
      rw [if_pos hcond]
      exact ⟨hgu, Or.inr (Or.inl ⟨rfl, hstate.2.1 hb, hgs, hgc⟩)⟩
    · have hcond : ¬ (state.IsBlocked && decide (state.BlockedReason = reason)) = true := by
        simpa using hb
      rw [if_neg hcond]
      obtain ⟨hcu, hcs, hcc⟩ := BlockClient_spec lower mac w0
      rcases hcl : BlockClient lower mac w0 with ⟨r1, w1⟩
      rw [hcl] at hcu hcs hcc
      simp only at hcu hcs hcc
      cases r1 with
      | error e =>
        exact ⟨by rw [hcu, hgu], Or.inl ⟨⟨e, rfl⟩, by rw [hcs, hgs], Or.inr (by rw [hcc, hgc])⟩⟩
      | ok x =>
        simp only
        obtain ⟨hsu, hsc, hsv⟩ := SaveDeviceState_spec
          { state with IsBlocked := true, BlockedReason := reason } w1
        refine ⟨by rw [hsu, hcu, hgu], ?_⟩
        rcases hsv with ⟨herr, hst⟩ | ⟨hok, hfind, hother⟩
        · exact Or.inl ⟨⟨_, herr⟩, by rw [hst, hcs, hgs], Or.inr (by rw [hsc, hcc, hgc])⟩
        · refine Or.inr (Or.inr ⟨hok, fun h => hb (hstate.2.2 h), by rw [hsc, hcc, hgc], ?_, ?_⟩)
          · rw [← hstate.1]
            exact hfind
          · intro m hm
            rw [hother m (by rw [hstate.1]; exact hm)]
            exact findState_congr m w w1 (by rw [hcs, hgs])


theorem GetOrCreateBlockUsage_error (mac date : String) (idx : Int) (st en : String)
    (lm lb : Option Int) (w : World) (e : Err)
    (h : (GetOrCreateBlockUsage mac date idx st en lm lb w).1 = .error e) :
    (GetOrCreateBlockUsage mac date idx st en lm lb w).2.usages = w.usages := by
  unfold GetOrCreateBlockUsage at h ⊢
  rcases hn : w.next with ⟨f, w0⟩
  have hu0 : w0.usages = w.usages := by rw [← next_usages w, hn]
  rw [hn] at h
  cases f with
  | true => exact hu0
  | false =>
    simp only at h ⊢
    cases hf : w0.usages.find? (usageKey mac date idx) with
    | some u0 =>
      rw [hf] at h
      simp at h
    | none =>
      rw [hf] at h
      simp only at h ⊢
      rcases hn1 : w0.next with ⟨f1, w00⟩
      have hu1 : w00.usages = w0.usages := by rw [← next_usages w0, hn1]
      rw [hn1] at h
      cases f1 with
      | true => exact hu1.trans hu0
      | false => simp at h

theorem enforceLimits_unset (lower : String → String) (mac : String) (b : TimeBlock)
    (u : BlockUsage) (w1 : World) (hm : b.LimitMinutes = none) (hb : b.LimitBytes = none) :
    enforceLimits lower mac b u w1 =
      if (u.IsBlocked && decide (u.BlockedReason ≠ "manual")) = true then
        match UnblockDevice lower mac w1 with
        | (.error e, w) => (.error e, w)
        | (.ok _, w) => UpdateBlockUsage { u with IsBlocked := false, BlockedReason := "" } w
      else (.ok (), w1) := by
  unfold enforceLimits
  rw [hm, hb]
  simp only [addBonusInt, addBonusInt64, limitReached, hasQuota, Bool.false_eq_true, if_false,
    Bool.and_self, if_true]
  try rfl

theorem findUsage_congr (mac date : String) (idx : Int) (w w1 : World)
    (h : w1.usages = w.usages) : findUsage mac date idx w1 = findUsage mac date idx w := by
  unfold findUsage
  rw [h]

theorem enforceLimits_unset_effect (lower : String → String) (mac date : String) (idx : Int)
    (b : TimeBlock) (u : BlockUsage) (w1 : World)
    (hm : b.LimitMinutes = none) (hb : b.LimitBytes = none)
    (hfind : findUsage mac date idx w1 = some u) :
    ((enforceLimits lower mac b u w1).2.calls = w1.calls ∨
      (enforceLimits lower mac b u w1).2.calls = w1.calls ++ [Call.unblock (lower mac)]) ∧
    (findState mac (enforceLimits lower mac b u w1).2 = findState mac w1 ∨
      findState mac (enforceLimits lower mac b u w1).2 =
        some { MAC := mac, IsBlocked := false, BlockedReason := "" }) ∧
    (∀ m, m ≠ mac → findState m (enforceLimits lower mac b u w1).2 = findState m w1) ∧
    (findUsage mac date idx (enforceLimits lower mac b u w1).2 = some u ∨
      ∃ v, findUsage mac date idx (enforceLimits lower mac b u w1).2 = some v ∧
        v.IsBlocked = false) := by
  rw [enforceLimits_unset lower mac b u w1 hm hb]
  split
  · obtain ⟨hu, hspec⟩ := UnblockDevice_spec lower mac w1
    rcases hun : UnblockDevice lower mac w1 with ⟨r, w2⟩
    rw [hun] at hu hspec
    simp only at hu hspec
    have hfind2 : findUsage mac date idx w2 = some u := by
      rw [findUsage_congr mac date idx w1 w2 hu, hfind]
    cases r with
    | error e =>
      simp only
      rcases hspec with ⟨_, hst, hcalls⟩ | ⟨h, _⟩ | ⟨h, _⟩
      · exact ⟨hcalls, Or.inl (findState_congr mac w1 w2 hst),
          fun m _ => findState_congr m w1 w2 hst, Or.inl hfind2⟩
      · cases h
      · cases h
    | ok x =>
      simp only
      obtain ⟨hfs, hfc⟩ := UpdateBlockUsage_frame
        { u with IsBlocked := false, BlockedReason := "" } w2
      have husage : findUsage mac date idx
          (UpdateBlockUsage { u with IsBlocked := false, BlockedReason := "" } w2).2 = some u ∨
          ∃ v, findUsage mac date idx
            (UpdateBlockUsage { u with IsBlocked := false, BlockedReason := "" } w2).2 = some v ∧
            v.IsBlocked = false := by
        rcases hup : UpdateBlockUsage { u with IsBlocked := false, BlockedReason := "" } w2
          with ⟨r3, w3⟩
        cases r3 with
        | error e =>
          left
          have := UpdateBlockUsage_error { u with IsBlocked := false, BlockedReason := "" } w2 e
            (by rw [hup])
          rw [hup] at this
          simp only at this
          simp only
          rw [findUsage_congr mac date idx w2 w3 this, hfind2]
        | ok y =>
          right
          have := (UpdateBlockUsage_ok mac date idx
            { u with IsBlocked := false, BlockedReason := "" } u w2 w3 hup hfind2 rfl).1
          exact ⟨_, this, rfl⟩
      rcases hspec with ⟨⟨e, h⟩, _⟩ | ⟨_, _, hst, hcalls⟩ | ⟨_, _, hcalls, hst, hother⟩
      · cases h
      · refine ⟨Or.inl (by rw [hfc, hcalls]), Or.inl ?_, ?_, husage⟩
        · rw [findState_congr mac w2 _ hfs, findState_congr mac w1 w2 hst]
        · intro m _
          rw [findState_congr m w2 _ hfs, findState_congr m w1 w2 hst]
      · refine ⟨Or.inr (by rw [hfc, hcalls]), Or.inr ?_, ?_, husage⟩
        · rw [findState_congr mac w2 _ hfs, hst]
        · intro m hm1
          rw [findState_congr m w2 _ hfs, hother m hm1]
  · exact ⟨Or.inl rfl, Or.inl rfl, fun m _ => rfl, Or.inl hfind⟩


theorem GetDeviceState_no_faults (mac : String) (w : World) (h : w.faults = []) :
    (GetDeviceState mac w).2 = w ∧ ∃ s, (GetDeviceState mac w).1 = .ok s := by
  unfold GetDeviceState
  rw [next_of_no_faults w h]
  simp only
  cases w.states.find? (fun s => decide (s.MAC = mac)) with
  | some s => exact ⟨rfl, s, rfl⟩
  | none => exact ⟨rfl, _, rfl⟩

theorem BlockClient_no_faults (lower : String → String) (mac : String) (w : World)
    (h : w.faults = []) :
    (BlockClient lower mac w).1 = .ok () ∧ (BlockClient lower mac w).2.faults = [] := by
  unfold BlockClient
  rw [next_of_no_faults w h]
  exact ⟨rfl, h⟩

theorem UnblockClient_no_faults (lower : String → String) (mac : String) (w : World)
    (h : w.faults = []) :
    (UnblockClient lower mac w).1 = .ok () ∧ (UnblockClient lower mac w).2.faults = [] := by
  unfold UnblockClient
  rw [next_of_no_faults w h]
  exact ⟨rfl, h⟩

theorem SaveDeviceState_no_faults (st : DeviceState) (w : World) (h : w.faults = []) :
    (SaveDeviceState st w).1 = .ok () ∧ (SaveDeviceState st w).2.faults = [] := by
  unfold SaveDeviceState
  rw [next_of_no_faults w h]
  simp only
  split <;> exact ⟨rfl, h⟩

theorem BlockDevice_no_faults (lower : String → String) (mac reason : String) (w : World)
    (h : w.faults = []) :
    (BlockDevice lower mac reason w).1 = .ok () ∧ (BlockDevice lower mac reason w).2.faults = [] := by
  obtain ⟨hw, s, hs⟩ := GetDeviceState_no_faults mac w h
  unfold BlockDevice
  rcases hget : GetDeviceState mac w with ⟨r0, w0⟩
  rw [hget] at hw hs
  simp only at hw hs
  subst hw hs
  simp only
  split
  · exact ⟨rfl, h⟩
  · obtain ⟨hb1, hb2⟩ := BlockClient_no_faults lower mac w0 h
    rcases hcl : BlockClient lower mac w0 with ⟨r1, w1⟩
    rw [hcl] at hb1 hb2
    simp only at hb1 hb2
    subst hb1
    exact SaveDeviceState_no_faults _ w1 hb2

theorem UnblockDevice_no_faults (lower : String → String) (mac : String) (w : World)
    (h : w.faults = []) :
    (UnblockDevice lower mac w).1 = .ok () ∧ (UnblockDevice lower mac w).2.faults = [] := by
  obtain ⟨hw, s, hs⟩ := GetDeviceState_no_faults mac w h
  unfold UnblockDevice
  rcases hget : GetDeviceState mac w with ⟨r0, w0⟩
  rw [hget] at hw hs
  simp only at hw hs
  subst hw hs
  simp only
  split
  · exact ⟨rfl, h⟩
  · obtain ⟨hb1, hb2⟩ := UnblockClient_no_faults lower mac w0 h
    rcases hcl : UnblockClient lower mac w0 with ⟨r1, w1⟩
    rw [hcl] at hb1 hb2
    simp only at hb1 hb2
    subst hb1
    exact SaveDeviceState_no_faults _ w1 hb2

theorem enforceLimits_zero_minute_limit (lower : String → String) (mac : String) (b : TimeBlock)
    (u : BlockUsage) (w1 : World) (hlim : b.LimitMinutes = some 0)
    (hused : u.UsedMinutes = 0) (hbonus : u.BonusMinutes = 0) (hblk : u.IsBlocked = false)
    (hf : w1.faults = []) (hst : ∀ s, findState mac w1 = some s → s.IsBlocked = false) :
    (enforceLimits lower mac b u w1).1 = .ok () ∧
      (enforceLimits lower mac b u w1).2.calls = w1.calls ++ [Call.block (lower mac)] ∧
      findState mac (enforceLimits lower mac b u w1).2 =
        some { MAC := mac, IsBlocked := true, BlockedReason := "time_limit" } := by
  have hreached : limitReached (addBonusInt b.LimitMinutes u.BonusMinutes) u.UsedMinutes = true := by
    rw [hlim, hused, hbonus]
    decide
  have hcond : (!u.IsBlocked || decide (u.BlockedReason ≠ "time_limit")) = true := by
    simp [hblk]
  unfold enforceLimits
  simp only [hreached, hcond, if_true]
  obtain ⟨hok, hfaults⟩ := BlockDevice_no_faults lower mac "time_limit" w1 hf
  obtain ⟨_, hspec⟩ := BlockDevice_spec lower mac "time_limit" w1
  rcases hbd : BlockDevice lower mac "time_limit" w1 with ⟨r, w2⟩
  rw [hbd] at hok hfaults hspec
  simp only at hok hfaults hspec
  subst hok
  simp only
  obtain ⟨w3, hup, _⟩ := UpdateBlockUsage_no_faults
    { u with IsBlocked := true, BlockedReason := "time_limit" } w2 hfaults
  obtain ⟨hfs, hfc⟩ := UpdateBlockUsage_frame
    { u with IsBlocked := true, BlockedReason := "time_limit" } w2
  rw [hup] at hfs hfc ⊢
  simp only at hfs hfc ⊢
  rcases hspec with ⟨⟨e, h⟩, _⟩ | ⟨_, ⟨s, hs, hsb, _⟩, _⟩ | ⟨_, _, hcalls, hstate, _⟩
  · cases h
  · have := hst s hs
    rw [hsb] at this
    cases this
  · exact ⟨trivial, by rw [hfc, hcalls], by rw [findState_congr mac w2 w3 hfs, hstate]⟩

/-- C9: the effective limit of an unset base limit is unset whatever the bonus, for
both helpers; the effective limit of a set base limit L is set and is L + b in Go's
64-bit arithmetic, which is the integer L + b whenever that fits in an int64. -/
theorem C9_addBonus_keeps_unset :
    (∀ b : Int, addBonusInt none b = none) ∧
    (∀ b : Int, addBonusInt64 none b = none) ∧
    (∀ L b : Int, addBonusInt (some L) b = some (wrap64 (L + b))) ∧
    (∀ L b : Int, addBonusInt64 (some L) b = some (wrap64 (L + b))) ∧
    (∀ L b : Int, isInt64 (L + b) →
      addBonusInt (some L) b = some (L + b) ∧ addBonusInt64 (some L) b = some (L + b)) ∧
    (∀ (base : Option Int) (b : Int),
      (addBonusInt base b = none ↔ base = none) ∧ (addBonusInt64 base b = none ↔ base = none)) := by
  refine ⟨fun _ => rfl, fun _ => rfl, fun _ _ => rfl, fun _ _ => rfl, ?_, ?_⟩
  · intro L b h
    simp only [addBonusInt, addBonusInt64, wrap64_of_isInt64 _ h, and_self]
  · intro base b
    cases base <;> simp [addBonusInt, addBonusInt64]

/-- C10: for every device with an active window whose minute limit and byte limit are
both unset, whatever the used minutes, used bytes and bonus of its usage record and
whichever calls fail, CheckAndEnforce issues no block call (the calls it adds are
nothing or one unblock), leaves the DeviceState of the device as it was or unblocked,
leaves every other DeviceState as it was, and leaves the usage record of the window
either as it was or not blocked; an unset limit is never reached and always has
quota, whereas a limit of zero is reached at zero usage, where CheckAndEnforce
blocks a device that was not blocked, with reason time_limit. -/
theorem C10_unset_limits_never_block (lower : String → String) (mac : String)
    (config : DeviceConfig) (now : Time) (w : World) (b : TimeBlock) (i : Int)
    (hact : GetActiveTimeBlock lower config now = (some b, i))
    (hm : b.LimitMinutes = none) (hb : b.LimitBytes = none) :
    ((CheckAndEnforce lower mac config now w).2.calls = w.calls ∨
      (CheckAndEnforce lower mac config now w).2.calls = w.calls ++ [Call.unblock (lower mac)]) ∧
    (∀ m, Call.block m ∈ (CheckAndEnforce lower mac config now w).2.calls → Call.block m ∈ w.calls) ∧
    (findState mac (CheckAndEnforce lower mac config now w).2 = findState mac w ∨
      findState mac (CheckAndEnforce lower mac config now w).2 =
        some { MAC := mac, IsBlocked := false, BlockedReason := "" }) ∧
    (∀ m, m ≠ mac → findState m (CheckAndEnforce lower mac config now w).2 = findState m w) ∧
    (∀ v, findUsage mac now.date i (CheckAndEnforce lower mac config now w).2 = some v →
      v.IsBlocked = true → findUsage mac now.date i w = some v) ∧
    (∀ used bonus : Int,
      limitReached (addBonusInt none bonus) used = false ∧
      limitReached (addBonusInt64 none bonus) used = false ∧
      hasQuota (addBonusInt none bonus) used = true ∧
      hasQuota (addBonusInt64 none bonus) used = true) ∧
    limitReached (addBonusInt (some 0) 0) 0 = true ∧
    limitReached (addBonusInt64 (some 0) 0) 0 = true ∧
    (∀ (config0 : DeviceConfig) (b0 : TimeBlock) (i0 : Int) (u : BlockUsage) (w1 : World),
      GetActiveTimeBlock lower config0 now = (some b0, i0) → b0.LimitMinutes = some 0 →
      GetOrCreateBlockUsage mac now.date i0 b0.StartTime b0.EndTime b0.LimitMinutes
        b0.LimitBytes w = (.ok u, w1) →
      u.UsedMinutes = 0 → u.BonusMinutes = 0 → u.IsBlocked = false → w1.faults = [] →
      (∀ s, findState mac w = some s → s.IsBlocked = false) →
        (CheckAndEnforce lower mac config0 now w).1 = .ok () ∧
        (CheckAndEnforce lower mac config0 now w).2.calls = w.calls ++ [Call.block (lower mac)] ∧
        findState mac (CheckAndEnforce lower mac config0 now w).2 =
          some { MAC := mac, IsBlocked := true, BlockedReason := "time_limit" }) := by
  have hmain : ((CheckAndEnforce lower mac config now w).2.calls = w.calls ∨
      (CheckAndEnforce lower mac config now w).2.calls = w.calls ++ [Call.unblock (lower mac)]) ∧
      (findState mac (CheckAndEnforce lower mac config now w).2 = findState mac w ∨
        findState mac (CheckAndEnforce lower mac config now w).2 =
          some { MAC := mac, IsBlocked := false, BlockedReason := "" }) ∧
      (∀ m, m ≠ mac → findState m (CheckAndEnforce lower mac config now w).2 = findState m w) ∧
      (∀ v, findUsage mac now.date i (CheckAndEnforce lower mac config now w).2 = some v →
        v.IsBlocked = true → findUsage mac now.date i w = some v) := by
    unfold CheckAndEnforce
    rw [hact]
    simp only
    obtain ⟨hgs, hgc⟩ := GetOrCreateBlockUsage_frame mac now.date i b.StartTime b.EndTime
      b.LimitMinutes b.LimitBytes w
    rcases hget : GetOrCreateBlockUsage mac now.date i b.StartTime b.EndTime
      b.LimitMinutes b.LimitBytes w with ⟨r, w1⟩
    rw [hget] at hgs hgc
    simp only at hgs hgc
    cases r with
    | error e =>
      simp only
      have hus := GetOrCreateBlockUsage_error mac now.date i b.StartTime b.EndTime
        b.LimitMinutes b.LimitBytes w e (by rw [hget])
      rw [hget] at hus
      simp only at hus
      refine ⟨Or.inl hgc, Or.inl (findState_congr mac w w1 hgs),
        fun m _ => findState_congr m w w1 hgs, ?_⟩
      intro v hv _
      rw [← findUsage_congr mac now.date i w w1 hus]
      exact hv
    | ok u =>
      simp only
      obtain ⟨hfind, _, _, horigin⟩ := GetOrCreateBlockUsage_ok mac now.date i b.StartTime
        b.EndTime b.LimitMinutes b.LimitBytes w w1 u hget
      obtain ⟨hcalls, hstate, hother, husage⟩ :=
        enforceLimits_unset_effect lower mac now.date i b u w1 hm hb hfind
      refine ⟨?_, ?_, ?_, ?_⟩
      · rw [hgc] at hcalls
        exact hcalls
      · rw [findState_congr mac w w1 hgs] at hstate
        exact hstate
      · intro m hm1
        rw [hother m hm1]
        exact findState_congr m w w1 hgs
      · intro v hv hvb
        rcases husage with h | ⟨v1, h, hv1⟩
        · rw [h] at hv
          simp only [Option.some.injEq] at hv
          subst hv
          rcases horigin with h0 | ⟨_, _, _, _, _, hfresh, _⟩
          · exact h0
          · rw [hfresh] at hvb
            cases hvb
        · rw [h] at hv
          simp only [Option.some.injEq] at hv
          subst hv
          rw [hv1] at hvb
          cases hvb
  obtain ⟨h1, h2, h3, h4⟩ := hmain
  refine ⟨h1, ?_, h2, h3, h4, ?_, by decide, by decide, ?_⟩
  · intro m hmem
    rcases h1 with h | h
    · rw [h] at hmem
      exact hmem
    · rw [h] at hmem
      simpa using hmem
  · intro used bonus
    exact ⟨rfl, rfl, rfl, rfl⟩
  · intro config0 b0 i0 u w1 hact0 hlim hget hused hbonus hblk hf hst
    obtain ⟨hgs, hgc⟩ := GetOrCreateBlockUsage_frame mac now.date i0 b0.StartTime b0.EndTime
      b0.LimitMinutes b0.LimitBytes w
    rw [hget] at hgs hgc
    simp only at hgs hgc
    have hst1 : ∀ s, findState mac w1 = some s → s.IsBlocked = false := by
      intro s hs
      rw [findState_congr mac w w1 hgs] at hs
      exact hst s hs
    obtain ⟨e1, e2, e3⟩ :=
      enforceLimits_zero_minute_limit lower mac b0 u w1 hlim hused hbonus hblk hf hst1
    unfold CheckAndEnforce
    rw [hact0]
    simp only
    rw [hget]
    simp only
    exact ⟨e1, by rw [e2, hgc], e3⟩


/-! ## Worked instances -/

/-- C3 at a store without rows: the record is created, the first sample 700/300 charges
nothing and becomes the baseline. -/
theorem C3_first_sample_sets_baseline_witness :
    GetOrCreateBlockUsage "aa:bb:cc:dd:ee:ff" sampleNow.date 0 sampleBlock.StartTime
      sampleBlock.EndTime sampleBlock.LimitMinutes sampleBlock.LimitBytes emptyWorld =
      (.ok freshUsage, { emptyWorld with usages := [freshUsage], nextID := 2 }) ∧
    freshUsage.LastTxBytes = 0 ∧ freshUsage.LastRxBytes = 0 ∧
    ∃ v, findUsage "aa:bb:cc:dd:ee:ff" sampleNow.date 0
        (ProcessClientStats { pollIntervalSecs := 30 } "aa:bb:cc:dd:ee:ff"
          { MAC := "aa:bb:cc:dd:ee:ff", TxBytes := 700, RxBytes := 300 }
          sampleNow sampleBlock 0 emptyWorld).2 = some v ∧
      v.UsedBytes = freshUsage.UsedBytes ∧ v.UsedMinutes = freshUsage.UsedMinutes ∧
      v.LastTxBytes = 700 ∧ v.LastRxBytes = 300 ∧
      chargedDelta freshUsage { MAC := "aa:bb:cc:dd:ee:ff", TxBytes := 700, RxBytes := 300 } = 0 :=
  ⟨rfl, rfl, rfl,
    (C3_first_sample_sets_baseline { pollIntervalSecs := 30 } "aa:bb:cc:dd:ee:ff"
      { MAC := "aa:bb:cc:dd:ee:ff", TxBytes := 700, RxBytes := 300 } sampleNow sampleBlock 0
      emptyWorld { emptyWorld with usages := [freshUsage], nextID := 2 } freshUsage
      rfl rfl rfl).2 rfl⟩

/-- C4 at lastTotal = 1000 and currentTotal = 400: 400 bytes are charged. -/
theorem C4_reset_charges_current_total_witness :
    GetOrCreateBlockUsage "aa:bb:cc:dd:ee:ff" sampleNow.date 0 sampleBlock.StartTime
      sampleBlock.EndTime sampleBlock.LimitMinutes sampleBlock.LimitBytes sampleWorld =
      (.ok sampleUsage, sampleWorld) ∧
    lastTotal sampleUsage ≠ 0 ∧
    currentTotal { MAC := "aa:bb:cc:dd:ee:ff", TxBytes := 300, RxBytes := 100 } <
      lastTotal sampleUsage ∧
    ∃ v, findUsage "aa:bb:cc:dd:ee:ff" sampleNow.date 0
        (ProcessClientStats { pollIntervalSecs := 30 } "aa:bb:cc:dd:ee:ff"
          { MAC := "aa:bb:cc:dd:ee:ff", TxBytes := 300, RxBytes := 100 }
          sampleNow sampleBlock 0 sampleWorld).2 = some v ∧
      v.UsedBytes = 5000 + 400 :=
  ⟨rfl, by decide, by decide,
    match (C4_reset_charges_current_total { pollIntervalSecs := 30 } "aa:bb:cc:dd:ee:ff"
      { MAC := "aa:bb:cc:dd:ee:ff", TxBytes := 300, RxBytes := 100 } sampleNow sampleBlock 0
      sampleWorld sampleWorld sampleUsage rfl (by decide) (by decide)).2 rfl with
    | ⟨v, hv, _, _, hexact⟩ =>
      ⟨v, hv, (hexact (by decide) (by decide) (by decide) (by decide) (by decide)).1⟩⟩

/-- C5 at lastTotal = 1000 and currentTotal = 1500: 500 bytes are charged. -/
theorem C5_normal_charges_difference_witness :
    GetOrCreateBlockUsage "aa:bb:cc:dd:ee:ff" sampleNow.date 0 sampleBlock.StartTime
      sampleBlock.EndTime sampleBlock.LimitMinutes sampleBlock.LimitBytes sampleWorld =
      (.ok sampleUsage, sampleWorld) ∧
    lastTotal sampleUsage ≠ 0 ∧
    lastTotal sampleUsage ≤
      currentTotal { MAC := "aa:bb:cc:dd:ee:ff", TxBytes := 900, RxBytes := 600 } ∧
    ∃ v, findUsage "aa:bb:cc:dd:ee:ff" sampleNow.date 0
        (ProcessClientStats { pollIntervalSecs := 30 } "aa:bb:cc:dd:ee:ff"
          { MAC := "aa:bb:cc:dd:ee:ff", TxBytes := 900, RxBytes := 600 }
          sampleNow sampleBlock 0 sampleWorld).2 = some v ∧
      v.UsedBytes = 5000 + (900 + 600 - (600 + 400)) :=
  ⟨rfl, by decide, by decide,
    match (C5_normal_charges_difference { pollIntervalSecs := 30 } "aa:bb:cc:dd:ee:ff"
      { MAC := "aa:bb:cc:dd:ee:ff", TxBytes := 900, RxBytes := 600 } sampleNow sampleBlock 0
      sampleWorld sampleWorld sampleUsage rfl (by decide) (by decide)).2 rfl with
    | ⟨v, hv, _, _, hexact⟩ =>
      ⟨v, hv, hexact (by decide) (by decide) (by decide) (by decide)⟩⟩


/-- C6 at a poll interval of 90 seconds and a delta of 4000 bytes. -/
theorem C6_active_minutes_witness :
    GetOrCreateBlockUsage "aa:bb:cc:dd:ee:ff" sampleNow.date 0 sampleBlock.StartTime
      sampleBlock.EndTime sampleBlock.LimitMinutes sampleBlock.LimitBytes sampleWorld =
      (.ok sampleUsage, sampleWorld) ∧
    (0 : Int) ≤ (Accumulator.mk 90).pollIntervalSecs ∧
    (Accumulator.mk 90).pollIntervalSecs + 59 < 2 ^ 63 ∧
    chargedDelta sampleUsage { MAC := "aa:bb:cc:dd:ee:ff", TxBytes := 3000, RxBytes := 2000 } >
      1024 ∧
    ∃ v, findUsage "aa:bb:cc:dd:ee:ff" sampleNow.date 0
        (ProcessClientStats { pollIntervalSecs := 90 } "aa:bb:cc:dd:ee:ff"
          { MAC := "aa:bb:cc:dd:ee:ff", TxBytes := 3000, RxBytes := 2000 }
          sampleNow sampleBlock 0 sampleWorld).2 = some v ∧
      v.UsedMinutes = wrap64 (3 + max 1 ⌈((90 : Int) : ℚ) / 60⌉) :=
  ⟨rfl, by decide, by decide, by decide,
    match (C6_active_minutes { pollIntervalSecs := 90 } "aa:bb:cc:dd:ee:ff"
      { MAC := "aa:bb:cc:dd:ee:ff", TxBytes := 3000, RxBytes := 2000 } sampleNow sampleBlock 0
      sampleWorld sampleWorld sampleUsage rfl (by decide) (by decide)).2.1 rfl with
    | ⟨v, hv, hbig, _⟩ => ⟨v, hv, (hbig (by decide)).1⟩⟩

/-- C8 on an increasing, a resetting and a repeating sample. -/
theorem C8_usage_never_decreases_witness :
    findUsage "aa:bb:cc:dd:ee:ff" sampleNow.date 0 sampleWorld = some sampleUsage ∧
    countersInRange { pollIntervalSecs := 30 } sampleUsage
      [{ MAC := "aa:bb:cc:dd:ee:ff", TxBytes := 3000, RxBytes := 2000 },
       { MAC := "aa:bb:cc:dd:ee:ff", TxBytes := 300, RxBytes := 100 },
       { MAC := "aa:bb:cc:dd:ee:ff", TxBytes := 300, RxBytes := 100 }] ∧
    ∃ v1 v2,
      findUsage "aa:bb:cc:dd:ee:ff" sampleNow.date 0
        (processSamples { pollIntervalSecs := 30 } "aa:bb:cc:dd:ee:ff" sampleNow sampleBlock 0
          [{ MAC := "aa:bb:cc:dd:ee:ff", TxBytes := 3000, RxBytes := 2000 }] sampleWorld) =
        some v1 ∧
      findUsage "aa:bb:cc:dd:ee:ff" sampleNow.date 0
        (processSamples { pollIntervalSecs := 30 } "aa:bb:cc:dd:ee:ff" sampleNow sampleBlock 0
          [{ MAC := "aa:bb:cc:dd:ee:ff", TxBytes := 3000, RxBytes := 2000 },
           { MAC := "aa:bb:cc:dd:ee:ff", TxBytes := 300, RxBytes := 100 },
           { MAC := "aa:bb:cc:dd:ee:ff", TxBytes := 300, RxBytes := 100 }] sampleWorld) =
        some v2 ∧
      sampleUsage.UsedBytes ≤ v1.UsedBytes ∧ v1.UsedBytes ≤ v2.UsedBytes ∧
      sampleUsage.UsedMinutes ≤ v1.UsedMinutes ∧ v1.UsedMinutes ≤ v2.UsedMinutes :=
  ⟨rfl, by decide,
    match C8_usage_never_decreases { pollIntervalSecs := 30 } "aa:bb:cc:dd:ee:ff" sampleNow
      sampleBlock 0
      [{ MAC := "aa:bb:cc:dd:ee:ff", TxBytes := 3000, RxBytes := 2000 },
       { MAC := "aa:bb:cc:dd:ee:ff", TxBytes := 300, RxBytes := 100 },
       { MAC := "aa:bb:cc:dd:ee:ff", TxBytes := 300, RxBytes := 100 }]
      sampleWorld sampleUsage rfl (by decide)
      [{ MAC := "aa:bb:cc:dd:ee:ff", TxBytes := 3000, RxBytes := 2000 }]
      [{ MAC := "aa:bb:cc:dd:ee:ff", TxBytes := 300, RxBytes := 100 },
       { MAC := "aa:bb:cc:dd:ee:ff", TxBytes := 300, RxBytes := 100 }] rfl with
    | ⟨v1, v2, h1, h2, h3, h4, h5, h6, _⟩ => ⟨v1, v2, h1, h2, h3, h4, h5, h6⟩⟩

/-- C10 at a device blocked for time_limit whose window has no limits. -/
theorem C10_unset_limits_never_block_witness :
    GetActiveTimeBlock toLowerASCII (sampleConfig openBlock) sampleNow = (some openBlock, 0) ∧
    openBlock.LimitMinutes = none ∧ openBlock.LimitBytes = none ∧
    ((CheckAndEnforce toLowerASCII "aa:bb:cc:dd:ee:ff" (sampleConfig openBlock) sampleNow
        blockedWorld).2.calls = blockedWorld.calls ∨
      (CheckAndEnforce toLowerASCII "aa:bb:cc:dd:ee:ff" (sampleConfig openBlock) sampleNow
        blockedWorld).2.calls =
        blockedWorld.calls ++ [Call.unblock (toLowerASCII "aa:bb:cc:dd:ee:ff")]) ∧
    (∀ m, Call.block m ∈ (CheckAndEnforce toLowerASCII "aa:bb:cc:dd:ee:ff"
        (sampleConfig openBlock) sampleNow blockedWorld).2.calls →
      Call.block m ∈ blockedWorld.calls) :=
  ⟨by decide, rfl, rfl,
    (C10_unset_limits_never_block toLowerASCII "aa:bb:cc:dd:ee:ff" (sampleConfig openBlock)
      sampleNow blockedWorld openBlock 0 (by decide) rfl rfl).1,
    (C10_unset_limits_never_block toLowerASCII "aa:bb:cc:dd:ee:ff" (sampleConfig openBlock)
      sampleNow blockedWorld openBlock 0 (by decide) rfl rfl).2.1⟩


/-! ## Properties of enforcement: the cases of CheckAndEnforce -/

theorem hasQuota_eq_not_reached (limit : Option Int) (used : Int) :
    hasQuota limit used = !limitReached limit used := by
  cases limit with
  | none => rfl
  | some l =>
    simp only [hasQuota, limitReached]
    by_cases h : used < l
    · have h2 : ¬ used ≥ l := by omega
      simp [h, h2]
    · have h2 : used ≥ l := by omega
      simp [h, h2]

theorem enforceLimits_block_error (lower : String → String) (mac : String) (b : TimeBlock)
    (u : BlockUsage) (w1 w2 : World) (reason : String) (e : Err)
    (hv : limitVerdict b u = some reason)
    (hflag : ¬ (u.IsBlocked = true ∧ u.BlockedReason = reason))
    (hbd : BlockDevice lower mac reason w1 = (.error e, w2)) :
    enforceLimits lower mac b u w1 = (.error e, w2) := by
  unfold limitVerdict at hv
  unfold enforceLimits
  by_cases ht : limitReached (addBonusInt b.LimitMinutes u.BonusMinutes) u.UsedMinutes = true
  · rw [if_pos ht] at hv
    simp only [Option.some.injEq] at hv
    subst hv
    have hc : (!u.IsBlocked || decide (u.BlockedReason ≠ "time_limit")) = true := by
      cases hb : u.IsBlocked with
      | false => simp
      | true => simpa [hb] using hflag
    simp only [ht, hc, if_true, hbd]
  · rw [if_neg ht] at hv
    by_cases hd : limitReached (addBonusInt64 b.LimitBytes u.BonusBytes) u.UsedBytes = true
    · rw [if_pos hd] at hv
      simp only [Option.some.injEq] at hv
      subst hv
      have hc : (!u.IsBlocked || decide (u.BlockedReason ≠ "data_limit")) = true := by
        cases hb : u.IsBlocked with
        | false => simp
        | true => simpa [hb] using hflag
      simp only [ht, hd, hc, if_true, hbd, Bool.false_eq_true, if_false]
    · rw [if_neg hd] at hv
      cases hv

theorem enforceLimits_block_ok (lower : String → String) (mac : String) (b : TimeBlock)
    (u : BlockUsage) (w1 w2 : World) (reason : String)
    (hv : limitVerdict b u = some reason)
    (hflag : ¬ (u.IsBlocked = true ∧ u.BlockedReason = reason))
    (hbd : BlockDevice lower mac reason w1 = (.ok (), w2)) :
    enforceLimits lower mac b u w1 =
      UpdateBlockUsage { u with IsBlocked := true, BlockedReason := reason } w2 := by
  unfold limitVerdict at hv
  unfold enforceLimits
  by_cases ht : limitReached (addBonusInt b.LimitMinutes u.BonusMinutes) u.UsedMinutes = true
  · rw [if_pos ht] at hv
    simp only [Option.some.injEq] at hv
    subst hv
    have hc : (!u.IsBlocked || decide (u.BlockedReason ≠ "time_limit")) = true := by
      cases hb : u.IsBlocked with
      | false => simp
      | true => simpa [hb] using hflag
    simp only [ht, hc, if_true, hbd]
  · rw [if_neg ht] at hv
    by_cases hd : limitReached (addBonusInt64 b.LimitBytes u.BonusBytes) u.UsedBytes = true
    · rw [if_pos hd] at hv
      simp only [Option.some.injEq] at hv
      subst hv
      have hc : (!u.IsBlocked || decide (u.BlockedReason ≠ "data_limit")) = true := by
        cases hb : u.IsBlocked with
        | false => simp
        | true => simpa [hb] using hflag
      simp only [ht, hd, hc, if_true, hbd, Bool.false_eq_true, if_false]
    · rw [if_neg hd] at hv
      cases hv

theorem enforceLimits_flagged (lower : String → String) (mac : String) (b : TimeBlock)
    (u : BlockUsage) (w1 : World) (reason : String)
    (hv : limitVerdict b u = some reason)
    (hflag : u.IsBlocked = true ∧ u.BlockedReason = reason) :
    enforceLimits lower mac b u w1 = (.ok (), w1) := by
  unfold limitVerdict at hv
  unfold enforceLimits
  by_cases ht : limitReached (addBonusInt b.LimitMinutes u.BonusMinutes) u.UsedMinutes = true
  · rw [if_pos ht] at hv
    simp only [Option.some.injEq] at hv
    subst hv
    have hc : (!u.IsBlocked || decide (u.BlockedReason ≠ "time_limit")) = false := by
      simp [hflag.1, hflag.2]
    simp only [ht, hc, if_true, Bool.false_eq_true, if_false]
  · rw [if_neg ht] at hv
    by_cases hd : limitReached (addBonusInt64 b.LimitBytes u.BonusBytes) u.UsedBytes = true
    · rw [if_pos hd] at hv
      simp only [Option.some.injEq] at hv
      subst hv
      have hc : (!u.IsBlocked || decide (u.BlockedReason ≠ "data_limit")) = false := by
        simp [hflag.1, hflag.2]
      simp only [ht, hd, hc, if_true, Bool.false_eq_true, if_false]
    · rw [if_neg hd] at hv
      cases hv

theorem enforceLimits_idle (lower : String → String) (mac : String) (b : TimeBlock)
    (u : BlockUsage) (w1 : World)
    (hv : limitVerdict b u = none)
    (hflag : ¬ (u.IsBlocked = true ∧ u.BlockedReason ≠ "manual")) :
    enforceLimits lower mac b u w1 = (.ok (), w1) := by
  unfold limitVerdict at hv
  unfold enforceLimits
  by_cases ht : limitReached (addBonusInt b.LimitMinutes u.BonusMinutes) u.UsedMinutes = true
  · rw [if_pos ht] at hv
    cases hv
  · rw [if_neg ht] at hv
    by_cases hd : limitReached (addBonusInt64 b.LimitBytes u.BonusBytes) u.UsedBytes = true
    · rw [if_pos hd] at hv
      cases hv
    · have hc : ¬ (u.IsBlocked && decide (u.BlockedReason ≠ "manual")) = true := by
        simpa using hflag
      simp only [ht, hd, hc, Bool.false_eq_true, if_false]

theorem enforceLimits_unblock_error (lower : String → String) (mac : String) (b : TimeBlock)
    (u : BlockUsage) (w1 w2 : World) (e : Err)
    (hv : limitVerdict b u = none)
    (hflag : u.IsBlocked = true ∧ u.BlockedReason ≠ "manual")
    (hun : UnblockDevice lower mac w1 = (.error e, w2)) :
    enforceLimits lower mac b u w1 = (.error e, w2) := by
  unfold limitVerdict at hv
  unfold enforceLimits
  by_cases ht : limitReached (addBonusInt b.LimitMinutes u.BonusMinutes) u.UsedMinutes = true
  · rw [if_pos ht] at hv
    cases hv
  · rw [if_neg ht] at hv
    by_cases hd : limitReached (addBonusInt64 b.LimitBytes u.BonusBytes) u.UsedBytes = true
    · rw [if_pos hd] at hv
      cases hv
    · have hc : (u.IsBlocked && decide (u.BlockedReason ≠ "manual")) = true := by
        simpa using hflag
      have ht0 : limitReached (addBonusInt b.LimitMinutes u.BonusMinutes) u.UsedMinutes = false := by
        simpa using ht
      have hd0 : limitReached (addBonusInt64 b.LimitBytes u.BonusBytes) u.UsedBytes = false := by
        simpa using hd
      simp only [ht0, hd0, hc, hasQuota_eq_not_reached, Bool.false_eq_true, if_false, if_true,
        Bool.not_false, Bool.and_self, hun]

theorem enforceLimits_unblock_ok (lower : String → String) (mac : String) (b : TimeBlock)
    (u : BlockUsage) (w1 w2 : World)
    (hv : limitVerdict b u = none)
    (hflag : u.IsBlocked = true ∧ u.BlockedReason ≠ "manual")
    (hun : UnblockDevice lower mac w1 = (.ok (), w2)) :
    enforceLimits lower mac b u w1 =
      UpdateBlockUsage { u with IsBlocked := false, BlockedReason := "" } w2 := by
  unfold limitVerdict at hv
  unfold enforceLimits
  by_cases ht : limitReached (addBonusInt b.LimitMinutes u.BonusMinutes) u.UsedMinutes = true
  · rw [if_pos ht] at hv
    cases hv
  · rw [if_neg ht] at hv
    by_cases hd : limitReached (addBonusInt64 b.LimitBytes u.BonusBytes) u.UsedBytes = true
    · rw [if_pos hd] at hv
      cases hv
    · have hc : (u.IsBlocked && decide (u.BlockedReason ≠ "manual")) = true := by
        simpa using hflag
      have ht0 : limitReached (addBonusInt b.LimitMinutes u.BonusMinutes) u.UsedMinutes = false := by
        simpa using ht
      have hd0 : limitReached (addBonusInt64 b.LimitBytes u.BonusBytes) u.UsedBytes = false := by
        simpa using hd
      simp only [ht0, hd0, hc, hasQuota_eq_not_reached, Bool.false_eq_true, if_false, if_true,
        Bool.not_false, Bool.and_self, hun]

/-! ## Properties of enforcement: blocking twice, outside hours -/

theorem GetDeviceState_eq (mac : String) (w : World) :
    GetDeviceState mac w =
      (if w.next.1 = true then .error .store
        else .ok ((findState mac w).getD { MAC := mac, IsBlocked := false, BlockedReason := "" }),
       w.next.2) := by
  unfold GetDeviceState
  rcases hn : w.next with ⟨f, w0⟩
  have hs0 : w0.states = w.states := by rw [← next_states w, hn]
  cases f with
  | true => rfl
  | false =>
    simp only [findState, ← hs0]
    cases w0.states.find? (fun s => decide (s.MAC = mac)) <;> rfl

theorem BlockDevice_of_blocked (lower : String → String) (mac reason : String) (w : World)
    (s : DeviceState) (h : findState mac w = some s) (hb : s.IsBlocked = true)
    (hr : s.BlockedReason = reason) :
    BlockDevice lower mac reason w =
      (if w.next.1 = true then .error .store else .ok (), w.next.2) := by
  unfold BlockDevice
  rw [GetDeviceState_eq, h]
  cases hf : w.next.1 with
  | true => rfl
  | false => simp [hb, hr]

theorem UnblockDevice_of_unblocked (lower : String → String) (mac : String) (w : World)
    (h : ∀ s, findState mac w = some s → s.IsBlocked = false) :
    UnblockDevice lower mac w =
      (if w.next.1 = true then .error .store else .ok (), w.next.2) := by
  unfold UnblockDevice
  rw [GetDeviceState_eq]
  cases hf : w.next.1 with
  | true => rfl
  | false =>
    cases hs : findState mac w with
    | none => simp
    | some s => simp [h s hs]

theorem BlockDevice_ok_state (lower : String → String) (mac reason : String) (w : World)
    (hok : (BlockDevice lower mac reason w).1 = .ok ()) :
    findState mac (BlockDevice lower mac reason w).2 =
      some { MAC := mac, IsBlocked := true, BlockedReason := reason } := by
  obtain ⟨_, hspec⟩ := BlockDevice_spec lower mac reason w
  rcases hspec with ⟨⟨e, h⟩, _⟩ | ⟨_, ⟨s, hs, hb, hr⟩, hst, _⟩ | ⟨_, _, _, hstate, _⟩
  · rw [hok] at h
    cases h
  · rw [findState_congr mac w _ hst, hs]
    have hm : s.MAC = mac := by
      have := List.find?_some hs
      simpa using this
    cases s
    simp only at hm hb hr
    subst hm hb hr
    rfl
  · exact hstate

theorem UnblockDevice_ok_state (lower : String → String) (mac : String) (w : World)
    (hok : (UnblockDevice lower mac w).1 = .ok ()) :
    ∀ s, findState mac (UnblockDevice lower mac w).2 = some s → s.IsBlocked = false := by
  obtain ⟨_, hspec⟩ := UnblockDevice_spec lower mac w
  rcases hspec with ⟨⟨e, h⟩, _⟩ | ⟨_, hub, hst, _⟩ | ⟨_, _, _, hstate, _⟩
  · rw [hok] at h
    cases h
  · intro s hs
    rw [findState_congr mac w _ hst] at hs
    exact hub s hs
  · intro s hs
    rw [hstate] at hs
    simp only [Option.some.injEq] at hs
    subst hs
    rfl

/-- C17: for every device config with block_outside set and every instant at which
GetActiveTimeBlock finds no active window, CheckAndEnforce returns without error
when no call fails, and whenever it returns without error the persisted DeviceState
of the device is blocked with reason outside_hours; whatever it returns, the table
of usage records is left exactly as it was. -/
theorem C17_outside_hours_blocks (lower : String → String) (mac : String)
    (config : DeviceConfig) (now : Time) (w : World)
    (hout : GetActiveTimeBlock lower config now = (none, -1))
    (hflag : config.BlockOutside = true) :
    (w.faults = [] → (CheckAndEnforce lower mac config now w).1 = .ok ()) ∧
    ((CheckAndEnforce lower mac config now w).1 = .ok () →
      findState mac (CheckAndEnforce lower mac config now w).2 =
        some { MAC := mac, IsBlocked := true, BlockedReason := "outside_hours" }) ∧
    (CheckAndEnforce lower mac config now w).2.usages = w.usages := by
  have hrun : CheckAndEnforce lower mac config now w = BlockDevice lower mac "outside_hours" w := by
    unfold CheckAndEnforce
    rw [hout]
    simp only [hflag, if_true]
  rw [hrun]
  exact ⟨fun hf => (BlockDevice_no_faults lower mac "outside_hours" w hf).1,
    BlockDevice_ok_state lower mac "outside_hours" w,
    (BlockDevice_spec lower mac "outside_hours" w).1⟩

/-- C15: for every device and reason r, once BlockDevice(mac, r) has returned without
error the DeviceState is (blocked, r), and a second BlockDevice(mac, r) sends no
command to the controller, leaves the tables as they are and returns without error
(the one call it makes, the read of the state, not failing); likewise once
UnblockDevice(mac) has returned without error the device is not blocked, and a
second UnblockDevice(mac) sends no command, leaves the tables as they are and
returns without error. -/
theorem C15_block_unblock_idempotent (lower : String → String) (mac reason : String)
    (w wu : World)
    (hblock : (BlockDevice lower mac reason w).1 = .ok ())
    (hunblock : (UnblockDevice lower mac wu).1 = .ok ()) :
    (findState mac (BlockDevice lower mac reason w).2 =
        some { MAC := mac, IsBlocked := true, BlockedReason := reason } ∧
      (BlockDevice lower mac reason (BlockDevice lower mac reason w).2).2.calls =
        (BlockDevice lower mac reason w).2.calls ∧
      (BlockDevice lower mac reason (BlockDevice lower mac reason w).2).2.states =
        (BlockDevice lower mac reason w).2.states ∧
      (BlockDevice lower mac reason (BlockDevice lower mac reason w).2).2.usages =
        (BlockDevice lower mac reason w).2.usages ∧
      ((BlockDevice lower mac reason w).2.next.1 = false →
        (BlockDevice lower mac reason (BlockDevice lower mac reason w).2).1 = .ok ())) ∧
    ((∀ s, findState mac (UnblockDevice lower mac wu).2 = some s → s.IsBlocked = false) ∧
      (UnblockDevice lower mac (UnblockDevice lower mac wu).2).2.calls =
        (UnblockDevice lower mac wu).2.calls ∧
      (UnblockDevice lower mac (UnblockDevice lower mac wu).2).2.states =
        (UnblockDevice lower mac wu).2.states ∧
      (UnblockDevice lower mac (UnblockDevice lower mac wu).2).2.usages =
        (UnblockDevice lower mac wu).2.usages ∧
      ((UnblockDevice lower mac wu).2.next.1 = false →
        (UnblockDevice lower mac (UnblockDevice lower mac wu).2).1 = .ok ())) := by
  constructor
  · have hst := BlockDevice_ok_state lower mac reason w hblock
    have h2 := BlockDevice_of_blocked lower mac reason (BlockDevice lower mac reason w).2 _
      hst rfl rfl
    rw [h2]
    refine ⟨hst, next_calls _, next_states _, next_usages _, ?_⟩
    intro hn
    simp [hn]
  · have hst := UnblockDevice_ok_state lower mac wu hunblock
    have h2 := UnblockDevice_of_unblocked lower mac (UnblockDevice lower mac wu).2 hst
    rw [h2]
    refine ⟨hst, next_calls _, next_states _, next_usages _, ?_⟩
    intro hn
    simp [hn]

/-! ## Properties of enforcement: reached limits -/

theorem CheckAndEnforce_of_record (lower : String → String) (mac : String)
    (config : DeviceConfig) (now : Time) (w w1 : World) (b : TimeBlock) (i : Int)
    (u : BlockUsage)
    (hact : GetActiveTimeBlock lower config now = (some b, i))
    (hget : GetOrCreateBlockUsage mac now.date i b.StartTime b.EndTime b.LimitMinutes
      b.LimitBytes w = (.ok u, w1)) :
    CheckAndEnforce lower mac config now w = enforceLimits lower mac b u w1 := by
  unfold CheckAndEnforce
  rw [hact]
  simp only
  rw [hget]

theorem setUsageColumns_flag (u : BlockUsage) (flag : Bool) (reason : String) :
    setUsageColumns { u with IsBlocked := flag, BlockedReason := reason } u =
      { u with IsBlocked := flag, BlockedReason := reason } := rfl

theorem enforceLimits_block_effect (lower : String → String) (mac date : String) (i : Int)
    (b : TimeBlock) (u : BlockUsage) (w1 : World) (reason : String)
    (hfind : findUsage mac date i w1 = some u)
    (hv : limitVerdict b u = some reason)
    (hflag : ¬ (u.IsBlocked = true ∧ u.BlockedReason = reason)) :
    (w1.faults = [] → (enforceLimits lower mac b u w1).1 = .ok () ∧
      (enforceLimits lower mac b u w1).2.faults = []) ∧
    ((enforceLimits lower mac b u w1).1 = .ok () →
      findState mac (enforceLimits lower mac b u w1).2 =
        some { MAC := mac, IsBlocked := true, BlockedReason := reason } ∧
      findUsage mac date i (enforceLimits lower mac b u w1).2 =
        some { u with IsBlocked := true, BlockedReason := reason }) := by
  rcases hbd : BlockDevice lower mac reason w1 with ⟨r, w2⟩
  have hbu := (BlockDevice_spec lower mac reason w1).1
  have hbs := BlockDevice_ok_state lower mac reason w1
  have hbf := BlockDevice_no_faults lower mac reason w1
  rw [hbd] at hbu hbs hbf
  simp only at hbu hbs hbf
  cases r with
  | error e =>
    rw [enforceLimits_block_error lower mac b u w1 w2 reason e hv hflag hbd]
    constructor
    · intro hf
      have := (hbf hf).1
      cases this
    · intro h
      cases h
  | ok x =>
    rw [enforceLimits_block_ok lower mac b u w1 w2 reason hv hflag hbd]
    have hfind2 : findUsage mac date i w2 = some u := by
      rw [findUsage_congr mac date i w1 w2 hbu, hfind]
    constructor
    · intro hf
      obtain ⟨w3, h3, hf3⟩ := UpdateBlockUsage_no_faults
        { u with IsBlocked := true, BlockedReason := reason } w2 (hbf hf).2
      rw [h3]
      exact ⟨rfl, hf3⟩
    · intro hok
      rcases hup : UpdateBlockUsage { u with IsBlocked := true, BlockedReason := reason } w2
        with ⟨r3, w3⟩
      rw [hup] at hok
      simp only at hok
      subst hok
      obtain ⟨h1, h2, _⟩ := UpdateBlockUsage_ok mac date i
        { u with IsBlocked := true, BlockedReason := reason } u w2 w3 hup hfind2 rfl
      exact ⟨by rw [findState_congr mac w2 w3 h2]; exact hbs rfl, h1⟩

/-- C11 as amended: for every device with an active window and the usage record u that
CheckAndEnforce reads for it: if the effective minute limit is set and used minutes
>= it (whether or not the byte limit is reached too) and u is not already flagged
(blocked, time_limit), then CheckAndEnforce returns without error when no call fails,
and whenever it returns without error the persisted DeviceState and the usage record
are blocked with reason time_limit; if u is already flagged (blocked, time_limit),
CheckAndEnforce returns without error and changes nothing. The same holds with the
byte limit and data_limit when the minute limit is not reached. Usage equal to the
limit counts as reached. -/
theorem C11_limit_reached_blocks (lower : String → String) (mac : String)
    (config : DeviceConfig) (now : Time) (w w1 : World) (b : TimeBlock) (i : Int)
    (u : BlockUsage)
    (hact : GetActiveTimeBlock lower config now = (some b, i))
    (hget : GetOrCreateBlockUsage mac now.date i b.StartTime b.EndTime b.LimitMinutes
      b.LimitBytes w = (.ok u, w1)) :
    (limitReached (addBonusInt b.LimitMinutes u.BonusMinutes) u.UsedMinutes = true →
      (¬ (u.IsBlocked = true ∧ u.BlockedReason = "time_limit") →
        (w1.faults = [] → (CheckAndEnforce lower mac config now w).1 = .ok ()) ∧
        ((CheckAndEnforce lower mac config now w).1 = .ok () →
          findState mac (CheckAndEnforce lower mac config now w).2 =
            some { MAC := mac, IsBlocked := true, BlockedReason := "time_limit" } ∧
          findUsage mac now.date i (CheckAndEnforce lower mac config now w).2 =
            some { u with IsBlocked := true, BlockedReason := "time_limit" })) ∧
      (u.IsBlocked = true ∧ u.BlockedReason = "time_limit" →
        CheckAndEnforce lower mac config now w = (.ok (), w1))) ∧
    (limitReached (addBonusInt b.LimitMinutes u.BonusMinutes) u.UsedMinutes = false →
      limitReached (addBonusInt64 b.LimitBytes u.BonusBytes) u.UsedBytes = true →
      (¬ (u.IsBlocked = true ∧ u.BlockedReason = "data_limit") →
        (w1.faults = [] → (CheckAndEnforce lower mac config now w).1 = .ok ()) ∧
        ((CheckAndEnforce lower mac config now w).1 = .ok () →
          findState mac (CheckAndEnforce lower mac config now w).2 =
            some { MAC := mac, IsBlocked := true, BlockedReason := "data_limit" } ∧
          findUsage mac now.date i (CheckAndEnforce lower mac config now w).2 =
            some { u with IsBlocked := true, BlockedReason := "data_limit" })) ∧
      (u.IsBlocked = true ∧ u.BlockedReason = "data_limit" →
        CheckAndEnforce lower mac config now w = (.ok (), w1))) ∧
    (∀ l bonus : Int, limitReached (addBonusInt (some l) bonus) (wrap64 (l + bonus)) = true ∧
      limitReached (addBonusInt64 (some l) bonus) (wrap64 (l + bonus)) = true) := by
  have hrun := CheckAndEnforce_of_record lower mac config now w w1 b i u hact hget
  have hfind := (GetOrCreateBlockUsage_ok mac now.date i _ _ _ _ w w1 u hget).1
  rw [hrun]
  refine ⟨?_, ?_, ?_⟩
  · intro ht
    have hv : limitVerdict b u = some "time_limit" := by
      unfold limitVerdict
      rw [if_pos ht]
    refine ⟨fun hflag => ?_, fun hflag => enforceLimits_flagged lower mac b u w1 _ hv hflag⟩
    obtain ⟨h1, h2⟩ := enforceLimits_block_effect lower mac now.date i b u w1 _ hfind hv hflag
    exact ⟨fun hf => (h1 hf).1, h2⟩
  · intro ht hd
    have hv : limitVerdict b u = some "data_limit" := by
      unfold limitVerdict
      rw [if_neg (by simp [ht]), if_pos hd]
    refine ⟨fun hflag => ?_, fun hflag => enforceLimits_flagged lower mac b u w1 _ hv hflag⟩
    obtain ⟨h1, h2⟩ := enforceLimits_block_effect lower mac now.date i b u w1 _ hfind hv hflag
    exact ⟨fun hf => (h1 hf).1, h2⟩
  · intro l bonus
    simp [limitReached, addBonusInt, addBonusInt64]

/-- C11 where both limits of the sample window are reached and the record is not yet
flagged: the device and the record end blocked for time_limit. -/
theorem C11_limit_reached_blocks_witness :
    GetActiveTimeBlock toLowerASCII (sampleConfig sampleBlock) sampleNow = (some sampleBlock, 0) ∧
    GetOrCreateBlockUsage "aa:bb:cc:dd:ee:ff" sampleNow.date 0 sampleBlock.StartTime
      sampleBlock.EndTime sampleBlock.LimitMinutes sampleBlock.LimitBytes overLimitWorld =
      (.ok overLimitUsage, overLimitWorld) ∧
    findState "aa:bb:cc:dd:ee:ff" (CheckAndEnforce toLowerASCII "aa:bb:cc:dd:ee:ff"
      (sampleConfig sampleBlock) sampleNow overLimitWorld).2 =
      some { MAC := "aa:bb:cc:dd:ee:ff", IsBlocked := true, BlockedReason := "time_limit" } ∧
    findUsage "aa:bb:cc:dd:ee:ff" sampleNow.date 0 (CheckAndEnforce toLowerASCII
      "aa:bb:cc:dd:ee:ff" (sampleConfig sampleBlock) sampleNow overLimitWorld).2 =
      some { overLimitUsage with IsBlocked := true, BlockedReason := "time_limit" } :=
  ⟨by decide, rfl,
    ((((C11_limit_reached_blocks toLowerASCII "aa:bb:cc:dd:ee:ff" (sampleConfig sampleBlock)
      sampleNow overLimitWorld overLimitWorld sampleBlock 0
      overLimitUsage (by decide) rfl).1
      (by decide)).1 (by decide)).2 rfl).1,
    ((((C11_limit_reached_blocks toLowerASCII "aa:bb:cc:dd:ee:ff" (sampleConfig sampleBlock)
      sampleNow overLimitWorld overLimitWorld sampleBlock 0
      overLimitUsage (by decide) rfl).1
      (by decide)).1 (by decide)).2 rfl).2⟩

/-- C11 as stated fails: the minute limit of the sample window is reached (60 of 60)
and CheckAndEnforce returns without error, yet the persisted DeviceState is not
(blocked, time_limit): the usage record is already flagged, so nothing is done and
the device stays blocked with reason manual. -/
theorem C11_flagged_record_counterexample :
    GetActiveTimeBlock toLowerASCII (sampleConfig sampleBlock) sampleNow = (some sampleBlock, 0) ∧
    limitReached (addBonusInt sampleBlock.LimitMinutes 0) 60 = true ∧
    (CheckAndEnforce toLowerASCII "aa:bb:cc:dd:ee:ff" (sampleConfig sampleBlock) sampleNow
      flaggedManualWorld).1 = .ok () ∧
    findState "aa:bb:cc:dd:ee:ff" (CheckAndEnforce toLowerASCII "aa:bb:cc:dd:ee:ff"
      (sampleConfig sampleBlock) sampleNow flaggedManualWorld).2 =
      some { MAC := "aa:bb:cc:dd:ee:ff", IsBlocked := true, BlockedReason := "manual" } ∧
    findState "aa:bb:cc:dd:ee:ff" (CheckAndEnforce toLowerASCII "aa:bb:cc:dd:ee:ff"
      (sampleConfig sampleBlock) sampleNow flaggedManualWorld).2 ≠
      some { MAC := "aa:bb:cc:dd:ee:ff", IsBlocked := true, BlockedReason := "time_limit" } := by
  refine ⟨by decide, by decide, rfl, rfl, by decide⟩

/-- C12 fails on the code: the device is blocked for outside_hours, its window has
become active, its usage (0 of 60 minutes, 0 of 100 MB) is below both limits and its
block reason is not manual; CheckAndEnforce returns without error, sends no command
and leaves the persisted DeviceState blocked with reason outside_hours. -/
theorem C12_stays_blocked_in_new_window :
    GetActiveTimeBlock toLowerASCII (sampleConfig sampleBlock) sampleNow = (some sampleBlock, 0) ∧
    findState "aa:bb:cc:dd:ee:ff" outsideBlockedWorld =
      some { MAC := "aa:bb:cc:dd:ee:ff", IsBlocked := true, BlockedReason := "outside_hours" } ∧
    (CheckAndEnforce toLowerASCII "aa:bb:cc:dd:ee:ff" (sampleConfig sampleBlock) sampleNow
      outsideBlockedWorld).1 = .ok () ∧
    findUsage "aa:bb:cc:dd:ee:ff" sampleNow.date 0 (CheckAndEnforce toLowerASCII
      "aa:bb:cc:dd:ee:ff" (sampleConfig sampleBlock) sampleNow outsideBlockedWorld).2 =
      some freshUsage ∧
    limitVerdict sampleBlock freshUsage = none ∧
    (CheckAndEnforce toLowerASCII "aa:bb:cc:dd:ee:ff" (sampleConfig sampleBlock) sampleNow
      outsideBlockedWorld).2.calls = [] ∧
    findState "aa:bb:cc:dd:ee:ff" (CheckAndEnforce toLowerASCII "aa:bb:cc:dd:ee:ff"
      (sampleConfig sampleBlock) sampleNow outsideBlockedWorld).2 =
      some { MAC := "aa:bb:cc:dd:ee:ff", IsBlocked := true, BlockedReason := "outside_hours" } := by
  refine ⟨by decide, rfl, rfl, rfl, by decide, rfl, rfl⟩

/-- C13 fails on the code: the device is blocked with reason manual, the usage record
of its window (3 of 60 minutes, 5000 bytes of 100 MB) is below both limits and still
flagged for time_limit; CheckAndEnforce sends an unblock command and leaves the
persisted DeviceState unblocked. -/
theorem C13_manual_block_cleared :
    GetActiveTimeBlock toLowerASCII (sampleConfig sampleBlock) sampleNow = (some sampleBlock, 0) ∧
    findState "aa:bb:cc:dd:ee:ff" manualOverFlagWorld =
      some { MAC := "aa:bb:cc:dd:ee:ff", IsBlocked := true, BlockedReason := "manual" } ∧
    limitVerdict sampleBlock flaggedUsage = none ∧
    (CheckAndEnforce toLowerASCII "aa:bb:cc:dd:ee:ff" (sampleConfig sampleBlock) sampleNow
      manualOverFlagWorld).1 = .ok () ∧
    (CheckAndEnforce toLowerASCII "aa:bb:cc:dd:ee:ff" (sampleConfig sampleBlock) sampleNow
      manualOverFlagWorld).2.calls = [Call.unblock "aa:bb:cc:dd:ee:ff"] ∧
    findState "aa:bb:cc:dd:ee:ff" (CheckAndEnforce toLowerASCII "aa:bb:cc:dd:ee:ff"
      (sampleConfig sampleBlock) sampleNow manualOverFlagWorld).2 =
      some { MAC := "aa:bb:cc:dd:ee:ff", IsBlocked := false, BlockedReason := "" } := by
  refine ⟨by decide, rfl, by decide, rfl, rfl, rfl⟩

/-! ## Properties of enforcement: idempotence -/

theorem GetOrCreateBlockUsage_found_eq (mac date : String) (idx : Int) (st en : String)
    (lm lb : Option Int) (w : World) (u : BlockUsage) (hf : w.faults = [])
    (hfind : findUsage mac date idx w = some u) :
    GetOrCreateBlockUsage mac date idx st en lm lb w = (.ok u, w) := by
  unfold GetOrCreateBlockUsage
  rw [next_of_no_faults w hf]
  unfold findUsage at hfind
  simp only [hfind]

theorem GetOrCreateBlockUsage_run (mac date : String) (idx : Int) (st en : String)
    (lm lb : Option Int) (w : World) (hf : w.faults = []) :
    ∃ u w1, GetOrCreateBlockUsage mac date idx st en lm lb w = (.ok u, w1) ∧ w1.faults = [] ∧
      findUsage mac date idx w1 = some u ∧ w1.calls = w.calls ∧ w1.states = w.states := by
  obtain ⟨u, w1, h, hf1⟩ := GetOrCreateBlockUsage_no_faults mac date idx st en lm lb w hf
  obtain ⟨h1, h2, h3, _⟩ := GetOrCreateBlockUsage_ok mac date idx st en lm lb w w1 u h
  exact ⟨u, w1, h, hf1, h1, h3, h2⟩

theorem limitVerdict_flag (b : TimeBlock) (u : BlockUsage) (flag : Bool) (reason : String) :
    limitVerdict b { u with IsBlocked := flag, BlockedReason := reason } = limitVerdict b u := rfl

theorem BlockDevice_calls (lower : String → String) (mac reason : String) (w : World) :
    (BlockDevice lower mac reason w).2.calls = w.calls ∨
      (BlockDevice lower mac reason w).2.calls = w.calls ++ [Call.block (lower mac)] := by
  obtain ⟨_, hspec⟩ := BlockDevice_spec lower mac reason w
  rcases hspec with ⟨_, _, h⟩ | ⟨_, _, _, h⟩ | ⟨_, _, h, _⟩
  · exact h
  · exact Or.inl h
  · exact Or.inr h

theorem UnblockDevice_calls (lower : String → String) (mac : String) (w : World) :
    (UnblockDevice lower mac w).2.calls = w.calls ∨
      (UnblockDevice lower mac w).2.calls = w.calls ++ [Call.unblock (lower mac)] := by
  obtain ⟨_, hspec⟩ := UnblockDevice_spec lower mac w
  rcases hspec with ⟨_, _, h⟩ | ⟨_, _, _, h⟩ | ⟨_, _, h, _⟩
  · exact h
  · exact Or.inl h
  · exact Or.inr h

theorem enforceLimits_cases (lower : String → String) (mac : String) (b : TimeBlock)
    (u : BlockUsage) (w1 : World) :
    (∃ reason, limitVerdict b u = some reason ∧
      ¬ (u.IsBlocked = true ∧ u.BlockedReason = reason) ∧
      ((∃ e, (BlockDevice lower mac reason w1).1 = .error e ∧
          enforceLimits lower mac b u w1 = (.error e, (BlockDevice lower mac reason w1).2)) ∨
        ((BlockDevice lower mac reason w1).1 = .ok () ∧
          enforceLimits lower mac b u w1 =
            UpdateBlockUsage { u with IsBlocked := true, BlockedReason := reason }
              (BlockDevice lower mac reason w1).2))) ∨
    (∃ reason, limitVerdict b u = some reason ∧
      (u.IsBlocked = true ∧ u.BlockedReason = reason) ∧
      enforceLimits lower mac b u w1 = (.ok (), w1)) ∨
    (limitVerdict b u = none ∧ (u.IsBlocked = true ∧ u.BlockedReason ≠ "manual") ∧
      ((∃ e, (UnblockDevice lower mac w1).1 = .error e ∧
          enforceLimits lower mac b u w1 = (.error e, (UnblockDevice lower mac w1).2)) ∨
        ((UnblockDevice lower mac w1).1 = .ok () ∧
          enforceLimits lower mac b u w1 =
            UpdateBlockUsage { u with IsBlocked := false, BlockedReason := "" }
              (UnblockDevice lower mac w1).2))) ∨
    (limitVerdict b u = none ∧ ¬ (u.IsBlocked = true ∧ u.BlockedReason ≠ "manual") ∧
      enforceLimits lower mac b u w1 = (.ok (), w1)) := by
  cases hv : limitVerdict b u with
  | some reason =>
    by_cases hflag : u.IsBlocked = true ∧ u.BlockedReason = reason
    · exact Or.inr (Or.inl ⟨reason, rfl, hflag,
        enforceLimits_flagged lower mac b u w1 reason hv hflag⟩)
    · refine Or.inl ⟨reason, rfl, hflag, ?_⟩
      rcases hbd : BlockDevice lower mac reason w1 with ⟨r, w2⟩
      cases r with
      | error e =>
        exact Or.inl ⟨e, rfl, enforceLimits_block_error lower mac b u w1 w2 reason e hv hflag hbd⟩
      | ok x =>
        exact Or.inr ⟨rfl, enforceLimits_block_ok lower mac b u w1 w2 reason hv hflag hbd⟩
  | none =>
    by_cases hflag : u.IsBlocked = true ∧ u.BlockedReason ≠ "manual"
    · refine Or.inr (Or.inr (Or.inl ⟨rfl, hflag, ?_⟩))
      rcases hun : UnblockDevice lower mac w1 with ⟨r, w2⟩
      cases r with
      | error e =>
        exact Or.inl ⟨e, rfl, enforceLimits_unblock_error lower mac b u w1 w2 e hv hflag hun⟩
      | ok x =>
        exact Or.inr ⟨rfl, enforceLimits_unblock_ok lower mac b u w1 w2 hv hflag hun⟩
    · exact Or.inr (Or.inr (Or.inr ⟨rfl, hflag, enforceLimits_idle lower mac b u w1 hv hflag⟩))

theorem enforceLimits_calls (lower : String → String) (mac : String) (b : TimeBlock)
    (u : BlockUsage) (w1 : World) :
    (enforceLimits lower mac b u w1).2.calls = w1.calls ∨
      ∃ c, (enforceLimits lower mac b u w1).2.calls = w1.calls ++ [c] := by
  rcases enforceLimits_cases lower mac b u w1 with
    ⟨reason, _, _, h⟩ | ⟨reason, _, _, h⟩ | ⟨_, _, h⟩ | ⟨_, _, h⟩
  · rcases h with ⟨e, _, h⟩ | ⟨_, h⟩
    · rw [h]
      rcases BlockDevice_calls lower mac reason w1 with hc | hc
      · exact Or.inl hc
      · exact Or.inr ⟨_, hc⟩
    · rw [h, (UpdateBlockUsage_frame _ _).2]
      rcases BlockDevice_calls lower mac reason w1 with hc | hc
      · exact Or.inl hc
      · exact Or.inr ⟨_, hc⟩
  · rw [h]
    exact Or.inl rfl
  · rcases h with ⟨e, _, h⟩ | ⟨_, h⟩
    · rw [h]
      rcases UnblockDevice_calls lower mac w1 with hc | hc
      · exact Or.inl hc
      · exact Or.inr ⟨_, hc⟩
    · rw [h, (UpdateBlockUsage_frame _ _).2]
      rcases UnblockDevice_calls lower mac w1 with hc | hc
      · exact Or.inl hc
      · exact Or.inr ⟨_, hc⟩
  · rw [h]
    exact Or.inl rfl

theorem enforceLimits_settles (lower : String → String) (mac date : String) (i : Int)
    (b : TimeBlock) (u : BlockUsage) (w1 : World) (hf : w1.faults = [])
    (hfind : findUsage mac date i w1 = some u) :
    (enforceLimits lower mac b u w1).1 = .ok () ∧
    (enforceLimits lower mac b u w1).2.faults = [] ∧
    ∃ v, findUsage mac date i (enforceLimits lower mac b u w1).2 = some v ∧
      enforceLimits lower mac b v (enforceLimits lower mac b u w1).2 =
        (.ok (), (enforceLimits lower mac b u w1).2) := by
  rcases enforceLimits_cases lower mac b u w1 with
    ⟨reason, hv, hflag, _⟩ | ⟨reason, hv, hflag, h⟩ | ⟨hv, hflag, h⟩ | ⟨hv, hflag, h⟩
  · obtain ⟨h1, h2⟩ := enforceLimits_block_effect lower mac date i b u w1 reason hfind hv hflag
    obtain ⟨hok, hfaults⟩ := h1 hf
    refine ⟨hok, hfaults, _, (h2 hok).2, ?_⟩
    exact enforceLimits_flagged lower mac b _ _ reason
      (by rw [limitVerdict_flag]; exact hv) ⟨rfl, rfl⟩
  · rw [h]
    exact ⟨rfl, hf, u, hfind, enforceLimits_flagged lower mac b u w1 reason hv hflag⟩
  · obtain ⟨hok, hfaults⟩ := UnblockDevice_no_faults lower mac w1 hf
    have hus := (UnblockDevice_spec lower mac w1).1
    rcases h with ⟨e, he, _⟩ | ⟨_, h⟩
    · rw [hok] at he
      cases he
    · rw [h]
      obtain ⟨w3, h3, hf3⟩ := UpdateBlockUsage_no_faults
        { u with IsBlocked := false, BlockedReason := "" } (UnblockDevice lower mac w1).2 hfaults
      have hfind2 : findUsage mac date i (UnblockDevice lower mac w1).2 = some u := by
        rw [findUsage_congr mac date i w1 _ hus, hfind]
      obtain ⟨hu3, _, _⟩ := UpdateBlockUsage_ok mac date i
        { u with IsBlocked := false, BlockedReason := "" } u _ w3 h3 hfind2 rfl
      rw [h3]
      refine ⟨rfl, hf3, _, hu3, ?_⟩
      exact enforceLimits_idle lower mac b _ w3
        (by rw [setUsageColumns_flag, limitVerdict_flag]; exact hv)
        (by rw [setUsageColumns_flag]; simp)
  · rw [h]
    exact ⟨rfl, hf, u, hfind, enforceLimits_idle lower mac b u w1 hv hflag⟩

/-- C14: for every store state, device config and instant, when no store or controller
call fails, CheckAndEnforce returns without error having sent at most one command to
the controller, and a second CheckAndEnforce with the same arguments right after it
returns without error and leaves everything as the first left it: no command is
sent, and DeviceState and the usage records are unchanged. -/
theorem C14_enforcement_idempotent (lower : String → String) (mac : String)
    (config : DeviceConfig) (now : Time) (w : World) (hf : w.faults = []) :
    (CheckAndEnforce lower mac config now w).1 = .ok () ∧
    ((CheckAndEnforce lower mac config now w).2.calls = w.calls ∨
      ∃ c, (CheckAndEnforce lower mac config now w).2.calls = w.calls ++ [c]) ∧
    CheckAndEnforce lower mac config now (CheckAndEnforce lower mac config now w).2 =
      (.ok (), (CheckAndEnforce lower mac config now w).2) := by
  rcases hact : GetActiveTimeBlock lower config now with ⟨ob, i⟩
  cases ob with
  | none =>
    by_cases hflag : config.BlockOutside = true
    · have hrun : ∀ w0, CheckAndEnforce lower mac config now w0 =
          BlockDevice lower mac "outside_hours" w0 := by
        intro w0
        unfold CheckAndEnforce
        rw [hact]
        simp only [hflag, if_true]
      obtain ⟨hok, hfaults⟩ := BlockDevice_no_faults lower mac "outside_hours" w hf
      rw [hrun, hrun]
      refine ⟨hok, ?_, ?_⟩
      · rcases BlockDevice_calls lower mac "outside_hours" w with hc | hc
        · exact Or.inl hc
        · exact Or.inr ⟨_, hc⟩
      · rw [BlockDevice_of_blocked lower mac "outside_hours" _ _
          (BlockDevice_ok_state lower mac "outside_hours" w hok) rfl rfl,
          next_of_no_faults _ hfaults]
        simp
    · have hrun : ∀ w0, CheckAndEnforce lower mac config now w0 = (.ok (), w0) := by
        intro w0
        unfold CheckAndEnforce
        rw [hact]
        simp only [hflag, Bool.false_eq_true, if_false]
      rw [hrun, hrun]
      exact ⟨rfl, Or.inl rfl, rfl⟩
  | some b =>
    obtain ⟨u, w1, hget, hf1, hfind, hcalls, _⟩ := GetOrCreateBlockUsage_run mac now.date i
      b.StartTime b.EndTime b.LimitMinutes b.LimitBytes w hf
    rw [CheckAndEnforce_of_record lower mac config now w w1 b i u hact hget]
    obtain ⟨hok, hfaults, v, hv, hsettle⟩ :=
      enforceLimits_settles lower mac now.date i b u w1 hf1 hfind
    refine ⟨hok, ?_, ?_⟩
    · rw [← hcalls]
      exact enforceLimits_calls lower mac b u w1
    · have hget2 := GetOrCreateBlockUsage_found_eq mac now.date i b.StartTime b.EndTime
        b.LimitMinutes b.LimitBytes _ v hfaults hv
      rw [CheckAndEnforce_of_record lower mac config now _ _ b i v hact hget2]
      exact hsettle

/-! ## Properties of enforcement: a failing controller call -/

theorem BlockClient_eq (lower : String → String) (mac : String) (w : World) :
    BlockClient lower mac w =
      (if w.next.1 = true then .error .controller else .ok (),
        { w.next.2 with calls := w.next.2.calls ++ [Call.block (lower mac)] }) := by
  unfold BlockClient
  rcases w.next with ⟨f, w0⟩
  cases f <;> rfl

theorem UnblockClient_eq (lower : String → String) (mac : String) (w : World) :
    UnblockClient lower mac w =
      (if w.next.1 = true then .error .controller else .ok (),
        { w.next.2 with calls := w.next.2.calls ++ [Call.unblock (lower mac)] }) := by
  unfold UnblockClient
  rcases w.next with ⟨f, w0⟩
  cases f <;> rfl

theorem BlockDevice_call_fails (lower : String → String) (mac reason : String) (w : World)
    (hcall : (BlockDevice lower mac reason w).2.calls ≠ w.calls)
    (hfail : (GetDeviceState mac w).2.next.1 = true) :
    (BlockDevice lower mac reason w).1 = .error .controller ∧
    (BlockDevice lower mac reason w).2.states = w.states ∧
    (BlockDevice lower mac reason w).2.usages = w.usages ∧
    (BlockDevice lower mac reason w).2.calls = w.calls ++ [Call.block (lower mac)] ∧
    ¬ ∃ s, findState mac w = some s ∧ s.IsBlocked = true ∧ s.BlockedReason = reason := by
  obtain ⟨hgu, hgs, hgc, hg⟩ := GetDeviceState_spec mac w
  have hnot : ¬ ∃ s, findState mac w = some s ∧ s.IsBlocked = true ∧ s.BlockedReason = reason := by
    rintro ⟨s, hs, hb, hr⟩
    apply hcall
    rw [BlockDevice_of_blocked lower mac reason w s hs hb hr]
    exact next_calls w
  refine ⟨?_, ?_, ?_, ?_, hnot⟩ <;>
  · unfold BlockDevice at hcall ⊢
    rcases hget : GetDeviceState mac w with ⟨r0, w0⟩
    rw [hget] at hgu hgs hgc hg hfail hcall
    simp only at hgu hgs hgc hg hfail hcall ⊢
    cases r0 with
    | error e => exact absurd hgc hcall
    | ok state =>
      simp only at hcall ⊢
      by_cases hcond : (state.IsBlocked && decide (state.BlockedReason = reason)) = true
      · rw [if_pos hcond] at hcall
        exact absurd hgc hcall
      · rw [if_neg hcond]
        rw [BlockClient_eq, hfail]
        simp [next_states, next_usages, next_calls, hgs, hgu, hgc]

theorem UnblockDevice_call_fails (lower : String → String) (mac : String) (w : World)
    (hcall : (UnblockDevice lower mac w).2.calls ≠ w.calls)
    (hfail : (GetDeviceState mac w).2.next.1 = true) :
    (UnblockDevice lower mac w).1 = .error .controller ∧
    (UnblockDevice lower mac w).2.states = w.states ∧
    (UnblockDevice lower mac w).2.usages = w.usages ∧
    (UnblockDevice lower mac w).2.calls = w.calls ++ [Call.unblock (lower mac)] ∧
    ∃ s, findState mac w = some s ∧ s.IsBlocked = true := by
  obtain ⟨hgu, hgs, hgc, hg⟩ := GetDeviceState_spec mac w
  have hex : ∃ s, findState mac w = some s ∧ s.IsBlocked = true := by
    by_contra hno
    apply hcall
    rw [UnblockDevice_of_unblocked lower mac w]
    · exact next_calls w
    · intro s hs
      by_contra hb
      exact hno ⟨s, hs, by simpa using hb⟩
  refine ⟨?_, ?_, ?_, ?_, hex⟩ <;>
  · unfold UnblockDevice at hcall ⊢
    rcases hget : GetDeviceState mac w with ⟨r0, w0⟩
    rw [hget] at hgu hgs hgc hg hfail hcall
    simp only at hgu hgs hgc hg hfail hcall ⊢
    cases r0 with
    | error e => exact absurd hgc hcall
    | ok state =>
      simp only at hcall ⊢
      by_cases hcond : (!state.IsBlocked) = true
      · rw [if_pos hcond] at hcall
        exact absurd hgc hcall
      · rw [if_neg hcond]
        rw [UnblockClient_eq, hfail]
        simp [next_states, next_usages, next_calls, hgs, hgu, hgc]

theorem BlockDevice_retry (lower : String → String) (mac reason : String) (w : World)
    (hf : w.faults = [])
    (hnot : ¬ ∃ s, findState mac w = some s ∧ s.IsBlocked = true ∧ s.BlockedReason = reason) :
    (BlockDevice lower mac reason w).1 = .ok () ∧
    (BlockDevice lower mac reason w).2.faults = [] ∧
    (BlockDevice lower mac reason w).2.calls = w.calls ++ [Call.block (lower mac)] := by
  obtain ⟨hok, hfaults⟩ := BlockDevice_no_faults lower mac reason w hf
  obtain ⟨_, hspec⟩ := BlockDevice_spec lower mac reason w
  rcases hspec with ⟨⟨e, h⟩, _⟩ | ⟨_, h, _⟩ | ⟨_, _, h, _⟩
  · rw [hok] at h
    cases h
  · exact absurd h hnot
  · exact ⟨hok, hfaults, h⟩

theorem UnblockDevice_retry (lower : String → String) (mac : String) (w : World)
    (hf : w.faults = [])
    (hex : ∃ s, findState mac w = some s ∧ s.IsBlocked = true) :
    (UnblockDevice lower mac w).1 = .ok () ∧
    (UnblockDevice lower mac w).2.faults = [] ∧
    (UnblockDevice lower mac w).2.calls = w.calls ++ [Call.unblock (lower mac)] := by
  obtain ⟨hok, hfaults⟩ := UnblockDevice_no_faults lower mac w hf
  obtain ⟨_, hspec⟩ := UnblockDevice_spec lower mac w
  rcases hspec with ⟨⟨e, h⟩, _⟩ | ⟨_, h, _⟩ | ⟨_, _, h, _⟩
  · rw [hok] at h
    cases h
  · obtain ⟨s, hs, hb⟩ := hex
    have := h s hs
    rw [hb] at this
    cases this
  · exact ⟨hok, hfaults, h⟩

theorem GetOrCreateBlockUsage_usages (mac date : String) (idx : Int) (st en : String)
    (lm lb : Option Int) (w : World) :
    (GetOrCreateBlockUsage mac date idx st en lm lb w).2.usages = w.usages ∨
    ∃ v, (GetOrCreateBlockUsage mac date idx st en lm lb w).2.usages = w.usages ++ [v] ∧
      v.IsBlocked = false ∧ v.BlockedReason = "" := by
  unfold GetOrCreateBlockUsage
  rcases hn : w.next with ⟨f, w0⟩
  have hu0 : w0.usages = w.usages := by rw [← next_usages w, hn]
  cases f with
  | true => exact Or.inl hu0
  | false =>
    simp only
    cases w0.usages.find? (usageKey mac date idx) with
    | some u0 => exact Or.inl hu0
    | none =>
      simp only
      rcases hn1 : w0.next with ⟨f1, w00⟩
      have hu1 : w00.usages = w0.usages := by rw [← next_usages w0, hn1]
      cases f1 with
      | true => exact Or.inl (hu1.trans hu0)
      | false => exact Or.inr ⟨_, by rw [← hu0, ← hu1], rfl, rfl⟩

/-! ## Properties of enforcement: the failed transition is retried -/

theorem findState_faults (m : String) (w : World) (fs : List Bool) :
    findState m { w with faults := fs } = findState m w := rfl

theorem findUsage_faults (m d : String) (i : Int) (w : World) (fs : List Bool) :
    findUsage m d i { w with faults := fs } = findUsage m d i w := rfl

/-- C16: for every CheckAndEnforce cycle that sends a command to the controller and in
which that call fails, CheckAndEnforce returns the controller's error, the persisted
DeviceStates are exactly as before, no existing usage record is changed (at most the
record of the window has been created, not blocked and without reason), exactly one
command was sent, and the next cycle, when nothing fails in it, sends that same
command again. -/
theorem C16_controller_failure_aborts (lower : String → String) (mac : String)
    (config : DeviceConfig) (now : Time) (w : World)
    (hcall : (CheckAndEnforce lower mac config now w).2.calls ≠ w.calls)
    (hfail : (controllerWorld lower mac config now w).next.1 = true) :
    (CheckAndEnforce lower mac config now w).1 = .error .controller ∧
    (CheckAndEnforce lower mac config now w).2.states = w.states ∧
    ((CheckAndEnforce lower mac config now w).2.usages = w.usages ∨
      ∃ v, (CheckAndEnforce lower mac config now w).2.usages = w.usages ++ [v] ∧
        v.IsBlocked = false ∧ v.BlockedReason = "") ∧
    ∃ c, (CheckAndEnforce lower mac config now w).2.calls = w.calls ++ [c] ∧
      (CheckAndEnforce lower mac config now
        { (CheckAndEnforce lower mac config now w).2 with faults := [] }).2.calls =
        (CheckAndEnforce lower mac config now w).2.calls ++ [c] := by
  rcases hact : GetActiveTimeBlock lower config now with ⟨ob, i⟩
  cases ob with
  | none =>
    have hcw : controllerWorld lower mac config now w = (GetDeviceState mac w).2 := by
      unfold controllerWorld
      rw [hact]
    rw [hcw] at hfail
    by_cases hflag : config.BlockOutside = true
    · have hrun : ∀ w0, CheckAndEnforce lower mac config now w0 =
          BlockDevice lower mac "outside_hours" w0 := by
        intro w0
        unfold CheckAndEnforce
        rw [hact]
        simp only [hflag, if_true]
      rw [hrun] at hcall
      simp only [hrun]
      obtain ⟨h1, h2, h3, h4, hnot⟩ :=
        BlockDevice_call_fails lower mac "outside_hours" w hcall hfail
      refine ⟨h1, h2, Or.inl h3, _, h4, ?_⟩
      have hnot2 : ¬ ∃ s, findState mac
          { (BlockDevice lower mac "outside_hours" w).2 with faults := [] } = some s ∧
          s.IsBlocked = true ∧ s.BlockedReason = "outside_hours" := by
        rw [findState_faults, findState_congr mac w _ h2]
        exact hnot
      exact (BlockDevice_retry lower mac "outside_hours" _ rfl hnot2).2.2
    · exfalso
      apply hcall
      unfold CheckAndEnforce
      rw [hact]
      simp only [hflag, Bool.false_eq_true, if_false]
  | some b =>
    have hcw : controllerWorld lower mac config now w =
        (GetDeviceState mac (GetOrCreateBlockUsage mac now.date i b.StartTime b.EndTime
          b.LimitMinutes b.LimitBytes w).2).2 := by
      unfold controllerWorld
      rw [hact]
    rw [hcw] at hfail
    obtain ⟨hgs, hgc⟩ := GetOrCreateBlockUsage_frame mac now.date i b.StartTime b.EndTime
      b.LimitMinutes b.LimitBytes w
    have hgu := GetOrCreateBlockUsage_usages mac now.date i b.StartTime b.EndTime
      b.LimitMinutes b.LimitBytes w
    rcases hget : GetOrCreateBlockUsage mac now.date i b.StartTime b.EndTime
      b.LimitMinutes b.LimitBytes w with ⟨r, w1⟩
    rw [hget] at hgs hgc hgu hfail
    simp only at hgs hgc hgu hfail
    cases r with
    | error e =>
      exfalso
      apply hcall
      unfold CheckAndEnforce
      rw [hact]
      simp only
      rw [hget]
      exact hgc
    | ok u =>
      have hfind := (GetOrCreateBlockUsage_ok mac now.date i _ _ _ _ w w1 u hget).1
      have hrun := CheckAndEnforce_of_record lower mac config now w w1 b i u hact hget
      rw [hrun] at hcall
      rw [hrun]
      have hretry : ∀ (w2 : World), w2.usages = w1.usages →
          CheckAndEnforce lower mac config now { w2 with faults := [] } =
            enforceLimits lower mac b u { w2 with faults := [] } := by
        intro w2 hu2
        have hfind2 : findUsage mac now.date i { w2 with faults := [] } = some u := by
          rw [findUsage_faults, findUsage_congr mac now.date i w1 w2 hu2, hfind]
        exact CheckAndEnforce_of_record lower mac config now _ _ b i u hact
          (GetOrCreateBlockUsage_found_eq mac now.date i _ _ _ _ _ u rfl hfind2)
      rcases enforceLimits_cases lower mac b u w1 with
        ⟨reason, hv, hflag, h⟩ | ⟨reason, _, _, h⟩ | ⟨hv, hflag, h⟩ | ⟨_, _, h⟩
      · have hbcall : (BlockDevice lower mac reason w1).2.calls ≠ w1.calls := by
          rcases h with ⟨e, _, h⟩ | ⟨_, h⟩
          · rw [h, ← hgc] at hcall
            exact hcall
          · rw [h, (UpdateBlockUsage_frame _ _).2, ← hgc] at hcall
            exact hcall
        obtain ⟨h1, h2, h3, h4, hnot⟩ :=
          BlockDevice_call_fails lower mac reason w1 hbcall hfail
        rcases h with ⟨e, he, h⟩ | ⟨hok, _⟩
        · rw [h1] at he
          simp only [Except.error.injEq] at he
          subst he
          rw [h]
          refine ⟨rfl, by rw [h2, hgs], ?_, _, by rw [h4, hgc], ?_⟩
          · rw [h3]
            exact hgu
          · rw [hretry _ h3]
            have hnot2 : ¬ ∃ s, findState mac
                { (BlockDevice lower mac reason w1).2 with faults := [] } = some s ∧
                s.IsBlocked = true ∧ s.BlockedReason = reason := by
              rw [findState_faults, findState_congr mac w1 _ h2]
              exact hnot
            obtain ⟨r1, r2, r3⟩ := BlockDevice_retry lower mac reason _ rfl hnot2
            rcases hbd : BlockDevice lower mac reason
              { (BlockDevice lower mac reason w1).2 with faults := [] } with ⟨x, w3⟩
            rw [hbd] at r1 r2 r3
            simp only at r1 r2 r3
            subst r1
            rw [enforceLimits_block_ok lower mac b u _ w3 reason hv hflag hbd,
              (UpdateBlockUsage_frame _ _).2, r3]
        · rw [h1] at hok
          cases hok
      · rw [h] at hcall
        exact absurd hgc hcall
      · have hbcall : (UnblockDevice lower mac w1).2.calls ≠ w1.calls := by
          rcases h with ⟨e, _, h⟩ | ⟨_, h⟩
          · rw [h, ← hgc] at hcall
            exact hcall
          · rw [h, (UpdateBlockUsage_frame _ _).2, ← hgc] at hcall
            exact hcall
        obtain ⟨h1, h2, h3, h4, hex⟩ :=
          UnblockDevice_call_fails lower mac w1 hbcall hfail
        rcases h with ⟨e, he, h⟩ | ⟨hok, _⟩
        · rw [h1] at he
          simp only [Except.error.injEq] at he
          subst he
          rw [h]
          refine ⟨rfl, by rw [h2, hgs], ?_, _, by rw [h4, hgc], ?_⟩
          · rw [h3]
            exact hgu
          · rw [hretry _ h3]
            have hex2 : ∃ s, findState mac
                { (UnblockDevice lower mac w1).2 with faults := [] } = some s ∧
                s.IsBlocked = true := by
              rw [findState_faults, findState_congr mac w1 _ h2]
              exact hex
            obtain ⟨r1, r2, r3⟩ := UnblockDevice_retry lower mac _ rfl hex2
            rcases hbd : UnblockDevice lower mac
              { (UnblockDevice lower mac w1).2 with faults := [] } with ⟨x, w3⟩
            rw [hbd] at r1 r2 r3
            simp only at r1 r2 r3
            subst r1
            rw [enforceLimits_unblock_ok lower mac b u _ w3 hv hflag hbd,
              (UpdateBlockUsage_frame _ _).2, r3]
        · rw [h1] at hok
          cases hok
      · rw [h] at hcall
        exact absurd hgc hcall

/-! ## Properties of the manual operations: the steps of ManualUnblock -/

theorem next_configs (w : World) : w.next.2.configs = w.configs := by
  unfold World.next
  cases w.faults <;> rfl

theorem GetDeviceConfig_eq (mac : String) (w : World) :
    GetDeviceConfig mac w =
      (if w.next.1 = true then .error .store else .ok (findConfig mac w), w.next.2) := by
  unfold GetDeviceConfig
  rcases hn : w.next with ⟨f, w0⟩
  have hc0 : w0.configs = w.configs := by rw [← next_configs w, hn]
  cases f with
  | true => rfl
  | false => simp [findConfig, hc0]

theorem ManualUnblock_steps (lower : String → String) (mac : String) (now : Time) (w : World)
    (hok : (ManualUnblock lower mac now w).1 = .ok ()) :
    ∃ w3, ManualUnblock lower mac now w = UnblockDevice lower mac w3 ∧ w3.states = w.states ∧
      ∀ config b i, findConfig mac w = some config →
        GetActiveTimeBlock lower config now = (some b, i) →
        ∃ u w1, GetOrCreateBlockUsage mac now.date i b.StartTime b.EndTime b.LimitMinutes
            b.LimitBytes w.next.2 = (.ok u, w1) ∧
          findUsage mac now.date i w3 = some { u with IsBlocked := false, BlockedReason := "" } := by
  unfold ManualUnblock at hok ⊢
  rw [GetDeviceConfig_eq] at hok ⊢
  cases hn : w.next.1 with
  | true =>
    rw [hn] at hok
    simp at hok
  | false =>
    rw [hn] at hok
    simp only [Bool.false_eq_true, if_false] at hok ⊢
    cases hcfg : findConfig mac w with
    | none =>
      refine ⟨w.next.2, rfl, next_states w, ?_⟩
      intro config b i h
      cases h
    | some config =>
      rw [hcfg] at hok
      simp only at hok ⊢
      rcases hact : GetActiveTimeBlock lower config now with ⟨ob, i⟩
      rw [hact] at hok
      cases ob with
      | none =>
        refine ⟨w.next.2, rfl, next_states w, ?_⟩
        intro config2 b2 i2 h hact2
        simp only [Option.some.injEq] at h
        subst h
        rw [hact] at hact2
        cases hact2
      | some b =>
        simp only at hok ⊢
        obtain ⟨hgs, _⟩ := GetOrCreateBlockUsage_frame mac now.date i b.StartTime b.EndTime
          b.LimitMinutes b.LimitBytes w.next.2
        rcases hget : GetOrCreateBlockUsage mac now.date i b.StartTime b.EndTime
          b.LimitMinutes b.LimitBytes w.next.2 with ⟨r, w1⟩
        rw [hget] at hok hgs
        cases r with
        | error e => simp at hok
        | ok u =>
          simp only at hok hgs ⊢
          have hfind := (GetOrCreateBlockUsage_ok mac now.date i _ _ _ _ _ w1 u hget).1
          obtain ⟨hus, _⟩ := UpdateBlockUsage_frame
            { u with IsBlocked := false, BlockedReason := "" } w1
          rcases hup : UpdateBlockUsage { u with IsBlocked := false, BlockedReason := "" } w1
            with ⟨r2, w2⟩
          rw [hup] at hok hus
          cases r2 with
          | error e => simp at hok
          | ok x =>
            simp only at hok hus ⊢
            refine ⟨w2, rfl, by rw [hus, hgs, next_states], ?_⟩
            intro config2 b2 i2 h hact2
            simp only [Option.some.injEq] at h
            subst h
            rw [hact] at hact2
            simp only [Prod.mk.injEq, Option.some.injEq] at hact2
            obtain ⟨hb, hi⟩ := hact2
            subst hb hi
            exact ⟨u, w1, hget,
              (UpdateBlockUsage_ok mac now.date i _ u w1 w2 hup hfind rfl).1⟩

/-! ## Properties of the manual operations -/

theorem SaveDeviceState_clean (st : DeviceState) (w : World) (hw : statesClean w)
    (hst : st.IsBlocked = false → st.BlockedReason = "") :
    statesClean (SaveDeviceState st w).2 := by
  unfold SaveDeviceState
  rcases hn : w.next with ⟨f, w0⟩
  have hs0 : w0.states = w.states := by rw [← next_states w, hn]
  have hw0 : statesClean w0 := by
    unfold statesClean
    rw [hs0]
    exact hw
  cases f with
  | true => exact hw0
  | false =>
    simp only
    split
    · intro s hs
      simp only [List.mem_map] at hs
      obtain ⟨x, hx, hxs⟩ := hs
      by_cases hm : x.MAC = st.MAC
      · rw [if_pos hm] at hxs
        subst hxs
        exact hst
      · rw [if_neg hm] at hxs
        subst hxs
        exact hw0 x hx
    · intro s hs
      simp only [List.mem_append, List.mem_singleton] at hs
      rcases hs with hs | hs
      · exact hw0 s hs
      · subst hs
        exact hst

theorem statesClean_congr (w w1 : World) (h : w1.states = w.states) (hw : statesClean w) :
    statesClean w1 := by
  unfold statesClean
  rw [h]
  exact hw

theorem BlockDevice_clean (lower : String → String) (mac reason : String) (w : World)
    (hw : statesClean w) : statesClean (BlockDevice lower mac reason w).2 := by
  obtain ⟨_, hgs, _, _⟩ := GetDeviceState_spec mac w
  unfold BlockDevice
  rcases hget : GetDeviceState mac w with ⟨r0, w0⟩
  rw [hget] at hgs
  simp only at hgs
  have hw0 := statesClean_congr w w0 hgs hw
  cases r0 with
  | error e => exact hw0
  | ok state =>
    simp only
    split
    · exact hw0
    · obtain ⟨_, hcs, _⟩ := BlockClient_spec lower mac w0
      rcases hcl : BlockClient lower mac w0 with ⟨r1, w1⟩
      rw [hcl] at hcs
      simp only at hcs
      have hw1 := statesClean_congr w0 w1 hcs hw0
      cases r1 with
      | error e => exact hw1
      | ok x =>
        exact SaveDeviceState_clean _ w1 hw1 (by intro h; cases h)

theorem UnblockDevice_clean (lower : String → String) (mac : String) (w : World)
    (hw : statesClean w) : statesClean (UnblockDevice lower mac w).2 := by
  obtain ⟨_, hgs, _, _⟩ := GetDeviceState_spec mac w
  unfold UnblockDevice
  rcases hget : GetDeviceState mac w with ⟨r0, w0⟩
  rw [hget] at hgs
  simp only at hgs
  have hw0 := statesClean_congr w w0 hgs hw
  cases r0 with
  | error e => exact hw0
  | ok state =>
    simp only
    split
    · exact hw0
    · obtain ⟨_, hcs, _⟩ := UnblockClient_spec lower mac w0
      rcases hcl : UnblockClient lower mac w0 with ⟨r1, w1⟩
      rw [hcl] at hcs
      simp only at hcs
      have hw1 := statesClean_congr w0 w1 hcs hw0
      cases r1 with
      | error e => exact hw1
      | ok x =>
        exact SaveDeviceState_clean _ w1 hw1 (fun _ => rfl)

theorem findState_clean (mac : String) (w : World) (hw : statesClean w) (s : DeviceState)
    (hs : findState mac w = some s) (hb : s.IsBlocked = false) : s.BlockedReason = "" :=
  hw s (List.mem_of_find?_eq_some hs) hb

/-- C18: for every device, store state and instant: ManualBlock that returns without
error leaves the DeviceState blocked with reason manual; ManualUnblock that returns
without error leaves the DeviceState not blocked and with an empty reason (in a
store whose unblocked rows have an empty reason, as every store written by the
engine has, and the store stays such), and, when the device has a config with a
window active at that instant, leaves the usage record of that window equal to
what it was with the blocked flag cleared and the reason empty, so that its used
minutes, used bytes, bonus and baseline counters are unchanged (all zero when the
record did not exist before). -/
theorem C18_manual_operations (lower : String → String) (mac : String) (now : Time)
    (wb w : World)
    (hblock : (ManualBlock lower mac wb).1 = .ok ())
    (hunblock : (ManualUnblock lower mac now w).1 = .ok ())
    (hclean : statesClean w) :
    findState mac (ManualBlock lower mac wb).2 =
      some { MAC := mac, IsBlocked := true, BlockedReason := "manual" } ∧
    (∀ s, findState mac (ManualUnblock lower mac now w).2 = some s →
      s.IsBlocked = false ∧ s.BlockedReason = "") ∧
    statesClean (ManualUnblock lower mac now w).2 ∧
    (∀ config b i, findConfig mac w = some config →
      GetActiveTimeBlock lower config now = (some b, i) →
      ∃ v, findUsage mac now.date i (ManualUnblock lower mac now w).2 = some v ∧
        v.IsBlocked = false ∧ v.BlockedReason = "" ∧
        (∀ u, findUsage mac now.date i w = some u →
          v = { u with IsBlocked := false, BlockedReason := "" }) ∧
        (findUsage mac now.date i w = none →
          v.UsedBytes = 0 ∧ v.UsedMinutes = 0 ∧ v.BonusMinutes = 0 ∧ v.BonusBytes = 0 ∧
          v.LastTxBytes = 0 ∧ v.LastRxBytes = 0)) := by
  obtain ⟨w3, hrun, hst3, husage⟩ := ManualUnblock_steps lower mac now w hunblock
  rw [hrun] at hunblock ⊢
  have hclean3 := statesClean_congr w w3 hst3 hclean
  have hcleanF := UnblockDevice_clean lower mac w3 hclean3
  refine ⟨BlockDevice_ok_state lower mac "manual" wb hblock, ?_, hcleanF, ?_⟩
  · intro s hs
    have hb := UnblockDevice_ok_state lower mac w3 hunblock s hs
    exact ⟨hb, findState_clean mac _ hcleanF s hs hb⟩
  · intro config b i hcfg hact
    obtain ⟨u, w1, hget, hfind3⟩ := husage config b i hcfg hact
    have hus := (UnblockDevice_spec lower mac w3).1
    refine ⟨_, by rw [findUsage_congr mac now.date i w3 _ hus]; exact hfind3, rfl, rfl, ?_, ?_⟩
    · intro u0 hu0
      obtain ⟨_, _, _, horigin⟩ := GetOrCreateBlockUsage_ok mac now.date i _ _ _ _ _ w1 u hget
      rw [findUsage_congr mac now.date i w _ (next_usages w), hu0] at horigin
      rcases horigin with h | ⟨h, _⟩
      · simp only [Option.some.injEq] at h
        subst h
        rfl
      · cases h
    · intro hnone
      obtain ⟨_, _, _, horigin⟩ := GetOrCreateBlockUsage_ok mac now.date i _ _ _ _ _ w1 u hget
      rw [findUsage_congr mac now.date i w _ (next_usages w), hnone] at horigin
      rcases horigin with h | ⟨_, h1, h2, h3, h4, _, h5, h6⟩
      · cases h
      · exact ⟨h1, h2, h5, h6, h3, h4⟩

/-! ## Frame properties: the table of configs -/

theorem GetOrCreateBlockUsage_configs (mac date : String) (idx : Int) (st en : String)
    (lm lb : Option Int) (w : World) :
    (GetOrCreateBlockUsage mac date idx st en lm lb w).2.configs = w.configs := by
  unfold GetOrCreateBlockUsage
  rcases hn : w.next with ⟨f, w0⟩
  have h0 : w0.configs = w.configs := by rw [← next_configs w, hn]
  cases f with
  | true => exact h0
  | false =>
    simp only
    cases w0.usages.find? (usageKey mac date idx) with
    | some u0 => exact h0
    | none =>
      simp only
      rcases hn1 : w0.next with ⟨f1, w00⟩
      have h1 : w00.configs = w0.configs := by rw [← next_configs w0, hn1]
      cases f1 with
      | true => exact h1.trans h0
      | false => exact h1.trans h0

theorem UpdateBlockUsage_configs (v : BlockUsage) (w : World) :
    (UpdateBlockUsage v w).2.configs = w.configs := by
  unfold UpdateBlockUsage
  rcases hn : w.next with ⟨f, w0⟩
  have h0 : w0.configs = w.configs := by rw [← next_configs w, hn]
  cases f <;> exact h0

theorem GetDeviceState_configs (mac : String) (w : World) :
    (GetDeviceState mac w).2.configs = w.configs := by
  rw [GetDeviceState_eq]
  exact next_configs w

theorem SaveDeviceState_configs (st : DeviceState) (w : World) :
    (SaveDeviceState st w).2.configs = w.configs := by
  unfold SaveDeviceState
  rcases hn : w.next with ⟨f, w0⟩
  have h0 : w0.configs = w.configs := by rw [← next_configs w, hn]
  cases f with
  | true => exact h0
  | false =>
    simp only
    split <;> exact h0

theorem BlockDevice_configs (lower : String → String) (mac reason : String) (w : World) :
    (BlockDevice lower mac reason w).2.configs = w.configs := by
  unfold BlockDevice
  have hg := GetDeviceState_configs mac w
  rcases hget : GetDeviceState mac w with ⟨r0, w0⟩
  rw [hget] at hg
  simp only at hg
  cases r0 with
  | error e => exact hg
  | ok state =>
    simp only
    split
    · exact hg
    · rw [BlockClient_eq]
      cases w0.next.1 with
      | true => exact (next_configs w0).trans hg
      | false =>
        simp only [Bool.false_eq_true, if_false]
        rw [SaveDeviceState_configs]
        exact (next_configs w0).trans hg

theorem UnblockDevice_configs (lower : String → String) (mac : String) (w : World) :
    (UnblockDevice lower mac w).2.configs = w.configs := by
  unfold UnblockDevice
  have hg := GetDeviceState_configs mac w
  rcases hget : GetDeviceState mac w with ⟨r0, w0⟩
  rw [hget] at hg
  simp only at hg
  cases r0 with
  | error e => exact hg
  | ok state =>
    simp only
    split
    · exact hg
    · rw [UnblockClient_eq]
      cases w0.next.1 with
      | true => exact (next_configs w0).trans hg
      | false =>
        simp only [Bool.false_eq_true, if_false]
        rw [SaveDeviceState_configs]
        exact (next_configs w0).trans hg

theorem enforceLimits_configs (lower : String → String) (mac : String) (b : TimeBlock)
    (u : BlockUsage) (w1 : World) :
    (enforceLimits lower mac b u w1).2.configs = w1.configs := by
  rcases enforceLimits_cases lower mac b u w1 with
    ⟨reason, _, _, h⟩ | ⟨reason, _, _, h⟩ | ⟨_, _, h⟩ | ⟨_, _, h⟩
  · rcases h with ⟨e, _, h⟩ | ⟨_, h⟩
    · rw [h]
      exact BlockDevice_configs lower mac reason w1
    · rw [h, UpdateBlockUsage_configs]
      exact BlockDevice_configs lower mac reason w1
  · rw [h]
  · rcases h with ⟨e, _, h⟩ | ⟨_, h⟩
    · rw [h]
      exact UnblockDevice_configs lower mac w1
    · rw [h, UpdateBlockUsage_configs]
      exact UnblockDevice_configs lower mac w1
  · rw [h]

theorem CheckAndEnforce_configs (lower : String → String) (mac : String)
    (config : DeviceConfig) (now : Time) (w : World) :
    (CheckAndEnforce lower mac config now w).2.configs = w.configs := by
  unfold CheckAndEnforce
  rcases hact : GetActiveTimeBlock lower config now with ⟨ob, i⟩
  cases ob with
  | none =>
    simp only
    split
    · exact BlockDevice_configs lower mac "outside_hours" w
    · rfl
  | some b =>
    simp only
    have hg := GetOrCreateBlockUsage_configs mac now.date i b.StartTime b.EndTime
      b.LimitMinutes b.LimitBytes w
    rcases hget : GetOrCreateBlockUsage mac now.date i b.StartTime b.EndTime
      b.LimitMinutes b.LimitBytes w with ⟨r, w1⟩
    rw [hget] at hg
    simp only at hg
    cases r with
    | error e => exact hg
    | ok u =>
      simp only
      rw [enforceLimits_configs]
      exact hg

theorem ProcessClientStats_configs (a : Accumulator) (mac : String) (client : ClientInfo)
    (now : Time) (block : TimeBlock) (idx : Int) (w : World) :
    (ProcessClientStats a mac client now block idx w).2.configs = w.configs := by
  unfold ProcessClientStats
  have hg := GetOrCreateBlockUsage_configs mac now.date idx block.StartTime block.EndTime
    block.LimitMinutes block.LimitBytes w
  rcases hget : GetOrCreateBlockUsage mac now.date idx block.StartTime block.EndTime
    block.LimitMinutes block.LimitBytes w with ⟨r, w1⟩
  rw [hget] at hg
  simp only at hg
  cases r with
  | error e => exact hg
  | ok u =>
    simp only
    rw [UpdateBlockUsage_configs]
    exact hg

theorem ProcessClientStats_frame (a : Accumulator) (mac : String) (client : ClientInfo)
    (now : Time) (block : TimeBlock) (idx : Int) (w : World) :
    (ProcessClientStats a mac client now block idx w).2.states = w.states ∧
    (ProcessClientStats a mac client now block idx w).2.calls = w.calls := by
  unfold ProcessClientStats
  have hg := GetOrCreateBlockUsage_frame mac now.date idx block.StartTime block.EndTime
    block.LimitMinutes block.LimitBytes w
  rcases hget : GetOrCreateBlockUsage mac now.date idx block.StartTime block.EndTime
    block.LimitMinutes block.LimitBytes w with ⟨r, w1⟩
  rw [hget] at hg
  simp only at hg
  cases r with
  | error e => exact hg
  | ok u =>
    simp only
    obtain ⟨h1, h2⟩ := UpdateBlockUsage_frame (accumulate a u client) w1
    exact ⟨h1.trans hg.1, h2.trans hg.2⟩

/-! ## Properties of polling: one device, nothing failing -/

theorem deviceCycle_no_faults (lower : String → String) (a : Accumulator) (mac : String)
    (cfg : DeviceConfig) (now : Time) (client : ClientInfo) (w : World) (b : TimeBlock)
    (i : Int) (hf : w.faults = [])
    (hact : GetActiveTimeBlock lower cfg now = (some b, i)) :
    ∃ u, (findUsage mac now.date i w = some u ∨
        (findUsage mac now.date i w = none ∧ u.UsedBytes = 0 ∧ u.UsedMinutes = 0 ∧
          u.LastTxBytes = 0 ∧ u.LastRxBytes = 0 ∧ u.IsBlocked = false ∧
          u.BonusMinutes = 0 ∧ u.BonusBytes = 0)) ∧
      (ProcessClientStats a mac client now b i w).1 = .ok () ∧
      (CheckAndEnforce lower mac cfg now (ProcessClientStats a mac client now b i w).2).2.faults
        = [] ∧
      (CheckAndEnforce lower mac cfg now (ProcessClientStats a mac client now b i w).2).2.configs
        = w.configs ∧
      (limitVerdict b (accumulate a u client) = none →
        (accumulate a u client).IsBlocked = false →
        findUsage mac now.date i
          (CheckAndEnforce lower mac cfg now (ProcessClientStats a mac client now b i w).2).2 =
          some (accumulate a u client) ∧
        (CheckAndEnforce lower mac cfg now
          (ProcessClientStats a mac client now b i w).2).2.states = w.states ∧
        (CheckAndEnforce lower mac cfg now
          (ProcessClientStats a mac client now b i w).2).2.calls = w.calls) ∧
      (∀ reason, limitVerdict b (accumulate a u client) = some reason →
        (accumulate a u client).IsBlocked = false →
        (∀ s, findState mac w = some s → s.IsBlocked = false) →
        findUsage mac now.date i
          (CheckAndEnforce lower mac cfg now (ProcessClientStats a mac client now b i w).2).2 =
          some { accumulate a u client with IsBlocked := true, BlockedReason := reason } ∧
        findState mac (CheckAndEnforce lower mac cfg now
          (ProcessClientStats a mac client now b i w).2).2 =
          some { MAC := mac, IsBlocked := true, BlockedReason := reason } ∧
        (CheckAndEnforce lower mac cfg now
          (ProcessClientStats a mac client now b i w).2).2.calls =
          w.calls ++ [Call.block (lower mac)]) := by
  obtain ⟨u, w1, hget, hf1, hfind1, hcalls1, hstates1⟩ := GetOrCreateBlockUsage_run mac now.date i
    b.StartTime b.EndTime b.LimitMinutes b.LimitBytes w hf
  obtain ⟨_, _, _, horigin⟩ := GetOrCreateBlockUsage_ok mac now.date i _ _ _ _ w w1 u hget
  obtain ⟨hpok, hprec⟩ := ProcessClientStats_of_record a mac client now b i w w1 u hget
  have hrunP : ProcessClientStats a mac client now b i w =
      UpdateBlockUsage (accumulate a u client) w1 := by
    unfold ProcessClientStats
    rw [hget]
  obtain ⟨w2, hup, hf2⟩ := UpdateBlockUsage_no_faults (accumulate a u client) w1 hf1
  have hfind2 : findUsage mac now.date i w2 = some (accumulate a u client) := by
    have := hprec (hpok hf1)
    rw [hrunP, hup] at this
    exact this
  obtain ⟨hst2, hcl2⟩ := ProcessClientStats_frame a mac client now b i w
  have hcf2 := ProcessClientStats_configs a mac client now b i w
  rw [hrunP, hup] at hst2 hcl2 hcf2
  simp only at hst2 hcl2 hcf2
  have hget2 := GetOrCreateBlockUsage_found_eq mac now.date i b.StartTime b.EndTime
    b.LimitMinutes b.LimitBytes w2 _ hf2 hfind2
  have hrunC := CheckAndEnforce_of_record lower mac cfg now w2 w2 b i _ hact hget2
  refine ⟨u, horigin, hpok hf1, ?_, ?_, ?_, ?_⟩
  · rw [hrunP, hup, hrunC]
    exact (enforceLimits_settles lower mac now.date i b _ w2 hf2 hfind2).2.1
  · rw [hrunP, hup, CheckAndEnforce_configs, hcf2]
  · intro hv hnb
    rw [hrunP, hup, hrunC]
    rw [enforceLimits_idle lower mac b _ w2 hv (by simp [hnb])]
    exact ⟨hfind2, hst2, hcl2⟩
  · intro reason hv hnb hst
    rw [hrunP, hup, hrunC]
    have hflag : ¬ ((accumulate a u client).IsBlocked = true ∧
        (accumulate a u client).BlockedReason = reason) := by simp [hnb]
    obtain ⟨h1, h2⟩ := enforceLimits_block_effect lower mac now.date i b _ w2 reason hfind2 hv hflag
    obtain ⟨hok, _⟩ := h1 hf2
    obtain ⟨hs, hu⟩ := h2 hok
    refine ⟨hu, hs, ?_⟩
    have hnot : ¬ ∃ s, findState mac w2 = some s ∧ s.IsBlocked = true ∧
        s.BlockedReason = reason := by
      rintro ⟨s, hs2, hb, _⟩
      rw [findState_congr mac w w2 hst2] at hs2
      have := hst s hs2
      rw [hb] at this
      cases this
    obtain ⟨r1, _, r3⟩ := BlockDevice_retry lower mac reason w2 hf2 hnot
    rcases hbd : BlockDevice lower mac reason w2 with ⟨x, w3⟩
    rw [hbd] at r1 r3
    simp only at r1 r3
    subst r1
    rw [enforceLimits_block_ok lower mac b _ w2 w3 reason hv hflag hbd,
      (UpdateBlockUsage_frame _ _).2, r3, hcl2]

theorem managedMACs_single (lower : String → String) (cfg : DeviceConfig)
    (h : cfg.Enabled = true) : managedMACs lower [cfg] = [(lower cfg.MAC, cfg)] := by
  simp [managedMACs, h, mapInsert]

theorem poll_single (lower : String → String) (a : Accumulator)
    (shuffle : List (String × DeviceConfig) → List (String × DeviceConfig))
    (hshuffle : ∀ l, (shuffle l).Perm l)
    (cfg : DeviceConfig) (client : ClientInfo) (now : Time) (w : World) (b : TimeBlock) (i : Int)
    (hf : w.faults = []) (hcfgs : w.configs = [cfg]) (hen : cfg.Enabled = true)
    (hmac : lower client.MAC = lower cfg.MAC)
    (hact : GetActiveTimeBlock lower cfg now = (some b, i))
    (hpok : (ProcessClientStats a (lower client.MAC) client now b i w).1 = .ok ()) :
    poll lower a shuffle [client] now w =
      (CheckAndEnforce lower (lower client.MAC) cfg now
        (ProcessClientStats a (lower client.MAC) client now b i w).2).2 := by
  have hsh : shuffle [(lower cfg.MAC, cfg)] = [(lower cfg.MAC, cfg)] :=
    List.perm_singleton.1 (hshuffle _)
  unfold poll GetAllDeviceConfigs GetClients
  rw [next_of_no_faults w hf]
  simp only [hcfgs, List.length_singleton, one_ne_zero, if_false]
  rw [next_of_no_faults w hf]
  simp only [managedMACs_single lower cfg hen, hsh, sweep, sweepDevice, hact, pollClients,
    pollClient, mapLookup, hmac, List.find?_cons, decide_True, Option.map_some']
  rw [← hmac]
  rcases hp : ProcessClientStats a (lower client.MAC) client now b i w with ⟨r, w2⟩
  rw [hp] at hpok
  simp only at hpok
  subst hpok
  rfl

/-! ## Properties of polling: the arithmetic of a run -/

theorem accumulate_flags (a : Accumulator) (u : BlockUsage) (c : ClientInfo) :
    (accumulate a u c).IsBlocked = u.IsBlocked ∧
    (accumulate a u c).BlockedReason = u.BlockedReason ∧
    (accumulate a u c).BonusMinutes = u.BonusMinutes ∧
    (accumulate a u c).BonusBytes = u.BonusBytes := by
  unfold accumulate
  split
  · exact ⟨rfl, rfl, rfl, rfl⟩
  · simp only
    split <;> exact ⟨rfl, rfl, rfl, rfl⟩

theorem accumulate_normal (a : Accumulator) (u : BlockUsage) (c : ClientInfo)
    (h1 : 0 < u.LastTxBytes + u.LastRxBytes)
    (h2 : u.LastTxBytes + u.LastRxBytes ≤ c.TxBytes + c.RxBytes)
    (h3 : c.TxBytes + c.RxBytes < 2 ^ 63) (h4 : 0 ≤ u.UsedBytes)
    (h5 : u.UsedBytes + (c.TxBytes + c.RxBytes - (u.LastTxBytes + u.LastRxBytes)) < 2 ^ 63) :
    chargedDelta u c = c.TxBytes + c.RxBytes - (u.LastTxBytes + u.LastRxBytes) ∧
    (accumulate a u c).UsedBytes =
      u.UsedBytes + (c.TxBytes + c.RxBytes - (u.LastTxBytes + u.LastRxBytes)) := by
  have hl : lastTotal u = u.LastTxBytes + u.LastRxBytes :=
    lastTotal_of_range u ⟨by omega, by omega⟩
  have hc : currentTotal c = c.TxBytes + c.RxBytes :=
    currentTotal_of_range c ⟨by omega, h3⟩
  have hne : lastTotal u ≠ 0 := by rw [hl]; omega
  have hd : trafficDelta u c = c.TxBytes + c.RxBytes - (u.LastTxBytes + u.LastRxBytes) := by
    unfold trafficDelta
    rw [hl, hc, if_neg (by omega), wrap64_of_isInt64 _ ⟨by omega, by omega⟩]
  constructor
  · unfold chargedDelta
    rw [if_neg hne, hd]
  · rw [accumulate_UsedBytes, if_neg hne, hd, wrap64_of_isInt64 _ ⟨by omega, h5⟩]

theorem accumulate_first (a : Accumulator) (u : BlockUsage) (c : ClientInfo)
    (h1 : u.LastTxBytes = 0) (h2 : u.LastRxBytes = 0) :
    (accumulate a u c).UsedBytes = u.UsedBytes ∧
    (accumulate a u c).UsedMinutes = u.UsedMinutes := by
  have hl : lastTotal u = 0 := by
    unfold lastTotal
    rw [h1, h2]
    decide
  rw [accumulate_UsedBytes, accumulate_UsedMinutes, if_pos hl]
  unfold chargedDelta
  rw [if_pos hl]
  simp [ActivityThreshold]

theorem limitVerdict_none (b : TimeBlock) (v : BlockUsage) (M L : Int)
    (hlm : b.LimitMinutes = some M) (hlb : b.LimitBytes = some L)
    (hM : isInt64 M) (hL : isInt64 L)
    (hbm : v.BonusMinutes = 0) (hbb : v.BonusBytes = 0)
    (hm : v.UsedMinutes < M) (hb : v.UsedBytes < L) :
    limitVerdict b v = none := by
  unfold limitVerdict
  rw [hlm, hlb, hbm, hbb]
  simp only [addBonusInt, addBonusInt64, limitReached, add_zero, wrap64_of_isInt64 _ hM,
    wrap64_of_isInt64 _ hL]
  rw [if_neg (by simp; omega), if_neg (by simp; omega)]

theorem limitVerdict_data (b : TimeBlock) (v : BlockUsage) (M L : Int)
    (hlm : b.LimitMinutes = some M) (hlb : b.LimitBytes = some L)
    (hM : isInt64 M) (hL : isInt64 L)
    (hbm : v.BonusMinutes = 0) (hbb : v.BonusBytes = 0)
    (hm : v.UsedMinutes < M) (hb : L ≤ v.UsedBytes) :
    limitVerdict b v = some "data_limit" := by
  unfold limitVerdict
  rw [hlm, hlb, hbm, hbb]
  simp only [addBonusInt, addBonusInt64, limitReached, add_zero, wrap64_of_isInt64 _ hM,
    wrap64_of_isInt64 _ hL]
  rw [if_neg (by simp; omega), if_pos (by simp; omega)]

theorem accumulate_minutes_step (u : BlockUsage) (c : ClientInfo)
    (h0 : 0 ≤ u.UsedMinutes) (h1 : u.UsedMinutes < 2 ^ 62) :
    u.UsedMinutes ≤ (accumulate { pollIntervalSecs := 30 } u c).UsedMinutes ∧
    (accumulate { pollIntervalSecs := 30 } u c).UsedMinutes ≤ u.UsedMinutes + 1 := by
  have ha : activeMinutes { pollIntervalSecs := 30 } = 1 := by decide
  rw [accumulate_UsedMinutes, ha]
  split
  · rw [wrap64_of_isInt64 _ ⟨by omega, by omega⟩]
    omega
  · omega

/-! ## Properties of polling: end to end -/

/-- C19: end to end, for a device whose window is limited to 60 minutes and L bytes
(any L above 50,000,000, such as 100 MB), polled every 30 s at three instants of the
window on one day, nothing failing, from a store without a usage record of the
window and with the device not blocked: after a baseline sample with a positive
total and a second sample whose total is 50,000,000 bytes higher, the usage record
has used_bytes = 50,000,000 and is not blocked, the device is not blocked and no
command has been sent; after a third sample that raises used_bytes to L or above,
the usage record and the DeviceState are blocked with reason data_limit and the
commands sent over the whole run are exactly one block command. -/
theorem C19_end_to_end (lower : String → String)
    (shuffle : List (String × DeviceConfig) → List (String × DeviceConfig))
    (hshuffle : ∀ l, (shuffle l).Perm l)
    (cfg : DeviceConfig) (b : TimeBlock) (L : Int) (m : String)
    (t0 r0 t1 r1 t2 r2 : Int) (now1 now2 now3 : Time) (w : World)
    (hf : w.faults = []) (hcfgs : w.configs = [cfg]) (hen : cfg.Enabled = true)
    (hmac : lower m = lower cfg.MAC)
    (hact1 : GetActiveTimeBlock lower cfg now1 = (some b, 0))
    (hact2 : GetActiveTimeBlock lower cfg now2 = (some b, 0))
    (hact3 : GetActiveTimeBlock lower cfg now3 = (some b, 0))
    (hd2 : now2.date = now1.date) (hd3 : now3.date = now1.date)
    (hlm : b.LimitMinutes = some 60) (hlb : b.LimitBytes = some L)
    (hL : 50000000 < L) (hLmax : L < 2 ^ 63)
    (hfresh : findUsage (lower m) now1.date 0 w = none)
    (hunblocked : ∀ s, findState (lower m) w = some s → s.IsBlocked = false)
    (hpos : 0 < t0 + r0)
    (hT1 : t1 + r1 = t0 + r0 + 50000000)
    (hT2 : L ≤ 50000000 + (t2 + r2 - (t1 + r1))) (hmax : t2 + r2 < 2 ^ 63) :
    (∃ v, findUsage (lower m) now1.date 0
        (pollCycles lower { pollIntervalSecs := 30 } shuffle
          [([{ MAC := m, TxBytes := t0, RxBytes := r0 }], now1),
           ([{ MAC := m, TxBytes := t1, RxBytes := r1 }], now2)] w) = some v ∧
      v.UsedBytes = 50000000 ∧ v.IsBlocked = false) ∧
    (∀ s, findState (lower m)
        (pollCycles lower { pollIntervalSecs := 30 } shuffle
          [([{ MAC := m, TxBytes := t0, RxBytes := r0 }], now1),
           ([{ MAC := m, TxBytes := t1, RxBytes := r1 }], now2)] w) = some s →
      s.IsBlocked = false) ∧
    (pollCycles lower { pollIntervalSecs := 30 } shuffle
      [([{ MAC := m, TxBytes := t0, RxBytes := r0 }], now1),
       ([{ MAC := m, TxBytes := t1, RxBytes := r1 }], now2)] w).calls = w.calls ∧
    (∃ v, findUsage (lower m) now1.date 0
        (pollCycles lower { pollIntervalSecs := 30 } shuffle
          [([{ MAC := m, TxBytes := t0, RxBytes := r0 }], now1),
           ([{ MAC := m, TxBytes := t1, RxBytes := r1 }], now2),
           ([{ MAC := m, TxBytes := t2, RxBytes := r2 }], now3)] w) = some v ∧
      v.UsedBytes = 50000000 + (t2 + r2 - (t1 + r1)) ∧ L ≤ v.UsedBytes ∧
      v.IsBlocked = true ∧ v.BlockedReason = "data_limit") ∧
    findState (lower m)
      (pollCycles lower { pollIntervalSecs := 30 } shuffle
        [([{ MAC := m, TxBytes := t0, RxBytes := r0 }], now1),
         ([{ MAC := m, TxBytes := t1, RxBytes := r1 }], now2),
         ([{ MAC := m, TxBytes := t2, RxBytes := r2 }], now3)] w) =
      some { MAC := lower m, IsBlocked := true, BlockedReason := "data_limit" } ∧
    (pollCycles lower { pollIntervalSecs := 30 } shuffle
      [([{ MAC := m, TxBytes := t0, RxBytes := r0 }], now1),
       ([{ MAC := m, TxBytes := t1, RxBytes := r1 }], now2),
       ([{ MAC := m, TxBytes := t2, RxBytes := r2 }], now3)] w).calls =
      w.calls ++ [Call.block (lower (lower m))] := by
  have hM : isInt64 (60 : Int) := by decide
  have hLr : isInt64 L := ⟨by omega, hLmax⟩
  -- first cycle: the baseline
  obtain ⟨u0, horig0, hp0, hfl1, hcf1, hidle1, _⟩ :=
    deviceCycle_no_faults lower { pollIntervalSecs := 30 } (lower m) cfg now1
      { MAC := m, TxBytes := t0, RxBytes := r0 } w b 0 hf hact1
  have hpoll1 := poll_single lower { pollIntervalSecs := 30 } shuffle hshuffle cfg
    { MAC := m, TxBytes := t0, RxBytes := r0 } now1 w b 0 hf hcfgs hen hmac hact1 hp0
  rw [hfresh] at horig0
  rcases horig0 with h | ⟨_, z1, z2, z3, z4, z5, z6, z7⟩
  · cases h
  obtain ⟨f1, f2, f3, f4⟩ := accumulate_flags { pollIntervalSecs := 30 } u0
    { MAC := m, TxBytes := t0, RxBytes := r0 }
  obtain ⟨g1, g2⟩ := accumulate_first { pollIntervalSecs := 30 } u0
    { MAC := m, TxBytes := t0, RxBytes := r0 } z3 z4
  obtain ⟨l1, l2⟩ := accumulate_Last { pollIntervalSecs := 30 } u0
    { MAC := m, TxBytes := t0, RxBytes := r0 }
  have hv1 := limitVerdict_none b _ 60 L hlm hlb hM hLr (f3.trans z6) (f4.trans z7)
    (by rw [g2, z2]; norm_num) (by rw [g1, z1]; omega)
  obtain ⟨hfind1, hst1, hcl1⟩ := hidle1 hv1 (f1.trans z5)
  rw [← hpoll1] at hfl1 hcf1 hfind1 hst1 hcl1
  -- second cycle: 50,000,000 bytes more
  obtain ⟨u1, horig1, hp1, hfl2, hcf2, hidle2, _⟩ :=
    deviceCycle_no_faults lower { pollIntervalSecs := 30 } (lower m) cfg now2
      { MAC := m, TxBytes := t1, RxBytes := r1 } _ b 0 hfl1 hact2
  have hpoll2 := poll_single lower { pollIntervalSecs := 30 } shuffle hshuffle cfg
    { MAC := m, TxBytes := t1, RxBytes := r1 } now2 _ b 0 hfl1 (hcf1.trans hcfgs) hen hmac
    hact2 hp1
  rw [hd2, hfind1] at horig1
  rcases horig1 with h | ⟨h, _⟩
  swap
  · cases h
  simp only [Option.some.injEq] at h
  subst h
  obtain ⟨f1', f2', f3', f4'⟩ := accumulate_flags { pollIntervalSecs := 30 }
    (accumulate { pollIntervalSecs := 30 } u0 { MAC := m, TxBytes := t0, RxBytes := r0 })
    { MAC := m, TxBytes := t1, RxBytes := r1 }
  obtain ⟨_, n2⟩ := accumulate_normal { pollIntervalSecs := 30 }
    (accumulate { pollIntervalSecs := 30 } u0 { MAC := m, TxBytes := t0, RxBytes := r0 })
    { MAC := m, TxBytes := t1, RxBytes := r1 }
    (by rw [l1, l2]; exact hpos) (by rw [l1, l2]; simp only; omega) (by simp only; omega)
    (by rw [g1, z1]) (by rw [g1, z1, l1, l2]; simp only; omega)
  rw [g1, z1, l1, l2] at n2
  simp only at n2
  have n2' : (accumulate { pollIntervalSecs := 30 }
      (accumulate { pollIntervalSecs := 30 } u0 { MAC := m, TxBytes := t0, RxBytes := r0 })
      { MAC := m, TxBytes := t1, RxBytes := r1 }).UsedBytes = 50000000 := by
    rw [n2]
    omega
  obtain ⟨m1, m2⟩ := accumulate_minutes_step
    (accumulate { pollIntervalSecs := 30 } u0 { MAC := m, TxBytes := t0, RxBytes := r0 })
    { MAC := m, TxBytes := t1, RxBytes := r1 } (by rw [g2, z2]) (by rw [g2, z2]; norm_num)
  rw [g2, z2] at m1 m2
  obtain ⟨k1, k2⟩ := accumulate_Last { pollIntervalSecs := 30 }
    (accumulate { pollIntervalSecs := 30 } u0 { MAC := m, TxBytes := t0, RxBytes := r0 })
    { MAC := m, TxBytes := t1, RxBytes := r1 }
  have hv2 := limitVerdict_none b _ 60 L hlm hlb hM hLr (f3'.trans (f3.trans z6))
    (f4'.trans (f4.trans z7)) (by omega) (by rw [n2']; exact hL)
  obtain ⟨hfind2, hst2, hcl2⟩ := hidle2 hv2 (f1'.trans (f1.trans z5))
  rw [← hpoll2] at hfl2 hcf2 hfind2 hst2 hcl2
  -- third cycle: the byte limit is reached
  obtain ⟨u2, horig2, hp2, _, _, _, hblock3⟩ :=
    deviceCycle_no_faults lower { pollIntervalSecs := 30 } (lower m) cfg now3
      { MAC := m, TxBytes := t2, RxBytes := r2 } _ b 0 hfl2 hact3
  have hpoll3 := poll_single lower { pollIntervalSecs := 30 } shuffle hshuffle cfg
    { MAC := m, TxBytes := t2, RxBytes := r2 } now3 _ b 0 hfl2
    (hcf2.trans (hcf1.trans hcfgs)) hen hmac hact3 hp2
  rw [hd3, ← hd2, hfind2] at horig2
  rcases horig2 with h | ⟨h, _⟩
  swap
  · cases h
  simp only [Option.some.injEq] at h
  subst h
  obtain ⟨f1'', f2'', f3'', f4''⟩ := accumulate_flags { pollIntervalSecs := 30 }
    (accumulate { pollIntervalSecs := 30 }
      (accumulate { pollIntervalSecs := 30 } u0 { MAC := m, TxBytes := t0, RxBytes := r0 })
      { MAC := m, TxBytes := t1, RxBytes := r1 })
    { MAC := m, TxBytes := t2, RxBytes := r2 }
  obtain ⟨_, n3⟩ := accumulate_normal { pollIntervalSecs := 30 }
    (accumulate { pollIntervalSecs := 30 }
      (accumulate { pollIntervalSecs := 30 } u0 { MAC := m, TxBytes := t0, RxBytes := r0 })
      { MAC := m, TxBytes := t1, RxBytes := r1 })
    { MAC := m, TxBytes := t2, RxBytes := r2 }
    (by rw [k1, k2]; simp only; omega) (by rw [k1, k2]; simp only; omega) (by simp only; omega)
    (by rw [n2']; norm_num) (by rw [n2', k1, k2]; simp only; omega)
  rw [n2', k1, k2] at n3
  simp only at n3
  obtain ⟨p1, p2⟩ := accumulate_minutes_step
    (accumulate { pollIntervalSecs := 30 }
      (accumulate { pollIntervalSecs := 30 } u0 { MAC := m, TxBytes := t0, RxBytes := r0 })
      { MAC := m, TxBytes := t1, RxBytes := r1 })
    { MAC := m, TxBytes := t2, RxBytes := r2 } (by omega) (by omega)
  have hv3 := limitVerdict_data b _ 60 L hlm hlb hM hLr (f3''.trans (f3'.trans (f3.trans z6)))
    (f4''.trans (f4'.trans (f4.trans z7))) (by omega) (by rw [n3]; exact hT2)
  have hunb2 : ∀ s, findState (lower m)
      (poll lower { pollIntervalSecs := 30 } shuffle [{ MAC := m, TxBytes := t1, RxBytes := r1 }]
        now2 (poll lower { pollIntervalSecs := 30 } shuffle
          [{ MAC := m, TxBytes := t0, RxBytes := r0 }] now1 w)) = some s →
      s.IsBlocked = false := by
    intro s hs
    rw [findState_congr (lower m) _ _ hst2, findState_congr (lower m) _ _ hst1] at hs
    exact hunblocked s hs
  obtain ⟨hfind3, hst3, hcl3⟩ := hblock3 "data_limit" hv3
    (f1''.trans (f1'.trans (f1.trans z5))) hunb2
  rw [← hpoll3] at hfind3 hst3 hcl3
  simp only [pollCycles]
  have hfind2' := hfind2
  rw [hd2] at hfind2'
  rw [hd3] at hfind3
  refine ⟨⟨_, hfind2', n2', f1'.trans (f1.trans z5)⟩, hunb2, hcl2.trans hcl1, ?_, hst3, ?_⟩
  · exact ⟨_, hfind3, n3, by rw [← n3] at hT2; exact hT2, rfl, rfl⟩
  · rw [hcl3, hcl2, hcl1]

/-! ## Properties of the store: row IDs -/

theorem uniqueIDs_congr (w w1 : World) (hu : w1.usages = w.usages)
    (hn : w1.nextID = w.nextID) (h : uniqueIDs w) : uniqueIDs w1 := by
  unfold uniqueIDs at *
  rw [hu, hn]
  exact h

theorem usageKey_iff (m d : String) (i : Int) (u : BlockUsage) :
    usageKey m d i u = true ↔ u.MAC = m ∧ u.Date = d ∧ u.BlockIndex = i := by
  simp [usageKey, and_assoc]

theorem usageKey_other (mac date : String) (idx : Int) (m d : String) (i : Int)
    (u : BlockUsage) (h : usageKey mac date idx u = true)
    (hne : ¬ (m = mac ∧ d = date ∧ i = idx)) : usageKey m d i u = false := by
  cases hk : usageKey m d i u with
  | false => rfl
  | true =>
    exfalso
    obtain ⟨h1, h2, h3⟩ := (usageKey_iff mac date idx u).1 h
    obtain ⟨k1, k2, k3⟩ := (usageKey_iff m d i u).1 hk
    exact hne ⟨k1.symm.trans h1, k2.symm.trans h2, k3.symm.trans h3⟩

theorem GetOrCreateBlockUsage_shape (mac date : String) (idx : Int) (st en : String)
    (lm lb : Option Int) (w : World) :
    ((GetOrCreateBlockUsage mac date idx st en lm lb w).2.usages = w.usages ∧
      (GetOrCreateBlockUsage mac date idx st en lm lb w).2.nextID = w.nextID) ∨
    ∃ v, (GetOrCreateBlockUsage mac date idx st en lm lb w).2.usages = w.usages ++ [v] ∧
      (GetOrCreateBlockUsage mac date idx st en lm lb w).2.nextID = w.nextID + 1 ∧
      v.ID = w.nextID ∧ usageKey mac date idx v = true := by
  unfold GetOrCreateBlockUsage
  rcases hn : w.next with ⟨f, w0⟩
  have hu0 : w0.usages = w.usages := by rw [← next_usages w, hn]
  have hn0 : w0.nextID = w.nextID := by rw [← next_nextID w, hn]
  cases f with
  | true => exact Or.inl ⟨hu0, hn0⟩
  | false =>
    simp only
    cases w0.usages.find? (usageKey mac date idx) with
    | some u0 => exact Or.inl ⟨hu0, hn0⟩
    | none =>
      simp only
      rcases hn1 : w0.next with ⟨f1, w00⟩
      have hu1 : w00.usages = w0.usages := by rw [← next_usages w0, hn1]
      have hN1 : w00.nextID = w0.nextID := by rw [← next_nextID w0, hn1]
      cases f1 with
      | true => exact Or.inl ⟨hu1.trans hu0, hN1.trans hn0⟩
      | false =>
        refine Or.inr ⟨_, by rw [← hu0, ← hu1], ?_, ?_, ?_⟩
        · show w00.nextID + 1 = w.nextID + 1
          rw [hN1, hn0]
        · show w00.nextID = w.nextID
          rw [hN1, hn0]
        · simp [usageKey]

theorem GetOrCreateBlockUsage_local (mac date : String) (idx : Int) (st en : String)
    (lm lb : Option Int) (w : World) (hu : uniqueIDs w) :
    uniqueIDs (GetOrCreateBlockUsage mac date idx st en lm lb w).2 ∧
    ∀ m d i, ¬ (m = mac ∧ d = date ∧ i = idx) →
      findUsage m d i (GetOrCreateBlockUsage mac date idx st en lm lb w).2 =
        findUsage m d i w := by
  rcases GetOrCreateBlockUsage_shape mac date idx st en lm lb w with
    ⟨h1, h2⟩ | ⟨v, h1, h2, h3, h4⟩
  · exact ⟨uniqueIDs_congr w _ h1 h2 hu, fun m d i _ => findUsage_congr m d i w _ h1⟩
  · refine ⟨?_, ?_⟩
    · unfold uniqueIDs at *
      rw [h1, h2]
      refine ⟨?_, ?_⟩
      · rw [List.map_append, List.nodup_append]
        refine ⟨hu.1, by simp, ?_⟩
        intro x hx hx1
        simp only [List.map_cons, List.map_nil, List.mem_singleton] at hx1
        obtain ⟨y, hy, hxy⟩ := List.mem_map.1 hx
        have := hu.2 y hy
        rw [hxy, hx1, h3] at this
        exact lt_irrefl _ this
      · intro x hx
        rcases List.mem_append.1 hx with hx | hx
        · have := hu.2 x hx
          omega
        · simp only [List.mem_singleton] at hx
          rw [hx, h3]
          omega
    · intro m d i hne
      unfold findUsage
      rw [h1, List.find?_append]
      have hk := usageKey_other mac date idx m d i v h4 hne
      simp [List.find?_cons, hk]

theorem find_map_fixed {α : Type} (p : α → Bool) (f : α → α) (hp : ∀ x, p (f x) = p x)
    (l : List α) (hfix : ∀ x ∈ l, p x = true → f x = x) :
    (l.map f).find? p = l.find? p := by
  induction l with
  | nil => rfl
  | cons x xs ih =>
    simp only [List.map_cons, List.find?_cons, hp]
    cases hpx : p x with
    | true =>
      simp only
      rw [hfix x (List.mem_cons_self x xs) hpx]
    | false =>
      simp only
      exact ih (fun y hy => hfix y (List.mem_cons_of_mem x hy))

theorem UpdateBlockUsage_rows (v : BlockUsage) (w : World) :
    (UpdateBlockUsage v w).2.nextID = w.nextID ∧
    ((UpdateBlockUsage v w).2.usages = w.usages ∨
      (UpdateBlockUsage v w).2.usages =
        w.usages.map (fun row => if row.ID = v.ID then setUsageColumns v row else row)) := by
  unfold UpdateBlockUsage
  rcases hn : w.next with ⟨f, w0⟩
  have hu0 : w0.usages = w.usages := by rw [← next_usages w, hn]
  have hn0 : w0.nextID = w.nextID := by rw [← next_nextID w, hn]
  cases f with
  | true => exact ⟨hn0, Or.inl hu0⟩
  | false =>
    refine ⟨hn0, Or.inr ?_⟩
    show w0.usages.map _ = _
    rw [hu0]

theorem UpdateBlockUsage_local (mac date : String) (idx : Int) (v u : BlockUsage) (w : World)
    (hu : uniqueIDs w) (hfind : findUsage mac date idx w = some u) (hid : v.ID = u.ID) :
    uniqueIDs (UpdateBlockUsage v w).2 ∧
    ∀ m d i, ¬ (m = mac ∧ d = date ∧ i = idx) →
      findUsage m d i (UpdateBlockUsage v w).2 = findUsage m d i w := by
  obtain ⟨hnext, hrows | hrows⟩ := UpdateBlockUsage_rows v w
  · exact ⟨uniqueIDs_congr w _ hrows hnext hu, fun m d i _ => findUsage_congr m d i w _ hrows⟩
  · have hids : ∀ row : BlockUsage,
        (if row.ID = v.ID then setUsageColumns v row else row).ID = row.ID := by
      intro row
      split <;> rfl
    refine ⟨?_, ?_⟩
    · unfold uniqueIDs at *
      rw [hrows, hnext, List.map_map]
      have hfun : ((fun u : BlockUsage => u.ID) ∘
          fun row => if row.ID = v.ID then setUsageColumns v row else row) =
          fun u : BlockUsage => u.ID := by
        funext row
        exact hids row
      rw [hfun]
      refine ⟨hu.1, ?_⟩
      intro x hx
      obtain ⟨y, hy, hxy⟩ := List.mem_map.1 hx
      rw [← hxy, hids]
      exact hu.2 y hy
    · intro m d i hne
      unfold findUsage
      rw [hrows]
      apply find_map_fixed
      · intro x
        split
        · exact usageKey_setUsageColumns m d i v x
        · rfl
      · intro x hx hk
        have hxid : x.ID ≠ v.ID := by
          intro hxv
          have hmem : u ∈ w.usages := List.mem_of_find?_eq_some hfind
          have hxu : x = u := List.inj_on_of_nodup_map hu.1 hx hmem (hxv.trans hid)
          have hku : usageKey mac date idx u = true := List.find?_some hfind
          rw [← hxu] at hku
          have := usageKey_other mac date idx m d i x hku hne
          rw [hk] at this
          exact Bool.noConfusion this
        rw [if_neg hxid]

theorem GetDeviceState_nextID (mac : String) (w : World) :
    (GetDeviceState mac w).2.nextID = w.nextID := by
  rw [GetDeviceState_eq]
  exact next_nextID w

theorem SaveDeviceState_nextID (st : DeviceState) (w : World) :
    (SaveDeviceState st w).2.nextID = w.nextID := by
  unfold SaveDeviceState
  rcases hn : w.next with ⟨f, w0⟩
  have h0 : w0.nextID = w.nextID := by rw [← next_nextID w, hn]
  cases f with
  | true => exact h0
  | false =>
    simp only
    split <;> exact h0

theorem BlockDevice_nextID (lower : String → String) (mac reason : String) (w : World) :
    (BlockDevice lower mac reason w).2.nextID = w.nextID := by
  unfold BlockDevice
  have hg := GetDeviceState_nextID mac w
  rcases hget : GetDeviceState mac w with ⟨r0, w0⟩
  rw [hget] at hg
  simp only at hg
  cases r0 with
  | error e => exact hg
  | ok state =>
    simp only
    split
    · exact hg
    · rw [BlockClient_eq]
      cases w0.next.1 with
      | true => exact (next_nextID w0).trans hg
      | false =>
        simp only [Bool.false_eq_true, if_false]
        rw [SaveDeviceState_nextID]
        exact (next_nextID w0).trans hg

theorem UnblockDevice_nextID (lower : String → String) (mac : String) (w : World) :
    (UnblockDevice lower mac w).2.nextID = w.nextID := by
  unfold UnblockDevice
  have hg := GetDeviceState_nextID mac w
  rcases hget : GetDeviceState mac w with ⟨r0, w0⟩
  rw [hget] at hg
  simp only at hg
  cases r0 with
  | error e => exact hg
  | ok state =>
    simp only
    split
    · exact hg
    · rw [UnblockClient_eq]
      cases w0.next.1 with
      | true => exact (next_nextID w0).trans hg
      | false =>
        simp only [Bool.false_eq_true, if_false]
        rw [SaveDeviceState_nextID]
        exact (next_nextID w0).trans hg

/-! ## Properties of polling: what a step for one device leaves alone -/

theorem keptBy_refl (lower : String → String) (mac date : String) (idx : Int) (w : World)
    (hu : uniqueIDs w) : keptBy lower mac date idx w w :=
  ⟨hu, fun _ _ _ _ => rfl, fun _ _ => rfl, [], (List.append_nil _).symm,
    fun _ hc => absurd hc (List.not_mem_nil _)⟩

theorem keptBy_trans (lower : String → String) (mac date : String) (idx : Int)
    (w w1 w2 : World) (h1 : keptBy lower mac date idx w w1)
    (h2 : keptBy lower mac date idx w1 w2) : keptBy lower mac date idx w w2 := by
  obtain ⟨_, hr1, hs1, cs1, hc1, ht1⟩ := h1
  obtain ⟨hu2, hr2, hs2, cs2, hc2, ht2⟩ := h2
  refine ⟨hu2, fun m d i h => (hr2 m d i h).trans (hr1 m d i h),
    fun m h => (hs2 m h).trans (hs1 m h), cs1 ++ cs2, ?_, ?_⟩
  · rw [hc2, hc1, List.append_assoc]
  · intro c hc
    rcases List.mem_append.1 hc with hc | hc
    · exact ht1 c hc
    · exact ht2 c hc

theorem localTo_of_keptBy (lower : String → String) (mac date : String) (idx : Int)
    (w w1 : World) (h : keptBy lower mac date idx w w1) : localTo lower mac w w1 :=
  ⟨h.1, fun m d i hm => h.2.1 m d i (fun hk => hm hk.1), h.2.2.1, h.2.2.2⟩

theorem GetOrCreateBlockUsage_kept (lower : String → String) (mac date : String) (idx : Int)
    (st en : String) (lm lb : Option Int) (w : World) (hu : uniqueIDs w) :
    keptBy lower mac date idx w (GetOrCreateBlockUsage mac date idx st en lm lb w).2 := by
  obtain ⟨h1, h2⟩ := GetOrCreateBlockUsage_local mac date idx st en lm lb w hu
  obtain ⟨h3, h4⟩ := GetOrCreateBlockUsage_frame mac date idx st en lm lb w
  exact ⟨h1, h2, fun m _ => findState_congr m w _ h3, [], by rw [h4, List.append_nil],
    fun _ hc => absurd hc (List.not_mem_nil _)⟩

theorem UpdateBlockUsage_kept (lower : String → String) (mac date : String) (idx : Int)
    (v u : BlockUsage) (w : World) (hu : uniqueIDs w)
    (hfind : findUsage mac date idx w = some u) (hid : v.ID = u.ID) :
    keptBy lower mac date idx w (UpdateBlockUsage v w).2 := by
  obtain ⟨h1, h2⟩ := UpdateBlockUsage_local mac date idx v u w hu hfind hid
  obtain ⟨h3, h4⟩ := UpdateBlockUsage_frame v w
  exact ⟨h1, h2, fun m _ => findState_congr m w _ h3, [], by rw [h4, List.append_nil],
    fun _ hc => absurd hc (List.not_mem_nil _)⟩

theorem BlockDevice_kept (lower : String → String) (mac reason date : String) (idx : Int)
    (w : World) (hu : uniqueIDs w) :
    keptBy lower mac date idx w (BlockDevice lower mac reason w).2 := by
  obtain ⟨hU, hspec⟩ := BlockDevice_spec lower mac reason w
  refine ⟨uniqueIDs_congr w _ hU (BlockDevice_nextID lower mac reason w) hu,
    fun m d i _ => findUsage_congr m d i w _ hU, ?_, ?_⟩
  · rcases hspec with ⟨_, hs, _⟩ | ⟨_, _, hs, _⟩ | ⟨_, _, _, _, hs⟩
    · exact fun m _ => findState_congr m w _ hs
    · exact fun m _ => findState_congr m w _ hs
    · exact hs
  · rcases BlockDevice_calls lower mac reason w with hc | hc
    · exact ⟨[], by rw [hc, List.append_nil], fun _ h => absurd h (List.not_mem_nil _)⟩
    · refine ⟨[Call.block (lower mac)], hc, ?_⟩
      intro c h
      rw [List.mem_singleton.1 h]
      rfl

theorem UnblockDevice_kept (lower : String → String) (mac date : String) (idx : Int)
    (w : World) (hu : uniqueIDs w) :
    keptBy lower mac date idx w (UnblockDevice lower mac w).2 := by
  obtain ⟨hU, hspec⟩ := UnblockDevice_spec lower mac w
  refine ⟨uniqueIDs_congr w _ hU (UnblockDevice_nextID lower mac w) hu,
    fun m d i _ => findUsage_congr m d i w _ hU, ?_, ?_⟩
  · rcases hspec with ⟨_, hs, _⟩ | ⟨_, _, hs, _⟩ | ⟨_, _, _, _, hs⟩
    · exact fun m _ => findState_congr m w _ hs
    · exact fun m _ => findState_congr m w _ hs
    · exact hs
  · rcases UnblockDevice_calls lower mac w with hc | hc
    · exact ⟨[], by rw [hc, List.append_nil], fun _ h => absurd h (List.not_mem_nil _)⟩
    · refine ⟨[Call.unblock (lower mac)], hc, ?_⟩
      intro c h
      rw [List.mem_singleton.1 h]
      rfl

theorem ProcessClientStats_kept (lower : String → String) (a : Accumulator) (mac : String)
    (client : ClientInfo) (now : Time) (block : TimeBlock) (idx : Int) (w : World)
    (hu : uniqueIDs w) :
    keptBy lower mac now.date idx w (ProcessClientStats a mac client now block idx w).2 := by
  have hg := GetOrCreateBlockUsage_kept lower mac now.date idx block.StartTime block.EndTime
    block.LimitMinutes block.LimitBytes w hu
  unfold ProcessClientStats
  rcases hget : GetOrCreateBlockUsage mac now.date idx block.StartTime block.EndTime
    block.LimitMinutes block.LimitBytes w with ⟨r, w1⟩
  rw [hget] at hg
  simp only at hg
  cases r with
  | error e => exact hg
  | ok u =>
    simp only
    have hfind := (GetOrCreateBlockUsage_ok mac now.date idx block.StartTime block.EndTime
      block.LimitMinutes block.LimitBytes w w1 u hget).1
    exact keptBy_trans lower mac now.date idx w w1 _ hg
      (UpdateBlockUsage_kept lower mac now.date idx (accumulate a u client) u w1 hg.1 hfind
        (accumulate_ID a u client))

theorem enforceLimits_kept (lower : String → String) (mac date : String) (idx : Int)
    (b : TimeBlock) (u : BlockUsage) (w : World) (hu : uniqueIDs w)
    (hfind : findUsage mac date idx w = some u) :
    keptBy lower mac date idx w (enforceLimits lower mac b u w).2 := by
  rcases enforceLimits_cases lower mac b u w with
    ⟨reason, _, _, h⟩ | ⟨reason, _, _, h⟩ | ⟨_, _, h⟩ | ⟨_, _, h⟩
  · have hb := BlockDevice_kept lower mac reason date idx w hu
    rcases h with ⟨e, _, h⟩ | ⟨_, h⟩
    · rw [h]
      exact hb
    · rw [h]
      refine keptBy_trans lower mac date idx w _ _ hb
        (UpdateBlockUsage_kept lower mac date idx _ u _ hb.1 ?_ rfl)
      rw [findUsage_congr mac date idx w _ (BlockDevice_spec lower mac reason w).1]
      exact hfind
  · rw [h]
    exact keptBy_refl lower mac date idx w hu
  · have hb := UnblockDevice_kept lower mac date idx w hu
    rcases h with ⟨e, _, h⟩ | ⟨_, h⟩
    · rw [h]
      exact hb
    · rw [h]
      refine keptBy_trans lower mac date idx w _ _ hb
        (UpdateBlockUsage_kept lower mac date idx _ u _ hb.1 ?_ rfl)
      rw [findUsage_congr mac date idx w _ (UnblockDevice_spec lower mac w).1]
      exact hfind
  · rw [h]
    exact keptBy_refl lower mac date idx w hu

theorem CheckAndEnforce_kept (lower : String → String) (mac : String) (config : DeviceConfig)
    (now : Time) (w : World) (b : TimeBlock) (i : Int) (hu : uniqueIDs w)
    (hact : GetActiveTimeBlock lower config now = (some b, i)) :
    keptBy lower mac now.date i w (CheckAndEnforce lower mac config now w).2 := by
  have hg := GetOrCreateBlockUsage_kept lower mac now.date i b.StartTime b.EndTime
    b.LimitMinutes b.LimitBytes w hu
  rcases hget : GetOrCreateBlockUsage mac now.date i b.StartTime b.EndTime
    b.LimitMinutes b.LimitBytes w with ⟨r, w1⟩
  rw [hget] at hg
  simp only at hg
  cases r with
  | error e =>
    have : CheckAndEnforce lower mac config now w = (.error e, w1) := by
      unfold CheckAndEnforce
      rw [hact]
      simp only
      rw [hget]
    rw [this]
    exact hg
  | ok u =>
    rw [CheckAndEnforce_of_record lower mac config now w w1 b i u hact hget]
    have hfind := (GetOrCreateBlockUsage_ok mac now.date i b.StartTime b.EndTime
      b.LimitMinutes b.LimitBytes w w1 u hget).1
    exact keptBy_trans lower mac now.date i w w1 _ hg
      (enforceLimits_kept lower mac now.date i b u w1 hg.1 hfind)

theorem pollClient_local (lower : String → String) (a : Accumulator)
    (managed : List (String × DeviceConfig)) (now : Time) (client : ClientInfo) (w : World)
    (hu : uniqueIDs w) :
    localTo lower (lower client.MAC) w (pollClient lower a managed now client w) := by
  unfold pollClient
  simp only
  cases mapLookup (lower client.MAC) managed with
  | none => exact localTo_of_keptBy lower _ "" 0 w w (keptBy_refl lower _ "" 0 w hu)
  | some config =>
    simp only
    rcases hact : GetActiveTimeBlock lower config now with ⟨ob, i⟩
    cases ob with
    | none =>
      simp only
      split
      · exact localTo_of_keptBy lower _ "" 0 w _ (BlockDevice_kept lower _ _ "" 0 w hu)
      · exact localTo_of_keptBy lower _ "" 0 w w (keptBy_refl lower _ "" 0 w hu)
    | some b =>
      simp only
      have hp := ProcessClientStats_kept lower a (lower client.MAC) client now b i w hu
      rcases hpcs : ProcessClientStats a (lower client.MAC) client now b i w with ⟨r, w1⟩
      rw [hpcs] at hp
      simp only at hp
      cases r with
      | error e => exact localTo_of_keptBy lower _ now.date i w w1 hp
      | ok x =>
        simp only
        exact localTo_of_keptBy lower _ now.date i w _
          (keptBy_trans lower _ now.date i w w1 _ hp
            (CheckAndEnforce_kept lower _ config now w1 b i hp.1 hact))

theorem sweepDevice_local (lower : String → String) (now : Time)
    (entry : String × DeviceConfig) (w : World) (hu : uniqueIDs w) :
    localTo lower entry.1 w (sweepDevice lower now entry w) := by
  unfold sweepDevice
  rcases hact : GetActiveTimeBlock lower entry.2 now with ⟨ob, i⟩
  cases ob with
  | none =>
    simp only
    split
    · exact localTo_of_keptBy lower _ "" 0 w _ (BlockDevice_kept lower _ _ "" 0 w hu)
    · exact localTo_of_keptBy lower _ "" 0 w w (keptBy_refl lower _ "" 0 w hu)
  | some b => exact localTo_of_keptBy lower _ "" 0 w w (keptBy_refl lower _ "" 0 w hu)

/-! ## Properties of polling: the same step from two states, store and controller -/

theorem GetOrCreateBlockUsage_read (mac date : String) (idx : Int) (st en : String)
    (lm lb : Option Int) (w w1 : World) (u : BlockUsage)
    (h : GetOrCreateBlockUsage mac date idx st en lm lb w = (.ok u, w1)) :
    findUsage mac date idx w = some u ∨
      (findUsage mac date idx w = none ∧ withoutID u = newUsage mac date idx st en lm lb) := by
  unfold GetOrCreateBlockUsage at h
  rcases hn : w.next with ⟨f, w0⟩
  have hu0 : w0.usages = w.usages := by rw [← next_usages w, hn]
  rw [hn] at h
  cases f with
  | true => simp at h
  | false =>
    simp only at h
    cases hf : w0.usages.find? (usageKey mac date idx) with
    | some u0 =>
      rw [hf] at h
      simp only [Prod.mk.injEq, Except.ok.injEq] at h
      obtain ⟨h1, h2⟩ := h
      subst h1 h2
      exact Or.inl (by rw [findUsage, ← hu0, hf])
    | none =>
      rw [hf] at h
      rcases hn1 : w0.next with ⟨f1, w00⟩
      rw [hn1] at h
      cases f1 with
      | true => simp at h
      | false =>
        simp only [Prod.mk.injEq, Except.ok.injEq] at h
        obtain ⟨h1, h2⟩ := h
        subst h1 h2
        exact Or.inr ⟨by rw [findUsage, ← hu0, hf], rfl⟩

theorem withoutID_accumulate (a : Accumulator) (u : BlockUsage) (c : ClientInfo) :
    withoutID (accumulate a u c) = accumulate a (withoutID u) c := by
  have h1 : lastTotal (withoutID u) = lastTotal u := rfl
  have h2 : trafficDelta (withoutID u) c = trafficDelta u c := rfl
  unfold accumulate
  rw [h1, h2]
  split
  · rfl
  · simp only
    split <;> rfl

theorem sameFor_read (mac d : String) (i : Int) (w1 w2 : World) (u1 u2 : BlockUsage)
    (h : sameFor mac w1 w2) (h1 : findUsage mac d i w1 = some u1)
    (h2 : findUsage mac d i w2 = some u2) : withoutID u1 = withoutID u2 := by
  have := h.1 d i
  rw [h1, h2] at this
  simpa using this

theorem sameFor_step (mac date : String) (idx : Int) (w1 w2 v1 v2 : World)
    (h : sameFor mac w1 w2)
    (hk1 : ∀ m d i, ¬ (m = mac ∧ d = date ∧ i = idx) → findUsage m d i v1 = findUsage m d i w1)
    (hk2 : ∀ m d i, ¬ (m = mac ∧ d = date ∧ i = idx) → findUsage m d i v2 = findUsage m d i w2)
    (hown : (findUsage mac date idx v1).map withoutID = (findUsage mac date idx v2).map withoutID)
    (hs : findState mac v1 = findState mac v2) : sameFor mac v1 v2 := by
  refine ⟨?_, hs⟩
  intro d i
  by_cases hdi : d = date ∧ i = idx
  · rw [hdi.1, hdi.2]
    exact hown
  · rw [hk1 mac d i (fun hk => hdi hk.2), hk2 mac d i (fun hk => hdi hk.2)]
    exact h.1 d i

theorem sameFor_of_rows (mac : String) (w1 w2 v1 v2 : World) (h : sameFor mac w1 w2)
    (hu1 : v1.usages = w1.usages) (hu2 : v2.usages = w2.usages)
    (hs : findState mac v1 = findState mac v2) : sameFor mac v1 v2 :=
  ⟨fun d i => by
    rw [findUsage_congr mac d i w1 v1 hu1, findUsage_congr mac d i w2 v2 hu2]
    exact h.1 d i, hs⟩

theorem BlockDevice_run (lower : String → String) (mac reason : String) (w : World)
    (hf : w.faults = []) :
    ((∃ s, findState mac w = some s ∧ s.IsBlocked = true ∧ s.BlockedReason = reason) ∧
      (BlockDevice lower mac reason w).2.calls = w.calls) ∨
    ((¬ ∃ s, findState mac w = some s ∧ s.IsBlocked = true ∧ s.BlockedReason = reason) ∧
      (BlockDevice lower mac reason w).2.calls = w.calls ++ [Call.block (lower mac)]) := by
  by_cases hex : ∃ s, findState mac w = some s ∧ s.IsBlocked = true ∧ s.BlockedReason = reason
  · obtain ⟨s, h1, h2, h3⟩ := hex
    refine Or.inl ⟨⟨s, h1, h2, h3⟩, ?_⟩
    rw [BlockDevice_of_blocked lower mac reason w s h1 h2 h3]
    exact next_calls w
  · exact Or.inr ⟨hex, (BlockDevice_retry lower mac reason w hf hex).2.2⟩

theorem UnblockDevice_run (lower : String → String) (mac : String) (w : World)
    (hf : w.faults = []) :
    ((∃ s, findState mac w = some s ∧ s.IsBlocked = true) ∧
      (UnblockDevice lower mac w).2.calls = w.calls ++ [Call.unblock (lower mac)] ∧
      findState mac (UnblockDevice lower mac w).2 =
        some { MAC := mac, IsBlocked := false, BlockedReason := "" }) ∨
    ((¬ ∃ s, findState mac w = some s ∧ s.IsBlocked = true) ∧
      (UnblockDevice lower mac w).2.calls = w.calls ∧
      findState mac (UnblockDevice lower mac w).2 = findState mac w) := by
  have hok := (UnblockDevice_no_faults lower mac w hf).1
  obtain ⟨_, hspec⟩ := UnblockDevice_spec lower mac w
  rcases hspec with ⟨⟨e, he⟩, _⟩ | ⟨_, hall, hs, hc⟩ | ⟨_, hex, hc, hst, _⟩
  · rw [hok] at he
    exact Except.noConfusion he
  · refine Or.inr ⟨?_, hc, findState_congr mac w _ hs⟩
    rintro ⟨s, h1, h2⟩
    rw [hall s h1] at h2
    exact Bool.noConfusion h2
  · exact Or.inl ⟨hex, hc, hst⟩

theorem UpdateBlockUsage_run (lower : String → String) (mac date : String) (idx : Int)
    (v u : BlockUsage) (w : World) (hf : w.faults = []) (hu : uniqueIDs w)
    (hfind : findUsage mac date idx w = some u) (hid : v.ID = u.ID) :
    (UpdateBlockUsage v w).1 = .ok () ∧ (UpdateBlockUsage v w).2.faults = [] ∧
    findUsage mac date idx (UpdateBlockUsage v w).2 = some (setUsageColumns v u) ∧
    (UpdateBlockUsage v w).2.states = w.states ∧ (UpdateBlockUsage v w).2.calls = w.calls ∧
    keptBy lower mac date idx w (UpdateBlockUsage v w).2 := by
  obtain ⟨w2, h, hf2⟩ := UpdateBlockUsage_no_faults v w hf
  obtain ⟨h1, h2, h3⟩ := UpdateBlockUsage_ok mac date idx v u w w2 h hfind hid
  have hk := UpdateBlockUsage_kept lower mac date idx v u w hu hfind hid
  rw [h] at hk ⊢
  exact ⟨rfl, hf2, h1, h2, h3, hk⟩

theorem GetOrCreateBlockUsage_same (mac date : String) (idx : Int) (st en : String)
    (lm lb : Option Int) (w1 w2 : World) (hf1 : w1.faults = []) (hf2 : w2.faults = [])
    (hu1 : uniqueIDs w1) (hu2 : uniqueIDs w2) (h : sameFor mac w1 w2) :
    ∃ u1 u2 v1 v2, GetOrCreateBlockUsage mac date idx st en lm lb w1 = (.ok u1, v1) ∧
      GetOrCreateBlockUsage mac date idx st en lm lb w2 = (.ok u2, v2) ∧
      findUsage mac date idx v1 = some u1 ∧ findUsage mac date idx v2 = some u2 ∧
      v1.faults = [] ∧ v2.faults = [] ∧ uniqueIDs v1 ∧ uniqueIDs v2 ∧
      v1.calls = w1.calls ∧ v2.calls = w2.calls ∧ sameFor mac v1 v2 := by
  obtain ⟨u1, v1, hg1, hv1, hfind1, hc1, hs1⟩ :=
    GetOrCreateBlockUsage_run mac date idx st en lm lb w1 hf1
  obtain ⟨u2, v2, hg2, hv2, hfind2, hc2, hs2⟩ :=
    GetOrCreateBlockUsage_run mac date idx st en lm lb w2 hf2
  have hl1 := GetOrCreateBlockUsage_local mac date idx st en lm lb w1 hu1
  have hl2 := GetOrCreateBlockUsage_local mac date idx st en lm lb w2 hu2
  rw [hg1] at hl1
  rw [hg2] at hl2
  have hsame : withoutID u1 = withoutID u2 := by
    have hk := h.1 date idx
    rcases GetOrCreateBlockUsage_read mac date idx st en lm lb w1 v1 u1 hg1 with
      r1 | ⟨r1, e1⟩ <;>
    rcases GetOrCreateBlockUsage_read mac date idx st en lm lb w2 v2 u2 hg2 with
      r2 | ⟨r2, e2⟩
    · exact sameFor_read mac date idx w1 w2 u1 u2 h r1 r2
    · rw [r1, r2] at hk
      simp at hk
    · rw [r1, r2] at hk
      simp at hk
    · rw [e1, e2]
  refine ⟨u1, u2, v1, v2, hg1, hg2, hfind1, hfind2, hv1, hv2, hl1.1, hl2.1, hc1, hc2, ?_⟩
  refine sameFor_step mac date idx w1 w2 v1 v2 h hl1.2 hl2.2 ?_ ?_
  · rw [hfind1, hfind2]
    simp [hsame]
  · rw [findState_congr mac w1 v1 hs1, findState_congr mac w2 v2 hs2]
    exact h.2

theorem BlockDevice_same (lower : String → String) (mac reason : String) (w1 w2 : World)
    (hf1 : w1.faults = []) (hf2 : w2.faults = []) (h : sameFor mac w1 w2) :
    (BlockDevice lower mac reason w1).1 = .ok () ∧ (BlockDevice lower mac reason w2).1 = .ok () ∧
    (BlockDevice lower mac reason w1).2.faults = [] ∧
    (BlockDevice lower mac reason w2).2.faults = [] ∧
    sameFor mac (BlockDevice lower mac reason w1).2 (BlockDevice lower mac reason w2).2 ∧
    ∃ cs, (BlockDevice lower mac reason w1).2.calls = w1.calls ++ cs ∧
      (BlockDevice lower mac reason w2).2.calls = w2.calls ++ cs := by
  obtain ⟨hok1, hfa1⟩ := BlockDevice_no_faults lower mac reason w1 hf1
  obtain ⟨hok2, hfa2⟩ := BlockDevice_no_faults lower mac reason w2 hf2
  refine ⟨hok1, hok2, hfa1, hfa2, ?_, ?_⟩
  · refine sameFor_of_rows mac w1 w2 _ _ h (BlockDevice_spec lower mac reason w1).1
      (BlockDevice_spec lower mac reason w2).1 ?_
    rw [BlockDevice_ok_state lower mac reason w1 hok1,
      BlockDevice_ok_state lower mac reason w2 hok2]
  · rcases BlockDevice_run lower mac reason w1 hf1 with ⟨hex1, hc1⟩ | ⟨hex1, hc1⟩ <;>
    rcases BlockDevice_run lower mac reason w2 hf2 with ⟨hex2, hc2⟩ | ⟨hex2, hc2⟩
    · exact ⟨[], by rw [hc1, List.append_nil], by rw [hc2, List.append_nil]⟩
    · rw [h.2] at hex1
      exact absurd hex1 hex2
    · rw [h.2] at hex1
      exact absurd hex2 hex1
    · exact ⟨_, hc1, hc2⟩

theorem UnblockDevice_same (lower : String → String) (mac : String) (w1 w2 : World)
    (hf1 : w1.faults = []) (hf2 : w2.faults = []) (h : sameFor mac w1 w2) :
    (UnblockDevice lower mac w1).1 = .ok () ∧ (UnblockDevice lower mac w2).1 = .ok () ∧
    (UnblockDevice lower mac w1).2.faults = [] ∧
    (UnblockDevice lower mac w2).2.faults = [] ∧
    sameFor mac (UnblockDevice lower mac w1).2 (UnblockDevice lower mac w2).2 ∧
    ∃ cs, (UnblockDevice lower mac w1).2.calls = w1.calls ++ cs ∧
      (UnblockDevice lower mac w2).2.calls = w2.calls ++ cs := by
  obtain ⟨hok1, hfa1⟩ := UnblockDevice_no_faults lower mac w1 hf1
  obtain ⟨hok2, hfa2⟩ := UnblockDevice_no_faults lower mac w2 hf2
  have hU1 := (UnblockDevice_spec lower mac w1).1
  have hU2 := (UnblockDevice_spec lower mac w2).1
  refine ⟨hok1, hok2, hfa1, hfa2, ?_⟩
  rcases UnblockDevice_run lower mac w1 hf1 with ⟨hex1, hc1, hs1⟩ | ⟨hex1, hc1, hs1⟩ <;>
  rcases UnblockDevice_run lower mac w2 hf2 with ⟨hex2, hc2, hs2⟩ | ⟨hex2, hc2, hs2⟩
  · exact ⟨sameFor_of_rows mac w1 w2 _ _ h hU1 hU2 (by rw [hs1, hs2]), _, hc1, hc2⟩
  · rw [h.2] at hex1
    exact absurd hex1 hex2
  · rw [h.2] at hex1
    exact absurd hex2 hex1
  · exact ⟨sameFor_of_rows mac w1 w2 _ _ h hU1 hU2 (by rw [hs1, hs2]; exact h.2), [],
      by rw [hc1, List.append_nil], by rw [hc2, List.append_nil]⟩

/-! ## Properties of polling: the same step from two states, one device -/

theorem sameStep_refl (mac : String) (w1 w2 : World) (hf1 : w1.faults = [])
    (hf2 : w2.faults = []) (h : sameFor mac w1 w2) : sameStep mac w1 w2 w1 w2 :=
  ⟨hf1, hf2, h, [], (List.append_nil _).symm, (List.append_nil _).symm⟩

theorem sameStep_trans (mac : String) (w1 w2 v1 v2 x1 x2 : World)
    (h1 : sameStep mac w1 w2 v1 v2) (h2 : sameStep mac v1 v2 x1 x2) :
    sameStep mac w1 w2 x1 x2 := by
  obtain ⟨_, _, _, cs1, a1, b1⟩ := h1
  obtain ⟨f1, f2, hs, cs2, a2, b2⟩ := h2
  exact ⟨f1, f2, hs, cs1 ++ cs2, by rw [a2, a1, List.append_assoc],
    by rw [b2, b1, List.append_assoc]⟩

theorem sameFor_refl (mac : String) (w : World) : sameFor mac w w :=
  ⟨fun _ _ => rfl, rfl⟩

theorem ProcessClientStats_same (lower : String → String) (a : Accumulator) (mac : String)
    (client : ClientInfo) (now : Time) (block : TimeBlock) (idx : Int) (w1 w2 : World)
    (hf1 : w1.faults = []) (hf2 : w2.faults = []) (hu1 : uniqueIDs w1) (hu2 : uniqueIDs w2)
    (h : sameFor mac w1 w2) :
    (ProcessClientStats a mac client now block idx w1).1 = .ok () ∧
    (ProcessClientStats a mac client now block idx w2).1 = .ok () ∧
    sameStep mac w1 w2 (ProcessClientStats a mac client now block idx w1).2
      (ProcessClientStats a mac client now block idx w2).2 := by
  obtain ⟨u1, u2, v1, v2, hg1, hg2, hfind1, hfind2, hv1, hv2, hq1, hq2, hc1, hc2, hs⟩ :=
    GetOrCreateBlockUsage_same mac now.date idx block.StartTime block.EndTime
      block.LimitMinutes block.LimitBytes w1 w2 hf1 hf2 hu1 hu2 h
  have e1 : ProcessClientStats a mac client now block idx w1 =
      UpdateBlockUsage (accumulate a u1 client) v1 := by
    unfold ProcessClientStats
    rw [hg1]
  have e2 : ProcessClientStats a mac client now block idx w2 =
      UpdateBlockUsage (accumulate a u2 client) v2 := by
    unfold ProcessClientStats
    rw [hg2]
  rw [e1, e2]
  obtain ⟨ok1, g1, r1, s1, c1, k1⟩ := UpdateBlockUsage_run lower mac now.date idx
    (accumulate a u1 client) u1 v1 hv1 hq1 hfind1 (accumulate_ID a u1 client)
  obtain ⟨ok2, g2, r2, s2, c2, k2⟩ := UpdateBlockUsage_run lower mac now.date idx
    (accumulate a u2 client) u2 v2 hv2 hq2 hfind2 (accumulate_ID a u2 client)
  refine ⟨ok1, ok2, g1, g2, sameFor_step mac now.date idx v1 v2 _ _ hs k1.2.1 k2.2.1 ?_ ?_,
    [], by rw [c1, hc1, List.append_nil], by rw [c2, hc2, List.append_nil]⟩
  · rw [r1, r2, setUsageColumns_accumulate, setUsageColumns_accumulate]
    simp only [Option.map_some']
    rw [withoutID_accumulate, withoutID_accumulate,
      sameFor_read mac now.date idx v1 v2 u1 u2 hs hfind1 hfind2]
  · rw [findState_congr mac v1 _ s1, findState_congr mac v2 _ s2]
    exact hs.2

theorem enforceLimits_same (lower : String → String) (mac date : String) (idx : Int)
    (b : TimeBlock) (u1 u2 : BlockUsage) (w1 w2 : World)
    (hf1 : w1.faults = []) (hf2 : w2.faults = []) (hu1 : uniqueIDs w1) (hu2 : uniqueIDs w2)
    (hfind1 : findUsage mac date idx w1 = some u1) (hfind2 : findUsage mac date idx w2 = some u2)
    (h : sameFor mac w1 w2) :
    sameStep mac w1 w2 (enforceLimits lower mac b u1 w1).2 (enforceLimits lower mac b u2 w2).2 := by
  have hw := sameFor_read mac date idx w1 w2 u1 u2 h hfind1 hfind2
  have hv : limitVerdict b u1 = limitVerdict b u2 := by
    show limitVerdict b (withoutID u1) = limitVerdict b (withoutID u2)
    rw [hw]
  have hib : u1.IsBlocked = u2.IsBlocked := by
    show (withoutID u1).IsBlocked = (withoutID u2).IsBlocked
    rw [hw]
  have hbr : u1.BlockedReason = u2.BlockedReason := by
    show (withoutID u1).BlockedReason = (withoutID u2).BlockedReason
    rw [hw]
  rcases enforceLimits_cases lower mac b u1 w1 with
    ⟨reason, hv1, hflag, hc⟩ | ⟨reason, hv1, hflag, hc⟩ | ⟨hv1, hflag, hc⟩ | ⟨hv1, hflag, hc⟩
  · obtain ⟨ok1, ok2, fa1, fa2, hsame, cs, c1, c2⟩ :=
      BlockDevice_same lower mac reason w1 w2 hf1 hf2 h
    have hv2 : limitVerdict b u2 = some reason := hv ▸ hv1
    have hflag2 : ¬ (u2.IsBlocked = true ∧ u2.BlockedReason = reason) := by
      rw [← hib, ← hbr]
      exact hflag
    rw [enforceLimits_block_ok lower mac b u1 w1 _ reason hv1 hflag (Prod.ext ok1 rfl),
      enforceLimits_block_ok lower mac b u2 w2 _ reason hv2 hflag2 (Prod.ext ok2 rfl)]
    have hU1 := (BlockDevice_spec lower mac reason w1).1
    have hU2 := (BlockDevice_spec lower mac reason w2).1
    obtain ⟨_, g1, r1, s1, d1, k1⟩ := UpdateBlockUsage_run lower mac date idx
      { u1 with IsBlocked := true, BlockedReason := reason } u1 _ fa1
      (BlockDevice_kept lower mac reason date idx w1 hu1).1
      ((findUsage_congr mac date idx w1 _ hU1).trans hfind1) rfl
    obtain ⟨_, g2, r2, s2, d2, k2⟩ := UpdateBlockUsage_run lower mac date idx
      { u2 with IsBlocked := true, BlockedReason := reason } u2 _ fa2
      (BlockDevice_kept lower mac reason date idx w2 hu2).1
      ((findUsage_congr mac date idx w2 _ hU2).trans hfind2) rfl
    refine ⟨g1, g2, sameFor_step mac date idx _ _ _ _ hsame k1.2.1 k2.2.1 ?_ ?_, cs,
      by rw [d1, c1], by rw [d2, c2]⟩
    · rw [r1, r2, setUsageColumns_flag, setUsageColumns_flag]
      simp only [Option.map_some']
      show some { withoutID u1 with IsBlocked := true, BlockedReason := reason } =
        some { withoutID u2 with IsBlocked := true, BlockedReason := reason }
      rw [hw]
    · rw [findState_congr mac _ _ s1, findState_congr mac _ _ s2]
      exact hsame.2
  · have hv2 : limitVerdict b u2 = some reason := hv ▸ hv1
    have hflag2 : u2.IsBlocked = true ∧ u2.BlockedReason = reason := by
      rw [← hib, ← hbr]
      exact hflag
    rw [hc, enforceLimits_flagged lower mac b u2 w2 reason hv2 hflag2]
    exact sameStep_refl mac w1 w2 hf1 hf2 h
  · obtain ⟨ok1, ok2, fa1, fa2, hsame, cs, c1, c2⟩ :=
      UnblockDevice_same lower mac w1 w2 hf1 hf2 h
    have hv2 : limitVerdict b u2 = none := hv ▸ hv1
    have hflag2 : u2.IsBlocked = true ∧ u2.BlockedReason ≠ "manual" := by
      rw [← hib, ← hbr]
      exact hflag
    rw [enforceLimits_unblock_ok lower mac b u1 w1 _ hv1 hflag (Prod.ext ok1 rfl),
      enforceLimits_unblock_ok lower mac b u2 w2 _ hv2 hflag2 (Prod.ext ok2 rfl)]
    have hU1 := (UnblockDevice_spec lower mac w1).1
    have hU2 := (UnblockDevice_spec lower mac w2).1
    obtain ⟨_, g1, r1, s1, d1, k1⟩ := UpdateBlockUsage_run lower mac date idx
      { u1 with IsBlocked := false, BlockedReason := "" } u1 _ fa1
      (UnblockDevice_kept lower mac date idx w1 hu1).1
      ((findUsage_congr mac date idx w1 _ hU1).trans hfind1) rfl
    obtain ⟨_, g2, r2, s2, d2, k2⟩ := UpdateBlockUsage_run lower mac date idx
      { u2 with IsBlocked := false, BlockedReason := "" } u2 _ fa2
      (UnblockDevice_kept lower mac date idx w2 hu2).1
      ((findUsage_congr mac date idx w2 _ hU2).trans hfind2) rfl
    refine ⟨g1, g2, sameFor_step mac date idx _ _ _ _ hsame k1.2.1 k2.2.1 ?_ ?_, cs,
      by rw [d1, c1], by rw [d2, c2]⟩
    · rw [r1, r2, setUsageColumns_flag, setUsageColumns_flag]
      simp only [Option.map_some']
      show some { withoutID u1 with IsBlocked := false, BlockedReason := "" } =
        some { withoutID u2 with IsBlocked := false, BlockedReason := "" }
      rw [hw]
    · rw [findState_congr mac _ _ s1, findState_congr mac _ _ s2]
      exact hsame.2
  · have hv2 : limitVerdict b u2 = none := hv ▸ hv1
    have hflag2 : ¬ (u2.IsBlocked = true ∧ u2.BlockedReason ≠ "manual") := by
      rw [← hib, ← hbr]
      exact hflag
    rw [hc, enforceLimits_idle lower mac b u2 w2 hv2 hflag2]
    exact sameStep_refl mac w1 w2 hf1 hf2 h

theorem CheckAndEnforce_same (lower : String → String) (mac : String) (config : DeviceConfig)
    (now : Time) (w1 w2 : World)
    (hf1 : w1.faults = []) (hf2 : w2.faults = []) (hu1 : uniqueIDs w1) (hu2 : uniqueIDs w2)
    (h : sameFor mac w1 w2) :
    sameStep mac w1 w2 (CheckAndEnforce lower mac config now w1).2
      (CheckAndEnforce lower mac config now w2).2 := by
  rcases hact : GetActiveTimeBlock lower config now with ⟨ob, i⟩
  cases ob with
  | none =>
    unfold CheckAndEnforce
    rw [hact]
    simp only
    cases config.BlockOutside with
    | false => exact sameStep_refl mac w1 w2 hf1 hf2 h
    | true =>
      obtain ⟨_, _, fa1, fa2, hsame, hcs⟩ :=
        BlockDevice_same lower mac "outside_hours" w1 w2 hf1 hf2 h
      exact ⟨fa1, fa2, hsame, hcs⟩
  | some b =>
    obtain ⟨u1, u2, v1, v2, hg1, hg2, hfind1, hfind2, hv1, hv2, hq1, hq2, hc1, hc2, hs⟩ :=
      GetOrCreateBlockUsage_same mac now.date i b.StartTime b.EndTime
        b.LimitMinutes b.LimitBytes w1 w2 hf1 hf2 hu1 hu2 h
    rw [CheckAndEnforce_of_record lower mac config now w1 v1 b i u1 hact hg1,
      CheckAndEnforce_of_record lower mac config now w2 v2 b i u2 hact hg2]
    obtain ⟨g1, g2, hsame, cs, d1, d2⟩ := enforceLimits_same lower mac now.date i b u1 u2
      v1 v2 hv1 hv2 hq1 hq2 hfind1 hfind2 hs
    exact ⟨g1, g2, hsame, cs, by rw [d1, hc1], by rw [d2, hc2]⟩

theorem pollClient_same (lower : String → String) (a : Accumulator)
    (managed : List (String × DeviceConfig)) (now : Time) (client : ClientInfo)
    (w1 w2 : World)
    (hf1 : w1.faults = []) (hf2 : w2.faults = []) (hu1 : uniqueIDs w1) (hu2 : uniqueIDs w2)
    (h : sameFor (lower client.MAC) w1 w2) :
    sameStep (lower client.MAC) w1 w2 (pollClient lower a managed now client w1)
      (pollClient lower a managed now client w2) := by
  unfold pollClient
  simp only
  cases mapLookup (lower client.MAC) managed with
  | none => exact sameStep_refl _ w1 w2 hf1 hf2 h
  | some config =>
    simp only
    rcases hact : GetActiveTimeBlock lower config now with ⟨ob, i⟩
    cases ob with
    | none =>
      simp only
      cases config.BlockOutside with
      | false => exact sameStep_refl _ w1 w2 hf1 hf2 h
      | true =>
        obtain ⟨_, _, fa1, fa2, hsame, hcs⟩ :=
          BlockDevice_same lower (lower client.MAC) "outside_hours" w1 w2 hf1 hf2 h
        exact ⟨fa1, fa2, hsame, hcs⟩
    | some b =>
      simp only
      obtain ⟨ok1, ok2, hP⟩ := ProcessClientStats_same lower a (lower client.MAC) client now
        b i w1 w2 hf1 hf2 hu1 hu2 h
      have hk1 := (ProcessClientStats_kept lower a (lower client.MAC) client now b i w1 hu1).1
      have hk2 := (ProcessClientStats_kept lower a (lower client.MAC) client now b i w2 hu2).1
      rcases hp1 : ProcessClientStats a (lower client.MAC) client now b i w1 with ⟨r1, v1⟩
      rcases hp2 : ProcessClientStats a (lower client.MAC) client now b i w2 with ⟨r2, v2⟩
      rw [hp1] at ok1 hP hk1
      rw [hp2] at ok2 hP hk2
      simp only at ok1 ok2 hP hk1 hk2
      subst ok1 ok2
      simp only
      exact sameStep_trans _ w1 w2 v1 v2 _ _ hP
        (CheckAndEnforce_same lower _ config now v1 v2 hP.1 hP.2.1 hk1 hk2 hP.2.2.1)

theorem sweepDevice_same (lower : String → String) (now : Time)
    (entry : String × DeviceConfig) (w1 w2 : World)
    (hf1 : w1.faults = []) (hf2 : w2.faults = []) (h : sameFor entry.1 w1 w2) :
    sameStep entry.1 w1 w2 (sweepDevice lower now entry w1) (sweepDevice lower now entry w2) := by
  unfold sweepDevice
  rcases hact : GetActiveTimeBlock lower entry.2 now with ⟨ob, i⟩
  cases ob with
  | none =>
    simp only
    cases entry.2.BlockOutside with
    | false => exact sameStep_refl _ w1 w2 hf1 hf2 h
    | true =>
      obtain ⟨_, _, fa1, fa2, hsame, hcs⟩ :=
        BlockDevice_same lower entry.1 "outside_hours" w1 w2 hf1 hf2 h
      exact ⟨fa1, fa2, hsame, hcs⟩
  | some b => exact sameStep_refl _ w1 w2 hf1 hf2 h

/-! ## Properties of polling: two runs that agree outside one device -/

theorem filter_target_nil (target : String) (cs : List Call)
    (h : ∀ c ∈ cs, c.target = target) :
    cs.filter (fun c => decide (c.target ≠ target)) = [] := by
  rw [List.filter_eq_nil_iff]
  intro c hc
  simp [h c hc]

theorem elsewhere_step (lower : String → String) (mac k : String) (w1 w2 v1 v2 : World)
    (h : elsewhere lower mac w1 w2)
    (hl1 : localTo lower k w1 v1) (hl2 : localTo lower k w2 v2)
    (hfv1 : v1.faults = []) (hfv2 : v2.faults = [])
    (hsame : k ≠ mac → sameStep k w1 w2 v1 v2) : elsewhere lower mac v1 v2 := by
  obtain ⟨_, _, _, _, hs, hc⟩ := h
  refine ⟨hfv1, hfv2, hl1.1, hl2.1, ?_, ?_⟩
  · intro m hm
    by_cases hmk : m = k
    · subst hmk
      exact (hsame hm).2.2.1
    · refine ⟨fun d i => ?_, ?_⟩
      · rw [hl1.2.1 m d i hmk, hl2.2.1 m d i hmk]
        exact (hs m hm).1 d i
      · rw [hl1.2.2.1 m hmk, hl2.2.2.1 m hmk]
        exact (hs m hm).2
  · by_cases hk : k = mac
    · subst hk
      obtain ⟨cs1, e1, t1⟩ := hl1.2.2.2
      obtain ⟨cs2, e2, t2⟩ := hl2.2.2.2
      rw [e1, e2, List.filter_append, List.filter_append, filter_target_nil _ cs1 t1,
        filter_target_nil _ cs2 t2, List.append_nil, List.append_nil]
      exact hc
    · obtain ⟨_, _, _, cs, e1, e2⟩ := hsame hk
      rw [e1, e2, List.filter_append, List.filter_append, hc]

/-! ## Worked instances of enforcement and polling -/

/-- C14 on the store whose sample record has reached its minute limit: the first cycle
blocks the device, the second changes nothing. -/
theorem C14_enforcement_idempotent_witness :
    overLimitWorld.faults = [] ∧
    (CheckAndEnforce toLowerASCII "aa:bb:cc:dd:ee:ff" (sampleConfig sampleBlock) sampleNow
      overLimitWorld).1 = .ok () ∧
    CheckAndEnforce toLowerASCII "aa:bb:cc:dd:ee:ff" (sampleConfig sampleBlock) sampleNow
      (CheckAndEnforce toLowerASCII "aa:bb:cc:dd:ee:ff" (sampleConfig sampleBlock) sampleNow
        overLimitWorld).2 =
      (.ok (), (CheckAndEnforce toLowerASCII "aa:bb:cc:dd:ee:ff" (sampleConfig sampleBlock)
        sampleNow overLimitWorld).2) :=
  ⟨rfl,
    (C14_enforcement_idempotent toLowerASCII "aa:bb:cc:dd:ee:ff" (sampleConfig sampleBlock)
      sampleNow overLimitWorld rfl).1,
    (C14_enforcement_idempotent toLowerASCII "aa:bb:cc:dd:ee:ff" (sampleConfig sampleBlock)
      sampleNow overLimitWorld rfl).2.2⟩

/-- C15 for a manual block on the empty store and an unblock on the blocked store. -/
theorem C15_block_unblock_idempotent_witness :
    (BlockDevice toLowerASCII "aa:bb:cc:dd:ee:ff" "manual" emptyWorld).1 = .ok () ∧
    (UnblockDevice toLowerASCII "aa:bb:cc:dd:ee:ff" blockedWorld).1 = .ok () ∧
    findState "aa:bb:cc:dd:ee:ff"
      (BlockDevice toLowerASCII "aa:bb:cc:dd:ee:ff" "manual" emptyWorld).2 =
      some { MAC := "aa:bb:cc:dd:ee:ff", IsBlocked := true, BlockedReason := "manual" } ∧
    (BlockDevice toLowerASCII "aa:bb:cc:dd:ee:ff" "manual"
      (BlockDevice toLowerASCII "aa:bb:cc:dd:ee:ff" "manual" emptyWorld).2).2.calls =
      (BlockDevice toLowerASCII "aa:bb:cc:dd:ee:ff" "manual" emptyWorld).2.calls ∧
    (UnblockDevice toLowerASCII "aa:bb:cc:dd:ee:ff"
      (UnblockDevice toLowerASCII "aa:bb:cc:dd:ee:ff" blockedWorld).2).2.calls =
      (UnblockDevice toLowerASCII "aa:bb:cc:dd:ee:ff" blockedWorld).2.calls :=
  ⟨rfl, rfl,
    (C15_block_unblock_idempotent toLowerASCII "aa:bb:cc:dd:ee:ff" "manual" emptyWorld
      blockedWorld rfl rfl).1.1,
    (C15_block_unblock_idempotent toLowerASCII "aa:bb:cc:dd:ee:ff" "manual" emptyWorld
      blockedWorld rfl rfl).1.2.1,
    (C15_block_unblock_idempotent toLowerASCII "aa:bb:cc:dd:ee:ff" "manual" emptyWorld
      blockedWorld rfl rfl).2.2.1⟩

/-- C16 where the block command for the reached minute limit fails: the error is the
controller's and no device state is written. -/
theorem C16_controller_failure_aborts_witness :
    (CheckAndEnforce toLowerASCII "aa:bb:cc:dd:ee:ff" (sampleConfig sampleBlock) sampleNow
      failingControllerWorld).2.calls ≠ failingControllerWorld.calls ∧
    (controllerWorld toLowerASCII "aa:bb:cc:dd:ee:ff" (sampleConfig sampleBlock) sampleNow
      failingControllerWorld).next.1 = true ∧
    (CheckAndEnforce toLowerASCII "aa:bb:cc:dd:ee:ff" (sampleConfig sampleBlock) sampleNow
      failingControllerWorld).1 = .error .controller ∧
    (CheckAndEnforce toLowerASCII "aa:bb:cc:dd:ee:ff" (sampleConfig sampleBlock) sampleNow
      failingControllerWorld).2.states = failingControllerWorld.states :=
  ⟨by decide, rfl,
    (C16_controller_failure_aborts toLowerASCII "aa:bb:cc:dd:ee:ff" (sampleConfig sampleBlock)
      sampleNow failingControllerWorld (by decide) rfl).1,
    (C16_controller_failure_aborts toLowerASCII "aa:bb:cc:dd:ee:ff" (sampleConfig sampleBlock)
      sampleNow failingControllerWorld (by decide) rfl).2.1⟩

/-- C17 for the sample device with block_outside set, on a monday at 21:30. -/
theorem C17_outside_hours_blocks_witness :
    GetActiveTimeBlock toLowerASCII outsideConfig sampleNight = (none, -1) ∧
    outsideConfig.BlockOutside = true ∧
    findState "aa:bb:cc:dd:ee:ff"
      (CheckAndEnforce toLowerASCII "aa:bb:cc:dd:ee:ff" outsideConfig sampleNight emptyWorld).2 =
      some { MAC := "aa:bb:cc:dd:ee:ff", IsBlocked := true, BlockedReason := "outside_hours" } :=
  ⟨by decide, rfl,
    (C17_outside_hours_blocks toLowerASCII "aa:bb:cc:dd:ee:ff" outsideConfig sampleNight
      emptyWorld (by decide) rfl).2.1
      ((C17_outside_hours_blocks toLowerASCII "aa:bb:cc:dd:ee:ff" outsideConfig sampleNight
        emptyWorld (by decide) rfl).1 rfl)⟩

/-- C18 for a manual block on the empty store and a manual unblock, inside the sample
window, of the device blocked for time_limit. -/
theorem C18_manual_operations_witness :
    (ManualBlock toLowerASCII "aa:bb:cc:dd:ee:ff" emptyWorld).1 = .ok () ∧
    (ManualUnblock toLowerASCII "aa:bb:cc:dd:ee:ff" sampleNow blockedConfiguredWorld).1 =
      .ok () ∧
    statesClean blockedConfiguredWorld ∧
    findState "aa:bb:cc:dd:ee:ff" (ManualBlock toLowerASCII "aa:bb:cc:dd:ee:ff" emptyWorld).2 =
      some { MAC := "aa:bb:cc:dd:ee:ff", IsBlocked := true, BlockedReason := "manual" } ∧
    statesClean
      (ManualUnblock toLowerASCII "aa:bb:cc:dd:ee:ff" sampleNow blockedConfiguredWorld).2 :=
  ⟨rfl, rfl, by decide,
    (C18_manual_operations toLowerASCII "aa:bb:cc:dd:ee:ff" sampleNow emptyWorld
      blockedConfiguredWorld rfl rfl (by decide)).1,
    (C18_manual_operations toLowerASCII "aa:bb:cc:dd:ee:ff" sampleNow emptyWorld
      blockedConfiguredWorld rfl rfl (by decide)).2.2.1⟩

/-- C19 for the sample device with its limit of 100 MB: samples with totals of 1,000,
50,001,000 and 100,001,000 bytes end with exactly one block command. -/
theorem C19_end_to_end_witness :
    configuredWorld.faults = [] ∧
    configuredWorld.configs = [sampleConfig sampleBlock] ∧
    GetActiveTimeBlock toLowerASCII (sampleConfig sampleBlock) sampleNow =
      (some sampleBlock, 0) ∧
    GetActiveTimeBlock toLowerASCII (sampleConfig sampleBlock) sampleLater =
      (some sampleBlock, 0) ∧
    findUsage (toLowerASCII "AA:BB:CC:DD:EE:FF") sampleNow.date 0 configuredWorld = none ∧
    (pollCycles toLowerASCII { pollIntervalSecs := 30 } id
      [([{ MAC := "AA:BB:CC:DD:EE:FF", TxBytes := 600, RxBytes := 400 }], sampleNow),
       ([{ MAC := "AA:BB:CC:DD:EE:FF", TxBytes := 30000600, RxBytes := 20000400 }], sampleNow),
       ([{ MAC := "AA:BB:CC:DD:EE:FF", TxBytes := 60000600, RxBytes := 40000400 }],
         sampleLater)] configuredWorld).calls =
      configuredWorld.calls ++
        [Call.block (toLowerASCII (toLowerASCII "AA:BB:CC:DD:EE:FF"))] :=
  ⟨rfl, rfl, by decide, by decide, rfl,
    (C19_end_to_end toLowerASCII id (fun l => List.Perm.refl l) (sampleConfig sampleBlock)
      sampleBlock 100000000 "AA:BB:CC:DD:EE:FF" 600 400 30000600 20000400 60000600 40000400
      sampleNow sampleNow sampleLater configuredWorld rfl rfl rfl (by decide) (by decide)
      (by decide) (by decide) rfl rfl rfl rfl (by decide) (by decide) rfl
      (fun s h => Option.noConfusion h) (by decide) (by decide) (by decide)
      (by decide)).2.2.2.2.2⟩

/-! ## Properties of usage accumulation: a reset caught at zero -/

theorem ProcessClientStats_run (a : Accumulator) (mac : String) (client : ClientInfo)
    (now : Time) (block : TimeBlock) (idx : Int) (w : World) (u : BlockUsage)
    (hf : w.faults = []) (hfind : findUsage mac now.date idx w = some u) :
    (ProcessClientStats a mac client now block idx w).1 = .ok () ∧
    (ProcessClientStats a mac client now block idx w).2.faults = [] ∧
    findUsage mac now.date idx (ProcessClientStats a mac client now block idx w).2 =
      some (accumulate a u client) := by
  have hget := GetOrCreateBlockUsage_found_eq mac now.date idx block.StartTime block.EndTime
    block.LimitMinutes block.LimitBytes w u hf hfind
  obtain ⟨h1, h2⟩ := ProcessClientStats_of_record a mac client now block idx w w u hget
  refine ⟨h1 hf, ?_, h2 (h1 hf)⟩
  have e : ProcessClientStats a mac client now block idx w =
      UpdateBlockUsage (accumulate a u client) w := by
    unfold ProcessClientStats
    rw [hget]
  obtain ⟨w2, hup, hf2⟩ := UpdateBlockUsage_no_faults (accumulate a u client) w hf
  rw [e, hup]
  exact hf2

theorem accumulate_of_zero (a : Accumulator) (v : BlockUsage) (c : ClientInfo)
    (h : lastTotal v = 0) :
    accumulate a v c = { v with LastTxBytes := c.TxBytes, LastRxBytes := c.RxBytes } := by
  unfold accumulate
  rw [if_pos h]

/-- C30: for every usage record with a positive stored baseline (byte counters are not
negative) and used bytes within int64, polled with nothing failing: a sample whose
counters total zero is charged nothing (used bytes and used minutes stay) and leaves a
stored baseline of total zero; the sample that follows, whatever its counters, is then
handled as a first observation: it is charged zero bytes and zero minutes and the
record it leaves is the previous one with the baseline counters set to the sample's. -/
theorem C30_reset_at_zero_restarts_baseline (a : Accumulator) (mac : String) (now : Time)
    (block : TimeBlock) (idx : Int) (c1 c2 : ClientInfo) (w : World) (u : BlockUsage)
    (hf : w.faults = []) (hfind : findUsage mac now.date idx w = some u)
    (hbase : 0 < lastTotal u) (hzero : currentTotal c1 = 0) (hused : isInt64 u.UsedBytes) :
    ∃ v1 v2,
      findUsage mac now.date idx (processSamples a mac now block idx [c1] w) = some v1 ∧
      findUsage mac now.date idx (processSamples a mac now block idx [c1, c2] w) = some v2 ∧
      chargedDelta u c1 = 0 ∧ v1.UsedBytes = u.UsedBytes ∧ v1.UsedMinutes = u.UsedMinutes ∧
      lastTotal v1 = 0 ∧ v1.LastTxBytes = c1.TxBytes ∧ v1.LastRxBytes = c1.RxBytes ∧
      chargedDelta v1 c2 = 0 ∧ v2.UsedBytes = u.UsedBytes ∧ v2.UsedMinutes = u.UsedMinutes ∧
      v2 = { v1 with LastTxBytes := c2.TxBytes, LastRxBytes := c2.RxBytes } := by
  obtain ⟨_, hf1, hfind1⟩ := ProcessClientStats_run a mac c1 now block idx w u hf hfind
  obtain ⟨_, _, hfind2⟩ := ProcessClientStats_run a mac c2 now block idx _ _ hf1 hfind1
  have hne : lastTotal u ≠ 0 := ne_of_gt hbase
  have hdelta : trafficDelta u c1 = 0 := by
    unfold trafficDelta
    rw [hzero, if_pos hbase]
  have hcharged : chargedDelta u c1 = 0 := by
    unfold chargedDelta
    rw [if_neg hne, hdelta]
  have hbytes : (accumulate a u c1).UsedBytes = u.UsedBytes := by
    rw [accumulate_UsedBytes, if_neg hne, hdelta, add_zero, wrap64_of_isInt64 _ hused]
  have hminutes : (accumulate a u c1).UsedMinutes = u.UsedMinutes := by
    rw [accumulate_UsedMinutes, hcharged]
    have : ¬ ((0 : Int) > ActivityThreshold) := by decide
    rw [if_neg this]
  obtain ⟨htx, hrx⟩ := accumulate_Last a u c1
  have hlast : lastTotal (accumulate a u c1) = 0 := by
    unfold lastTotal
    rw [htx, hrx]
    exact hzero
  have hsecond : accumulate a (accumulate a u c1) c2 =
      { accumulate a u c1 with LastTxBytes := c2.TxBytes, LastRxBytes := c2.RxBytes } :=
    accumulate_of_zero a _ c2 hlast
  refine ⟨accumulate a u c1, accumulate a (accumulate a u c1) c2, hfind1, hfind2, hcharged,
    hbytes, hminutes, hlast, htx, hrx, ?_, ?_, ?_, hsecond⟩
  · unfold chargedDelta
    rw [if_pos hlast]
  · rw [hsecond]
    exact hbytes
  · rw [hsecond]
    exact hminutes

/-- C30 for the sample record (baseline 600 + 400, 5000 bytes and 3 minutes used) polled
with a sample of total zero and then with one of 9,000,000 bytes. -/
theorem C30_reset_at_zero_restarts_baseline_witness :
    sampleWorld.faults = [] ∧
    findUsage "aa:bb:cc:dd:ee:ff" sampleNow.date 0 sampleWorld = some sampleUsage ∧
    0 < lastTotal sampleUsage ∧ currentTotal zeroClient = 0 ∧ isInt64 sampleUsage.UsedBytes ∧
    ∃ v1 v2,
      findUsage "aa:bb:cc:dd:ee:ff" sampleNow.date 0
        (processSamples { pollIntervalSecs := 30 } "aa:bb:cc:dd:ee:ff" sampleNow sampleBlock 0
          [zeroClient] sampleWorld) = some v1 ∧
      findUsage "aa:bb:cc:dd:ee:ff" sampleNow.date 0
        (processSamples { pollIntervalSecs := 30 } "aa:bb:cc:dd:ee:ff" sampleNow sampleBlock 0
          [zeroClient, largeClient] sampleWorld) = some v2 ∧
      chargedDelta sampleUsage zeroClient = 0 ∧ v1.UsedBytes = sampleUsage.UsedBytes ∧
      v1.UsedMinutes = sampleUsage.UsedMinutes ∧ lastTotal v1 = 0 ∧
      v1.LastTxBytes = zeroClient.TxBytes ∧ v1.LastRxBytes = zeroClient.RxBytes ∧
      chargedDelta v1 largeClient = 0 ∧ v2.UsedBytes = sampleUsage.UsedBytes ∧
      v2.UsedMinutes = sampleUsage.UsedMinutes ∧
      v2 = { v1 with LastTxBytes := largeClient.TxBytes, LastRxBytes := largeClient.RxBytes } :=
  ⟨rfl, rfl, by decide, by decide, by decide,
    C30_reset_at_zero_restarts_baseline { pollIntervalSecs := 30 } "aa:bb:cc:dd:ee:ff" sampleNow
      sampleBlock 0 zeroClient largeClient sampleWorld sampleUsage rfl rfl (by decide)
      (by decide) (by decide)⟩

/-! ## Properties of schedule resolution: the order of HH:MM strings -/

theorem charsLt_of_ge_of_lt (x : List Char) :
    ∀ a b : List Char, charsLt x a = false → charsLt x b = true → charsLt a b = true := by
  induction x with
  | nil =>
    intro a b h1 h2
    cases a with
    | nil =>
      cases b with
      | nil => simp [charsLt] at h2
      | cons b0 bs => simp [charsLt]
    | cons a0 as => simp [charsLt] at h1
  | cons x0 xs ih =>
    intro a b h1 h2
    cases b with
    | nil => simp [charsLt] at h2
    | cons b0 bs =>
      cases a with
      | nil => simp [charsLt]
      | cons a0 as =>
        simp only [charsLt] at h1 h2 ⊢
        split_ifs at h1 h2 ⊢ <;> first
          | rfl
          | omega
          | exact ih as bs h1 h2

theorem ite_true_eq (p : Prop) [Decidable p] (q : Bool) :
    ((if p then true else q) = true) ↔ (p ∨ q = true) := by
  by_cases h : p <;> simp [h]

theorem ite_false_eq (p : Prop) [Decidable p] (q : Bool) :
    ((if p then false else q) = true) ↔ (¬ p ∧ q = true) := by
  by_cases h : p <;> simp [h]

theorem wellFormedHHMM_data (s : String) (h : wellFormedHHMM s = true) :
    ∃ (a b c d e : Char) (x1 x2 x4 x5 : Nat), s.data = [a, b, c, d, e] ∧
      a.toNat = 48 + x1 ∧ b.toNat = 48 + x2 ∧ c.toNat = 58 ∧ d.toNat = 48 + x4 ∧
      e.toNat = 48 + x5 ∧ x1 ≤ 9 ∧ x2 ≤ 9 ∧ x4 ≤ 9 ∧ x5 ≤ 9 ∧
      10 * x1 + x2 < 24 ∧ 10 * x4 + x5 < 60 ∧
      minutesSinceMidnight s = 60 * (10 * x1 + x2) + (10 * x4 + x5) := by
  unfold wellFormedHHMM at h
  unfold minutesSinceMidnight hourOf minuteOf
  rcases hs : s.data with _ | ⟨a, _ | ⟨b, _ | ⟨c, _ | ⟨d, _ | ⟨e, _ | ⟨f, r⟩⟩⟩⟩⟩⟩ <;>
    rw [hs] at h <;> simp only [Bool.false_eq_true] at h
  simp only [isDecimalDigit, digitValue, Bool.and_eq_true, decide_eq_true_eq] at h
  obtain ⟨⟨⟨⟨⟨⟨⟨h1, h2⟩, h3, h4⟩, h5⟩, h6, h7⟩, h8, h9⟩, h10⟩, h11⟩ := h
  refine ⟨a, b, c, d, e, a.toNat - 48, b.toNat - 48, d.toNat - 48, e.toNat - 48, rfl,
    by omega, by omega, ?_, by omega, by omega, by omega, by omega, by omega, by omega,
    h10, h11, rfl⟩
  rw [h5]
  rfl

theorem strLt_iff_minutes (s t : String) (hs : wellFormedHHMM s = true)
    (ht : wellFormedHHMM t = true) :
    strLt s t = true ↔ minutesSinceMidnight s < minutesSinceMidnight t := by
  obtain ⟨a, b, c, d, e, x1, x2, x4, x5, hsd, a1, b1, c1, d1, e1, _, _, _, _, _, _, hmin⟩ :=
    wellFormedHHMM_data s hs
  obtain ⟨a', b', c', d', e', y1, y2, y4, y5, htd, a2, b2, c2, d2, e2, _, _, _, _, _, _, hmin'⟩ :=
    wellFormedHHMM_data t ht
  unfold strLt
  rw [hsd, htd, hmin, hmin']
  simp only [charsLt]
  rw [a1, b1, c1, d1, e1, a2, b2, c2, d2, e2]
  simp only [ite_true_eq, ite_false_eq, Bool.false_eq_true, or_false, and_false,
    Nat.add_lt_add_iff_left, lt_irrefl, false_or, not_false_eq_true, true_and]
  omega

theorem digitChar_toNat (n : Nat) : (digitChar n).toNat = 48 + n % 10 := by
  unfold digitChar
  have h : n % 10 < 10 := Nat.mod_lt _ (by decide)
  generalize n % 10 = k at h
  interval_cases k <;> rfl

theorem format1504_wellFormed (now : Time) :
    wellFormedHHMM (format1504 now) = true ∧
    minutesSinceMidnight (format1504 now) = 60 * now.hour.val + now.minute.val := by
  have hh := now.hour.isLt
  have hm := now.minute.isLt
  unfold wellFormedHHMM minutesSinceMidnight hourOf minuteOf format1504
  simp only [isDecimalDigit, digitValue, digitChar_toNat, Bool.and_eq_true, decide_eq_true_eq]
  simp only [and_true, Nat.add_sub_cancel_left]
  omega

theorem blockActive_iff_minutes (now : String) (block : TimeBlock)
    (hnow : wellFormedHHMM now = true) (hstart : wellFormedHHMM block.StartTime = true)
    (hend : wellFormedHHMM block.EndTime = true) :
    blockActive now block = true ↔
      minutesSinceMidnight block.StartTime ≤ minutesSinceMidnight now ∧
      minutesSinceMidnight now < minutesSinceMidnight block.EndTime := by
  unfold blockActive strGe
  rw [Bool.and_eq_true, strLt_iff_minutes now block.EndTime hnow hend, Bool.not_eq_true']
  have h := strLt_iff_minutes now block.StartTime hnow hstart
  constructor
  · rintro ⟨h1, h2⟩
    refine ⟨?_, h2⟩
    by_contra hc
    rw [h.2 (by omega)] at h1
    exact Bool.noConfusion h1
  · rintro ⟨h1, h2⟩
    refine ⟨?_, h2⟩
    cases hlt : strLt now block.StartTime with
    | false => rfl
    | true =>
      have := h.1 hlt
      omega

/-- C28: for all well-formed zero-padded 24-hour HH:MM strings start, end and now, the
test of GetActiveTimeBlock on strings, now >= start and now < end, holds exactly when
60*h(start)+m(start) <= 60*h(now)+m(now) < 60*h(end)+m(end); and the string that
GetActiveTimeBlock compares, the layout 15:04 of the instant, is such a string, with
hour and minute those of the instant. -/
theorem C28_string_order_is_clock_order (block : TimeBlock)
    (hstart : wellFormedHHMM block.StartTime = true)
    (hend : wellFormedHHMM block.EndTime = true) :
    (∀ now : String, wellFormedHHMM now = true →
      (blockActive now block = true ↔
        minutesSinceMidnight block.StartTime ≤ minutesSinceMidnight now ∧
        minutesSinceMidnight now < minutesSinceMidnight block.EndTime)) ∧
    (∀ now : Time, wellFormedHHMM (format1504 now) = true ∧
      minutesSinceMidnight (format1504 now) = 60 * now.hour.val + now.minute.val ∧
      (blockActive (format1504 now) block = true ↔
        minutesSinceMidnight block.StartTime ≤ 60 * now.hour.val + now.minute.val ∧
        60 * now.hour.val + now.minute.val < minutesSinceMidnight block.EndTime)) := by
  refine ⟨fun now hnow => blockActive_iff_minutes now block hnow hstart hend, fun now => ?_⟩
  obtain ⟨hwf, hmin⟩ := format1504_wellFormed now
  refine ⟨hwf, hmin, ?_⟩
  rw [← hmin]
  exact blockActive_iff_minutes _ block hwf hstart hend

/-- C28 for the sample window 08:00 to 09:00, which is active at 08:05 and has 480 <=
485 < 540. -/
theorem C28_string_order_is_clock_order_witness :
    wellFormedHHMM sampleBlock.StartTime = true ∧ wellFormedHHMM sampleBlock.EndTime = true ∧
    blockActive (format1504 sampleNow) sampleBlock = true ∧
    minutesSinceMidnight sampleBlock.StartTime = 480 ∧
    minutesSinceMidnight sampleBlock.EndTime = 540 ∧
    (blockActive (format1504 sampleNow) sampleBlock = true ↔
      minutesSinceMidnight sampleBlock.StartTime ≤ 60 * sampleNow.hour.val + sampleNow.minute.val ∧
      60 * sampleNow.hour.val + sampleNow.minute.val < minutesSinceMidnight sampleBlock.EndTime) :=
  ⟨by decide, by decide, by decide, by decide, by decide,
    ((C28_string_order_is_clock_order sampleBlock (by decide) (by decide)).2 sampleNow).2.2⟩

theorem GetActiveTimeBlock_active (lower : String → String) (config : DeviceConfig)
    (now : Time) (b : TimeBlock) (i : Int)
    (h : GetActiveTimeBlock lower config now = (some b, i)) :
    blockActive (format1504 now) b = true := by
  unfold GetActiveTimeBlock at h
  obtain ⟨_, _, _, _, _, _, _, _, _, hact, _⟩ :=
    (scanSchedules_eq_some lower _ _ config.DailySchedules b i).1 h
  exact hact

/-- C29: every time block that GetActiveTimeBlock returns, at any instant of any day
and for any config, has its end later than its start, in the order of strings that the
code compares with and, when both are well-formed HH:MM times, in minutes since
midnight; so a block whose end is not later than its start (an empty window, or an
overnight window such as 22:00 to 06:00) is never returned. -/
theorem C29_end_not_after_start_never_active (lower : String → String)
    (config : DeviceConfig) (now : Time) (b : TimeBlock) (i : Int)
    (h : GetActiveTimeBlock lower config now = (some b, i)) :
    strLt b.StartTime b.EndTime = true ∧
    (wellFormedHHMM b.StartTime = true → wellFormedHHMM b.EndTime = true →
      minutesSinceMidnight b.StartTime < minutesSinceMidnight b.EndTime) := by
  have hact := GetActiveTimeBlock_active lower config now b i h
  unfold blockActive strGe at hact
  rw [Bool.and_eq_true, Bool.not_eq_true'] at hact
  have hlt : strLt b.StartTime b.EndTime = true :=
    charsLt_of_ge_of_lt _ _ _ hact.1 hact.2
  exact ⟨hlt, fun hs he => (strLt_iff_minutes _ _ hs he).1 hlt⟩

/-- C29 for the sample device at 08:05 on a monday: the block returned is the sample
window, whose end 09:00 is later than its start 08:00. -/
theorem C29_end_not_after_start_never_active_witness :
    GetActiveTimeBlock toLowerASCII (sampleConfig sampleBlock) sampleNow = (some sampleBlock, 0) ∧
    strLt sampleBlock.StartTime sampleBlock.EndTime = true :=
  ⟨by decide,
    (C29_end_not_after_start_never_active toLowerASCII (sampleConfig sampleBlock) sampleNow
      sampleBlock 0 (by decide)).1⟩

/-! ## Properties of schedule resolution and configuration: shared indices, the activity threshold -/

/-- C22 fails on the code: on one date the device has the window 08:00 to 09:00 of its
first schedule active at 08:05 and the window 14:00 to 15:00 of its second schedule
active at 14:05; the two time blocks differ and GetActiveTimeBlock returns index 0 for
both, so that GetOrCreateBlockUsage, asked at 14:05 for the afternoon window, returns
the usage record of the morning window (3 minutes and 5000 bytes used, start 08:00). -/
theorem C22_two_windows_one_index :
    sampleNow.date = sampleAfternoon.date ∧ sampleNow.weekday = sampleAfternoon.weekday ∧
    GetActiveTimeBlock toLowerASCII twoScheduleConfig sampleNow = (some sampleBlock, 0) ∧
    GetActiveTimeBlock toLowerASCII twoScheduleConfig sampleAfternoon =
      (some afternoonBlock, 0) ∧
    sampleBlock ≠ afternoonBlock ∧
    GetOrCreateBlockUsage "aa:bb:cc:dd:ee:ff" sampleAfternoon.date 0 afternoonBlock.StartTime
      afternoonBlock.EndTime afternoonBlock.LimitMinutes afternoonBlock.LimitBytes sampleWorld =
      (.ok sampleUsage, sampleWorld) ∧
    sampleUsage.StartTime = sampleBlock.StartTime ∧ sampleUsage.UsedMinutes = 3 := by
  refine ⟨rfl, rfl, by decide, by decide, by decide, rfl, rfl, rfl⟩

/-- C23 fails on the code: the configured activity_min_bytes never reaches the
accumulator, which compares with the constant 1024. With 2048 configured a delta of
1500 bytes is credited one active minute, and with 100 configured a delta of 500 bytes
is credited none; the accumulator built from a configuration does not depend on the
configured value at all. -/
theorem C23_configured_threshold_ignored :
    (∀ cfg : TrackerConfig, ∀ m : Int,
      trackerAccumulator { cfg with ActivityMinBytes := m } = trackerAccumulator cfg) ∧
    chargedDelta sampleUsage { MAC := "aa:bb:cc:dd:ee:ff", TxBytes := 1500, RxBytes := 1000 } =
      1500 ∧
    ¬ (1500 > strictTrackerConfig.ActivityMinBytes) ∧
    (accumulate (trackerAccumulator strictTrackerConfig) sampleUsage
      { MAC := "aa:bb:cc:dd:ee:ff", TxBytes := 1500, RxBytes := 1000 }).UsedMinutes =
      sampleUsage.UsedMinutes + 1 ∧
    chargedDelta sampleUsage { MAC := "aa:bb:cc:dd:ee:ff", TxBytes := 1000, RxBytes := 500 } =
      500 ∧
    500 > looseTrackerConfig.ActivityMinBytes ∧
    (accumulate (trackerAccumulator looseTrackerConfig) sampleUsage
      { MAC := "aa:bb:cc:dd:ee:ff", TxBytes := 1000, RxBytes := 500 }).UsedMinutes =
      sampleUsage.UsedMinutes := by
  refine ⟨fun _ _ => rfl, by decide, by decide, by decide, by decide, by decide, by decide⟩

/-! ## Properties of schedule resolution: malformed times -/

theorem CheckAndEnforce_no_faults (lower : String → String) (mac : String)
    (config : DeviceConfig) (now : Time) (w : World) (hf : w.faults = []) :
    (CheckAndEnforce lower mac config now w).1 = .ok () := by
  rcases hact : GetActiveTimeBlock lower config now with ⟨ob, i⟩
  cases ob with
  | none =>
    unfold CheckAndEnforce
    rw [hact]
    simp only
    cases config.BlockOutside with
    | false => rfl
    | true => exact (BlockDevice_no_faults lower mac "outside_hours" w hf).1
  | some b =>
    obtain ⟨u, w1, hget, hf1, hfind, _, _⟩ := GetOrCreateBlockUsage_run mac now.date i
      b.StartTime b.EndTime b.LimitMinutes b.LimitBytes w hf
    rw [CheckAndEnforce_of_record lower mac config now w w1 b i u hact hget]
    exact (enforceLimits_settles lower mac now.date i b u w1 hf1 hfind).1

theorem blockActive_malformed (now : Time) (block : TimeBlock) (hs : block.StartTime = "")
    (he : block.EndTime = "25:99") : blockActive (format1504 now) block = true := by
  have hh := now.hour.isLt
  unfold blockActive strGe strLt
  rw [hs, he]
  have h1 : charsLt (format1504 now).data "".data = false := by
    unfold format1504
    rfl
  have h2 : charsLt (format1504 now).data "25:99".data = true := by
    unfold format1504
    show charsLt [_, _, _, _, _] ['2', '5', ':', '9', '9'] = true
    simp only [charsLt, digitChar_toNat]
    have e2 : ('2' : Char).toNat = 50 := rfl
    have e5 : ('5' : Char).toNat = 53 := rfl
    rw [e2, e5]
    simp only [ite_true_eq, ite_false_eq]
    omega
  rw [h1, h2]
  rfl

/-- C24 as amended: malformed schedule data is tolerated. For every device config,
whatever strings its time blocks hold as start and end, GetActiveTimeBlock returns an
ordinary result, none or a block with its index, every returned block being one whose
strings satisfy start <= now < end for the instant's HH:MM; a block from the empty
string to 25:99 satisfies it at every instant; and CheckAndEnforce returns without
error whenever no store or controller call fails. -/
theorem C24_malformed_times_compared_as_strings (lower : String → String) (mac : String)
    (config : DeviceConfig) (now : Time) (w : World) :
    (GetActiveTimeBlock lower config now = (none, -1) ∨
      ∃ (block : TimeBlock) (i : Int), 0 ≤ i ∧
        GetActiveTimeBlock lower config now = (some block, i)) ∧
    (∀ (block : TimeBlock) (i : Int), GetActiveTimeBlock lower config now = (some block, i) →
      blockActive (format1504 now) block = true) ∧
    (∀ block : TimeBlock, block.StartTime = "" → block.EndTime = "25:99" →
      blockActive (format1504 now) block = true) ∧
    (w.faults = [] → (CheckAndEnforce lower mac config now w).1 = .ok ()) := by
  refine ⟨?_, fun block i h => GetActiveTimeBlock_active lower config now block i h,
    fun block hs he => blockActive_malformed now block hs he,
    CheckAndEnforce_no_faults lower mac config now w⟩
  unfold GetActiveTimeBlock
  exact scanSchedules_cases lower _ _ config.DailySchedules

/-- C24 as stated fails: the only time block of the device has the empty string as
start and 25:99 as end, neither a well-formed HH:MM time; GetActiveTimeBlock returns
that block as the active window and CheckAndEnforce returns without error. -/
theorem C24_malformed_block_counterexample :
    wellFormedHHMM malformedBlock.StartTime = false ∧
    wellFormedHHMM malformedBlock.EndTime = false ∧
    GetActiveTimeBlock toLowerASCII (sampleConfig malformedBlock) sampleNow =
      (some malformedBlock, 0) ∧
    (CheckAndEnforce toLowerASCII "aa:bb:cc:dd:ee:ff" (sampleConfig malformedBlock) sampleNow
      emptyWorld).1 = .ok () := by
  refine ⟨by decide, by decide, by decide, rfl⟩

/-! ## Properties of FormatBytes -/

theorem formatLoop_fuel (fuel : Nat) :
    ∀ (n div : Int) (exp : Nat), n.toNat ≤ fuel →
      formatLoop (fuel + 1) n div exp = formatLoop fuel n div exp := by
  induction fuel with
  | zero =>
    intro n div exp h
    have hn : ¬ n ≥ 1024 := by omega
    simp only [formatLoop, hn, if_false]
  | succ k ih =>
    intro n div exp h
    by_cases hn : n ≥ 1024
    · have hdiv : (n.tdiv 1024).toNat ≤ k := by
        have h1 : n.tdiv 1024 = n / 1024 := Int.tdiv_eq_ediv (by omega) (by decide)
        rw [h1]
        omega
      have e1 : formatLoop (k + 1 + 1) n div exp =
          formatLoop (k + 1) (n.tdiv 1024) (wrap64 (div * 1024)) (exp + 1) := by
        conv => lhs; unfold formatLoop
        rw [if_pos hn]
      have e2 : formatLoop (k + 1) n div exp =
          formatLoop k (n.tdiv 1024) (wrap64 (div * 1024)) (exp + 1) := by
        conv => lhs; unfold formatLoop
        rw [if_pos hn]
      rw [e1, e2]
      exact ih _ _ _ hdiv
    · have e1 : formatLoop (k + 1 + 1) n div exp = (div, exp) := by
        conv => lhs; unfold formatLoop
        rw [if_neg hn]
      have e2 : formatLoop (k + 1) n div exp = (div, exp) := by
        conv => lhs; unfold formatLoop
        rw [if_neg hn]
      rw [e1, e2]

/-- C26 fails on the code: FormatBytes converts the number of units to the character
with that code point, not to its decimal digits. For 500 it returns the character
U+01F4 followed by " B", not "500 B"; for 2048 it returns the character U+0002
followed by " KB", not "2 KB"; and for 2^50, a non-negative int64, the index into the
four units is 4 and FormatBytes fails instead of returning. -/
theorem C26_FormatBytes_not_decimal :
    FormatBytes 500 = some (String.singleton (Char.ofNat 500) ++ " B") ∧
    FormatBytes 500 ≠ some "500 B" ∧
    FormatBytes 2048 = some (String.singleton (Char.ofNat 2) ++ " KB") ∧
    FormatBytes 2048 ≠ some "2 KB" ∧
    isInt64 (2 ^ 50) ∧ 0 ≤ (2 ^ 50 : Int) ∧
    FormatBytes (2 ^ 50) = none := by
  refine ⟨by decide, by decide, by decide, by decide, by decide, by decide, by decide⟩

/-! ## Properties of enforcement: the kinds of error -/

theorem append_singleton_ne_self {α : Type} (l : List α) (c : α) : l ++ [c] ≠ l := by
  intro h
  have := congrArg List.length h
  simp at this

theorem BlockDevice_controller_error (lower : String → String) (mac reason : String)
    (w : World) (h : (BlockDevice lower mac reason w).1 = .error .controller) :
    (BlockDevice lower mac reason w).2.states = w.states ∧
    (BlockDevice lower mac reason w).2.calls = w.calls ++ [Call.block (lower mac)] := by
  obtain ⟨_, hgs, hgc, hg⟩ := GetDeviceState_spec mac w
  unfold BlockDevice at h ⊢
  rcases hget : GetDeviceState mac w with ⟨r0, w0⟩
  rw [hget] at hgs hgc hg h
  simp only at hgs hgc hg h ⊢
  cases r0 with
  | error e =>
    simp only [Except.error.injEq] at h
    subst h
    rcases hg with hg | ⟨s, _, _, hg⟩ | ⟨_, hg⟩
    · exact absurd hg (by simp)
    · exact absurd hg (by simp)
    · exact absurd hg (by simp)
  | ok state =>
    simp only at h ⊢
    by_cases hcond : (state.IsBlocked && decide (state.BlockedReason = reason)) = true
    · rw [if_pos hcond] at h
      exact absurd h (by simp)
    · rw [if_neg hcond] at h ⊢
      rw [BlockClient_eq] at h ⊢
      cases hfl : w0.next.1 with
      | true =>
        simp only [if_true]
        exact ⟨(next_states w0).trans hgs, by rw [next_calls w0, hgc]⟩
      | false =>
        rw [hfl] at h
        simp only [Bool.false_eq_true, if_false] at h
        obtain ⟨_, _, hsave⟩ := SaveDeviceState_spec
          { state with IsBlocked := true, BlockedReason := reason }
          { w0.next.2 with calls := w0.next.2.calls ++ [Call.block (lower mac)] }
        rcases hsave with ⟨hs, _⟩ | ⟨hs, _⟩
        · rw [hs] at h
          exact absurd h (by simp)
        · rw [hs] at h
          exact absurd h (by simp)

theorem UnblockDevice_controller_error (lower : String → String) (mac : String)
    (w : World) (h : (UnblockDevice lower mac w).1 = .error .controller) :
    (UnblockDevice lower mac w).2.states = w.states ∧
    (UnblockDevice lower mac w).2.calls = w.calls ++ [Call.unblock (lower mac)] := by
  obtain ⟨_, hgs, hgc, hg⟩ := GetDeviceState_spec mac w
  unfold UnblockDevice at h ⊢
  rcases hget : GetDeviceState mac w with ⟨r0, w0⟩
  rw [hget] at hgs hgc hg h
  simp only at hgs hgc hg h ⊢
  cases r0 with
  | error e =>
    simp only [Except.error.injEq] at h
    subst h
    rcases hg with hg | ⟨s, _, _, hg⟩ | ⟨_, hg⟩
    · exact absurd hg (by simp)
    · exact absurd hg (by simp)
    · exact absurd hg (by simp)
  | ok state =>
    simp only at h ⊢
    by_cases hcond : (!state.IsBlocked) = true
    · rw [if_pos hcond] at h
      exact absurd h (by simp)
    · rw [if_neg hcond] at h ⊢
      rw [UnblockClient_eq] at h ⊢
      cases hfl : w0.next.1 with
      | true =>
        simp only [if_true]
        exact ⟨(next_states w0).trans hgs, by rw [next_calls w0, hgc]⟩
      | false =>
        rw [hfl] at h
        simp only [Bool.false_eq_true, if_false] at h
        obtain ⟨_, _, hsave⟩ := SaveDeviceState_spec
          { state with IsBlocked := false, BlockedReason := "" }
          { w0.next.2 with calls := w0.next.2.calls ++ [Call.unblock (lower mac)] }
        rcases hsave with ⟨hs, _⟩ | ⟨hs, _⟩
        · rw [hs] at h
          exact absurd h (by simp)
        · rw [hs] at h
          exact absurd h (by simp)

theorem BlockDevice_written (lower : String → String) (mac reason : String) (w : World)
    (h : (BlockDevice lower mac reason w).2.states ≠ w.states) :
    (BlockDevice lower mac reason w).1 = .ok () ∧
    (BlockDevice lower mac reason w).2.calls = w.calls ++ [Call.block (lower mac)] := by
  rcases (BlockDevice_spec lower mac reason w).2 with
    ⟨_, hs, _⟩ | ⟨_, _, hs, _⟩ | ⟨hok, _, hc, _⟩
  · exact absurd hs h
  · exact absurd hs h
  · exact ⟨hok, hc⟩

theorem UnblockDevice_written (lower : String → String) (mac : String) (w : World)
    (h : (UnblockDevice lower mac w).2.states ≠ w.states) :
    (UnblockDevice lower mac w).1 = .ok () ∧
    (UnblockDevice lower mac w).2.calls = w.calls ++ [Call.unblock (lower mac)] := by
  rcases (UnblockDevice_spec lower mac w).2 with
    ⟨_, hs, _⟩ | ⟨_, _, hs, _⟩ | ⟨hok, _, hc, _⟩
  · exact absurd hs h
  · exact absurd hs h
  · exact ⟨hok, hc⟩

theorem UpdateBlockUsage_error_store (v : BlockUsage) (w : World) (e : Err)
    (h : (UpdateBlockUsage v w).1 = .error e) : e = .store := by
  unfold UpdateBlockUsage at h
  rcases hn : w.next with ⟨f, w0⟩
  rw [hn] at h
  cases f with
  | true =>
    simp only [Except.error.injEq] at h
    exact h.symm
  | false => simp at h

theorem GetOrCreateBlockUsage_error_store (mac date : String) (idx : Int) (st en : String)
    (lm lb : Option Int) (w : World) (e : Err)
    (h : (GetOrCreateBlockUsage mac date idx st en lm lb w).1 = .error e) : e = .store := by
  unfold GetOrCreateBlockUsage at h
  rcases hn : w.next with ⟨f, w0⟩
  rw [hn] at h
  cases f with
  | true =>
    simp only [Except.error.injEq] at h
    exact h.symm
  | false =>
    simp only at h
    cases hf : w0.usages.find? (usageKey mac date idx) with
    | some u0 =>
      rw [hf] at h
      simp at h
    | none =>
      rw [hf] at h
      simp only at h
      rcases hn1 : w0.next with ⟨f1, w00⟩
      rw [hn1] at h
      cases f1 with
      | true =>
        simp only [Except.error.injEq] at h
        exact h.symm
      | false => simp at h

/-! ## Properties of enforcement: the order of call and writes -/

theorem enforceLimits_order (lower : String → String) (mac : String) (b : TimeBlock)
    (u : BlockUsage) (w1 : World) :
    ((enforceLimits lower mac b u w1).2.states ≠ w1.states →
      ∃ c, (enforceLimits lower mac b u w1).2.calls = w1.calls ++ [c]) ∧
    ((enforceLimits lower mac b u w1).1 = .error .controller →
      (enforceLimits lower mac b u w1).2.states = w1.states) ∧
    (∀ e, (enforceLimits lower mac b u w1).1 = .error e →
      (enforceLimits lower mac b u w1).2.usages = w1.usages) := by
  rcases enforceLimits_cases lower mac b u w1 with
    ⟨reason, _, _, h⟩ | ⟨reason, _, _, h⟩ | ⟨_, _, h⟩ | ⟨_, _, h⟩
  · have hU := (BlockDevice_spec lower mac reason w1).1
    rcases h with ⟨e, hbe, h⟩ | ⟨_, h⟩
    · rw [h]
      refine ⟨fun hs => ⟨_, (BlockDevice_written lower mac reason w1 hs).2⟩, fun he => ?_,
        fun _ _ => hU⟩
      simp only [Except.error.injEq] at he
      rw [he] at hbe
      exact (BlockDevice_controller_error lower mac reason w1 hbe).1
    · rw [h]
      obtain ⟨f1, f2⟩ := UpdateBlockUsage_frame
        { u with IsBlocked := true, BlockedReason := reason } (BlockDevice lower mac reason w1).2
      refine ⟨fun hs => ?_, fun he => ?_, fun e he => ?_⟩
      · rw [f1] at hs
        rw [f2]
        exact ⟨_, (BlockDevice_written lower mac reason w1 hs).2⟩
      · exact absurd (UpdateBlockUsage_error_store _ _ _ he) (by decide)
      · rw [UpdateBlockUsage_error _ _ e he]
        exact hU
  · rw [h]
    exact ⟨fun hs => absurd rfl hs, fun he => absurd he (by simp), fun _ _ => rfl⟩
  · have hU := (UnblockDevice_spec lower mac w1).1
    rcases h with ⟨e, hbe, h⟩ | ⟨_, h⟩
    · rw [h]
      refine ⟨fun hs => ⟨_, (UnblockDevice_written lower mac w1 hs).2⟩, fun he => ?_,
        fun _ _ => hU⟩
      simp only [Except.error.injEq] at he
      rw [he] at hbe
      exact (UnblockDevice_controller_error lower mac w1 hbe).1
    · rw [h]
      obtain ⟨f1, f2⟩ := UpdateBlockUsage_frame
        { u with IsBlocked := false, BlockedReason := "" } (UnblockDevice lower mac w1).2
      refine ⟨fun hs => ?_, fun he => ?_, fun e he => ?_⟩
      · rw [f1] at hs
        rw [f2]
        exact ⟨_, (UnblockDevice_written lower mac w1 hs).2⟩
      · exact absurd (UpdateBlockUsage_error_store _ _ _ he) (by decide)
      · rw [UpdateBlockUsage_error _ _ e he]
        exact hU
  · rw [h]
    exact ⟨fun hs => absurd rfl hs, fun he => absurd he (by simp), fun _ _ => rfl⟩

theorem CheckAndEnforce_order (lower : String → String) (mac : String)
    (config : DeviceConfig) (now : Time) (w : World) :
    ((CheckAndEnforce lower mac config now w).2.states ≠ w.states →
      ∃ c, (CheckAndEnforce lower mac config now w).2.calls = w.calls ++ [c]) ∧
    ((CheckAndEnforce lower mac config now w).1 = .error .controller →
      (CheckAndEnforce lower mac config now w).2.states = w.states) ∧
    (∀ e, (CheckAndEnforce lower mac config now w).1 = .error e →
      (CheckAndEnforce lower mac config now w).2.usages = w.usages ∨
      ∃ v, (CheckAndEnforce lower mac config now w).2.usages = w.usages ++ [v] ∧
        v.IsBlocked = false ∧ v.BlockedReason = "") := by
  rcases hact : GetActiveTimeBlock lower config now with ⟨ob, i⟩
  cases ob with
  | none =>
    unfold CheckAndEnforce
    rw [hact]
    simp only
    cases config.BlockOutside with
    | false =>
      exact ⟨fun hs => absurd rfl hs, fun he => absurd he (by simp), fun _ _ => Or.inl rfl⟩
    | true =>
      simp only [if_true]
      exact ⟨fun hs => ⟨_, (BlockDevice_written lower mac _ w hs).2⟩,
        fun he => (BlockDevice_controller_error lower mac _ w he).1,
        fun _ _ => Or.inl (BlockDevice_spec lower mac _ w).1⟩
  | some b =>
    have hfr := GetOrCreateBlockUsage_frame mac now.date i b.StartTime b.EndTime
      b.LimitMinutes b.LimitBytes w
    have hus := GetOrCreateBlockUsage_usages mac now.date i b.StartTime b.EndTime
      b.LimitMinutes b.LimitBytes w
    have her := GetOrCreateBlockUsage_error mac now.date i b.StartTime b.EndTime
      b.LimitMinutes b.LimitBytes w
    have hst := GetOrCreateBlockUsage_error_store mac now.date i b.StartTime b.EndTime
      b.LimitMinutes b.LimitBytes w
    rcases hget : GetOrCreateBlockUsage mac now.date i b.StartTime b.EndTime
      b.LimitMinutes b.LimitBytes w with ⟨r, w1⟩
    rw [hget] at hfr hus her hst
    simp only at hfr hus her hst
    cases r with
    | error e =>
      have hc : CheckAndEnforce lower mac config now w = (.error e, w1) := by
        unfold CheckAndEnforce
        rw [hact]
        simp only
        rw [hget]
      rw [hc]
      refine ⟨fun hs => absurd hfr.1 hs, fun he => ?_, fun _ _ => Or.inl (her e rfl)⟩
      simp only [Except.error.injEq] at he
      exact absurd (hst e rfl) (by rw [he]; decide)
    | ok u =>
      rw [CheckAndEnforce_of_record lower mac config now w w1 b i u hact hget]
      obtain ⟨o1, o2, o3⟩ := enforceLimits_order lower mac b u w1
      rw [hfr.1, hfr.2] at o1
      rw [hfr.1] at o2
      refine ⟨o1, o2, fun e he => ?_⟩
      rw [o3 e he]
      exact hus

/-- C27 as stated fails: the collaborator call is not the last effect. BlockDevice on
the empty store makes three calls: the read of the state, the block command, and the
write SaveDeviceState. When the third fails the command has already been sent and the
store's error is returned with no state written; when it succeeds the state is written
after the command. In CheckAndEnforce on the store whose record has reached its minute
limit the fifth call is the write UpdateBlockUsage: when it fails the command has been
sent and the device state written, and the usage record is left unflagged. -/
theorem C27_write_after_call_counterexample :
    (BlockDevice toLowerASCII "aa:bb:cc:dd:ee:ff" "manual" thirdCallFailsWorld).1 =
      .error .store ∧
    (BlockDevice toLowerASCII "aa:bb:cc:dd:ee:ff" "manual" thirdCallFailsWorld).2.calls =
      [Call.block "aa:bb:cc:dd:ee:ff"] ∧
    (BlockDevice toLowerASCII "aa:bb:cc:dd:ee:ff" "manual" thirdCallFailsWorld).2.states = [] ∧
    (BlockDevice toLowerASCII "aa:bb:cc:dd:ee:ff" "manual"
      { emptyWorld with faults := [false, false, false] }).2.states =
      [{ MAC := "aa:bb:cc:dd:ee:ff", IsBlocked := true, BlockedReason := "manual" }] ∧
    (CheckAndEnforce toLowerASCII "aa:bb:cc:dd:ee:ff" (sampleConfig sampleBlock) sampleNow
      fifthCallFailsWorld).1 = .error .store ∧
    (CheckAndEnforce toLowerASCII "aa:bb:cc:dd:ee:ff" (sampleConfig sampleBlock) sampleNow
      fifthCallFailsWorld).2.calls = [Call.block "aa:bb:cc:dd:ee:ff"] ∧
    (CheckAndEnforce toLowerASCII "aa:bb:cc:dd:ee:ff" (sampleConfig sampleBlock) sampleNow
      fifthCallFailsWorld).2.states =
      [{ MAC := "aa:bb:cc:dd:ee:ff", IsBlocked := true, BlockedReason := "time_limit" }] ∧
    (CheckAndEnforce toLowerASCII "aa:bb:cc:dd:ee:ff" (sampleConfig sampleBlock) sampleNow
      fifthCallFailsWorld).2.usages = [overLimitUsage] := by
  refine ⟨rfl, rfl, rfl, rfl, rfl, rfl, rfl, rfl⟩

/-! ## Properties of the handler addBonusTime -/

/-- C25 fails on the code when the window has no usage record yet: the sample device
has its window active and no usage record; adding 30 bonus minutes answers with
status OK, yet the UPDATE of AddBonusTime has no row to change, and the record that
the enforcement check then creates has bonus_minutes 0, so the effective minute limit
stays the base limit of 60. With a record present the same request does raise
bonus_minutes from 0 to 30. -/
theorem C25_bonus_lost_without_record :
    GetActiveTimeBlock toLowerASCII (sampleConfig sampleBlock) sampleNow = (some sampleBlock, 0) ∧
    findUsage "aa:bb:cc:dd:ee:ff" sampleNow.date 0 configuredWorld = none ∧
    (addBonusTime toLowerASCII "aa:bb:cc:dd:ee:ff" (some 30) sampleNow configuredWorld).1 =
      Status.ok ∧
    findUsage "aa:bb:cc:dd:ee:ff" sampleNow.date 0
      (addBonusTime toLowerASCII "aa:bb:cc:dd:ee:ff" (some 30) sampleNow configuredWorld).2 =
      some freshUsage ∧
    freshUsage.BonusMinutes = 0 ∧
    addBonusInt sampleBlock.LimitMinutes freshUsage.BonusMinutes = some 60 ∧
    (addBonusTime toLowerASCII "aa:bb:cc:dd:ee:ff" (some 30) sampleNow
      sampleConfiguredWorld).1 = Status.ok ∧
    findUsage "aa:bb:cc:dd:ee:ff" sampleNow.date 0
      (addBonusTime toLowerASCII "aa:bb:cc:dd:ee:ff" (some 30) sampleNow
        sampleConfiguredWorld).2 = some { sampleUsage with BonusMinutes := 30 } := by
  refine ⟨by decide, rfl, rfl, rfl, rfl, by decide, rfl, rfl⟩

/-! ## Properties of polling: the map of managed devices -/

theorem mem_mapInsert (k : String) (v : DeviceConfig) (m : List (String × DeviceConfig))
    (e : String × DeviceConfig) (h : e ∈ mapInsert k v m) : e = (k, v) ∨ e ∈ m := by
  induction m with
  | nil =>
    simp only [mapInsert, List.mem_singleton] at h
    exact Or.inl h
  | cons x rest ih =>
    obtain ⟨k1, v1⟩ := x
    simp only [mapInsert] at h
    split at h
    · rcases List.mem_cons.1 h with h | h
      · exact Or.inl h
      · exact Or.inr (List.mem_cons_of_mem _ h)
    · rcases List.mem_cons.1 h with h | h
      · exact Or.inr (by rw [h]; exact List.mem_cons_self _ _)
      · rcases ih h with h | h
        · exact Or.inl h
        · exact Or.inr (List.mem_cons_of_mem _ h)

theorem mem_mapInsert_self (k : String) (v : DeviceConfig) (m : List (String × DeviceConfig)) :
    (k, v) ∈ mapInsert k v m := by
  induction m with
  | nil => simp [mapInsert]
  | cons x rest ih =>
    obtain ⟨k1, v1⟩ := x
    simp only [mapInsert]
    split
    · exact List.mem_cons_self _ _
    · exact List.mem_cons_of_mem _ ih

theorem mem_mapInsert_of_mem (k : String) (v : DeviceConfig)
    (m : List (String × DeviceConfig)) (e : String × DeviceConfig) (h : e ∈ m)
    (hk : e.1 ≠ k) : e ∈ mapInsert k v m := by
  induction m with
  | nil => exact absurd h (List.not_mem_nil _)
  | cons x rest ih =>
    obtain ⟨k1, v1⟩ := x
    simp only [mapInsert]
    split
    · rename_i hk1
      rcases List.mem_cons.1 h with h | h
      · rw [h] at hk
        exact absurd hk1 hk
      · exact List.mem_cons_of_mem _ h
    · rcases List.mem_cons.1 h with h | h
      · rw [h]
        exact List.mem_cons_self _ _
      · exact List.mem_cons_of_mem _ (ih h)

theorem mapInsert_nodup (k : String) (v : DeviceConfig) (m : List (String × DeviceConfig))
    (h : (m.map Prod.fst).Nodup) : ((mapInsert k v m).map Prod.fst).Nodup := by
  induction m with
  | nil => simp [mapInsert]
  | cons x rest ih =>
    obtain ⟨k1, v1⟩ := x
    simp only [List.map_cons, List.nodup_cons] at h
    simp only [mapInsert]
    split
    · rename_i hk1
      simp only [List.map_cons, List.nodup_cons]
      rw [← hk1]
      exact h
    · rename_i hk1
      simp only [List.map_cons, List.nodup_cons]
      refine ⟨?_, ih h.2⟩
      intro hmem
      obtain ⟨e, he, hek⟩ := List.mem_map.1 hmem
      rcases mem_mapInsert k v rest e he with he | he
      · rw [he] at hek
        exact hk1 hek.symm
      · exact h.1 (List.mem_map.2 ⟨e, he, hek⟩)

theorem managed_fold_inv (lower : String → String) (configs : List DeviceConfig) :
    ∀ m : List (String × DeviceConfig),
      (m.map Prod.fst).Nodup →
      (∀ e ∈ m, e.2.Enabled = true ∧ e.1 = lower e.2.MAC) →
      ((configs.foldl (fun m cfg => if cfg.Enabled then mapInsert (lower cfg.MAC) cfg m else m)
          m).map Prod.fst).Nodup ∧
      ∀ e ∈ configs.foldl
          (fun m cfg => if cfg.Enabled then mapInsert (lower cfg.MAC) cfg m else m) m,
        e.2.Enabled = true ∧ e.1 = lower e.2.MAC ∧ (e ∈ m ∨ e.2 ∈ configs) := by
  induction configs with
  | nil => exact fun m h1 h2 => ⟨h1, fun e he => ⟨(h2 e he).1, (h2 e he).2, Or.inl he⟩⟩
  | cons c rest ih =>
    intro m h1 h2
    simp only [List.foldl_cons]
    by_cases hen : c.Enabled = true
    · rw [if_pos hen]
      have hinv : ∀ e ∈ mapInsert (lower c.MAC) c m, e.2.Enabled = true ∧ e.1 = lower e.2.MAC := by
        intro e he
        rcases mem_mapInsert _ _ _ e he with he | he
        · rw [he]
          exact ⟨hen, rfl⟩
        · exact h2 e he
      obtain ⟨r1, r2⟩ := ih _ (mapInsert_nodup _ _ m h1) hinv
      refine ⟨r1, fun e he => ?_⟩
      obtain ⟨a1, a2, a3⟩ := r2 e he
      refine ⟨a1, a2, ?_⟩
      rcases a3 with a3 | a3
      · rcases mem_mapInsert _ _ _ e a3 with a3 | a3
        · exact Or.inr (by rw [a3]; exact List.mem_cons_self _ _)
        · exact Or.inl a3
      · exact Or.inr (List.mem_cons_of_mem _ a3)
    · rw [if_neg hen]
      obtain ⟨r1, r2⟩ := ih m h1 h2
      refine ⟨r1, fun e he => ?_⟩
      obtain ⟨a1, a2, a3⟩ := r2 e he
      exact ⟨a1, a2, a3.imp id (List.mem_cons_of_mem _)⟩

theorem managedMACs_entries (lower : String → String) (configs : List DeviceConfig) :
    ((managedMACs lower configs).map Prod.fst).Nodup ∧
    ∀ e ∈ managedMACs lower configs,
      e.2.Enabled = true ∧ e.1 = lower e.2.MAC ∧ e.2 ∈ configs := by
  obtain ⟨h1, h2⟩ := managed_fold_inv lower configs [] List.nodup_nil
    (fun e he => absurd he (List.not_mem_nil _))
  refine ⟨h1, fun e he => ?_⟩
  obtain ⟨a1, a2, a3⟩ := h2 e he
  exact ⟨a1, a2, a3.resolve_left (List.not_mem_nil _)⟩

theorem managed_fold_keeps (lower : String → String) (cfg : DeviceConfig)
    (configs : List DeviceConfig)
    (huniq : ∀ c ∈ configs, c.Enabled = true → lower c.MAC = lower cfg.MAC → c = cfg) :
    ∀ m : List (String × DeviceConfig), (lower cfg.MAC, cfg) ∈ m →
      (lower cfg.MAC, cfg) ∈ configs.foldl
        (fun m cfg => if cfg.Enabled then mapInsert (lower cfg.MAC) cfg m else m) m := by
  induction configs with
  | nil => exact fun _ h => h
  | cons c rest ih =>
    intro m hm
    simp only [List.foldl_cons]
    apply ih (fun x hx => huniq x (List.mem_cons_of_mem _ hx))
    by_cases hen : c.Enabled = true
    · rw [if_pos hen]
      by_cases hk : lower c.MAC = lower cfg.MAC
      · have := huniq c (List.mem_cons_self _ _) hen hk
        rw [this]
        exact mem_mapInsert_self _ _ _
      · exact mem_mapInsert_of_mem _ _ _ _ hm (fun h => hk h.symm)
    · rw [if_neg hen]
      exact hm

theorem managed_fold_mem (lower : String → String) (cfg : DeviceConfig)
    (hen : cfg.Enabled = true) (configs : List DeviceConfig) (hmem : cfg ∈ configs)
    (huniq : ∀ c ∈ configs, c.Enabled = true → lower c.MAC = lower cfg.MAC → c = cfg) :
    ∀ m : List (String × DeviceConfig),
      (lower cfg.MAC, cfg) ∈ configs.foldl
        (fun m cfg => if cfg.Enabled then mapInsert (lower cfg.MAC) cfg m else m) m := by
  induction configs with
  | nil => exact absurd hmem (List.not_mem_nil _)
  | cons c rest ih =>
    intro m
    simp only [List.foldl_cons]
    have huniq1 : ∀ x ∈ rest, x.Enabled = true → lower x.MAC = lower cfg.MAC → x = cfg :=
      fun x hx => huniq x (List.mem_cons_of_mem _ hx)
    by_cases hc : c = cfg
    · rw [hc, if_pos hen]
      exact managed_fold_keeps lower cfg rest huniq1 _ (mem_mapInsert_self _ _ _)
    · rcases List.mem_cons.1 hmem with h | h
      · exact absurd h.symm hc
      · exact ih h huniq1 _

theorem managedMACs_mem (lower : String → String) (cfg : DeviceConfig)
    (hen : cfg.Enabled = true) (configs : List DeviceConfig) (hmem : cfg ∈ configs)
    (huniq : ∀ c ∈ configs, c.Enabled = true → lower c.MAC = lower cfg.MAC → c = cfg) :
    (lower cfg.MAC, cfg) ∈ managedMACs lower configs :=
  managed_fold_mem lower cfg hen configs hmem huniq []

/-! ## Properties of polling: the sweep, and devices left alone -/

theorem BlockDevice_state_other (lower : String → String) (mac reason : String) (w : World)
    (m : String) (hm : m ≠ mac) :
    findState m (BlockDevice lower mac reason w).2 = findState m w := by
  rcases (BlockDevice_spec lower mac reason w).2 with
    ⟨_, hs, _⟩ | ⟨_, _, hs, _⟩ | ⟨_, _, _, _, hs⟩
  · exact findState_congr m w _ hs
  · exact findState_congr m w _ hs
  · exact hs m hm

theorem sweepDevice_state_other (lower : String → String) (now : Time)
    (entry : String × DeviceConfig) (w : World) (k : String) (hk : k ≠ entry.1) :
    findState k (sweepDevice lower now entry w) = findState k w := by
  unfold sweepDevice
  rcases GetActiveTimeBlock lower entry.2 now with ⟨ob, i⟩
  cases ob with
  | none =>
    simp only
    split
    · exact BlockDevice_state_other lower _ _ w k hk
    · rfl
  | some b => rfl

theorem sweepDevice_no_faults (lower : String → String) (now : Time)
    (entry : String × DeviceConfig) (w : World) (hf : w.faults = []) :
    (sweepDevice lower now entry w).faults = [] := by
  unfold sweepDevice
  rcases GetActiveTimeBlock lower entry.2 now with ⟨ob, i⟩
  cases ob with
  | none =>
    simp only
    split
    · exact (BlockDevice_no_faults lower _ _ w hf).2
    · exact hf
  | some b => exact hf

theorem sweep_keeps_state (lower : String → String) (now : Time) (k : String)
    (l : List (String × DeviceConfig)) (hk : k ∉ l.map Prod.fst) :
    ∀ w, findState k (sweep lower now l w) = findState k w := by
  induction l with
  | nil => exact fun _ => rfl
  | cons e rest ih =>
    intro w
    simp only [List.map_cons, List.mem_cons, not_or] at hk
    simp only [sweep]
    rw [ih hk.2, sweepDevice_state_other lower now e w k hk.1]

theorem sweep_blocks (lower : String → String) (now : Time) (k : String) (cfg : DeviceConfig)
    (hout : GetActiveTimeBlock lower cfg now = (none, -1)) (hbo : cfg.BlockOutside = true)
    (l : List (String × DeviceConfig)) (hnd : (l.map Prod.fst).Nodup)
    (hmem : (k, cfg) ∈ l) :
    ∀ w, w.faults = [] →
      findState k (sweep lower now l w) =
        some { MAC := k, IsBlocked := true, BlockedReason := "outside_hours" } := by
  induction l with
  | nil => exact absurd hmem (List.not_mem_nil _)
  | cons e rest ih =>
    intro w hf
    simp only [List.map_cons, List.nodup_cons] at hnd
    simp only [sweep]
    rcases List.mem_cons.1 hmem with h | h
    · rw [← h] at hnd
      rw [sweep_keeps_state lower now k rest hnd.1, ← h]
      unfold sweepDevice
      simp only [hout, hbo, if_true]
      exact BlockDevice_ok_state lower k _ w (BlockDevice_no_faults lower k _ w hf).1
    · exact ih hnd.2 h _ (sweepDevice_no_faults lower now e w hf)

theorem pollClient_no_faults (lower : String → String) (a : Accumulator)
    (managed : List (String × DeviceConfig)) (now : Time) (client : ClientInfo) (w : World)
    (hf : w.faults = []) : (pollClient lower a managed now client w).faults = [] := by
  unfold pollClient
  simp only
  cases mapLookup (lower client.MAC) managed with
  | none => exact hf
  | some config =>
    simp only
    rcases hact : GetActiveTimeBlock lower config now with ⟨ob, i⟩
    cases ob with
    | none =>
      simp only
      split
      · exact (BlockDevice_no_faults lower _ _ w hf).2
      · exact hf
    | some b =>
      simp only
      obtain ⟨_, _, hok, hfa, _⟩ :=
        deviceCycle_no_faults lower a (lower client.MAC) config now client w b i hf hact
      rcases hp : ProcessClientStats a (lower client.MAC) client now b i w with ⟨r, w1⟩
      rw [hp] at hok hfa
      simp only at hok hfa
      subst hok
      exact hfa

theorem pollClients_no_faults (lower : String → String) (a : Accumulator)
    (managed : List (String × DeviceConfig)) (now : Time) (clients : List ClientInfo) :
    ∀ w, w.faults = [] → (pollClients lower a managed now clients w).faults = [] := by
  induction clients with
  | nil => exact fun _ h => h
  | cons c rest ih => exact fun w h => ih _ (pollClient_no_faults lower a managed now c w h)

theorem poll_no_faults (lower : String → String) (a : Accumulator)
    (shuffle : List (String × DeviceConfig) → List (String × DeviceConfig))
    (clients : List ClientInfo) (now : Time) (w : World) (hf : w.faults = [])
    (hne : w.configs.length ≠ 0) :
    poll lower a shuffle clients now w =
      sweep lower now (shuffle (managedMACs lower w.configs))
        (pollClients lower a (managedMACs lower w.configs) now clients w) := by
  unfold poll GetAllDeviceConfigs GetClients
  rw [next_of_no_faults w hf]
  simp only [hne, if_false]
  rw [next_of_no_faults w hf]

theorem untouched_refl (m : String) (w : World) (hu : uniqueIDs w) : untouched m w w :=
  ⟨hu, fun _ _ => rfl, rfl, [], (List.append_nil _).symm,
    fun _ hc => absurd hc (List.not_mem_nil _)⟩

theorem untouched_trans (m : String) (w w1 w2 : World) (h1 : untouched m w w1)
    (h2 : untouched m w1 w2) : untouched m w w2 := by
  obtain ⟨_, r1, s1, cs1, c1, t1⟩ := h1
  obtain ⟨u2, r2, s2, cs2, c2, t2⟩ := h2
  refine ⟨u2, fun d i => (r2 d i).trans (r1 d i), s2.trans s1, cs1 ++ cs2, ?_, ?_⟩
  · rw [c2, c1, List.append_assoc]
  · intro c hc
    rcases List.mem_append.1 hc with hc | hc
    · exact t1 c hc
    · exact t2 c hc

theorem untouched_of_localTo (lower : String → String) (k m : String) (w w1 : World)
    (hk : m ≠ k) (hlk : lower k ≠ m) (h : localTo lower k w w1) : untouched m w w1 := by
  obtain ⟨hu, hr, hs, cs, hc, ht⟩ := h
  refine ⟨hu, fun d i => hr m d i hk, hs m hk, cs, hc, fun c hcm => ?_⟩
  rw [ht c hcm]
  exact hlk

theorem untouched_of_eq (m : String) (w w1 : World) (hu : uniqueIDs w)
    (h1 : w1.usages = w.usages) (h2 : w1.nextID = w.nextID) (h3 : w1.states = w.states)
    (h4 : w1.calls = w.calls) : untouched m w w1 :=
  ⟨uniqueIDs_congr w w1 h1 h2 hu, fun d i => findUsage_congr m d i w w1 h1,
    findState_congr m w w1 h3, [], by rw [h4, List.append_nil],
    fun _ hc => absurd hc (List.not_mem_nil _)⟩

theorem pollClient_untouched (lower : String → String)
    (hidem : ∀ s, lower (lower s) = lower s) (a : Accumulator)
    (managed : List (String × DeviceConfig)) (now : Time) (client : ClientInfo) (w : World)
    (m : String) (hno : mapLookup m managed = none) (hu : uniqueIDs w) :
    untouched m w (pollClient lower a managed now client w) := by
  by_cases hm : lower client.MAC = m
  · have : pollClient lower a managed now client w = w := by
      unfold pollClient
      simp only
      rw [hm, hno]
    rw [this]
    exact untouched_refl m w hu
  · refine untouched_of_localTo lower (lower client.MAC) m w _ (fun h => hm h.symm) ?_
      (pollClient_local lower a managed now client w hu)
    rw [hidem]
    exact hm

theorem pollClients_untouched (lower : String → String)
    (hidem : ∀ s, lower (lower s) = lower s) (a : Accumulator)
    (managed : List (String × DeviceConfig)) (now : Time) (m : String)
    (hno : mapLookup m managed = none) (clients : List ClientInfo) :
    ∀ w, uniqueIDs w → untouched m w (pollClients lower a managed now clients w) := by
  induction clients with
  | nil => exact fun w hu => untouched_refl m w hu
  | cons c rest ih =>
    intro w hu
    have h1 := pollClient_untouched lower hidem a managed now c w m hno hu
    exact untouched_trans m w _ _ h1 (ih _ h1.1)

theorem sweep_untouched (lower : String → String) (now : Time) (m : String)
    (l : List (String × DeviceConfig)) (hl : ∀ e ∈ l, m ≠ e.1 ∧ lower e.1 ≠ m) :
    ∀ w, uniqueIDs w → untouched m w (sweep lower now l w) := by
  induction l with
  | nil => exact fun w hu => untouched_refl m w hu
  | cons e rest ih =>
    intro w hu
    obtain ⟨h1, h2⟩ := hl e (List.mem_cons_self _ _)
    have hstep := untouched_of_localTo lower e.1 m w _ h1 h2 (sweepDevice_local lower now e w hu)
    exact untouched_trans m w _ _ hstep
      (ih (fun x hx => hl x (List.mem_cons_of_mem _ hx)) _ hstep.1)

theorem poll_untouched (lower : String → String) (hidem : ∀ s, lower (lower s) = lower s)
    (a : Accumulator) (shuffle : List (String × DeviceConfig) → List (String × DeviceConfig))
    (hshuffle : ∀ l, (shuffle l).Perm l) (clients : List ClientInfo) (now : Time) (w : World)
    (m : String) (hu : uniqueIDs w)
    (hoff : ∀ c ∈ w.configs, c.Enabled = true → lower c.MAC ≠ m) :
    untouched m w (poll lower a shuffle clients now w) := by
  have h0 : untouched m w w.next.2 :=
    untouched_of_eq m w _ hu (next_usages w) (next_nextID w) (next_states w) (next_calls w)
  have h1 : untouched m w.next.2 w.next.2.next.2 :=
    untouched_of_eq m _ _ h0.1 (next_usages _) (next_nextID _) (next_states _) (next_calls _)
  have h01 := untouched_trans m _ _ _ h0 h1
  have hcfg : w.next.2.configs = w.configs := next_configs w
  unfold poll GetAllDeviceConfigs GetClients
  rcases hn : w.next with ⟨f, w0⟩
  rw [hn] at h0 h1 h01 hcfg
  simp only at h0 h1 h01 hcfg
  cases f with
  | true => exact h0
  | false =>
    simp only
    split
    · exact h0
    · rcases hn1 : w0.next with ⟨f1, w00⟩
      rw [hn1] at h1 h01
      simp only at h1 h01
      cases f1 with
      | true => exact h01
      | false =>
        simp only
        obtain ⟨_, hent⟩ := managedMACs_entries lower w0.configs
        have hkeys : ∀ e ∈ managedMACs lower w0.configs, m ≠ e.1 ∧ lower e.1 ≠ m := by
          intro e he
          obtain ⟨e1, e2, e3⟩ := hent e he
          rw [hcfg] at e3
          have := hoff e.2 e3 e1
          rw [e2, hidem]
          exact ⟨fun h => this h.symm, this⟩
        have hno : mapLookup m (managedMACs lower w0.configs) = none := by
          unfold mapLookup
          rw [Option.map_eq_none', List.find?_eq_none]
          intro e he
          simp only [decide_eq_true_eq]
          exact fun h => (hkeys e he).1 h.symm
        have hp := pollClients_untouched lower hidem a (managedMACs lower w0.configs) now m hno
          clients w00 h01.1
        have hs := sweep_untouched lower now m (shuffle (managedMACs lower w0.configs))
          (fun e he => hkeys e ((hshuffle _).mem_iff.1 he)) _ hp.1
        exact untouched_trans m _ _ _ h01 (untouched_trans m _ _ _ hp hs)

/-! ## Properties of polling: offline and disabled devices -/

theorem toLower_toLower (c : Char) : c.toLower.toLower = c.toLower := by
  by_cases h : c.toNat ≥ 65 ∧ c.toNat ≤ 90
  · have e : c.toLower = Char.ofNat (c.toNat + 32) := by
      simp only [Char.toLower, h, and_self, if_true]
    rw [e]
    obtain ⟨h1, h2⟩ := h
    generalize c.toNat = n at h1 h2
    interval_cases n <;> rfl
  · have e : c.toLower = c := by
      simp only [Char.toLower]
      rw [if_neg h]
    rw [e, e]

theorem toLowerASCII_idem (s : String) : toLowerASCII (toLowerASCII s) = toLowerASCII s := by
  unfold toLowerASCII
  simp only [List.map_map]
  congr 1
  apply List.map_congr_left
  intro c _
  exact toLower_toLower c

/-- C21: for every poll cycle in which nothing fails, every enabled config of the store
(the only enabled one with its lowercased address) that has block_outside set and no
active window at the cycle's instant leaves its device, connected or not, with a
DeviceState blocked for outside_hours after the cycle; and for every poll cycle,
whatever fails in it, on a store with distinct row IDs, a device whose lowercased
address is that of no enabled config has its usage records and its DeviceState left as
they were, and no command sent for its address. Lowercasing is taken to leave a
lowercased address as it is. -/
theorem C21_sweep_covers_offline_devices (lower : String → String)
    (hidem : ∀ s, lower (lower s) = lower s) (a : Accumulator)
    (shuffle : List (String × DeviceConfig) → List (String × DeviceConfig))
    (hshuffle : ∀ l, (shuffle l).Perm l) (clients : List ClientInfo) (now : Time)
    (w wd : World) (cfg off : DeviceConfig)
    (hf : w.faults = []) (hmem : cfg ∈ w.configs) (hen : cfg.Enabled = true)
    (hflag : cfg.BlockOutside = true)
    (hout : GetActiveTimeBlock lower cfg now = (none, -1))
    (hone : ∀ c ∈ w.configs, c.Enabled = true → lower c.MAC = lower cfg.MAC → c = cfg)
    (hids : uniqueIDs wd)
    (hoff : ∀ c ∈ wd.configs, c.Enabled = true → lower c.MAC ≠ lower off.MAC) :
    findState (lower cfg.MAC) (poll lower a shuffle clients now w) =
      some { MAC := lower cfg.MAC, IsBlocked := true, BlockedReason := "outside_hours" } ∧
    (∀ d i, findUsage (lower off.MAC) d i (poll lower a shuffle clients now wd) =
      findUsage (lower off.MAC) d i wd) ∧
    findState (lower off.MAC) (poll lower a shuffle clients now wd) =
      findState (lower off.MAC) wd ∧
    ∃ cs, (poll lower a shuffle clients now wd).calls = wd.calls ++ cs ∧
      ∀ c ∈ cs, c.target ≠ lower off.MAC := by
  obtain ⟨_, h2, h3, h4⟩ :=
    poll_untouched lower hidem a shuffle hshuffle clients now wd (lower off.MAC) hids hoff
  refine ⟨?_, h2, h3, h4⟩
  have hne : w.configs.length ≠ 0 := by
    intro h
    rw [List.length_eq_zero] at h
    rw [h] at hmem
    exact absurd hmem (List.not_mem_nil _)
  rw [poll_no_faults lower a shuffle clients now w hf hne]
  have hperm := hshuffle (managedMACs lower w.configs)
  apply sweep_blocks lower now (lower cfg.MAC) cfg hout hflag
  · exact (hperm.map Prod.fst).nodup_iff.2 (managedMACs_entries lower w.configs).1
  · exact hperm.mem_iff.2 (managedMACs_mem lower cfg hen w.configs hmem hone)
  · exact pollClients_no_faults lower a _ now clients w hf

/-- C21 at 21:30 on a monday for a store with an enabled device that is not connected
and a disabled device that is: the first ends blocked for outside_hours, the second is
left alone. -/
theorem C21_sweep_covers_offline_devices_witness :
    sweepWorld.faults = [] ∧ offlineConfig ∈ sweepWorld.configs ∧
    offlineConfig.Enabled = true ∧ offlineConfig.BlockOutside = true ∧
    GetActiveTimeBlock toLowerASCII offlineConfig sampleNight = (none, -1) ∧
    uniqueIDs sweepWorld ∧ disabledConfig.Enabled = false ∧
    findState (toLowerASCII offlineConfig.MAC)
      (poll toLowerASCII { pollIntervalSecs := 30 } id [sampleClient] sampleNight sweepWorld) =
      some { MAC := toLowerASCII offlineConfig.MAC, IsBlocked := true,
             BlockedReason := "outside_hours" } ∧
    findState (toLowerASCII disabledConfig.MAC)
      (poll toLowerASCII { pollIntervalSecs := 30 } id [sampleClient] sampleNight sweepWorld) =
      findState (toLowerASCII disabledConfig.MAC) sweepWorld :=
  ⟨rfl, by decide, rfl, rfl, by decide, by decide, rfl,
    (C21_sweep_covers_offline_devices toLowerASCII toLowerASCII_idem { pollIntervalSecs := 30 }
      id (fun l => List.Perm.refl l) [sampleClient] sampleNight sweepWorld sweepWorld
      offlineConfig disabledConfig rfl (by decide) rfl rfl (by decide) (by decide) (by decide)
      (by decide)).1,
    (C21_sweep_covers_offline_devices toLowerASCII toLowerASCII_idem { pollIntervalSecs := 30 }
      id (fun l => List.Perm.refl l) [sampleClient] sampleNight sweepWorld sweepWorld
      offlineConfig disabledConfig rfl (by decide) rfl rfl (by decide) (by decide) (by decide)
      (by decide)).2.2.1⟩

/-! ## Properties of enforcement: the writes follow the call -/

theorem UpdateBlockUsage_cases (v : BlockUsage) (w : World) :
    ((UpdateBlockUsage v w).1 = .error .store ∧ (UpdateBlockUsage v w).2.usages = w.usages) ∨
    ((UpdateBlockUsage v w).1 = .ok () ∧
      (UpdateBlockUsage v w).2.usages =
        w.usages.map (fun row => if row.ID = v.ID then setUsageColumns v row else row)) := by
  unfold UpdateBlockUsage
  rcases hn : w.next with ⟨f, w0⟩
  have hu0 : w0.usages = w.usages := by rw [← next_usages w, hn]
  cases f with
  | true => exact Or.inl ⟨rfl, hu0⟩
  | false =>
    refine Or.inr ⟨rfl, ?_⟩
    show w0.usages.map _ = _
    rw [hu0]

theorem enforceLimits_call_failed (lower : String → String) (mac : String) (b : TimeBlock)
    (u : BlockUsage) (w1 : World)
    (h : (enforceLimits lower mac b u w1).1 = .error .controller) :
    (enforceLimits lower mac b u w1).2.states = w1.states ∧
    ∃ c, (enforceLimits lower mac b u w1).2.calls = w1.calls ++ [c] := by
  rcases enforceLimits_cases lower mac b u w1 with
    ⟨reason, _, _, hc⟩ | ⟨reason, _, _, hc⟩ | ⟨_, _, hc⟩ | ⟨_, _, hc⟩
  · rcases hc with ⟨e, hbe, hc⟩ | ⟨_, hc⟩
    · rw [hc] at h ⊢
      simp only [Except.error.injEq] at h
      rw [h] at hbe
      exact ⟨(BlockDevice_controller_error lower mac reason w1 hbe).1, _,
        (BlockDevice_controller_error lower mac reason w1 hbe).2⟩
    · rw [hc] at h
      exact absurd (UpdateBlockUsage_error_store _ _ _ h) (by decide)
  · rw [hc] at h
    exact absurd h (by simp)
  · rcases hc with ⟨e, hbe, hc⟩ | ⟨_, hc⟩
    · rw [hc] at h ⊢
      simp only [Except.error.injEq] at h
      rw [h] at hbe
      exact ⟨(UnblockDevice_controller_error lower mac w1 hbe).1, _,
        (UnblockDevice_controller_error lower mac w1 hbe).2⟩
    · rw [hc] at h
      exact absurd (UpdateBlockUsage_error_store _ _ _ h) (by decide)
  · rw [hc] at h
    exact absurd h (by simp)

theorem CheckAndEnforce_call_failed (lower : String → String) (mac : String)
    (config : DeviceConfig) (now : Time) (w : World)
    (h : (CheckAndEnforce lower mac config now w).1 = .error .controller) :
    (CheckAndEnforce lower mac config now w).2.states = w.states ∧
    ∃ c, (CheckAndEnforce lower mac config now w).2.calls = w.calls ++ [c] := by
  rcases hact : GetActiveTimeBlock lower config now with ⟨ob, i⟩
  cases ob with
  | none =>
    unfold CheckAndEnforce at h ⊢
    rw [hact] at h ⊢
    simp only at h ⊢
    cases hbo : config.BlockOutside with
    | false =>
      rw [hbo] at h
      exact absurd h (by simp)
    | true =>
      rw [hbo] at h
      simp only [if_true] at h ⊢
      exact ⟨(BlockDevice_controller_error lower mac _ w h).1, _,
        (BlockDevice_controller_error lower mac _ w h).2⟩
  | some b =>
    have hfr := GetOrCreateBlockUsage_frame mac now.date i b.StartTime b.EndTime
      b.LimitMinutes b.LimitBytes w
    have hst := GetOrCreateBlockUsage_error_store mac now.date i b.StartTime b.EndTime
      b.LimitMinutes b.LimitBytes w
    rcases hget : GetOrCreateBlockUsage mac now.date i b.StartTime b.EndTime
      b.LimitMinutes b.LimitBytes w with ⟨r, w1⟩
    rw [hget] at hfr hst
    simp only at hfr hst
    cases r with
    | error e =>
      have hc : CheckAndEnforce lower mac config now w = (.error e, w1) := by
        unfold CheckAndEnforce
        rw [hact]
        simp only
        rw [hget]
      rw [hc] at h
      simp only [Except.error.injEq] at h
      exact absurd (hst e rfl) (by rw [h]; decide)
    | ok u =>
      rw [CheckAndEnforce_of_record lower mac config now w w1 b i u hact hget] at h ⊢
      obtain ⟨o1, o2⟩ := enforceLimits_call_failed lower mac b u w1 h
      rw [hfr.1] at o1
      rw [hfr.2] at o2
      exact ⟨o1, o2⟩

theorem enforceLimits_flag_written (lower : String → String) (mac : String) (b : TimeBlock)
    (u : BlockUsage) (w1 : World)
    (h : (enforceLimits lower mac b u w1).2.usages ≠ w1.usages) :
    (enforceLimits lower mac b u w1).1 = .ok () ∧
    ((∃ reason,
        (enforceLimits lower mac b u w1).2.usages = flagRows u true reason w1.usages ∧
        findState mac (enforceLimits lower mac b u w1).2 =
          some { MAC := mac, IsBlocked := true, BlockedReason := reason }) ∨
      ((enforceLimits lower mac b u w1).2.usages = flagRows u false "" w1.usages ∧
        ∀ s, findState mac (enforceLimits lower mac b u w1).2 = some s →
          s.IsBlocked = false)) := by
  rcases enforceLimits_cases lower mac b u w1 with
    ⟨reason, _, _, hc⟩ | ⟨reason, _, _, hc⟩ | ⟨_, _, hc⟩ | ⟨_, _, hc⟩
  · have hU := (BlockDevice_spec lower mac reason w1).1
    rcases hc with ⟨e, hbe, hc⟩ | ⟨hok, hc⟩
    · rw [hc] at h
      exact absurd hU h
    · rw [hc] at h ⊢
      have hfr := (UpdateBlockUsage_frame { u with IsBlocked := true, BlockedReason := reason }
        (BlockDevice lower mac reason w1).2).1
      rcases UpdateBlockUsage_cases { u with IsBlocked := true, BlockedReason := reason }
        (BlockDevice lower mac reason w1).2 with ⟨_, hs⟩ | ⟨hr, hs⟩
      · exact absurd (hs.trans hU) h
      · refine ⟨hr, Or.inl ⟨reason, ?_, ?_⟩⟩
        · rw [hs, hU]
          rfl
        · rw [findState_congr mac _ _ hfr]
          exact BlockDevice_ok_state lower mac reason w1 hok
  · rw [hc] at h
    exact absurd rfl h
  · have hU := (UnblockDevice_spec lower mac w1).1
    rcases hc with ⟨e, hbe, hc⟩ | ⟨hok, hc⟩
    · rw [hc] at h
      exact absurd hU h
    · rw [hc] at h ⊢
      have hfr := (UpdateBlockUsage_frame { u with IsBlocked := false, BlockedReason := "" }
        (UnblockDevice lower mac w1).2).1
      rcases UpdateBlockUsage_cases { u with IsBlocked := false, BlockedReason := "" }
        (UnblockDevice lower mac w1).2 with ⟨_, hs⟩ | ⟨hr, hs⟩
      · exact absurd (hs.trans hU) h
      · refine ⟨hr, Or.inr ⟨?_, ?_⟩⟩
        · rw [hs, hU]
          rfl
        · intro s hs1
          rw [findState_congr mac _ _ hfr] at hs1
          exact UnblockDevice_ok_state lower mac w1 hok s hs1
  · rw [hc] at h
    exact absurd rfl h

theorem CheckAndEnforce_outside_usages (lower : String → String) (mac : String)
    (config : DeviceConfig) (now : Time) (w : World)
    (h : (GetActiveTimeBlock lower config now).1 = none) :
    (CheckAndEnforce lower mac config now w).2.usages = w.usages := by
  rcases hact : GetActiveTimeBlock lower config now with ⟨ob, i⟩
  rw [hact] at h
  simp only at h
  subst h
  unfold CheckAndEnforce
  rw [hact]
  simp only
  cases config.BlockOutside with
  | false => rfl
  | true => exact (BlockDevice_spec lower mac _ w).1

theorem BlockDevice_write_fails (lower : String → String) (mac reason : String) (w : World)
    (rest : List Bool) (hf : w.faults = false :: false :: true :: rest)
    (h : ¬ ∃ s, findState mac w = some s ∧ s.IsBlocked = true ∧ s.BlockedReason = reason) :
    (BlockDevice lower mac reason w).1 = .error .store ∧
    (BlockDevice lower mac reason w).2.calls = w.calls ++ [Call.block (lower mac)] ∧
    (BlockDevice lower mac reason w).2.states = w.states ∧
    (BlockDevice lower mac reason w).2.faults = rest := by
  have hcond : ∀ s : DeviceState, w.states.find? (fun s => decide (s.MAC = mac)) = some s →
      ¬ (s.IsBlocked = true ∧ s.BlockedReason = reason) := fun s hs hb => h ⟨s, hs, hb.1, hb.2⟩
  unfold BlockDevice GetDeviceState World.next
  rw [hf]
  simp only
  cases hfind : w.states.find? (fun s => decide (s.MAC = mac)) with
  | none =>
    simp [BlockClient, SaveDeviceState, World.next]
  | some s =>
    have hc := hcond s hfind
    simp only
    have hc2 : (s.IsBlocked && decide (s.BlockedReason = reason)) = false := by
      cases hb : s.IsBlocked with
      | false => rfl
      | true =>
        have : s.BlockedReason ≠ reason := fun hr => hc ⟨hb, hr⟩
        simp [this]
    rw [hc2]
    simp [BlockClient, SaveDeviceState, World.next]

theorem UnblockDevice_write_fails (lower : String → String) (mac : String) (w : World)
    (rest : List Bool) (hf : w.faults = false :: false :: true :: rest)
    (h : ∃ s, findState mac w = some s ∧ s.IsBlocked = true) :
    (UnblockDevice lower mac w).1 = .error .store ∧
    (UnblockDevice lower mac w).2.calls = w.calls ++ [Call.unblock (lower mac)] ∧
    (UnblockDevice lower mac w).2.states = w.states ∧
    (UnblockDevice lower mac w).2.faults = rest := by
  obtain ⟨s, hs, hb⟩ := h
  have hfind : w.states.find? (fun s => decide (s.MAC = mac)) = some s := hs
  unfold UnblockDevice GetDeviceState World.next
  rw [hf]
  simp only
  rw [hfind]
  simp [hb, UnblockClient, SaveDeviceState, World.next]

theorem BlockDevice_command_fails (lower : String → String) (mac reason : String) (w : World)
    (rest : List Bool) (hf : w.faults = false :: true :: rest)
    (h : ¬ ∃ s, findState mac w = some s ∧ s.IsBlocked = true ∧ s.BlockedReason = reason) :
    (BlockDevice lower mac reason w).1 = .error .controller ∧
    (BlockDevice lower mac reason w).2.calls = w.calls ++ [Call.block (lower mac)] ∧
    (BlockDevice lower mac reason w).2.states = w.states ∧
    (BlockDevice lower mac reason w).2.faults = rest := by
  have hcond : ∀ s : DeviceState, w.states.find? (fun s => decide (s.MAC = mac)) = some s →
      ¬ (s.IsBlocked = true ∧ s.BlockedReason = reason) := fun s hs hb => h ⟨s, hs, hb.1, hb.2⟩
  unfold BlockDevice GetDeviceState World.next
  rw [hf]
  simp only
  cases hfind : w.states.find? (fun s => decide (s.MAC = mac)) with
  | none =>
    simp [BlockClient, World.next]
  | some s =>
    have hc := hcond s hfind
    simp only
    have hc2 : (s.IsBlocked && decide (s.BlockedReason = reason)) = false := by
      cases hb : s.IsBlocked with
      | false => rfl
      | true =>
        have : s.BlockedReason ≠ reason := fun hr => hc ⟨hb, hr⟩
        simp [this]
    rw [hc2]
    simp [BlockClient, World.next]

theorem BlockDevice_write_succeeds (lower : String → String) (mac reason : String) (w : World)
    (rest : List Bool) (hf : w.faults = false :: false :: false :: rest)
    (h : ¬ ∃ s, findState mac w = some s ∧ s.IsBlocked = true ∧ s.BlockedReason = reason) :
    (BlockDevice lower mac reason w).1 = .ok () ∧
    (BlockDevice lower mac reason w).2.calls = w.calls ++ [Call.block (lower mac)] ∧
    findState mac (BlockDevice lower mac reason w).2 =
      some { MAC := mac, IsBlocked := true, BlockedReason := reason } ∧
    (BlockDevice lower mac reason w).2.faults = rest := by
  have hcond : ∀ s : DeviceState, w.states.find? (fun s => decide (s.MAC = mac)) = some s →
      ¬ (s.IsBlocked = true ∧ s.BlockedReason = reason) := fun s hs hb => h ⟨s, hs, hb.1, hb.2⟩
  have hmain : (BlockDevice lower mac reason w).1 = .ok () ∧
      (BlockDevice lower mac reason w).2.calls = w.calls ++ [Call.block (lower mac)] ∧
      (BlockDevice lower mac reason w).2.faults = rest := by
    unfold BlockDevice GetDeviceState World.next
    rw [hf]
    simp only
    cases hfind : w.states.find? (fun s => decide (s.MAC = mac)) with
    | none =>
      simp [BlockClient, SaveDeviceState, World.next]
      split_ifs <;> simp
    | some s =>
      have hc := hcond s hfind
      simp only
      have hc2 : (s.IsBlocked && decide (s.BlockedReason = reason)) = false := by
        cases hb : s.IsBlocked with
        | false => rfl
        | true =>
          have : s.BlockedReason ≠ reason := fun hr => hc ⟨hb, hr⟩
          simp [this]
      rw [hc2]
      simp [BlockClient, SaveDeviceState, World.next]
      split_ifs <;> simp
  exact ⟨hmain.1, hmain.2.1, BlockDevice_ok_state lower mac reason w hmain.1, hmain.2.2⟩

theorem UnblockDevice_command_fails (lower : String → String) (mac : String) (w : World)
    (rest : List Bool) (hf : w.faults = false :: true :: rest)
    (h : ∃ s, findState mac w = some s ∧ s.IsBlocked = true) :
    (UnblockDevice lower mac w).1 = .error .controller ∧
    (UnblockDevice lower mac w).2.calls = w.calls ++ [Call.unblock (lower mac)] ∧
    (UnblockDevice lower mac w).2.states = w.states ∧
    (UnblockDevice lower mac w).2.faults = rest := by
  obtain ⟨s, hs, hb⟩ := h
  have hfind : w.states.find? (fun s => decide (s.MAC = mac)) = some s := hs
  unfold UnblockDevice GetDeviceState World.next
  rw [hf]
  simp only
  rw [hfind]
  simp [hb, UnblockClient, World.next]

theorem UnblockDevice_write_succeeds (lower : String → String) (mac : String) (w : World)
    (rest : List Bool) (hf : w.faults = false :: false :: false :: rest)
    (h : ∃ s, findState mac w = some s ∧ s.IsBlocked = true) :
    (UnblockDevice lower mac w).1 = .ok () ∧
    (UnblockDevice lower mac w).2.calls = w.calls ++ [Call.unblock (lower mac)] ∧
    findState mac (UnblockDevice lower mac w).2 =
      some { MAC := mac, IsBlocked := false, BlockedReason := "" } ∧
    (UnblockDevice lower mac w).2.faults = rest := by
  obtain ⟨s, hs, hb⟩ := h
  have hfind : w.states.find? (fun s => decide (s.MAC = mac)) = some s := hs
  have hmain : (UnblockDevice lower mac w).1 = .ok () ∧
      (UnblockDevice lower mac w).2.calls = w.calls ++ [Call.unblock (lower mac)] ∧
      (UnblockDevice lower mac w).2.faults = rest := by
    unfold UnblockDevice GetDeviceState World.next
    rw [hf]
    simp only
    rw [hfind]
    simp [hb, UnblockClient, SaveDeviceState, World.next]
    split_ifs <;> simp
  refine ⟨hmain.1, hmain.2.1, ?_, hmain.2.2⟩
  rcases (UnblockDevice_spec lower mac w).2 with ⟨⟨e, he⟩, _⟩ | ⟨_, hub, _⟩ | ⟨_, _, _, hstate, _⟩
  · rw [hmain.1] at he
    cases he
  · have := hub s hs
    rw [hb] at this
    cases this
  · exact hstate

/-- Claim C27 as amended: in BlockDevice, UnblockDevice and CheckAndEnforce the
collaborator call is not the last effect, the store writes follow it. For BlockDevice
and for UnblockDevice: the table of device states is changed only in a run that returns
without error and has sent exactly its one command; a run that returns the controller's
error has sent that one command and written no device state; the usage table is never
changed; and, the device state not being in the wanted posture yet, the calls are made
in the order read, command, write: when the read succeeds and the second call fails,
the controller's error is returned with the command sent, no device state written and
no further call made; when the first two calls succeed and the third fails, the store's
error is returned with the command sent and no device state written; and when the
three calls succeed the device state is written after the command. For CheckAndEnforce:
the table of device states is changed only in a run that has sent exactly one command;
a run that returns the controller's error has sent exactly one command and written no
device state; a run that returns any error has changed no usage record (at most the
record of the window has been created, unflagged, by the read); when no window is active
the usage table is left as it was; and when a window is active the usage table is
changed after the read of the record only by a run that returns without error, which
has then written either the blocked flag with a reason into the record, the device
state being blocked with that reason, or the cleared flag, the device state not being
blocked: whether BlockDevice or UnblockDevice had to send a command for it or found the
device state already so and sent none. -/
theorem C27_writes_follow_the_call (lower : String → String) (mac reason : String)
    (config : DeviceConfig) (now : Time) (w : World) :
    ((BlockDevice lower mac reason w).2.states ≠ w.states →
      (BlockDevice lower mac reason w).1 = .ok () ∧
      (BlockDevice lower mac reason w).2.calls = w.calls ++ [Call.block (lower mac)]) ∧
    ((BlockDevice lower mac reason w).1 = .error .controller →
      (BlockDevice lower mac reason w).2.states = w.states ∧
      (BlockDevice lower mac reason w).2.calls = w.calls ++ [Call.block (lower mac)]) ∧
    (BlockDevice lower mac reason w).2.usages = w.usages ∧
    (∀ rest, w.faults = false :: true :: rest →
      (¬ ∃ s, findState mac w = some s ∧ s.IsBlocked = true ∧ s.BlockedReason = reason) →
      (BlockDevice lower mac reason w).1 = .error .controller ∧
      (BlockDevice lower mac reason w).2.calls = w.calls ++ [Call.block (lower mac)] ∧
      (BlockDevice lower mac reason w).2.states = w.states ∧
      (BlockDevice lower mac reason w).2.faults = rest) ∧
    (∀ rest, w.faults = false :: false :: true :: rest →
      (¬ ∃ s, findState mac w = some s ∧ s.IsBlocked = true ∧ s.BlockedReason = reason) →
      (BlockDevice lower mac reason w).1 = .error .store ∧
      (BlockDevice lower mac reason w).2.calls = w.calls ++ [Call.block (lower mac)] ∧
      (BlockDevice lower mac reason w).2.states = w.states ∧
      (BlockDevice lower mac reason w).2.faults = rest) ∧
    (∀ rest, w.faults = false :: false :: false :: rest →
      (¬ ∃ s, findState mac w = some s ∧ s.IsBlocked = true ∧ s.BlockedReason = reason) →
      (BlockDevice lower mac reason w).1 = .ok () ∧
      (BlockDevice lower mac reason w).2.calls = w.calls ++ [Call.block (lower mac)] ∧
      findState mac (BlockDevice lower mac reason w).2 =
        some { MAC := mac, IsBlocked := true, BlockedReason := reason } ∧
      (BlockDevice lower mac reason w).2.faults = rest) ∧
    ((UnblockDevice lower mac w).2.states ≠ w.states →
      (UnblockDevice lower mac w).1 = .ok () ∧
      (UnblockDevice lower mac w).2.calls = w.calls ++ [Call.unblock (lower mac)]) ∧
    ((UnblockDevice lower mac w).1 = .error .controller →
      (UnblockDevice lower mac w).2.states = w.states ∧
      (UnblockDevice lower mac w).2.calls = w.calls ++ [Call.unblock (lower mac)]) ∧
    (UnblockDevice lower mac w).2.usages = w.usages ∧
    (∀ rest, w.faults = false :: true :: rest →
      (∃ s, findState mac w = some s ∧ s.IsBlocked = true) →
      (UnblockDevice lower mac w).1 = .error .controller ∧
      (UnblockDevice lower mac w).2.calls = w.calls ++ [Call.unblock (lower mac)] ∧
      (UnblockDevice lower mac w).2.states = w.states ∧
      (UnblockDevice lower mac w).2.faults = rest) ∧
    (∀ rest, w.faults = false :: false :: true :: rest →
      (∃ s, findState mac w = some s ∧ s.IsBlocked = true) →
      (UnblockDevice lower mac w).1 = .error .store ∧
      (UnblockDevice lower mac w).2.calls = w.calls ++ [Call.unblock (lower mac)] ∧
      (UnblockDevice lower mac w).2.states = w.states ∧
      (UnblockDevice lower mac w).2.faults = rest) ∧
    (∀ rest, w.faults = false :: false :: false :: rest →
      (∃ s, findState mac w = some s ∧ s.IsBlocked = true) →
      (UnblockDevice lower mac w).1 = .ok () ∧
      (UnblockDevice lower mac w).2.calls = w.calls ++ [Call.unblock (lower mac)] ∧
      findState mac (UnblockDevice lower mac w).2 =
        some { MAC := mac, IsBlocked := false, BlockedReason := "" } ∧
      (UnblockDevice lower mac w).2.faults = rest) ∧
    ((CheckAndEnforce lower mac config now w).2.states ≠ w.states →
      ∃ c, (CheckAndEnforce lower mac config now w).2.calls = w.calls ++ [c]) ∧
    ((CheckAndEnforce lower mac config now w).1 = .error .controller →
      (CheckAndEnforce lower mac config now w).2.states = w.states ∧
      ∃ c, (CheckAndEnforce lower mac config now w).2.calls = w.calls ++ [c]) ∧
    (∀ e, (CheckAndEnforce lower mac config now w).1 = .error e →
      (CheckAndEnforce lower mac config now w).2.usages = w.usages ∨
      ∃ v, (CheckAndEnforce lower mac config now w).2.usages = w.usages ++ [v] ∧
        v.IsBlocked = false ∧ v.BlockedReason = "") ∧
    ((GetActiveTimeBlock lower config now).1 = none →
      (CheckAndEnforce lower mac config now w).2.usages = w.usages) ∧
    (∀ b i u w1, GetActiveTimeBlock lower config now = (some b, i) →
      GetOrCreateBlockUsage mac now.date i b.StartTime b.EndTime b.LimitMinutes b.LimitBytes w =
        (.ok u, w1) →
      (CheckAndEnforce lower mac config now w).2.usages ≠ w1.usages →
      (CheckAndEnforce lower mac config now w).1 = .ok () ∧
      ((∃ r, (CheckAndEnforce lower mac config now w).2.usages = flagRows u true r w1.usages ∧
          findState mac (CheckAndEnforce lower mac config now w).2 =
            some { MAC := mac, IsBlocked := true, BlockedReason := r }) ∨
        ((CheckAndEnforce lower mac config now w).2.usages = flagRows u false "" w1.usages ∧
          ∀ s, findState mac (CheckAndEnforce lower mac config now w).2 = some s →
            s.IsBlocked = false))) := by
  obtain ⟨c1, _, c3⟩ := CheckAndEnforce_order lower mac config now w
  refine ⟨BlockDevice_written lower mac reason w, BlockDevice_controller_error lower mac reason w,
    (BlockDevice_spec lower mac reason w).1, BlockDevice_command_fails lower mac reason w,
    BlockDevice_write_fails lower mac reason w, BlockDevice_write_succeeds lower mac reason w,
    UnblockDevice_written lower mac w, UnblockDevice_controller_error lower mac w,
    (UnblockDevice_spec lower mac w).1, UnblockDevice_command_fails lower mac w,
    UnblockDevice_write_fails lower mac w, UnblockDevice_write_succeeds lower mac w, c1,
    CheckAndEnforce_call_failed lower mac config now w, c3,
    CheckAndEnforce_outside_usages lower mac config now w, ?_⟩
  intro b i u w1 hact hget h
  rw [CheckAndEnforce_of_record lower mac config now w w1 b i u hact hget] at h ⊢
  exact enforceLimits_flag_written lower mac b u w1 h

/-- Claim C27 as amended, on the store in which the device is already blocked for
time_limit and the record of the window, at its limit, is not flagged: CheckAndEnforce sends no
command, returns without error and writes the flag into the record, the device state
being blocked for time_limit. -/
theorem C27_writes_follow_the_call_witness :
    GetActiveTimeBlock toLowerASCII (sampleConfig sampleBlock) sampleNow = (some sampleBlock, 0) ∧
    (CheckAndEnforce toLowerASCII "aa:bb:cc:dd:ee:ff" (sampleConfig sampleBlock) sampleNow
      alreadyBlockedWorld).2.calls = [] ∧
    (CheckAndEnforce toLowerASCII "aa:bb:cc:dd:ee:ff" (sampleConfig sampleBlock) sampleNow
      alreadyBlockedWorld).2.usages =
      [{ overLimitUsage with IsBlocked := true, BlockedReason := "time_limit" }] ∧
    (CheckAndEnforce toLowerASCII "aa:bb:cc:dd:ee:ff" (sampleConfig sampleBlock) sampleNow
      alreadyBlockedWorld).1 = .ok () ∧
    ((∃ r, (CheckAndEnforce toLowerASCII "aa:bb:cc:dd:ee:ff" (sampleConfig sampleBlock) sampleNow
          alreadyBlockedWorld).2.usages =
          flagRows overLimitUsage true r alreadyBlockedWorld.usages ∧
        findState "aa:bb:cc:dd:ee:ff"
          (CheckAndEnforce toLowerASCII "aa:bb:cc:dd:ee:ff" (sampleConfig sampleBlock) sampleNow
            alreadyBlockedWorld).2 =
          some { MAC := "aa:bb:cc:dd:ee:ff", IsBlocked := true, BlockedReason := r }) ∨
      ((CheckAndEnforce toLowerASCII "aa:bb:cc:dd:ee:ff" (sampleConfig sampleBlock) sampleNow
          alreadyBlockedWorld).2.usages =
          flagRows overLimitUsage false "" alreadyBlockedWorld.usages ∧
        ∀ s, findState "aa:bb:cc:dd:ee:ff"
          (CheckAndEnforce toLowerASCII "aa:bb:cc:dd:ee:ff" (sampleConfig sampleBlock) sampleNow
            alreadyBlockedWorld).2 = some s → s.IsBlocked = false)) :=
  ⟨by decide, rfl, rfl,
    ((C27_writes_follow_the_call toLowerASCII "aa:bb:cc:dd:ee:ff" "time_limit"
      (sampleConfig sampleBlock) sampleNow alreadyBlockedWorld).2.2.2.2.2.2.2.2.2.2.2.2.2.2.2.2
      sampleBlock 0 overLimitUsage alreadyBlockedWorld (by decide) rfl (by decide)).1,
    ((C27_writes_follow_the_call toLowerASCII "aa:bb:cc:dd:ee:ff" "time_limit"
      (sampleConfig sampleBlock) sampleNow alreadyBlockedWorld).2.2.2.2.2.2.2.2.2.2.2.2.2.2.2.2
      sampleBlock 0 overLimitUsage alreadyBlockedWorld (by decide) rfl (by decide)).2⟩

/-! ## Properties of polling: a failure stays with its device, in both loops -/

theorem faultLocal_andThen {α β : Type} (f : World → Result α) (g : α → World → Result β)
    (hf : faultLocal f) (hg : ∀ x, faultLocal (g x)) : faultLocal (andThen f g) := by
  intro w
  obtain ⟨p, hp, hpc⟩ := hf w
  unfold andThen
  rcases hfw : f w with ⟨r, w1⟩
  rw [hfw] at hp hpc
  simp only at hp hpc
  cases r with
  | error e =>
    simp only
    refine ⟨p, hp, fun hall => ?_⟩
    obtain ⟨h1, h2⟩ := hpc hall
    rcases hfc : f w.calm with ⟨rc, wc⟩
    rw [hfc] at h1 h2
    simp only at h1 h2
    subst h1 h2
    exact ⟨rfl, rfl⟩
  | ok x =>
    simp only
    obtain ⟨q, hq, hqc⟩ := hg x w1
    refine ⟨p ++ q, by rw [List.append_assoc, ← hq, ← hp], fun hall => ?_⟩
    obtain ⟨h1, h2⟩ := hpc (fun y hy => hall y (List.mem_append_left q hy))
    obtain ⟨h3, h4⟩ := hqc (fun y hy => hall y (List.mem_append_right p hy))
    rcases hfc : f w.calm with ⟨rc, wc⟩
    rw [hfc] at h1 h2
    simp only at h1 h2
    subst h1 h2
    exact ⟨h3, h4⟩

theorem faultLocal_pure {α : Type} (x : α) : faultLocal (fun w => ((.ok x, w) : Result α)) :=
  fun _ => ⟨[], rfl, fun _ => ⟨rfl, rfl⟩⟩

theorem faultLocal_GetDeviceState (mac : String) : faultLocal (GetDeviceState mac) := by
  intro w
  rcases w with ⟨us, ss, n, cs, fs, cf⟩
  cases fs with
  | nil =>
    refine ⟨[], ?_, fun _ => ⟨rfl, ?_⟩⟩
    · simp only [GetDeviceState, World.next]
      split <;> rfl
    · simp only [GetDeviceState, World.next, World.calm]
      split <;> rfl
  | cons f fs =>
    cases f with
    | true => exact ⟨[true], rfl, fun h => absurd (h true (List.mem_singleton.mpr rfl)) (by decide)⟩
    | false =>
      refine ⟨[false], ?_, fun _ => ⟨?_, ?_⟩⟩
      · simp only [GetDeviceState, World.next]
        split <;> rfl
      · simp only [GetDeviceState, World.next, World.calm]
        split <;> rfl
      · simp only [GetDeviceState, World.next, World.calm]
        split <;> rfl

theorem faultLocal_SaveDeviceState (st : DeviceState) : faultLocal (SaveDeviceState st) := by
  intro w
  rcases w with ⟨us, ss, n, cs, fs, cf⟩
  cases fs with
  | nil =>
    refine ⟨[], ?_, fun _ => ⟨rfl, ?_⟩⟩
    · simp only [SaveDeviceState, World.next]
      split <;> rfl
    · simp only [SaveDeviceState, World.next, World.calm]
      split <;> rfl
  | cons f fs =>
    cases f with
    | true => exact ⟨[true], rfl, fun h => absurd (h true (List.mem_singleton.mpr rfl)) (by decide)⟩
    | false =>
      refine ⟨[false], ?_, fun _ => ⟨?_, ?_⟩⟩
      · simp only [SaveDeviceState, World.next]
        split <;> rfl
      · simp only [SaveDeviceState, World.next, World.calm]
        split <;> rfl
      · simp only [SaveDeviceState, World.next, World.calm]
        split <;> rfl

theorem faultLocal_UpdateBlockUsage (v : BlockUsage) : faultLocal (UpdateBlockUsage v) := by
  intro w
  rcases w with ⟨us, ss, n, cs, fs, cf⟩
  cases fs with
  | nil => exact ⟨[], rfl, fun _ => ⟨rfl, rfl⟩⟩
  | cons f fs =>
    cases f with
    | true => exact ⟨[true], rfl, fun h => absurd (h true (List.mem_singleton.mpr rfl)) (by decide)⟩
    | false => exact ⟨[false], rfl, fun _ => ⟨rfl, rfl⟩⟩

theorem faultLocal_BlockClient (lower : String → String) (mac : String) :
    faultLocal (BlockClient lower mac) := by
  intro w
  rcases w with ⟨us, ss, n, cs, fs, cf⟩
  cases fs with
  | nil => exact ⟨[], rfl, fun _ => ⟨rfl, rfl⟩⟩
  | cons f fs =>
    cases f with
    | true => exact ⟨[true], rfl, fun h => absurd (h true (List.mem_singleton.mpr rfl)) (by decide)⟩
    | false => exact ⟨[false], rfl, fun _ => ⟨rfl, rfl⟩⟩

theorem faultLocal_UnblockClient (lower : String → String) (mac : String) :
    faultLocal (UnblockClient lower mac) := by
  intro w
  rcases w with ⟨us, ss, n, cs, fs, cf⟩
  cases fs with
  | nil => exact ⟨[], rfl, fun _ => ⟨rfl, rfl⟩⟩
  | cons f fs =>
    cases f with
    | true => exact ⟨[true], rfl, fun h => absurd (h true (List.mem_singleton.mpr rfl)) (by decide)⟩
    | false => exact ⟨[false], rfl, fun _ => ⟨rfl, rfl⟩⟩

theorem faultLocal_GetOrCreateBlockUsage (mac date : String) (idx : Int) (st en : String)
    (lm lb : Option Int) : faultLocal (GetOrCreateBlockUsage mac date idx st en lm lb) := by
  intro w
  rcases w with ⟨us, ss, n, cs, fs, cf⟩
  cases hfind : us.find? (usageKey mac date idx) with
  | some u0 =>
    cases fs with
    | nil =>
      refine ⟨[], ?_, fun _ => ⟨rfl, ?_⟩⟩
      · simp only [GetOrCreateBlockUsage, World.next, hfind]
        rfl
      · simp only [GetOrCreateBlockUsage, World.next, World.calm, hfind]
    | cons f fs =>
      cases f with
      | true =>
        exact ⟨[true], rfl, fun h => absurd (h true (List.mem_singleton.mpr rfl)) (by decide)⟩
      | false =>
        refine ⟨[false], ?_, fun _ => ⟨?_, ?_⟩⟩
        · simp only [GetOrCreateBlockUsage, World.next, hfind]
          rfl
        · simp only [GetOrCreateBlockUsage, World.next, World.calm, hfind]
        · simp only [GetOrCreateBlockUsage, World.next, World.calm, hfind]
  | none =>
    cases fs with
    | nil =>
      refine ⟨[], ?_, fun _ => ⟨rfl, ?_⟩⟩
      · simp only [GetOrCreateBlockUsage, World.next, hfind]
        rfl
      · simp only [GetOrCreateBlockUsage, World.next, World.calm, hfind]
    | cons f fs =>
      cases f with
      | true =>
        exact ⟨[true], rfl, fun h => absurd (h true (List.mem_singleton.mpr rfl)) (by decide)⟩
      | false =>
        cases fs with
        | nil =>
          refine ⟨[false], ?_, fun _ => ⟨?_, ?_⟩⟩
          · simp only [GetOrCreateBlockUsage, World.next, hfind]
            rfl
          · simp only [GetOrCreateBlockUsage, World.next, World.calm, hfind]
          · simp only [GetOrCreateBlockUsage, World.next, World.calm, hfind]
        | cons g fs =>
          cases g with
          | true =>
            refine ⟨[false, true], ?_, fun h => absurd (h true (by simp)) (by decide)⟩
            simp only [GetOrCreateBlockUsage, World.next, hfind]
            rfl
          | false =>
            refine ⟨[false, false], ?_, fun _ => ⟨?_, ?_⟩⟩
            · simp only [GetOrCreateBlockUsage, World.next, hfind]
              rfl
            · simp only [GetOrCreateBlockUsage, World.next, World.calm, hfind]
            · simp only [GetOrCreateBlockUsage, World.next, World.calm, hfind]

theorem ProcessClientStats_andThen (a : Accumulator) (mac : String) (client : ClientInfo)
    (now : Time) (block : TimeBlock) (idx : Int) :
    ProcessClientStats a mac client now block idx =
      andThen (GetOrCreateBlockUsage mac now.date idx block.StartTime block.EndTime
        block.LimitMinutes block.LimitBytes)
        (fun usage => UpdateBlockUsage (accumulate a usage client)) := by
  funext w
  unfold ProcessClientStats andThen
  rcases GetOrCreateBlockUsage mac now.date idx block.StartTime block.EndTime
    block.LimitMinutes block.LimitBytes w with ⟨r, w1⟩
  cases r <;> rfl

theorem faultLocal_ProcessClientStats (a : Accumulator) (mac : String) (client : ClientInfo)
    (now : Time) (block : TimeBlock) (idx : Int) :
    faultLocal (ProcessClientStats a mac client now block idx) := by
  rw [ProcessClientStats_andThen]
  exact faultLocal_andThen _ _
    (faultLocal_GetOrCreateBlockUsage mac now.date idx block.StartTime block.EndTime
      block.LimitMinutes block.LimitBytes)
    (fun usage => faultLocal_UpdateBlockUsage _)

theorem faultLocal_ite {α : Type} (c : Prop) [Decidable c] (f g : World → Result α)
    (hf : faultLocal f) (hg : faultLocal g) : faultLocal (fun w => if c then f w else g w) := by
  by_cases h : c
  · simp only [h, if_true]
    exact hf
  · simp only [h, if_false]
    exact hg

theorem BlockDevice_andThen (lower : String → String) (mac reason : String) :
    BlockDevice lower mac reason =
      andThen (GetDeviceState mac) (fun state w =>
        if state.IsBlocked && decide (state.BlockedReason = reason) then (.ok (), w)
        else andThen (BlockClient lower mac)
          (fun _ => SaveDeviceState { state with IsBlocked := true, BlockedReason := reason }) w) := by
  funext w
  unfold BlockDevice andThen
  rcases GetDeviceState mac w with ⟨r, w1⟩
  cases r with
  | error e => rfl
  | ok state =>
    simp only
    split_ifs
    · rfl
    · rcases BlockClient lower mac w1 with ⟨r2, w2⟩
      cases r2 <;> rfl

theorem faultLocal_BlockDevice (lower : String → String) (mac reason : String) :
    faultLocal (BlockDevice lower mac reason) := by
  rw [BlockDevice_andThen]
  exact faultLocal_andThen _ _ (faultLocal_GetDeviceState mac)
    (fun state => faultLocal_ite _ _ _ (faultLocal_pure ())
      (faultLocal_andThen _ _ (faultLocal_BlockClient lower mac)
        (fun _ => faultLocal_SaveDeviceState _)))

theorem UnblockDevice_andThen (lower : String → String) (mac : String) :
    UnblockDevice lower mac =
      andThen (GetDeviceState mac) (fun state w =>
        if !state.IsBlocked then (.ok (), w)
        else andThen (UnblockClient lower mac)
          (fun _ => SaveDeviceState { state with IsBlocked := false, BlockedReason := "" }) w) := by
  funext w
  unfold UnblockDevice andThen
  rcases GetDeviceState mac w with ⟨r, w1⟩
  cases r with
  | error e => rfl
  | ok state =>
    simp only
    split_ifs
    · rfl
    · rcases UnblockClient lower mac w1 with ⟨r2, w2⟩
      cases r2 <;> rfl

theorem faultLocal_UnblockDevice (lower : String → String) (mac : String) :
    faultLocal (UnblockDevice lower mac) := by
  rw [UnblockDevice_andThen]
  exact faultLocal_andThen _ _ (faultLocal_GetDeviceState mac)
    (fun state => faultLocal_ite _ _ _ (faultLocal_pure ())
      (faultLocal_andThen _ _ (faultLocal_UnblockClient lower mac)
        (fun _ => faultLocal_SaveDeviceState _)))

theorem faultLocal_congr {α : Type} (f g : World → Result α) (h : ∀ w, f w = g w)
    (hg : faultLocal g) : faultLocal f := by
  have : f = g := funext h
  rw [this]
  exact hg

theorem faultLocal_enforceLimits (lower : String → String) (mac : String) (b : TimeBlock)
    (u : BlockUsage) : faultLocal (enforceLimits lower mac b u) := by
  rcases enforceLimits_cases lower mac b u emptyWorld with
    ⟨reason, hv, hflag, _⟩ | ⟨reason, hv, hflag, _⟩ | ⟨hv, hflag, _⟩ | ⟨hv, hflag, _⟩
  · refine faultLocal_congr _ (andThen (BlockDevice lower mac reason)
      (fun _ => UpdateBlockUsage { u with IsBlocked := true, BlockedReason := reason }))
      (fun w => ?_) (faultLocal_andThen _ _ (faultLocal_BlockDevice lower mac reason)
        (fun _ => faultLocal_UpdateBlockUsage _))
    unfold andThen
    rcases hbd : BlockDevice lower mac reason w with ⟨r, w2⟩
    cases r with
    | error e => exact enforceLimits_block_error lower mac b u w w2 reason e hv hflag hbd
    | ok x => exact enforceLimits_block_ok lower mac b u w w2 reason hv hflag hbd
  · exact faultLocal_congr _ _ (fun w => enforceLimits_flagged lower mac b u w reason hv hflag)
      (faultLocal_pure ())
  · refine faultLocal_congr _ (andThen (UnblockDevice lower mac)
      (fun _ => UpdateBlockUsage { u with IsBlocked := false, BlockedReason := "" }))
      (fun w => ?_) (faultLocal_andThen _ _ (faultLocal_UnblockDevice lower mac)
        (fun _ => faultLocal_UpdateBlockUsage _))
    unfold andThen
    rcases hbd : UnblockDevice lower mac w with ⟨r, w2⟩
    cases r with
    | error e => exact enforceLimits_unblock_error lower mac b u w w2 e hv hflag hbd
    | ok x => exact enforceLimits_unblock_ok lower mac b u w w2 hv hflag hbd
  · exact faultLocal_congr _ _ (fun w => enforceLimits_idle lower mac b u w hv hflag)
      (faultLocal_pure ())

theorem faultLocal_CheckAndEnforce (lower : String → String) (mac : String)
    (config : DeviceConfig) (now : Time) : faultLocal (CheckAndEnforce lower mac config now) := by
  rcases hact : GetActiveTimeBlock lower config now with ⟨ob, i⟩
  cases ob with
  | none =>
    cases hbo : config.BlockOutside with
    | true =>
      refine faultLocal_congr _ _ (fun w => ?_) (faultLocal_BlockDevice lower mac "outside_hours")
      unfold CheckAndEnforce
      rw [hact]
      simp [hbo]
    | false =>
      refine faultLocal_congr _ _ (fun w => ?_) (faultLocal_pure ())
      unfold CheckAndEnforce
      rw [hact]
      simp [hbo]
  | some b =>
    refine faultLocal_congr _ (andThen (GetOrCreateBlockUsage mac now.date i b.StartTime b.EndTime
        b.LimitMinutes b.LimitBytes) (fun usage => enforceLimits lower mac b usage))
      (fun w => ?_) (faultLocal_andThen _ _
        (faultLocal_GetOrCreateBlockUsage mac now.date i b.StartTime b.EndTime
          b.LimitMinutes b.LimitBytes)
        (fun usage => faultLocal_enforceLimits lower mac b usage))
    unfold CheckAndEnforce andThen
    rw [hact]
    simp only
    rcases GetOrCreateBlockUsage mac now.date i b.StartTime b.EndTime
      b.LimitMinutes b.LimitBytes w with ⟨r, w1⟩
    cases r <;> rfl

theorem calm_of_step (S : World → World) (f : World → Result Unit) (hf : faultLocal f)
    (hS : ∀ w, S w = (f w).2) (w : World) (h : meetsNoFailure S w) :
    (S w).calm = S w.calm := by
  obtain ⟨n, hn⟩ := h
  obtain ⟨p, hp, hpc⟩ := hf w
  rw [hS w] at hn ⊢
  rw [hS w.calm]
  have hpn : p = List.replicate n false := List.append_cancel_right (hp.symm.trans hn)
  exact (hpc (fun x hx => by rw [hpn] at hx; exact List.eq_of_mem_replicate hx)).2

theorem pollClient_faultLocal (lower : String → String) (a : Accumulator)
    (managed : List (String × DeviceConfig)) (now : Time) (client : ClientInfo) :
    ∃ f : World → Result Unit, faultLocal f ∧
      ∀ w, pollClient lower a managed now client w = (f w).2 := by
  cases hm : mapLookup (lower client.MAC) managed with
  | none =>
    refine ⟨_, faultLocal_pure (), fun w => ?_⟩
    unfold pollClient
    simp only [hm]
  | some config =>
    rcases hact : GetActiveTimeBlock lower config now with ⟨ob, i⟩
    cases ob with
    | none =>
      cases hbo : config.BlockOutside with
      | false =>
        refine ⟨_, faultLocal_pure (), fun w => ?_⟩
        unfold pollClient
        simp [hm, hact, hbo]
      | true =>
        refine ⟨_, faultLocal_BlockDevice lower (lower client.MAC) "outside_hours", fun w => ?_⟩
        unfold pollClient
        simp [hm, hact, hbo]
    | some b =>
      refine ⟨_, faultLocal_andThen _ (fun _ => CheckAndEnforce lower (lower client.MAC) config now)
        (faultLocal_ProcessClientStats a (lower client.MAC) client now b i)
        (fun _ => faultLocal_CheckAndEnforce lower (lower client.MAC) config now), fun w => ?_⟩
      unfold pollClient andThen
      simp only [hm, hact]
      rcases ProcessClientStats a (lower client.MAC) client now b i w with ⟨r, w1⟩
      cases r <;> rfl

theorem sweepDevice_faultLocal (lower : String → String) (now : Time)
    (entry : String × DeviceConfig) :
    ∃ f : World → Result Unit, faultLocal f ∧ ∀ w, sweepDevice lower now entry w = (f w).2 := by
  rcases hact : GetActiveTimeBlock lower entry.2 now with ⟨ob, i⟩
  cases ob with
  | none =>
    cases hbo : entry.2.BlockOutside with
    | false =>
      refine ⟨_, faultLocal_pure (), fun w => ?_⟩
      unfold sweepDevice
      simp [hact, hbo]
    | true =>
      refine ⟨_, faultLocal_BlockDevice lower entry.1 "outside_hours", fun w => ?_⟩
      unfold sweepDevice
      simp [hact, hbo]
  | some b =>
    refine ⟨_, faultLocal_pure (), fun w => ?_⟩
    unfold sweepDevice
    simp [hact]

theorem pollClient_calm (lower : String → String) (a : Accumulator)
    (managed : List (String × DeviceConfig)) (now : Time) (client : ClientInfo) (w : World)
    (h : meetsNoFailure (pollClient lower a managed now client) w) :
    (pollClient lower a managed now client w).calm =
      pollClient lower a managed now client w.calm := by
  obtain ⟨f, hf, hS⟩ := pollClient_faultLocal lower a managed now client
  exact calm_of_step _ f hf hS w h

theorem sweepDevice_calm (lower : String → String) (now : Time)
    (entry : String × DeviceConfig) (w : World)
    (h : meetsNoFailure (sweepDevice lower now entry) w) :
    (sweepDevice lower now entry w).calm = sweepDevice lower now entry w.calm := by
  obtain ⟨f, hf, hS⟩ := sweepDevice_faultLocal lower now entry
  exact calm_of_step _ f hf hS w h

theorem localTo_calm (lower : String → String) (k : String) (w v : World)
    (h : localTo lower k w v) : localTo lower k w.calm v.calm := h

theorem elsewhere_refl (lower : String → String) (mac : String) (w : World)
    (hf : w.faults = []) (hu : uniqueIDs w) : elsewhere lower mac w w :=
  ⟨hf, hf, hu, hu, fun m _ => sameFor_refl m w, rfl⟩

theorem pollClients_quiet (lower : String → String) (a : Accumulator)
    (managed : List (String × DeviceConfig)) (now : Time) (mac : String)
    (clients : List ClientInfo) :
    ∀ w v, clientsQuietExcept lower a managed now mac clients w →
      elsewhere lower mac w.calm v →
      elsewhere lower mac (pollClients lower a managed now clients w).calm
        (pollClients lower a managed now clients v) := by
  induction clients with
  | nil => exact fun _ _ _ h => h
  | cons c rest ih =>
    intro w v hq h
    obtain ⟨hq1, hq2⟩ := hq
    refine ih _ _ hq2 ?_
    have hl1 := localTo_calm lower _ _ _ (pollClient_local lower a managed now c w h.2.2.1)
    have hl2 := pollClient_local lower a managed now c v h.2.2.2.1
    have hfv := (pollClient_same lower a managed now c v v h.2.1 h.2.1 h.2.2.2.1 h.2.2.2.1
      (sameFor_refl _ _)).1
    refine elsewhere_step lower mac (lower c.MAC) w.calm v _ _ h hl1 hl2 rfl hfv (fun hk => ?_)
    rw [pollClient_calm lower a managed now c w (hq1 hk)]
    exact pollClient_same lower a managed now c w.calm v h.1 h.2.1 h.2.2.1 h.2.2.2.1
      (h.2.2.2.2.1 _ hk)

theorem sweep_quiet (lower : String → String) (now : Time) (mac : String)
    (entries : List (String × DeviceConfig)) :
    ∀ w v, sweepQuietExcept lower now mac entries w →
      elsewhere lower mac w.calm v →
      elsewhere lower mac (sweep lower now entries w).calm (sweep lower now entries v) := by
  induction entries with
  | nil => exact fun _ _ _ h => h
  | cons e rest ih =>
    intro w v hq h
    obtain ⟨hq1, hq2⟩ := hq
    refine ih _ _ hq2 ?_
    have hl1 := localTo_calm lower _ _ _ (sweepDevice_local lower now e w h.2.2.1)
    have hl2 := sweepDevice_local lower now e v h.2.2.2.1
    have hfv := (sweepDevice_same lower now e v v h.2.1 h.2.1 (sameFor_refl _ _)).1
    refine elsewhere_step lower mac e.1 w.calm v _ _ h hl1 hl2 rfl hfv (fun hk => ?_)
    rw [sweepDevice_calm lower now e w (hq1 hk)]
    exact sweepDevice_same lower now e w.calm v h.1 h.2.1 (h.2.2.2.2.1 _ hk)

theorem next_calm (w : World) : w.next.2.calm = w.calm := by
  rcases w with ⟨us, ss, n, cs, fs, cf⟩
  cases fs <;> rfl

theorem GetAllDeviceConfigs_calm (w w1 : World) (configs : List DeviceConfig)
    (h : GetAllDeviceConfigs w = (.ok configs, w1)) :
    configs = w.configs ∧ w1.calm = w.calm := by
  unfold GetAllDeviceConfigs at h
  have hc := next_calm w
  have hk := next_configs w
  rcases hx : w.next with ⟨f, w0⟩
  rw [hx] at h hc hk
  cases f with
  | true => simp at h
  | false =>
    simp only [Prod.mk.injEq, Except.ok.injEq] at h
    rw [← h.2, ← h.1]
    exact ⟨hk, hc⟩

theorem GetClients_calm (clients reported : List ClientInfo) (w w1 : World)
    (h : GetClients clients w = (.ok reported, w1)) : w1.calm = w.calm := by
  unfold GetClients at h
  have hc := next_calm w
  rcases hx : w.next with ⟨f, w0⟩
  rw [hx] at h hc
  cases f with
  | true => simp at h
  | false =>
    simp only [Prod.mk.injEq] at h
    rw [← h.2]
    exact hc

theorem poll_calm (lower : String → String) (a : Accumulator)
    (shuffle : List (String × DeviceConfig) → List (String × DeviceConfig))
    (clients : List ClientInfo) (now : Time) (w : World) :
    poll lower a shuffle clients now w.calm =
      if w.configs.length = 0 then w.calm
      else sweep lower now (shuffle (managedMACs lower w.configs))
        (pollClients lower a (managedMACs lower w.configs) now clients w.calm) := rfl

theorem sweep_append (lower : String → String) (now : Time)
    (pre post : List (String × DeviceConfig)) :
    ∀ w, sweep lower now (pre ++ post) w = sweep lower now post (sweep lower now pre w) := by
  induction pre with
  | nil => exact fun _ => rfl
  | cons e rest ih => exact fun w => ih _

theorem sweepDevice_blocks (lower : String → String) (now : Time)
    (entry : String × DeviceConfig) (w : World)
    (hout : (GetActiveTimeBlock lower entry.2 now).1 = none)
    (hbo : entry.2.BlockOutside = true)
    (h : meetsNoFailure (sweepDevice lower now entry) w) :
    findState entry.1 (sweepDevice lower now entry w) =
      some { MAC := entry.1, IsBlocked := true, BlockedReason := "outside_hours" } := by
  have hc := sweepDevice_calm lower now entry w h
  have hs : findState entry.1 (sweepDevice lower now entry w) =
      findState entry.1 (sweepDevice lower now entry w).calm := rfl
  rw [hs, hc]
  unfold sweepDevice
  rcases hact : GetActiveTimeBlock lower entry.2 now with ⟨ob, i⟩
  rw [hact] at hout
  simp only at hout
  subst hout
  simp only [hbo, if_true]
  exact BlockDevice_ok_state lower entry.1 _ w.calm
    (BlockDevice_no_faults lower entry.1 _ w.calm rfl).1

theorem poll_elsewhere (lower : String → String) (a : Accumulator)
    (shuffle : List (String × DeviceConfig) → List (String × DeviceConfig)) (now : Time)
    (clients : List ClientInfo) (mac : String) (configs : List DeviceConfig) (w w1 w2 : World)
    (hconfigs : GetAllDeviceConfigs w = (.ok configs, w1))
    (hclients : GetClients clients w1 = (.ok clients, w2))
    (hids : uniqueIDs w)
    (hfirst : clientsQuietExcept lower a (managedMACs lower configs) now mac clients w2)
    (hsweep : sweepQuietExcept lower now mac (shuffle (managedMACs lower configs))
      (pollClients lower a (managedMACs lower configs) now clients w2)) :
    elsewhere lower mac (poll lower a shuffle clients now w).calm
      (poll lower a shuffle clients now w.calm) := by
  obtain ⟨hcfg, hw1⟩ := GetAllDeviceConfigs_calm w w1 configs hconfigs
  have hw2 := (GetClients_calm clients clients w1 w2 hclients).trans hw1
  rw [poll_calm, ← hcfg]
  unfold poll
  rw [hconfigs]
  simp only
  by_cases hlen : configs.length = 0
  · rw [if_pos hlen, if_pos hlen, hw1]
    exact elsewhere_refl lower mac w.calm rfl hids
  · rw [if_neg hlen, if_neg hlen, hclients]
    simp only
    refine sweep_quiet lower now mac _ _ _ hsweep
      (pollClients_quiet lower a _ now mac clients _ _ hfirst ?_)
    rw [hw2]
    exact elsewhere_refl lower mac w.calm rfl hids

/-- Claim C20. A failure stays with its device, in the first loop and in the sweep. Take
a poll cycle whose two reads at the start succeed, on a store with distinct row IDs, and
an address `mac`. The steps for `mac`, in the first loop and in the sweep, may meet any
failure of the store or of the controller; the steps for every other device meet none
(the outcomes they use up are successes). Then the cycle ends for every other device as
the cycle in which nothing fails ends: the same usage records up to row IDs, the same
device states, and the same commands sent to the controller for other addresses. And the
sweep runs over all managed devices whatever failed before: every entry of the map of
managed devices that has block_outside set and no active window, and whose own step of
the sweep meets no failure, has its device blocked for outside_hours after the cycle.
`shuffle`, the order of Go's range over the map, visits every entry once. -/
theorem C20_failure_stays_with_device (lower : String → String) (a : Accumulator)
    (shuffle : List (String × DeviceConfig) → List (String × DeviceConfig))
    (hshuffle : ∀ l, (shuffle l).Perm l) (now : Time)
    (clients : List ClientInfo) (mac : String) (configs : List DeviceConfig) (w w1 w2 : World)
    (hconfigs : GetAllDeviceConfigs w = (.ok configs, w1))
    (hclients : GetClients clients w1 = (.ok clients, w2))
    (hids : uniqueIDs w)
    (hfirst : clientsQuietExcept lower a (managedMACs lower configs) now mac clients w2)
    (hsweep : sweepQuietExcept lower now mac (shuffle (managedMACs lower configs))
      (pollClients lower a (managedMACs lower configs) now clients w2)) :
    (∀ m d i, m ≠ mac →
      (findUsage m d i (poll lower a shuffle clients now w)).map withoutID =
        (findUsage m d i (poll lower a shuffle clients now w.calm)).map withoutID) ∧
    (∀ m, m ≠ mac →
      findState m (poll lower a shuffle clients now w) =
        findState m (poll lower a shuffle clients now w.calm)) ∧
    (poll lower a shuffle clients now w).calls.filter
        (fun c => decide (c.target ≠ lower mac)) =
      (poll lower a shuffle clients now w.calm).calls.filter
        (fun c => decide (c.target ≠ lower mac)) ∧
    (∀ pre post entry, shuffle (managedMACs lower configs) = pre ++ entry :: post →
      (GetActiveTimeBlock lower entry.2 now).1 = none → entry.2.BlockOutside = true →
      meetsNoFailure (sweepDevice lower now entry)
        (sweep lower now pre (pollClients lower a (managedMACs lower configs) now clients w2)) →
      findState entry.1 (poll lower a shuffle clients now w) =
        some { MAC := entry.1, IsBlocked := true, BlockedReason := "outside_hours" }) := by
  have hrel := poll_elsewhere lower a shuffle now clients mac configs w w1 w2 hconfigs hclients
    hids hfirst hsweep
  refine ⟨fun m d i hm => (hrel.2.2.2.2.1 m hm).1 d i, fun m hm => (hrel.2.2.2.2.1 m hm).2,
    hrel.2.2.2.2.2, ?_⟩
  intro pre post entry hsplit hout hbo hquiet
  have hnd : ((pre ++ entry :: post).map Prod.fst).Nodup := by
    rw [← hsplit]
    exact ((hshuffle _).map Prod.fst).nodup_iff.2 (managedMACs_entries lower configs).1
  have hpost : entry.1 ∉ post.map Prod.fst := by
    rw [List.map_append, List.map_cons] at hnd
    exact (List.nodup_cons.1 (List.nodup_append.1 hnd).2.1).1
  have hlen : configs.length ≠ 0 := by
    intro h
    rw [List.length_eq_zero] at h
    rw [h] at hsplit
    have := (hshuffle (managedMACs lower [])).length_eq
    rw [hsplit] at this
    simp [managedMACs] at this
  unfold poll
  rw [hconfigs]
  simp only [hlen, if_false]
  rw [hclients]
  simp only
  rw [hsplit, sweep_append]
  simp only [sweep]
  rw [sweep_keeps_state lower now entry.1 post hpost]
  exact sweepDevice_blocks lower now entry _ hout hbo hquiet

/-- Claim C20 on a cycle at 08:05 on a monday with three managed devices, the first and
the second connected. The first device is outside its windows: its block command fails
in the first loop, and the read of its state fails in the sweep, so that it ends the
cycle with no device state, where the cycle without failures leaves it blocked. The
steps for the other two devices meet no failure. The second device, inside its window,
is accumulated as in the cycle without failures, and the third, which is not connected
and comes after the first in the sweep, is blocked for outside_hours. -/
theorem C20_failure_stays_with_device_witness :
    GetAllDeviceConfigs failingDeviceWorld =
      (.ok [curfewConfig, secondConfig, thirdConfig],
        { failingDeviceWorld with faults := failingDeviceWorld.faults.drop 1 }) ∧
    GetClients [sampleClient, secondClient]
        { failingDeviceWorld with faults := failingDeviceWorld.faults.drop 1 } =
      (.ok [sampleClient, secondClient],
        { failingDeviceWorld with faults := failingDeviceWorld.faults.drop 2 }) ∧
    uniqueIDs failingDeviceWorld ∧
    clientsQuietExcept toLowerASCII { pollIntervalSecs := 30 }
      (managedMACs toLowerASCII [curfewConfig, secondConfig, thirdConfig]) sampleNow
      "aa:bb:cc:dd:ee:ff" [sampleClient, secondClient]
      { failingDeviceWorld with faults := failingDeviceWorld.faults.drop 2 } ∧
    sweepQuietExcept toLowerASCII sampleNow "aa:bb:cc:dd:ee:ff"
      (managedMACs toLowerASCII [curfewConfig, secondConfig, thirdConfig])
      (pollClients toLowerASCII { pollIntervalSecs := 30 }
        (managedMACs toLowerASCII [curfewConfig, secondConfig, thirdConfig]) sampleNow
        [sampleClient, secondClient]
        { failingDeviceWorld with faults := failingDeviceWorld.faults.drop 2 }) ∧
    findState "aa:bb:cc:dd:ee:ff"
      (poll toLowerASCII { pollIntervalSecs := 30 } id [sampleClient, secondClient] sampleNow
        failingDeviceWorld) = none ∧
    findState "aa:bb:cc:dd:ee:ff"
      (poll toLowerASCII { pollIntervalSecs := 30 } id [sampleClient, secondClient] sampleNow
        failingDeviceWorld.calm) =
      some { MAC := "aa:bb:cc:dd:ee:ff", IsBlocked := true, BlockedReason := "outside_hours" } ∧
    (poll toLowerASCII { pollIntervalSecs := 30 } id [sampleClient, secondClient] sampleNow
      failingDeviceWorld).calls =
      [Call.block "aa:bb:cc:dd:ee:ff", Call.block "22:33:44:55:66:77"] ∧
    (findUsage "11:22:33:44:55:66" "2024-01-01" 0
      (poll toLowerASCII { pollIntervalSecs := 30 } id [sampleClient, secondClient] sampleNow
        failingDeviceWorld)).map withoutID =
      (findUsage "11:22:33:44:55:66" "2024-01-01" 0
        (poll toLowerASCII { pollIntervalSecs := 30 } id [sampleClient, secondClient] sampleNow
          failingDeviceWorld.calm)).map withoutID ∧
    findState "22:33:44:55:66:77"
      (poll toLowerASCII { pollIntervalSecs := 30 } id [sampleClient, secondClient] sampleNow
        failingDeviceWorld) =
      some { MAC := "22:33:44:55:66:77", IsBlocked := true, BlockedReason := "outside_hours" } :=
  ⟨rfl, rfl, by decide,
    ⟨fun h => absurd rfl h, fun _ => ⟨4, rfl⟩, trivial⟩,
    ⟨fun h => absurd rfl h, fun _ => ⟨0, rfl⟩, fun _ => ⟨3, rfl⟩, trivial⟩,
    rfl, rfl, rfl,
    (C20_failure_stays_with_device toLowerASCII { pollIntervalSecs := 30 } id
      (fun l => List.Perm.refl l) sampleNow
      [sampleClient, secondClient] "aa:bb:cc:dd:ee:ff" [curfewConfig, secondConfig, thirdConfig]
      failingDeviceWorld
      { failingDeviceWorld with faults := failingDeviceWorld.faults.drop 1 }
      { failingDeviceWorld with faults := failingDeviceWorld.faults.drop 2 }
      rfl rfl (by decide)
      ⟨fun h => absurd rfl h, fun _ => ⟨4, rfl⟩, trivial⟩
      ⟨fun h => absurd rfl h, fun _ => ⟨0, rfl⟩, fun _ => ⟨3, rfl⟩, trivial⟩).1
      "11:22:33:44:55:66" "2024-01-01" 0 (by decide),
    (C20_failure_stays_with_device toLowerASCII { pollIntervalSecs := 30 } id
      (fun l => List.Perm.refl l) sampleNow
      [sampleClient, secondClient] "aa:bb:cc:dd:ee:ff" [curfewConfig, secondConfig, thirdConfig]
      failingDeviceWorld
      { failingDeviceWorld with faults := failingDeviceWorld.faults.drop 1 }
      { failingDeviceWorld with faults := failingDeviceWorld.faults.drop 2 }
      rfl rfl (by decide)
      ⟨fun h => absurd rfl h, fun _ => ⟨4, rfl⟩, trivial⟩
      ⟨fun h => absurd rfl h, fun _ => ⟨0, rfl⟩, fun _ => ⟨3, rfl⟩, trivial⟩).2.2.2
      [("aa:bb:cc:dd:ee:ff", curfewConfig), ("11:22:33:44:55:66", secondConfig)] []
      ("22:33:44:55:66:77", thirdConfig) rfl rfl rfl ⟨3, rfl⟩⟩

end Zeitpolizei
